import Mathlib

/-!
The package autowire: the build engine, the provider registry and the container.

A shallow embedding of `container.go`, `container_build.go`,
`container_resolve.go`, `context.go`, `errors.go`, `provider_set.go`,
`func_provider.go`, `struct_provider.go` and `value_provider.go`.

Conventions of the embedding

* `reflect.Type` is an opaque comparable handle: `Ty`.
* `reflect.Value` is `Val`; `Val.invalid` is the zero `reflect.Value{}`.
* Go maps whose contents are only looked up, stored and deleted by key
  (`objectMap`, `resolvingTypes`) are total functions from the key; maps
  that are also measured with `len`, iterated or tested against `nil`
  (`providerMap`, `overwrittenProviderMap`, `targetTypes`) are association
  lists with one entry per key.
* A Go function returning `(value, error)` returns a pair `Val × Option Err`.
* Pointer-shared state is passed explicitly: the build functions take the
  `Context` and return the `Context` they leave behind.
* The recursion of `Build` and `resolve` through the registry is driven by
  a fuel counter; `none` means the fuel ran out.
* `Context.calls` is instrumentation: a log with one record per execution
  of `p.sourceVal.Call(inArgs)` on arguments that are all valid; a call
  that panics on a zero argument leaves no record.
* A panic is the error `Err.panicked`.
-/

namespace Autowire

/-- The type descriptor `reflect.Type`. -/
abbrev Ty := Nat

/-- The values handled through `reflect.Value`. -/
inductive Val where
  /-- the zero `reflect.Value{}` -/
  | invalid : Val
  /-- a plain datum -/
  | lit (n : Nat) : Val
  /-- a service object, remembering the arguments it was created from -/
  | obj (name : Nat) (initArgs : List Val) : Val
  /-- a record and its fields -/
  | struct (fields : List Val) : Val
  /-- a pointer, `none` when nil -/
  | ptr (elem : Option Val) : Val

/-- The method `reflect.Value.IsValid`: false of the zero `reflect.Value` only
(the value `reflect.ValueOf` makes of a nil interface). -/
def Val.IsValid : Val → Bool
  | .invalid => false
  | _ => true

/-- The errors of `errors.go` as they are produced at each `fmt.Errorf`
site, the errors a factory may return, and the failure of a reflective
field access. -/
inductive Err where
  /-- the error `ErrTypeCast: unable to cast result as type T` -/
  | typeCast (t : Ty) : Err
  /-- the error `ErrNotFound: provider not found for type T` (`GetFor`) -/
  | providerNotFound (t : Ty) : Err
  /-- the error `ErrNotFound: object not found for type T` (`Get`) -/
  | objectNotFound (t : Ty) : Err
  /-- the error `ErrNotFound: provider not found for T` (`structProvider.Build`) -/
  | fieldNotFound (t : Ty) : Err
  /-- the error `ErrProviderInvalid` -/
  | providerInvalid : Err
  /-- the error `ErrProviderDuplicated: duplicated provider for type T` -/
  | providerDuplicated (t : Ty) : Err
  /-- the error `ErrCircularDependency: circular dependency detected at type T` -/
  | circularDependency (t : Ty) : Err
  /-- the error `reflect: indirection through nil pointer to embedded struct field` -/
  | nilIndirection : Err
  /-- a run-time panic (it unwinds through the deferred `delete` of
  `funcProvider.Build` the way an error return does) -/
  | panicked : Err
  /-- an error value made by user code -/
  | user (id : Nat) : Err
  deriving DecidableEq, Repr

/-- The sentinel errors of `errors.go`. -/
inductive Sentinel where
  | ErrTypeCast | ErrNotFound | ErrProviderInvalid | ErrProviderDuplicated
  | ErrCircularDependency
  deriving DecidableEq, Repr

/-- The test `errors.Is(e, s)`: the sentinel wrapped with `%w`. -/
def Err.Is : Err → Sentinel → Bool
  | .typeCast _, .ErrTypeCast => true
  | .providerNotFound _, .ErrNotFound => true
  | .objectNotFound _, .ErrNotFound => true
  | .fieldNotFound _, .ErrNotFound => true
  | .providerInvalid, .ErrProviderInvalid => true
  | .providerDuplicated _, .ErrProviderDuplicated => true
  | .circularDependency _, .ErrCircularDependency => true
  | _, _ => false

/-- The expression `v.Field(i)` of package reflect; `none` is its panic (not a
struct, or index out of range). -/
def Val.Field : Val → Nat → Option Val
  | .struct fields, i => fields.get? i
  | _, _ => none

/-- The loop of `reflect.Value.FieldByIndexErr` for an index path of length
other than one: from the second step on, a pointer (to a struct) is
dereferenced before the field is taken, and a nil pointer ends the walk with
an error. A `Val` does not carry the element type of a nil pointer: it is
taken to be a struct type, as it is on every path that `parse` records for
a record of the declared types. -/
def Val.walkFields : Val → List Nat → Bool → Val × Option Err
  | v, [], _ => (v, none)
  | v, x :: rest, first =>
    let step (w : Val) : Val × Option Err :=
      match w.Field x with
      | some f => Val.walkFields f rest false
      | none => (.invalid, some .panicked)
    match first, v with
    | false, .ptr none => (.invalid, some .nilIndirection)
    | false, .ptr (some w) => step w
    | _, w => step w

/-- The method `reflect.Value.FieldByIndexErr`: a path of length one is a
plain `Field`; otherwise the value must be a struct (`mustBe(Struct)`) and
the path is walked. -/
def Val.FieldByIndexErr (v : Val) (index : List Nat) : Val × Option Err :=
  match index with
  | [x] =>
    match v.Field x with
    | some f => (f, none)
    | none => (.invalid, some .panicked)
  | _ =>
    match v with
    | .struct _ => v.walkFields index true
    | _ => (.invalid, some .panicked)

/-- One execution of `p.sourceVal.Call(inArgs)` (instrumentation). -/
structure CallRecord where
  /-- the `targetType` the provider was building -/
  target : Ty
  /-- the provider's `DependentTypes()` -/
  deps : List Ty
  /-- the arguments passed -/
  inArgs : List Val
  /-- the first returned value, `result[0]` -/
  out : Val
  /-- the second returned value when there is one and it is not nil -/
  err : Option Err

/-- The three providers of the package. -/
inductive Provider where
  /-- the struct `funcProvider`: the parameter types, the first return type and the
  wrapped function value, given by what calling it on valid arguments
  returns (its second return value is `none` when the function has a single
  result or returns a nil error; a nil function value is `nilFunc`) -/
  | func (deps : List Ty) (out : Ty) (call : List Val → Val × Option Err) : Provider
  /-- the struct `structProvider`: `targetTypes` (the index path of every field type)
  and the record `sourceVal` as it currently is -/
  | struct (targetTypes : List (Ty × List Nat)) (sourceVal : Val) : Provider
  /-- the struct `valueProvider`: `targetType` and `sourceVal` -/
  | value (targetType : Ty) (sourceVal : Val) : Provider

/-- A nil function value: `reflect.Value.Call` panics on it, whatever the
arguments. -/
def nilFunc : List Val → Val × Option Err := fun _ => (.invalid, some .panicked)

/-- The method `newValueProvider[T](val, reflect.ValueOf(val))`; the value of
a nil interface is the zero `reflect.Value`, `Val.invalid`. -/
def newValueProvider (T : Ty) (val : Val) : Provider := .value T val

/-- The method `TargetTypes` of the three providers. -/
def Provider.TargetTypes : Provider → List Ty
  | .func _ out _ => [out]
  | .struct targetTypes _ => targetTypes.map Prod.fst
  | .value targetType _ => [targetType]

/-- The method `DependentTypes` of the three providers. -/
def Provider.DependentTypes : Provider → List Ty
  | .func deps _ _ => deps
  | .struct _ _ => []
  | .value _ _ => []

/-- A map store `m[k] = v` on an association list. -/
def mapStore {β : Type} (m : List (Ty × β)) (k : Ty) (v : β) : List (Ty × β) :=
  m.filter (fun e => e.1 != k) ++ [(k, v)]

/-- The struct `providerSet`; `overwrittenProviderMap = none` is the nil map. -/
structure ProviderSet where
  providerMap : List (Ty × Provider)
  overwrittenProviderMap : Option (List (Ty × Provider))

/-- The entries of the overwrite layer (none for a nil map). -/
def ProviderSet.overwritten (ps : ProviderSet) : List (Ty × Provider) :=
  ps.overwrittenProviderMap.getD []

/-- The method `providerSet.GetFor`. -/
def ProviderSet.GetFor (ps : ProviderSet) (targetType : Ty) : Except Err Provider :=
  match (if ps.overwritten.length > 0 then ps.overwritten.lookup targetType else none) with
  | some prov => .ok prov
  | none =>
    match ps.providerMap.lookup targetType with
    | some prov => .ok prov
    | none => .error (.providerNotFound targetType)

/-- The store of `providerSet.Overwrite` for a known key: the layer is
allocated when it is nil. -/
def ProviderSet.overwriteAt (ps : ProviderSet) (t : Ty) (provider : Provider) : ProviderSet :=
  { ps with overwrittenProviderMap := some (mapStore ps.overwritten t provider) }

/-- The method `providerSet.Overwrite`; `none` is the panic of
`provider.TargetTypes()[0]` on a provider without target types. -/
def ProviderSet.Overwrite (ps : ProviderSet) (provider : Provider) : Option ProviderSet :=
  match provider.TargetTypes with
  | [] => none
  | t :: _ => some (ps.overwriteAt t provider)

/-- The method `providerSet.shallowClone`: a new struct holding the same two
maps. -/
def ProviderSet.shallowClone (ps : ProviderSet) : ProviderSet :=
  { providerMap := ps.providerMap, overwrittenProviderMap := ps.overwrittenProviderMap }

/-- What the original set holds once a clone of it has been written to: a
non-nil overwrite layer is the same map object in both, a nil one was
allocated afresh in the clone. -/
def ProviderSet.afterClone (ps clone : ProviderSet) : ProviderSet :=
  match ps.overwrittenProviderMap with
  | none => ps
  | some _ => { ps with overwrittenProviderMap := clone.overwrittenProviderMap }

/-- The types with an entry in either layer. -/
def ProviderSet.keys (ps : ProviderSet) : List Ty :=
  ps.providerMap.map Prod.fst ++ ps.overwritten.map Prod.fst

/-- The struct `Context`, with the call log. -/
structure Context where
  sharedMode : Bool
  providerSet : ProviderSet
  objectMap : Ty → Option Val
  resolvingTypes : Ty → Bool
  calls : List CallRecord

/-- The options `NonSharedMode()` and `ProviderOverwrite[T](val)`. -/
inductive ContextOption where
  | NonSharedMode : ContextOption
  | ProviderOverwrite (T : Ty) (val : Val) : ContextOption

/-- Running an option on a context. The overwritten provider is a value
provider, whose `TargetTypes()` is never empty, so the panic branch of
`Overwrite` is not taken. -/
def ContextOption.apply : ContextOption → Context → Context
  | .NonSharedMode, ctx => { ctx with sharedMode := false }
  | .ProviderOverwrite T val, ctx =>
    match ctx.providerSet.Overwrite (newValueProvider T val) with
    | some ps => { ctx with providerSet := ps }
    | none => ctx

/-- The loop `for _, opt := range opts { opt(ctx) }`. -/
def applyOptions (opts : List ContextOption) (ctx : Context) : Context :=
  opts.foldl (fun c opt => opt.apply c) ctx

/-- The result of a provider's `Build`: the context left behind and the
returned pair. -/
abbrev Built := Context × Val × Option Err

/-- The method `structProvider.Build`. -/
def structProviderBuild (targetTypes : List (Ty × List Nat)) (sourceVal : Val)
    (targetType : Ty) : Val × Option Err :=
  match targetTypes.lookup targetType with
  | some index => sourceVal.FieldByIndexErr index
  | none => (.invalid, some (.fieldNotFound targetType))

/-- The argument loop of `funcProvider.Build`; `build` is the dispatch
`argProv.Build(ctx, dependentType)`. -/
def buildArgs (build : Provider → Context → Ty → Option Built) :
    Context → List Ty → List Val → Option (Context × Except Err (List Val))
  | ctx, [], inArgs => some (ctx, .ok inArgs)
  | ctx, dependentType :: rest, inArgs =>
    match ctx.providerSet.GetFor dependentType with
    | .error e => some (ctx, .error e)
    | .ok argProv =>
      match build argProv ctx dependentType with
      | none => none
      | some (ctx1, _, some e) => some (ctx1, .error e)
      | some (ctx1, argVal, none) => buildArgs build ctx1 rest (inArgs ++ [argVal])

/-- The statement `ctx.resolvingTypes[targetType] = struct{}{}`. -/
def Context.mark (ctx : Context) (targetType : Ty) : Context :=
  { ctx with resolvingTypes := Function.update ctx.resolvingTypes targetType true }

/-- The deferred statement `delete(ctx.resolvingTypes, targetType)`. -/
def Context.unmark (ctx : Context) (targetType : Ty) : Context :=
  { ctx with resolvingTypes := Function.update ctx.resolvingTypes targetType false }

/-- The end of `funcProvider.Build` once the function has returned `result`:
the instance is stored when there is no error and the mode is shared. The
execution is entered in the log. -/
def Context.finish (ctx : Context) (targetType : Ty) (deps : List Ty) (inArgs : List Val)
    (result : Val × Option Err) : Context :=
  { ctx with
    calls := ctx.calls ++ [⟨targetType, deps, inArgs, result.1, result.2⟩],
    objectMap :=
      if result.2.isNone && ctx.sharedMode then
        Function.update ctx.objectMap targetType (some result.1)
      else ctx.objectMap }

/-- The cache test that opens `funcProvider.Build`. -/
def Context.cached (ctx : Context) (targetType : Ty) : Option Val :=
  if ctx.sharedMode then ctx.objectMap targetType else none

/-- The method `Build` of the three providers. In `funcProvider.Build` the
call `p.sourceVal.Call(inArgs)` panics when one of the arguments is the zero
`reflect.Value`: the function is not entered, nothing is stored, and the
deferred `delete` runs while the panic unwinds. -/
def Provider.Build : Nat → Provider → Context → Ty → Option Built
  | _, .value _ sourceVal, ctx, _ => some (ctx, sourceVal, none)
  | _, .struct targetTypes sourceVal, ctx, targetType =>
    some (ctx, structProviderBuild targetTypes sourceVal targetType)
  | 0, .func _ _ _, _, _ => none
  | fuel + 1, .func deps _ call, ctx, targetType =>
    match ctx.cached targetType with
    | some hit => some (ctx, hit, none)
    | none =>
      if ctx.resolvingTypes targetType then
        some (ctx, .invalid, some (.circularDependency targetType))
      else
        match buildArgs (Provider.Build fuel) (ctx.mark targetType) deps [] with
        | none => none
        | some (ctx2, .error e) => some (ctx2.unmark targetType, .invalid, some e)
        | some (ctx2, .ok inArgs) =>
          if inArgs.all Val.IsValid then
            let result := call inArgs
            some ((ctx2.finish targetType deps inArgs result).unmark targetType,
              result.1, result.2)
          else
            some (ctx2.unmark targetType, .invalid, some .panicked)

/-- The struct `DependencyGraph`. -/
inductive DependencyGraph where
  | mk (TargetType : Ty) (Dependencies : List DependencyGraph) : DependencyGraph

/-- The child loop of `container.resolve`; `resolve` is the recursive call. -/
def resolveDeps (resolve : Context → Ty → Option (Context × Except Err DependencyGraph)) :
    Context → List Ty → List DependencyGraph →
      Option (Context × Except Err (List DependencyGraph))
  | ctx, [], acc => some (ctx, .ok acc)
  | ctx, dType :: rest, acc =>
    match resolve ctx dType with
    | none => none
    | some (ctx1, .error e) => some (ctx1, .error e)
    | some (ctx1, .ok dGraph) => resolveDeps resolve ctx1 rest (acc ++ [dGraph])

/-- The method `container.resolve`; `.error e` stands for the returned pair
`(DependencyGraph{}, e)`. -/
def resolve : Nat → Context → Ty → Option (Context × Except Err DependencyGraph)
  | 0, _, _ => none
  | fuel + 1, ctx, targetType =>
    if ctx.resolvingTypes targetType then
      some (ctx, .error (.circularDependency targetType))
    else
      match (ctx.mark targetType).providerSet.GetFor targetType with
      | .error e => some (ctx.mark targetType, .error e)
      | .ok provider =>
        match resolveDeps (resolve fuel) (ctx.mark targetType) provider.DependentTypes [] with
        | none => none
        | some (ctx2, .error e) => some (ctx2, .error e)
        | some (ctx2, .ok deps) => some (ctx2.unmark targetType, .ok (.mk targetType deps))

/-- The struct `container`. -/
structure Container where
  sharedMode : Bool
  providerSet : ProviderSet
  objectMap : Ty → Option Val

/-- What a call of `container.Build` leaves and returns: the container
afterwards, the returned pair, and the factory executions of the call. -/
structure BuildResult where
  container : Container
  value : Val
  err : Option Err
  calls : List CallRecord

/-- The method `container.Get`. -/
def Container.Get (c : Container) (targetType : Ty) : Val × Option Err :=
  match c.objectMap targetType with
  | some value => (value, none)
  | none => (.invalid, some (.objectNotFound targetType))

/-- The context that `container.Build` creates, before the options run. -/
def Container.newContext (c : Container) : Context :=
  { sharedMode := c.sharedMode
    providerSet := c.providerSet.shallowClone
    objectMap := c.objectMap
    resolvingTypes := fun _ => false
    calls := [] }

/-- The context of a `container.Build` call once its options have run. -/
def Container.buildContext (c : Container) (opts : List ContextOption) : Context :=
  applyOptions opts c.newContext

/-- The nesting bound used as fuel: one more than the number of registry
entries. -/
def ProviderSet.fuel (ps : ProviderSet) : Nat := ps.keys.length + 1

/-- The method `container.Build`. -/
def Container.Build (c : Container) (targetType : Ty) (opts : List ContextOption) :
    Option BuildResult :=
  match c.providerSet.GetFor targetType with
  | .error e => some ⟨c, .invalid, some e, []⟩
  | .ok provider =>
    let ctx := c.buildContext opts
    match provider.Build ctx.providerSet.fuel ctx targetType with
    | none => none
    | some (ctx1, value, err) =>
      some ⟨{ c with
              objectMap := ctx1.objectMap,
              providerSet := c.providerSet.afterClone ctx1.providerSet },
            value, err, ctx1.calls⟩

/-- The method `container.BuildWithCtx`; `ctxType` is the type descriptor of
`context.Context`. -/
def Container.BuildWithCtx (c : Container) (ctxType : Ty) (ctx : Val) (targetType : Ty)
    (opts : List ContextOption) : Option BuildResult :=
  c.Build targetType (opts ++ [.ProviderOverwrite ctxType ctx])

/-- The context `container.Resolve` creates. -/
def Container.resolveContext (c : Container) : Context :=
  { sharedMode := c.sharedMode
    providerSet := c.providerSet
    objectMap := c.objectMap
    resolvingTypes := fun _ => false
    calls := [] }

/-- The method `container.Resolve`. The walk works on a context of its own
and stores nothing in the container. -/
def Container.Resolve (c : Container) (targetType : Ty) :
    Option (Except Err DependencyGraph) :=
  (resolve c.resolveContext.providerSet.fuel c.resolveContext targetType).map Prod.snd

/-- The value of the last `ProviderOverwrite` for the type `t` among the
options, if there is one. -/
def lastOverwrite : List ContextOption → Ty → Option Val
  | [], _ => none
  | .NonSharedMode :: rest, t => lastOverwrite rest t
  | .ProviderOverwrite T val :: rest, t =>
    match lastOverwrite rest t with
    | some v => some v
    | none => if t = T then some val else none

/-- Whether `NonSharedMode()` is among the options. -/
def hasNonSharedMode : List ContextOption → Bool
  | [] => false
  | .NonSharedMode :: _ => true
  | .ProviderOverwrite _ _ :: rest => hasNonSharedMode rest

/-- The build of `a` in the context `ctx` runs on round a cycle that leads
to `T` through the types `mid`: `a` is supplied by a factory one of whose
parameters is the head of `mid` (`T` itself when `mid` is empty); the
parameters that come before that one are built without error, in order, in
the context in which `a` is marked; and in the context they leave the same
holds of the head of `mid` and the rest of `mid`. The builds of the earlier
parameters nest no deeper than `fuel`. -/
def BuildCycle (fuel : Nat) (T : Ty) : List Ty → Ty → Context → Prop
  | [], a, ctx => ∃ pre rest out call vs ctx2,
      ctx.providerSet.GetFor a = .ok (.func (pre ++ T :: rest) out call) ∧
      buildArgs (Provider.Build fuel) (ctx.mark a) pre [] = some (ctx2, .ok vs)
  | b :: mid, a, ctx => ∃ pre rest out call vs ctx2,
      ctx.providerSet.GetFor a = .ok (.func (pre ++ b :: rest) out call) ∧
      buildArgs (Provider.Build fuel) (ctx.mark a) pre [] = some (ctx2, .ok vs) ∧
      BuildCycle fuel T mid b ctx2

/-- The same for the walk of `container.resolve`: the provider of `a` has
the head of `mid` (`T` when `mid` is empty) among its dependent types, the
dependent types before it are walked without error with `a` marked, and the
cycle goes on from the context they leave. -/
def WalkCycle (fuel : Nat) (T : Ty) : List Ty → Ty → Context → Prop
  | [], a, ctx => ∃ p pre rest gs ctx2,
      ctx.providerSet.GetFor a = .ok p ∧ p.DependentTypes = pre ++ T :: rest ∧
      resolveDeps (resolve fuel) (ctx.mark a) pre [] = some (ctx2, .ok gs)
  | b :: mid, a, ctx => ∃ p pre rest gs ctx2,
      ctx.providerSet.GetFor a = .ok p ∧ p.DependentTypes = pre ++ b :: rest ∧
      resolveDeps (resolve fuel) (ctx.mark a) pre [] = some (ctx2, .ok gs) ∧
      WalkCycle fuel T mid b ctx2

/-- In the registry `ps`, every type of `S` is supplied by a factory one of
whose parameter types is in `S` again: the types of `S` depend on each
other in cycles. -/
def DependsWithin (ps : ProviderSet) (S : List Ty) : Prop :=
  ∀ s ∈ S, ∃ deps out call, ps.GetFor s = .ok (.func deps out call) ∧ ∃ d ∈ deps, d ∈ S

/-- A factory: the object named `name` made of the arguments. -/
def mkObj (name : Nat) : List Val → Val × Option Err := fun args => (.obj name args, none)

/-- A container made by `NewContainer` (shared mode, empty cache) of a
registry with the given base map. -/
def containerOf (providerMap : List (Ty × Provider)) : Container :=
  { sharedMode := true
    providerSet := { providerMap := providerMap, overwrittenProviderMap := none }
    objectMap := fun _ => none }

/-- Two factories taking each other's type: 1 needs 2 and 2 needs 1. -/
def mutualContainer : Container :=
  containerOf [(1, .func [2] 1 (mkObj 1)), (2, .func [1] 2 (mkObj 2))]

/-- A factory for type 1 taking a type without provider, 9, and then its
own type. -/
def selfAfterMissingContainer : Container :=
  containerOf [(1, .func [9, 1] 1 (mkObj 1))]

/-- A factory for type 1 taking type 2 and then its own type, and a factory
for type 2 without parameters. -/
def selfAfterBuiltContainer : Container :=
  containerOf [(1, .func [2, 1] 1 (mkObj 1)), (2, .func [] 2 (mkObj 2))]

/-- A factory for type 1 taking type 2 and then its own type, and a factory
for type 2 taking its own type. -/
def selfAfterCycleContainer : Container :=
  containerOf [(1, .func [2, 1] 1 (mkObj 1)), (2, .func [2] 2 (mkObj 2))]

/-- The registry of the test `Circular dependency`: 1 needs 2 and 3, 2
needs 4 and 5, 4 needs 1 (so 1 -> 2 -> 4 -> 1), 3 and 5 need nothing. -/
def testCycleContainer : Container :=
  containerOf [(1, .func [2, 3] 1 (mkObj 1)), (2, .func [4, 5] 2 (mkObj 2)),
    (5, .func [] 5 (mkObj 5)), (3, .func [] 3 (mkObj 3)), (4, .func [1] 4 (mkObj 4))]

/-- Every parameter position of the execution `r` has its argument, and
the argument for a parameter of type `d` satisfies `P d`. -/
def ArgsSatisfy (P : Ty → Val → Prop) (r : CallRecord) : Prop :=
  ∀ i d, r.deps.get? i = some d → ∃ v, r.inArgs.get? i = some v ∧ P d v

/-- The context `b` comes later than `a` in one call: same mode and
registry, every cache entry of `a` still there, the log of `a` a prefix of
the log of `b`. -/
def Later (a b : Context) : Prop :=
  b.sharedMode = a.sharedMode ∧ b.providerSet = a.providerSet ∧
  (∀ u x, a.objectMap u = some x → b.objectMap u = some x) ∧
  ∃ more, b.calls = a.calls ++ more

/-- A factory for type 2 without parameters and a factory for type 1 taking
type 2. -/
def pairContainer : Container :=
  containerOf [(1, .func [2] 1 (mkObj 1)), (2, .func [] 2 (mkObj 2))]

/-- The container `pairContainer` with the instance of type 2 cached. -/
def cachedPairContainer : Container :=
  { pairContainer with objectMap := fun t => if t = 2 then some (.obj 2 []) else none }

/-- The error discipline of a build that left the context `b`, logged the
executions `new` and returned the error value `e`: an execution whose
factory returned an error is the last one, none before it returned an
error, its error is the one returned, and its target type is not served
from the cache afterwards. -/
def ErrorsLast (b : Context) (new : List CallRecord) (e : Option Err) : Prop :=
  ∀ y ∈ new, y.err = none ∨
    (e = y.err ∧ b.cached y.target = none ∧
      ∃ init, new = init ++ [y] ∧ ∀ z ∈ init, z.err = none)

/-- The error value of the result of an argument loop. -/
def loopErr : Except Err (List Val) → Option Err
  | .error e => some e
  | .ok _ => none

/-- The container `pairContainer` with some other value cached for type 2. -/
def staleCacheContainer : Container :=
  { pairContainer with objectMap := fun t => if t = 2 then some (.lit 99) else none }

/-- A factory for type 1 taking type 2, whose factory returns the error
`user 1` (the `errTest1` of the tests) as its second value. -/
def failingDepContainer : Container :=
  containerOf [(1, .func [2] 1 (mkObj 1)), (2, .func [] 2 (fun _ => (.invalid, some (.user 1))))]

/-- A factory for type 1 taking type 2 and then type 9, which has no
provider, and a factory for type 2. -/
def partialFailContainer : Container :=
  containerOf [(1, .func [2, 9] 1 (mkObj 1)), (2, .func [] 2 (mkObj 2))]

/-- The dependent types `ds` are built one after the other, each by the
provider the context's registry holds for it, each successfully, the context
left by one build being the one the next starts from; `vs` are the values
obtained, in order, and the last argument is the context left at the end. -/
inductive BuiltInOrder (build : Provider → Context → Ty → Option Built) :
    Context → List Ty → List Val → Context → Prop where
  | nil (ctx : Context) : BuiltInOrder build ctx [] [] ctx
  | cons {ctx ctx1 ctx2 : Context} {d : Ty} {rest : List Ty} {p : Provider} {v : Val}
      {vs : List Val} (hp : ctx.providerSet.GetFor d = .ok p)
      (hb : build p ctx d = some (ctx1, v, none))
      (hrest : BuiltInOrder build ctx1 rest vs ctx2) :
      BuiltInOrder build ctx (d :: rest) (v :: vs) ctx2

/-- A record made of fields of the types 3 and 4 (the literals of the
example of the specification). -/
def exampleRecord : Provider := .struct [(3, [0]), (4, [1])] (.struct [.lit 30, .lit 40])

/-- The registry of the example: a factory for type 1 taking the types 2
and 3, a factory for type 2 taking the type 4, and the record. -/
def exampleSet : ProviderSet :=
  { providerMap :=
      [(1, .func [2, 3] 1 (fun args => (.obj 1 args, none))),
       (2, .func [4] 2 (fun args => (.obj 2 args, none))),
       (3, exampleRecord), (4, exampleRecord)],
    overwrittenProviderMap := none }

/-- The container `NewContainer` makes of the example registry. -/
def exampleContainer : Container :=
  { sharedMode := true, providerSet := exampleSet, objectMap := fun _ => none }

/-- The relation between the context a build (or an argument loop) starts
from and the one it leaves: mode, registry and in-progress set are the
same, the log has grown by `new`, every execution in `new` was for a type
neither in progress nor served from the cache at the start, and the cache
has only gained entries, each the result of a successful execution of
`new`. -/
def Grows (a b : Context) (new : List CallRecord) : Prop :=
  b.sharedMode = a.sharedMode ∧ b.providerSet = a.providerSet ∧
  b.resolvingTypes = a.resolvingTypes ∧ b.calls = a.calls ++ new ∧
  (∀ r ∈ new, a.resolvingTypes r.target = false ∧ a.cached r.target = none) ∧
  (∀ u, b.objectMap u = a.objectMap u ∨
    (a.sharedMode = true ∧ a.objectMap u = none ∧
      ∃ r ∈ new, r.target = u ∧ r.err = none ∧ b.objectMap u = some r.out)) ∧
  (∀ r ∈ new, r.err = none → a.sharedMode = true → b.objectMap r.target = some r.out)

/-- The number of registry entries whose type is not in progress. -/
def Context.pending (ctx : Context) : Nat :=
  (ctx.providerSet.keys.filter (fun k => !ctx.resolvingTypes k)).length

/-- What `resolve` leaves of the context: registry, mode, cache and log
always, and the in-progress set when it succeeds. -/
def Walked (a : Context) (b : Context) (ok : Bool) : Prop :=
  b.sharedMode = a.sharedMode ∧ b.providerSet = a.providerSet ∧ b.objectMap = a.objectMap ∧
  b.calls = a.calls ∧ (ok = true → b.resolvingTypes = a.resolvingTypes)

/-- The method `providerSet.GetAll`. The order in which Go ranges over a map
is not specified; here the entries come in the order of the association
lists: the base entries not shadowed by an overwrite, then the overwrites. -/
def ProviderSet.GetAll (ps : ProviderSet) : List Provider :=
  let numOverwritten := ps.overwritten.length
  (ps.providerMap.filter fun e =>
      !(decide (numOverwritten > 0) && (ps.overwritten.lookup e.1).isSome)).map Prod.snd
    ++ ps.overwritten.map Prod.snd

/-- The container `pairContainer` after `ProviderSet().Overwrite` has been
called on it with a literal for type 5: its registry has an overwrite
layer of its own. -/
def overlaidPairContainer : Container :=
  { pairContainer with
    providerSet := pairContainer.providerSet.overwriteAt 5 (.value 5 (.lit 0)) }

/-- The literal a provider holds, if it is a literal provider. -/
def Provider.literal : Provider → Option Val
  | .value _ v => some v
  | _ => none

/-! ## The types of the program and the parsing of provider sources -/

/-- A field of a struct type, as `reflect.StructField` shows it to the
code. -/
structure StructField where
  /-- the result of `sf.IsExported()` -/
  exported : Bool
  /-- the field `sf.Type` -/
  type : Ty
  deriving DecidableEq, Repr

/-- The result of `typ.Kind()` together with what the code reads from a type
of that kind: `IsVariadic`, `In`, `Out` of a function type, `Elem` of a
pointer type, `Field` of a struct type. Every other kind is `other`. -/
inductive Kind where
  | other : Kind
  | func (variadic : Bool) (ins outs : List Ty) : Kind
  | pointer (elem : Ty) : Kind
  | struct (fields : List StructField) : Kind
  deriving DecidableEq, Repr

/-- The type declarations of the program (a type without an entry is of
kind `other`), the test `typ.Implements(typeError)`, and the capacity the
run-time system gives a slice of capacity `c` that `append` has to
reallocate. -/
structure TypeEnv where
  kinds : List (Ty × Kind)
  implementsError : Ty → Bool
  growCap : Nat → Nat

/-- The kind of a type. -/
def TypeEnv.kindOf (env : TypeEnv) (typ : Ty) : Kind :=
  (env.kinds.lookup typ).getD .other

/-- The loop over the parameters in `funcProvider.parse`; `inArgTypes` holds
the types met so far. -/
def checkInArgs : List Ty → List Ty → Option Err
  | [], _ => none
  | inArg :: rest, inArgTypes =>
    if inArg ∈ inArgTypes then some .providerInvalid
    else checkInArgs rest (inArg :: inArgTypes)

/-- The method `funcProvider.parse`; `none` is the nil error. -/
def funcProvider.parse (env : TypeEnv) (typ : Ty) : Option Err :=
  match env.kindOf typ with
  | .func variadic ins outs =>
    if variadic then some .providerInvalid
    else
      let numOut := outs.length
      if numOut = 0 ∨ numOut > 2 then some .providerInvalid
      else if numOut = 2 ∧ (outs.get? 1).any env.implementsError = false then
        some .providerInvalid
      else checkInArgs ins []
  | _ => some .providerInvalid

/-- The function `newFuncProvider` on a function value of type `typ` whose
call is `call`. The provider is given by its `DependentTypes()`, the type
`Out(0)` and the call; the last case is not reached, `parse` having accepted
the type. -/
def newFuncProvider (env : TypeEnv) (typ : Ty) (call : List Val → Val × Option Err) :
    Except Err Provider :=
  match funcProvider.parse env typ with
  | some err => .error err
  | none =>
    match env.kindOf typ with
    | .func _ ins (out :: _) => .ok (.func ins out call)
    | _ => .error .providerInvalid

/-- A slice of ints: its backing array, length and capacity. -/
structure Slice where
  array : Nat
  len : Nat
  cap : Nat
  deriving DecidableEq, Repr

/-- The backing arrays of the slices of ints allocated so far. -/
abbrev Arrays := List (List Nat)

/-- The elements of a slice. -/
def Arrays.read (arrays : Arrays) (s : Slice) : List Nat :=
  ((arrays.get? s.array).getD []).take s.len

/-- The built-in `append(s, x)`: the element is written into the backing
array of `s` when its capacity allows, otherwise a new array is allocated
and the elements are copied. -/
def sliceAppend (growCap : Nat → Nat) (arrays : Arrays) (s : Slice) (x : Nat) :
    Arrays × Slice :=
  if s.len < s.cap then
    (arrays.set s.array (((arrays.get? s.array).getD []).set s.len x),
      { s with len := s.len + 1 })
  else
    let newCap := max (growCap s.cap) (s.len + 1)
    (arrays ++ [arrays.read s ++ [x] ++ List.replicate (newCap - (s.len + 1)) 0],
      { array := arrays.length, len := s.len + 1, cap := newCap })

/-- The capacities of the gc run-time system for slices of ints below 256
elements: 1 for an empty slice, then doubled. -/
def gcGrowCap (c : Nat) : Nat := if c = 0 then 1 else 2 * c

/-- The state `structProvider.parse` works on: the map `p.targetTypes` with
the `Index` slice of each entry (the `Name` slice only serves the text of
the error), and the backing arrays of these slices. -/
structure ParseState where
  arrays : Arrays
  targetTypes : List (Ty × Slice)

/-- The first two statements of `parseStructRecursively`: a pointer type is
replaced by its element type, and only a struct type has fields to
visit. -/
def TypeEnv.structFields (env : TypeEnv) (typ : Ty) : Option (List StructField) :=
  let typ := match env.kindOf typ with
    | .pointer elem => elem
    | _ => typ
  match env.kindOf typ with
  | .struct fields => some fields
  | _ => none

/-- The loop of `parseStructRecursively` from field `i` on; `recurse` is the
recursive call. -/
def structProvider.parseFields (env : TypeEnv)
    (recurse : ParseState → Ty → Slice → Option (Except Err ParseState)) (index : Slice) :
    List StructField → Nat → ParseState → Option (Except Err ParseState)
  | [], _, st => some (.ok st)
  | sf :: rest, i, st =>
    if sf.exported = false then structProvider.parseFields env recurse index rest (i + 1) st
    else
      match st.targetTypes.lookup sf.type with
      | some _ => some (.error (.providerDuplicated sf.type))
      | none =>
        let appended := sliceAppend env.growCap st.arrays index i
        let st1 : ParseState :=
          { arrays := appended.1, targetTypes := mapStore st.targetTypes sf.type appended.2 }
        match recurse st1 sf.type appended.2 with
        | none => none
        | some (.error err) => some (.error err)
        | some (.ok st2) => structProvider.parseFields env recurse index rest (i + 1) st2

/-- The method `structProvider.parseStructRecursively`. -/
def structProvider.parseStructRecursively (env : TypeEnv) :
    Nat → ParseState → Ty → Slice → Option (Except Err ParseState)
  | 0, _, _, _ => none
  | fuel + 1, st, typ, index =>
    match env.structFields typ with
    | none => some (.ok st)
    | some fields =>
      structProvider.parseFields env (structProvider.parseStructRecursively env fuel)
        index fields 0 st

/-- The nesting bound used as fuel by `structProvider.parse`: two more than
the number of type declarations. -/
def TypeEnv.parseFuel (env : TypeEnv) : Nat := env.kinds.length + 2

/-- The method `structProvider.parse` on a struct of type `typ`: the map
starts empty and the index path is an empty slice. -/
def structProvider.parse (env : TypeEnv) (typ : Ty) : Option (Except Err ParseState) :=
  match env.kindOf typ with
  | .struct _ =>
    structProvider.parseStructRecursively env env.parseFuel
      { arrays := [[]], targetTypes := [] } typ { array := 0, len := 0, cap := 0 }
  | _ => some (.error .providerInvalid)

/-- The function `newStructProvider` on a struct value `provVal` of type
`typ`. The provider holds, for each target type, the elements its `Index`
slice has once parsing is over. -/
def newStructProvider (env : TypeEnv) (typ : Ty) (provVal : Val) :
    Option (Except Err Provider) :=
  match structProvider.parse env typ with
  | none => none
  | some (.error err) => some (.error err)
  | some (.ok st) =>
    some (.ok (.struct (st.targetTypes.map fun e => (e.1, st.arrays.read e.2)) provVal))

/-- A provider source, an argument of `NewProviderSet`: the untyped nil, a
value implementing `ProviderSet` or `Provider`, a function value of type
`typ`, a struct value of type `typ`, a pointer (nil when `none`), or a value
of another kind. -/
inductive Source where
  | nil : Source
  | providerSet (ps : ProviderSet) : Source
  | provider (p : Provider) : Source
  | func (typ : Ty) (call : List Val → Val × Option Err) : Source
  | struct (typ : Ty) (v : Val) : Source
  | pointer (elem : Option Source) : Source
  | other : Source

/-- The loop of `addProviderToMap` over the target types. -/
def addTargetTypes (provider : Provider) :
    List Ty → List (Ty × Provider) → Except Err (List (Ty × Provider))
  | [], providerMap => .ok providerMap
  | targetType :: rest, providerMap =>
    match providerMap.lookup targetType with
    | some _ => .error (.providerDuplicated targetType)
    | none => addTargetTypes provider rest (mapStore providerMap targetType provider)

/-- The function `addProviderToMap`. -/
def addProviderToMap (provider : Provider) (providerMap : List (Ty × Provider)) :
    Except Err (List (Ty × Provider)) :=
  addTargetTypes provider provider.TargetTypes providerMap

/-- The providers one source stands for in the loop of `parseProviders`: the
entries `GetAll()` of a provider set, a provider itself, or the provider
made of a function or of a pointer to a struct. -/
def sourceProviders (env : TypeEnv) : Source → Option (Except Err (List Provider))
  | .nil => some (.error .providerInvalid)
  | .providerSet ps => some (.ok ps.GetAll)
  | .provider p => some (.ok [p])
  | .func typ call => some ((newFuncProvider env typ call).map fun p => [p])
  | .pointer (some (.func typ call)) => some ((newFuncProvider env typ call).map fun p => [p])
  | .pointer (some (.struct typ v)) =>
    (newStructProvider env typ v).map fun r => r.map fun p => [p]
  | .pointer none => some (.error .providerInvalid)
  | .pointer (some _) => some (.error .providerInvalid)
  | .struct _ _ => some (.error .providerInvalid)
  | .other => some (.error .providerInvalid)

/-- The calls of `addProviderToMap` for the providers of one source. -/
def addProviders : List Provider → List (Ty × Provider) → Except Err (List (Ty × Provider))
  | [], providerMap => .ok providerMap
  | prov :: rest, providerMap =>
    match addProviderToMap prov providerMap with
    | .error err => .error err
    | .ok providerMap1 => addProviders rest providerMap1

/-- The loop `for _, provSrc := range args` of `parseProviders`. -/
def parseSources (env : TypeEnv) :
    List Source → List (Ty × Provider) → Option (Except Err (List (Ty × Provider)))
  | [], providerMap => some (.ok providerMap)
  | provSrc :: rest, providerMap =>
    match sourceProviders env provSrc with
    | none => none
    | some (.error err) => some (.error err)
    | some (.ok provs) =>
      match addProviders provs providerMap with
      | .error err => some (.error err)
      | .ok providerMap1 => parseSources env rest providerMap1

/-- The function `parseProviders`. -/
def parseProviders (env : TypeEnv) (args : List Source) : Option (Except Err ProviderSet) :=
  match parseSources env args [] with
  | none => none
  | some (.error err) => some (.error err)
  | some (.ok providerMap) =>
    if providerMap.length = 0 then some (.error .providerInvalid)
    else some (.ok { providerMap := providerMap, overwrittenProviderMap := none })

/-- The function `NewProviderSet`. -/
def NewProviderSet (env : TypeEnv) (args : List Source) : Option (Except Err ProviderSet) :=
  parseProviders env args

/-- The option `SetSharedMode(flag)`. -/
inductive ContainerConfigOption where
  | SetSharedMode (flag : Bool) : ContainerConfigOption

/-- The function `NewContainer`. -/
def NewContainer (env : TypeEnv) (providers : List Source)
    (opts : List ContainerConfigOption) : Option (Except Err Container) :=
  match parseProviders env providers with
  | none => none
  | some (.error err) => some (.error err)
  | some (.ok providerSet) =>
    some (.ok (opts.foldl (fun c opt => match opt with
        | .SetSharedMode flag => { c with sharedMode := flag })
      { sharedMode := true, providerSet := providerSet, objectMap := fun _ => none }))

/-- The exported fields reachable from a type: `Reach env typ path sf` says
that following the field numbers `path` from `typ`, through exported fields
and with a pointer type replaced by its element type at each step, ends at
the exported field `sf`. -/
inductive Reach (env : TypeEnv) : Ty → List Nat → StructField → Prop
  | field (typ : Ty) (fields : List StructField) (i : Nat) (sf : StructField) :
    env.structFields typ = some fields → fields.get? i = some sf → sf.exported = true →
    Reach env typ [i] sf
  | nested (typ : Ty) (fields : List StructField) (i : Nat) (sf : StructField)
    (path : List Nat) (sf' : StructField) :
    env.structFields typ = some fields → fields.get? i = some sf → sf.exported = true →
    Reach env sf.type path sf' → Reach env typ (i :: path) sf'

/-- The type declarations used in the examples. Basic types: 10 `int`,
11 `string`, 12 `[]int`, 13 and 14 two map types, 15 `int16`, 16
`map[int]int`, 60 `error`; 1, 2, 3 are service types. Records of the tests:
20 `Struct1_OK`, 21 `Struct2_Dup_Field_Type`, 24
`Struct4_OK_Dup_Field_Type_Unexported`, 27 `Struct7_OK_Nested`, 28
`Nested1`, 29 `Nested2`, 30 `*Nested2`. Records nested four levels deep: 41
holds 42, which holds 43, which holds 44 with an `int` and a `string`.
Function types: 50 `func() 1`, 51 `func(1) 2`, 52 with two parameters of
type `int`, 53 variadic, 54 `func(int, string) (3, error)`, 55 without
result, 56 with a second result that is not an error. -/
def testEnv : TypeEnv :=
  { kinds :=
      [(20, .struct [⟨true, 10⟩, ⟨true, 11⟩, ⟨true, 12⟩, ⟨true, 13⟩, ⟨true, 14⟩]),
       (21, .struct [⟨true, 20⟩, ⟨true, 12⟩]),
       (24, .struct [⟨true, 20⟩, ⟨false, 12⟩]),
       (27, .struct [⟨true, 10⟩, ⟨true, 28⟩]),
       (28, .struct [⟨true, 15⟩, ⟨true, 11⟩, ⟨true, 30⟩]),
       (29, .struct [⟨true, 12⟩, ⟨true, 16⟩]),
       (30, .pointer 29),
       (41, .struct [⟨true, 42⟩]),
       (42, .struct [⟨true, 43⟩]),
       (43, .struct [⟨true, 44⟩]),
       (44, .struct [⟨true, 10⟩, ⟨true, 11⟩]),
       (50, .func false [] [1]),
       (51, .func false [1] [2]),
       (52, .func false [10, 10] [3]),
       (53, .func true [10] [3]),
       (54, .func false [10, 11] [3, 60]),
       (55, .func false [] []),
       (56, .func false [] [3, 11])],
    implementsError := fun t => t == 60,
    growCap := gcGrowCap }

/-- The providers that the sources `args` stand for, in the order in which
`parseProviders` adds them to the map (a source that has an error stands for
none). -/
def providersOf (env : TypeEnv) (args : List Source) : List Provider :=
  args.flatMap fun provSrc =>
    match sourceProviders env provSrc with
    | some (.ok provs) => provs
    | _ => []

/-- The value `struct7_OK_Nested` of the tests (literals stand for the
field values). -/
def struct7Val : Val :=
  .struct [.lit 123, .struct [.lit 16, .lit 0, .ptr (some (.struct [.lit 1, .lit 2]))]]

/-- The types with an entry in `p.targetTypes`. -/
def ParseState.keys (st : ParseState) : List Ty := st.targetTypes.map Prod.fst

/-- The exported fields reachable through the fields `l` of a struct, which
are numbered from `i` on: the field itself, or a field reachable from its
type. -/
def ReachFields (env : TypeEnv) (l : List StructField) (i : Nat) (path : List Nat)
    (sf : StructField) : Prop :=
  ∃ k f rest, l.get? k = some f ∧ f.exported = true ∧ path = (i + k) :: rest ∧
    ((rest = [] ∧ sf = f) ∨ Reach env f.type rest sf)

/-- What a run of the struct traversal that starts with the map of `st`,
visits the fields `R` and returns `r` has done. On success the map has
gained the types of the fields of `R`, none of which it had before, no two
fields of `R` have the same type, and the map has no type twice. An error is `ErrProviderDuplicated`
for a type `t` that a field of `R` has and that either was in the map at the
start or is the type of another field of `R`. -/
def ParseSpec (R : List Nat → StructField → Prop) (st : ParseState) :
    Except Err ParseState → Prop
  | .ok st' =>
    (∀ k, k ∈ st'.keys ↔ k ∈ st.keys ∨ ∃ path sf, R path sf ∧ sf.type = k) ∧
    (∀ path sf, R path sf → sf.type ∉ st.keys) ∧
    (∀ p q sf sf', R p sf → R q sf' → sf.type = sf'.type → p = q) ∧
    (st.keys.Nodup → st'.keys.Nodup)
  | .error e => ∃ t, e = .providerDuplicated t ∧
    ((t ∈ st.keys ∧ ∃ path sf, R path sf ∧ sf.type = t) ∨
      ∃ p q sf sf', p ≠ q ∧ R p sf ∧ R q sf' ∧ sf.type = t ∧ sf'.type = t)

/-- The number of type declarations whose type has no entry in
`p.targetTypes` yet. -/
def TypeEnv.unseen (env : TypeEnv) (st : ParseState) : Nat :=
  (env.kinds.map Prod.fst).countP fun k => decide (k ∉ st.keys)

/-- A record of the type 41: structs nested four levels deep, the innermost
holding the `int` 1 and the `string` 2. -/
def deepVal : Val := .struct [.struct [.struct [.struct [.lit 1, .lit 2]]]]

/-- The field `TargetType` of a `DependencyGraph`. -/
def DependencyGraph.TargetType : DependencyGraph → Ty
  | .mk t _ => t

/-- The field `Dependencies` of a `DependencyGraph`. -/
def DependencyGraph.Dependencies : DependencyGraph → List DependencyGraph
  | .mk _ ds => ds

/-- The dependency graph of a type in the registry `ps`, of depth at most
`n`: a node for the type with one child for each dependent type of its
provider, in the order of the dependent types, each child the dependency
graph of its type. -/
def GraphOf (ps : ProviderSet) : Nat → Ty → DependencyGraph → Prop
  | 0, _, _ => False
  | n + 1, T, g =>
    g.TargetType = T ∧
    ∃ p, ps.GetFor T = .ok p ∧ List.Forall₂ (GraphOf ps n) p.DependentTypes g.Dependencies

/-- Below the types `anc`, the tree of the type `T` in the registry `ps` has
depth at most `n`, every type in it has a provider, and no type in it occurs
among the types above it. -/
def AcyclicTree (ps : ProviderSet) : Nat → List Ty → Ty → Prop
  | 0, _, _ => False
  | n + 1, anc, T =>
    T ∉ anc ∧ ∃ p, ps.GetFor T = .ok p ∧ ∀ d ∈ p.DependentTypes, AcyclicTree ps n (T :: anc) d

/-- A factory for type 1 taking the types 2 and 3, which both take type 4. -/
def diamondContainer : Container :=
  containerOf [(1, .func [2, 3] 1 (mkObj 1)), (2, .func [4] 2 (mkObj 2)),
    (3, .func [4] 3 (mkObj 3)), (4, .func [] 4 (mkObj 4))]

/-- A factory for type 1 taking type 2, then type 9, which has no provider,
then type 3. -/
def stopContainer : Container :=
  containerOf [(1, .func [2, 9, 3] 1 (mkObj 1)), (2, .func [] 2 (mkObj 2)),
    (3, .func [] 3 (mkObj 3))]

/-- What `container.resolve` reads of a context: the registry and the
in-progress set. The other fields are set to fixed values. -/
def Context.walkPart (ctx : Context) : Context :=
  { ctx with sharedMode := true, objectMap := fun _ => none, calls := [] }

/-- A self-referential record: the struct type 70 (`Node`) has one exported
field, of the pointer type 71 (`*Node`). -/
def nodeEnv : TypeEnv :=
  { kinds := [(70, .struct [⟨true, 71⟩]), (71, .pointer 70)],
    implementsError := fun _ => false,
    growCap := gcGrowCap }

/-- The type declarations of a record nested seven levels deep: each of the
struct types 81 to 85 has one exported field, of the next struct type; the
struct type 86 has a field of the struct type 87 and a field of type 17
(`bool`); the struct type 87 has a field of type 10 (`int`) and a field of
type 11 (`string`). -/
def deepEnv : TypeEnv :=
  { kinds :=
      [(81, .struct [⟨true, 82⟩]), (82, .struct [⟨true, 83⟩]), (83, .struct [⟨true, 84⟩]),
       (84, .struct [⟨true, 85⟩]), (85, .struct [⟨true, 86⟩]),
       (86, .struct [⟨true, 87⟩, ⟨true, 17⟩]),
       (87, .struct [⟨true, 10⟩, ⟨true, 11⟩])],
    implementsError := fun _ => false,
    growCap := gcGrowCap }

/-- A record of the type 81: the innermost struct holds the `int` 1 and the
`string` 2, and next to it is the `bool` 3. -/
def deepVal7 : Val :=
  .struct [.struct [.struct [.struct [.struct [.struct [.struct [.lit 1, .lit 2], .lit 3]]]]]]

/-- The record `struct7_OK_Nested` with a nil pointer in its field
`Nested2`. -/
def struct7NilVal : Val :=
  .struct [.lit 123, .struct [.lit 16, .lit 0, .ptr none]]

/-- The number of types of the list `K` that are not in progress. -/
def Context.pendingIn (K : List Ty) (ctx : Context) : Nat :=
  (K.filter fun k => !ctx.resolvingTypes k).length

/-- In the registry `ps`, the provider of the type `a` has `b` among its
dependent types. -/
def DependsOn (ps : ProviderSet) (a b : Ty) : Prop :=
  ∃ p, ps.GetFor a = .ok p ∧ b ∈ p.DependentTypes

/-- Whether a provider is a function provider. -/
def Provider.isFunc : Provider → Bool
  | .func _ _ _ => true
  | _ => false

/-- The diamond of `diamondContainer` next to a cycle: the factories of the
types 5 and 6 take each other's type. -/
def cycleAsideContainer : Container :=
  containerOf [(1, .func [2, 3] 1 (mkObj 1)), (2, .func [4] 2 (mkObj 2)),
    (3, .func [4] 3 (mkObj 3)), (4, .func [] 4 (mkObj 4)),
    (5, .func [6] 5 (mkObj 5)), (6, .func [5] 6 (mkObj 6))]

/-- The struct provider made of the record `struct7NilVal`. -/
def nilRecordProvider : Provider :=
  .struct [(10, [0]), (28, [1]), (15, [1, 0]), (11, [1, 1]), (30, [1, 2]), (12, [1, 2, 0]),
    (16, [1, 2, 1])] struct7NilVal

/-- The container `NewContainer` makes of a pointer to the record
`struct7NilVal`. -/
def nilRecordContainer : Container :=
  containerOf [(10, nilRecordProvider), (28, nilRecordProvider), (15, nilRecordProvider),
    (11, nilRecordProvider), (30, nilRecordProvider), (12, nilRecordProvider),
    (16, nilRecordProvider)]

/-- The provider hands out no zero `reflect.Value` for the type `t`: the
first result of a function that returns no error is valid (in Go the
results of `Call` always are), the field a struct provider returns without
error is valid (in Go a field value always is), and the value of a literal
provider is not the value of a nil interface. -/
def Provider.SuppliesValid : Provider → Ty → Prop
  | .func _ _ call, _ => ∀ args, (call args).2 = none → (call args).1.IsValid = true
  | .struct targetTypes sourceVal, t =>
    (structProviderBuild targetTypes sourceVal t).2 = none →
      (structProviderBuild targetTypes sourceVal t).1.IsValid = true
  | .value _ sourceVal, _ => sourceVal.IsValid = true

/-- The cache holds no zero `reflect.Value` (in Go it never does: it is
filled with results of `Call` only). -/
def CacheValid (objectMap : Ty → Option Val) : Prop :=
  ∀ u w, objectMap u = some w → w.IsValid = true

/-- The state of a build context `b` of a call on an empty cache, at a point
where the types `anc` are being built: its registry is `ps`, the types in
progress are those of `anc`, every type served from the cache has a
tree with a provider for every type and no type below itself, and the cache
holds no zero value. -/
def SimInv (ps : ProviderSet) (anc : List Ty) (b : Context) : Prop :=
  b.providerSet = ps ∧ (∀ t, b.resolvingTypes t = true ↔ t ∈ anc) ∧
  (∀ u v, b.cached u = some v → ∃ n, AcyclicTree ps n [] u) ∧ CacheValid b.objectMap

/-- What is shown of the result `r` of the build of a type `T` below the
types `anc`: when it has no error, the context left is in the state
`SimInv` again and `T` has a tree below `anc`; when it has the error `e`,
every walk of `T` that starts with the types of `anc` in progress and
returns, returns `e`. -/
def BuildSim (ps : ProviderSet) (anc : List Ty) (T : Ty) (r : Built) : Prop :=
  (r.2.2 = none → SimInv ps anc r.1 ∧ ∃ n, AcyclicTree ps n anc T) ∧
  ∀ e, r.2.2 = some e → ∀ w fuel2 x, w.providerSet = ps →
    (∀ t, w.resolvingTypes t = true ↔ t ∈ anc) → resolve fuel2 w T = some x →
    x.2 = .error e

/-! ## Reasoning about `Build` by cases of its execution -/

/-- Case analysis of an execution of `Build` and of its argument loop: a
property of single builds `Q` and a property of argument loops `QA` that
hold in each way the code can return hold of every execution. -/
theorem Provider.Build_cases
    (Q : Provider → Context → Ty → Built → Prop)
    (QA : Context → List Ty → List Val → Context × Except Err (List Val) → Prop)
    (hValue : ∀ T sv ctx t, Q (.value T sv) ctx t (ctx, sv, none))
    (hStruct : ∀ tts sv ctx t, Q (.struct tts sv) ctx t (ctx, structProviderBuild tts sv t))
    (hHit : ∀ deps out call ctx t v, ctx.cached t = some v →
      Q (.func deps out call) ctx t (ctx, v, none))
    (hCirc : ∀ deps out call ctx t, ctx.cached t = none → ctx.resolvingTypes t = true →
      Q (.func deps out call) ctx t (ctx, .invalid, some (.circularDependency t)))
    (hFail : ∀ deps out call ctx t ctx2 e, ctx.cached t = none →
      ctx.resolvingTypes t = false → QA (ctx.mark t) deps [] (ctx2, .error e) →
      Q (.func deps out call) ctx t (ctx2.unmark t, .invalid, some e))
    (hCall : ∀ deps out call ctx t ctx2 inArgs, ctx.cached t = none →
      ctx.resolvingTypes t = false → QA (ctx.mark t) deps [] (ctx2, .ok inArgs) →
      inArgs.all Val.IsValid = true →
      Q (.func deps out call) ctx t
        ((ctx2.finish t deps inArgs (call inArgs)).unmark t, (call inArgs).1, (call inArgs).2))
    (hPanic : ∀ deps out call ctx t ctx2 inArgs, ctx.cached t = none →
      ctx.resolvingTypes t = false → QA (ctx.mark t) deps [] (ctx2, .ok inArgs) →
      inArgs.all Val.IsValid = false →
      Q (.func deps out call) ctx t (ctx2.unmark t, .invalid, some .panicked))
    (hNil : ∀ ctx acc, QA ctx [] acc (ctx, .ok acc))
    (hMissing : ∀ ctx d rest acc e, ctx.providerSet.GetFor d = .error e →
      QA ctx (d :: rest) acc (ctx, .error e))
    (hArgErr : ∀ ctx d rest acc p ctx1 v e, ctx.providerSet.GetFor d = .ok p →
      (∃ n, Provider.Build n p ctx d = some (ctx1, v, some e)) →
      Q p ctx d (ctx1, v, some e) → QA ctx (d :: rest) acc (ctx1, .error e))
    (hArgOk : ∀ ctx d rest acc p ctx1 v r, ctx.providerSet.GetFor d = .ok p →
      (∃ n, Provider.Build n p ctx d = some (ctx1, v, none)) →
      Q p ctx d (ctx1, v, none) → QA ctx1 rest (acc ++ [v]) r → QA ctx (d :: rest) acc r)
    (fuel : Nat) :
    (∀ p ctx t r, Provider.Build fuel p ctx t = some r → Q p ctx t r) ∧
    (∀ ctx ds acc r, buildArgs (Provider.Build fuel) ctx ds acc = some r → QA ctx ds acc r) := by
  have loop : ∀ (k : Nat),
      (∀ p ctx t r, Provider.Build k p ctx t = some r → Q p ctx t r) →
      ∀ ds ctx acc r, buildArgs (Provider.Build k) ctx ds acc = some r → QA ctx ds acc r := by
    intro k hb ds
    induction ds with
    | nil =>
      intro ctx acc r h
      simp only [buildArgs, Option.some.injEq] at h
      subst h
      exact hNil ctx acc
    | cons d rest ih =>
      intro ctx acc r h
      unfold buildArgs at h
      cases hg : ctx.providerSet.GetFor d with
      | error e =>
        rw [hg] at h
        simp only [Option.some.injEq] at h
        subst h
        exact hMissing ctx d rest acc e hg
      | ok p =>
        rw [hg] at h
        simp only at h
        cases hbd : Provider.Build k p ctx d with
        | none => rw [hbd] at h; simp at h
        | some b =>
          obtain ⟨ctx1, v, oe⟩ := b
          rw [hbd] at h
          cases oe with
          | some e =>
            simp only [Option.some.injEq] at h
            subst h
            exact hArgErr ctx d rest acc p ctx1 v e hg ⟨k, hbd⟩ (hb _ _ _ _ hbd)
          | none =>
            simp only at h
            exact hArgOk ctx d rest acc p ctx1 v r hg ⟨k, hbd⟩ (hb _ _ _ _ hbd) (ih _ _ _ h)
  have single : ∀ fuel p ctx t r, Provider.Build fuel p ctx t = some r → Q p ctx t r := by
    intro fuel
    induction fuel with
    | zero =>
      intro p ctx t r h
      cases p with
      | value T sv => simp only [Provider.Build, Option.some.injEq] at h; subst h; exact hValue ..
      | struct tts sv =>
        simp only [Provider.Build, Option.some.injEq] at h; subst h; exact hStruct ..
      | func deps out call => simp [Provider.Build] at h
    | succ n ih =>
      intro p ctx t r h
      cases p with
      | value T sv => simp only [Provider.Build, Option.some.injEq] at h; subst h; exact hValue ..
      | struct tts sv =>
        simp only [Provider.Build, Option.some.injEq] at h; subst h; exact hStruct ..
      | func deps out call =>
        unfold Provider.Build at h
        cases hc : ctx.cached t with
        | some v =>
          rw [hc] at h
          simp only [Option.some.injEq] at h
          subst h
          exact hHit deps out call ctx t v hc
        | none =>
          rw [hc] at h
          simp only at h
          cases hr : ctx.resolvingTypes t with
          | true =>
            rw [hr] at h
            simp only [if_true, Option.some.injEq] at h
            subst h
            exact hCirc deps out call ctx t hc hr
          | false =>
            rw [hr] at h
            simp only [Bool.false_eq_true, if_false] at h
            cases ha : buildArgs (Provider.Build n) (ctx.mark t) deps [] with
            | none => rw [ha] at h; simp at h
            | some a =>
              obtain ⟨ctx2, res⟩ := a
              rw [ha] at h
              cases res with
              | error e =>
                simp only [Option.some.injEq] at h
                subst h
                exact hFail deps out call ctx t ctx2 e hc hr (loop _ ih _ _ _ _ ha)
              | ok inArgs =>
                simp only at h
                cases hv : inArgs.all Val.IsValid with
                | true =>
                  rw [hv] at h
                  simp only [if_true, Option.some.injEq] at h
                  subst h
                  exact hCall deps out call ctx t ctx2 inArgs hc hr (loop _ ih _ _ _ _ ha) hv
                | false =>
                  rw [hv] at h
                  simp only [Bool.false_eq_true, if_false, Option.some.injEq] at h
                  subst h
                  exact hPanic deps out call ctx t ctx2 inArgs hc hr (loop _ ih _ _ _ _ ha) hv
  exact ⟨single fuel, fun ctx ds acc r h => loop _ (single fuel) ds ctx acc r h⟩

/-! ## What an execution leaves of the context -/

@[simp] theorem Context.mark_sharedMode (c : Context) (t : Ty) :
    (c.mark t).sharedMode = c.sharedMode := rfl
@[simp] theorem Context.mark_providerSet (c : Context) (t : Ty) :
    (c.mark t).providerSet = c.providerSet := rfl
@[simp] theorem Context.mark_objectMap (c : Context) (t : Ty) :
    (c.mark t).objectMap = c.objectMap := rfl
@[simp] theorem Context.mark_calls (c : Context) (t : Ty) : (c.mark t).calls = c.calls := rfl
@[simp] theorem Context.mark_cached (c : Context) (t u : Ty) :
    (c.mark t).cached u = c.cached u := rfl
theorem Context.mark_resolvingTypes (c : Context) (t : Ty) :
    (c.mark t).resolvingTypes = Function.update c.resolvingTypes t true := rfl
@[simp] theorem Context.unmark_sharedMode (c : Context) (t : Ty) :
    (c.unmark t).sharedMode = c.sharedMode := rfl
@[simp] theorem Context.unmark_providerSet (c : Context) (t : Ty) :
    (c.unmark t).providerSet = c.providerSet := rfl
@[simp] theorem Context.unmark_objectMap (c : Context) (t : Ty) :
    (c.unmark t).objectMap = c.objectMap := rfl
@[simp] theorem Context.unmark_calls (c : Context) (t : Ty) :
    (c.unmark t).calls = c.calls := rfl
@[simp] theorem Context.unmark_cached (c : Context) (t u : Ty) :
    (c.unmark t).cached u = c.cached u := rfl
theorem Context.unmark_resolvingTypes (c : Context) (t : Ty) :
    (c.unmark t).resolvingTypes = Function.update c.resolvingTypes t false := rfl
@[simp] theorem Context.finish_sharedMode (c : Context) (t : Ty) (ds : List Ty)
    (xs : List Val) (res : Val × Option Err) :
    (c.finish t ds xs res).sharedMode = c.sharedMode := rfl
@[simp] theorem Context.finish_providerSet (c : Context) (t : Ty) (ds : List Ty)
    (xs : List Val) (res : Val × Option Err) :
    (c.finish t ds xs res).providerSet = c.providerSet := rfl
@[simp] theorem Context.finish_resolvingTypes (c : Context) (t : Ty) (ds : List Ty)
    (xs : List Val) (res : Val × Option Err) :
    (c.finish t ds xs res).resolvingTypes = c.resolvingTypes := rfl
@[simp] theorem Context.finish_calls (c : Context) (t : Ty) (ds : List Ty)
    (xs : List Val) (res : Val × Option Err) :
    (c.finish t ds xs res).calls = c.calls ++ [⟨t, ds, xs, res.1, res.2⟩] := rfl
theorem Context.finish_objectMap (c : Context) (t : Ty) (ds : List Ty)
    (xs : List Val) (res : Val × Option Err) :
    (c.finish t ds xs res).objectMap =
      if res.2.isNone && c.sharedMode then Function.update c.objectMap t (some res.1)
      else c.objectMap := rfl

theorem Grows.refl (a : Context) : Grows a a [] := by
  refine ⟨rfl, rfl, rfl, by simp, by simp, fun u => Or.inl rfl, by simp⟩

theorem Grows.mono {a b : Context} {new : List CallRecord} (h : Grows a b new) (u : Ty)
    (v : Val) (hu : a.objectMap u = some v) : b.objectMap u = some v := by
  obtain ⟨_, _, _, _, _, hobj, _⟩ := h
  rcases hobj u with h1 | ⟨_, h2, _⟩
  · rw [h1, hu]
  · rw [hu] at h2; cases h2

theorem Grows.cached_none {a b : Context} {new : List CallRecord} (h : Grows a b new) (u : Ty)
    (hu : b.cached u = none) : a.cached u = none := by
  have hs := h.1
  unfold Context.cached at hu ⊢
  rw [hs] at hu
  by_cases hm : a.sharedMode = true
  · simp only [hm, if_true] at hu ⊢
    cases ha : a.objectMap u with
    | none => rfl
    | some v => rw [h.mono u v ha] at hu; cases hu
  · simp [hm]

theorem Grows.trans {a b c : Context} {n1 n2 : List CallRecord} (h1 : Grows a b n1)
    (h2 : Grows b c n2) : Grows a c (n1 ++ n2) := by
  have hmono2 := fun u v => h2.mono u v
  have hcn := fun u => h1.cached_none u
  obtain ⟨s1, p1, r1, c1, f1, o1, t1⟩ := h1
  obtain ⟨s2, p2, r2, c2, f2, o2, t2⟩ := h2
  refine ⟨s2.trans s1, p2.trans p1, r2.trans r1, by rw [c2, c1, List.append_assoc], ?_, ?_, ?_⟩
  · intro r hr
    rcases List.mem_append.1 hr with hr | hr
    · exact f1 r hr
    · obtain ⟨ha, hb⟩ := f2 r hr
      exact ⟨by rw [← r1]; exact ha, hcn _ hb⟩
  · intro u
    rcases o2 u with e2 | ⟨sh2, n2', r, hr, ht, he, hv⟩
    · rcases o1 u with e1 | ⟨sh1, n1', r, hr, ht, he, hv⟩
      · exact Or.inl (e2.trans e1)
      · exact Or.inr ⟨sh1, n1', r, List.mem_append_left _ hr, ht, he, by rw [e2]; exact hv⟩
    · rcases o1 u with e1 | ⟨sh1, n1', r', hr', ht', he', hv'⟩
      · exact Or.inr ⟨by rw [← s1]; exact sh2, by rw [← e1]; exact n2', r,
          List.mem_append_right _ hr, ht, he, hv⟩
      · rw [hv'] at n2'; cases n2'
  · intro r hr he hs
    rcases List.mem_append.1 hr with hr | hr
    · exact hmono2 _ _ (t1 r hr he hs)
    · exact t2 r hr he (by rw [s1]; exact hs)

/-- A function provider whose arguments failed: the mark is removed. -/
theorem Grows.func_fail {a b : Context} {new : List CallRecord} {t : Ty}
    (hr : a.resolvingTypes t = false) (h : Grows (a.mark t) b new) :
    Grows a (b.unmark t) new := by
  obtain ⟨s1, p1, r1, c1, f1, o1, t1⟩ := h
  refine ⟨s1, p1, ?_, c1, ?_, o1, t1⟩
  · show Function.update b.resolvingTypes t false = a.resolvingTypes
    rw [r1]
    show Function.update (Function.update a.resolvingTypes t true) t false = a.resolvingTypes
    rw [Function.update_idem, ← hr, Function.update_eq_self]
  · intro r hmem
    obtain ⟨h1, h2⟩ := f1 r hmem
    refine ⟨?_, h2⟩
    have h1 : Function.update a.resolvingTypes t true r.target = false := h1
    by_cases e : r.target = t
    · rw [e, Function.update_same] at h1; cases h1
    · rwa [Function.update_noteq e] at h1

/-- An execution logged while `t` was in progress is not one for `t`. -/
theorem Grows.target_ne {a b : Context} {new : List CallRecord} {t : Ty}
    (h : Grows (a.mark t) b new) (r : CallRecord) (hr : r ∈ new) : r.target ≠ t := by
  intro e
  have h1 : Function.update a.resolvingTypes t true r.target = false := (h.2.2.2.2.1 r hr).1
  rw [e, Function.update_same] at h1
  cases h1

/-- A function provider whose function has been executed. -/
theorem Grows.func_call {a b : Context} {new : List CallRecord} {t : Ty} (deps : List Ty)
    (inArgs : List Val) (result : Val × Option Err) (hc : a.cached t = none)
    (hr : a.resolvingTypes t = false) (h : Grows (a.mark t) b new) :
    Grows a ((b.finish t deps inArgs result).unmark t)
      (new ++ [⟨t, deps, inArgs, result.1, result.2⟩]) := by
  have hne := h.target_ne
  have h0 := Grows.func_fail hr h
  obtain ⟨s1, p1, r1, c1, f1, o1, t1⟩ := h0
  simp only [Context.unmark_sharedMode, Context.unmark_providerSet, Context.unmark_objectMap,
    Context.unmark_calls] at s1 p1 c1 o1 t1
  have hbt : b.sharedMode = true → b.objectMap t = none := by
    intro hs
    have hs' : a.sharedMode = true := by rw [← s1]; exact hs
    have hat : a.objectMap t = none := by
      simpa [Context.cached, hs'] using hc
    rcases o1 t with e | ⟨_, _, r, hmem, ht, _⟩
    · exact e.trans hat
    · exact absurd ht (hne r hmem)
  refine ⟨s1, p1, r1, ?_, ?_, ?_, ?_⟩
  · show b.calls ++ [_] = a.calls ++ (new ++ [_])
    have c1' : b.calls = a.calls ++ new := c1
    rw [c1', List.append_assoc]
  · intro r hmem
    rcases List.mem_append.1 hmem with hmem | hmem
    · exact f1 r hmem
    · simp only [List.mem_singleton] at hmem
      subst hmem
      exact ⟨hr, hc⟩
  · intro u
    show (b.finish t deps inArgs result).objectMap u = a.objectMap u ∨ _
    by_cases hst : (result.2.isNone && b.sharedMode) = true
    · have hfin : (b.finish t deps inArgs result).objectMap
          = Function.update b.objectMap t (some result.1) := by
        simp only [Context.finish, hst, if_true]
      simp only [Bool.and_eq_true, Option.isNone_iff_eq_none] at hst
      have hs' : a.sharedMode = true := by rw [← s1]; exact hst.2
      by_cases e : u = t
      · subst e
        right
        refine ⟨hs', by simpa [Context.cached, hs'] using hc, _, List.mem_append_right _
          (List.mem_singleton_self _), rfl, hst.1, ?_⟩
        show (b.finish u deps inArgs result).objectMap u = _
        rw [hfin, Function.update_same]
      · have hu : (b.finish t deps inArgs result).objectMap u = b.objectMap u := by
          rw [hfin, Function.update_noteq e]
        rcases o1 u with e1 | ⟨sh, hn, r, hmem, ht, he, hv⟩
        · left; rw [hu]; exact e1
        · right
          exact ⟨sh, hn, r, List.mem_append_left _ hmem, ht, he, by
            show (b.finish t deps inArgs result).objectMap u = _
            rw [hu]; exact hv⟩
    · have hfin : (b.finish t deps inArgs result).objectMap = b.objectMap := by
        simp only [Context.finish, hst, Bool.false_eq_true, if_false]
      rcases o1 u with e1 | ⟨sh, hn, r, hmem, ht, he, hv⟩
      · left; rw [hfin]; exact e1
      · right
        exact ⟨sh, hn, r, List.mem_append_left _ hmem, ht, he, by
          show (b.finish t deps inArgs result).objectMap u = _
          rw [hfin]; exact hv⟩
  · intro r hmem he hs
    show (b.finish t deps inArgs result).objectMap r.target = _
    have hbs : b.sharedMode = true := by rw [s1]; exact hs
    rcases List.mem_append.1 hmem with hmem | hmem
    · have hrt : r.target ≠ t := hne r hmem
      have := t1 r hmem he hs
      have hthis : b.objectMap r.target = some r.out := this
      by_cases hst : (result.2.isNone && b.sharedMode) = true
      · simp only [Context.finish, hst, if_true, Function.update_noteq hrt]
        exact hthis
      · simp only [Context.finish, hst, Bool.false_eq_true, if_false]
        exact hthis
    · simp only [List.mem_singleton] at hmem
      subst hmem
      have he' : result.2 = none := he
      simp [Context.finish, he', hbs]

/-- The case analysis of `Provider.Build_cases` for properties that also
speak of the executions `new` logged by the build, with the `Grows` facts of
the sub-executions at hand in each case. -/
theorem Provider.Build_cases_grows
    (Q : Provider → Context → Ty → Built → List CallRecord → Prop)
    (QA : Context → List Ty → List Val → Context × Except Err (List Val) →
      List CallRecord → Prop)
    (hValue : ∀ T sv ctx t, Q (.value T sv) ctx t (ctx, sv, none) [])
    (hStruct : ∀ tts sv ctx t,
      Q (.struct tts sv) ctx t (ctx, structProviderBuild tts sv t) [])
    (hHit : ∀ deps out call ctx t v, ctx.cached t = some v →
      Q (.func deps out call) ctx t (ctx, v, none) [])
    (hCirc : ∀ deps out call ctx t, ctx.cached t = none → ctx.resolvingTypes t = true →
      Q (.func deps out call) ctx t (ctx, .invalid, some (.circularDependency t)) [])
    (hFail : ∀ deps out call ctx t ctx2 e new, ctx.cached t = none →
      ctx.resolvingTypes t = false → Grows (ctx.mark t) ctx2 new →
      QA (ctx.mark t) deps [] (ctx2, .error e) new →
      Q (.func deps out call) ctx t (ctx2.unmark t, .invalid, some e) new)
    (hCall : ∀ deps out call ctx t ctx2 inArgs new, ctx.cached t = none →
      ctx.resolvingTypes t = false → Grows (ctx.mark t) ctx2 new →
      QA (ctx.mark t) deps [] (ctx2, .ok inArgs) new → inArgs.all Val.IsValid = true →
      Q (.func deps out call) ctx t
        ((ctx2.finish t deps inArgs (call inArgs)).unmark t, (call inArgs).1, (call inArgs).2)
        (new ++ [⟨t, deps, inArgs, (call inArgs).1, (call inArgs).2⟩]))
    (hPanic : ∀ deps out call ctx t ctx2 inArgs new, ctx.cached t = none →
      ctx.resolvingTypes t = false → Grows (ctx.mark t) ctx2 new →
      QA (ctx.mark t) deps [] (ctx2, .ok inArgs) new → inArgs.all Val.IsValid = false →
      Q (.func deps out call) ctx t (ctx2.unmark t, .invalid, some .panicked) new)
    (hNil : ∀ ctx acc, QA ctx [] acc (ctx, .ok acc) [])
    (hMissing : ∀ ctx d rest acc e, ctx.providerSet.GetFor d = .error e →
      QA ctx (d :: rest) acc (ctx, .error e) [])
    (hArgErr : ∀ ctx d rest acc p ctx1 v e new, ctx.providerSet.GetFor d = .ok p →
      (∃ n, Provider.Build n p ctx d = some (ctx1, v, some e)) →
      Grows ctx ctx1 new → Q p ctx d (ctx1, v, some e) new →
      QA ctx (d :: rest) acc (ctx1, .error e) new)
    (hArgOk : ∀ ctx d rest acc p ctx1 v r n1 n2, ctx.providerSet.GetFor d = .ok p →
      (∃ n, Provider.Build n p ctx d = some (ctx1, v, none)) →
      Grows ctx ctx1 n1 → Q p ctx d (ctx1, v, none) n1 → Grows ctx1 r.1 n2 →
      QA ctx1 rest (acc ++ [v]) r n2 → QA ctx (d :: rest) acc r (n1 ++ n2))
    (fuel : Nat) :
    (∀ p ctx t r, Provider.Build fuel p ctx t = some r →
      ∃ new, Grows ctx r.1 new ∧ Q p ctx t r new) ∧
    (∀ ctx ds acc r, buildArgs (Provider.Build fuel) ctx ds acc = some r →
      ∃ new, Grows ctx r.1 new ∧ QA ctx ds acc r new) := by
  refine Provider.Build_cases
    (fun p ctx t r => ∃ new, Grows ctx r.1 new ∧ Q p ctx t r new)
    (fun ctx ds acc r => ∃ new, Grows ctx r.1 new ∧ QA ctx ds acc r new)
    ?_ ?_ ?_ ?_ ?_ ?_ ?_ ?_ ?_ ?_ ?_ fuel
  · exact fun T sv ctx t => ⟨[], Grows.refl ctx, hValue T sv ctx t⟩
  · exact fun tts sv ctx t => ⟨[], Grows.refl ctx, hStruct tts sv ctx t⟩
  · exact fun deps out call ctx t v hc => ⟨[], Grows.refl ctx, hHit deps out call ctx t v hc⟩
  · exact fun deps out call ctx t hc hr => ⟨[], Grows.refl ctx, hCirc deps out call ctx t hc hr⟩
  · rintro deps out call ctx t ctx2 e hc hr ⟨new, hg, hq⟩
    exact ⟨new, Grows.func_fail hr hg, hFail deps out call ctx t ctx2 e new hc hr hg hq⟩
  · rintro deps out call ctx t ctx2 inArgs hc hr ⟨new, hg, hq⟩ hv
    exact ⟨_, Grows.func_call deps inArgs (call inArgs) hc hr hg,
      hCall deps out call ctx t ctx2 inArgs new hc hr hg hq hv⟩
  · rintro deps out call ctx t ctx2 inArgs hc hr ⟨new, hg, hq⟩ hv
    exact ⟨new, Grows.func_fail hr hg, hPanic deps out call ctx t ctx2 inArgs new hc hr hg hq hv⟩
  · exact fun ctx acc => ⟨[], Grows.refl ctx, hNil ctx acc⟩
  · exact fun ctx d rest acc e hg => ⟨[], Grows.refl ctx, hMissing ctx d rest acc e hg⟩
  · rintro ctx d rest acc p ctx1 v e hg hrun ⟨new, hgr, hq⟩
    exact ⟨new, hgr, hArgErr ctx d rest acc p ctx1 v e new hg hrun hgr hq⟩
  · rintro ctx d rest acc p ctx1 v r hg hrun ⟨n1, hg1, hq1⟩ ⟨n2, hg2, hq2⟩
    exact ⟨n1 ++ n2, hg1.trans hg2,
      hArgOk ctx d rest acc p ctx1 v r n1 n2 hg hrun hg1 hq1 hg2 hq2⟩

/-- Every execution of `Build` leaves its context grown. -/
theorem Provider.Build_grows (fuel : Nat) (p : Provider) (ctx : Context) (t : Ty) (r : Built)
    (h : Provider.Build fuel p ctx t = some r) : ∃ new, Grows ctx r.1 new := by
  obtain ⟨new, hg, _⟩ := (Provider.Build_cases_grows (fun _ _ _ _ _ => True)
    (fun _ _ _ _ _ => True) (by simp) (by simp) (by simp) (by simp) (by simp) (by simp)
    (by simp) (by simp) (by simp) (by simp) (by simp) fuel).1 p ctx t r h
  exact ⟨new, hg⟩

/-- Every execution of the argument loop leaves its context grown. -/
theorem buildArgs_grows (fuel : Nat) (ctx : Context) (ds : List Ty) (acc : List Val)
    (r : Context × Except Err (List Val))
    (h : buildArgs (Provider.Build fuel) ctx ds acc = some r) : ∃ new, Grows ctx r.1 new := by
  obtain ⟨new, hg, _⟩ := (Provider.Build_cases_grows (fun _ _ _ _ _ => True)
    (fun _ _ _ _ _ => True) (by simp) (by simp) (by simp) (by simp) (by simp) (by simp)
    (by simp) (by simp) (by simp) (by simp) (by simp) fuel).2 ctx ds acc r h
  exact ⟨new, hg⟩

/-! ## Fuel: more is harmless, and the registry size is enough -/

theorem lookup_mem_keys {β : Type} (l : List (Ty × β)) (k : Ty) (v : β)
    (h : l.lookup k = some v) : k ∈ l.map Prod.fst := by
  induction l with
  | nil => simp at h
  | cons e rest ih =>
    obtain ⟨k', v'⟩ := e
    by_cases hk : k = k'
    · subst hk; simp
    · have hb : (k == k') = false := by simpa using hk
      rw [List.lookup_cons, hb] at h
      simp only [List.map_cons, List.mem_cons]
      exact Or.inr (ih h)

/-- A type with a provider is a key of the registry. -/
theorem ProviderSet.GetFor_mem_keys (ps : ProviderSet) (t : Ty) (p : Provider)
    (h : ps.GetFor t = .ok p) : t ∈ ps.keys := by
  unfold ProviderSet.GetFor at h
  unfold ProviderSet.keys
  rw [List.mem_append]
  split at h
  · rename_i prov hov
    right
    split at hov
    · exact lookup_mem_keys _ _ _ hov
    · cases hov
  · split at h
    · rename_i prov hb
      exact Or.inl (lookup_mem_keys _ _ _ hb)
    · cases h

theorem buildArgs_mono (b1 b2 : Provider → Context → Ty → Option Built)
    (hb : ∀ p ctx t r, b1 p ctx t = some r → b2 p ctx t = some r) :
    ∀ ds ctx acc r, buildArgs b1 ctx ds acc = some r → buildArgs b2 ctx ds acc = some r := by
  intro ds
  induction ds with
  | nil => intro ctx acc r h; simpa [buildArgs] using h
  | cons d rest ih =>
    intro ctx acc r
    unfold buildArgs
    cases ctx.providerSet.GetFor d with
    | error e => exact id
    | ok p =>
      simp only
      cases h1 : b1 p ctx d with
      | none => intro h; cases h
      | some b =>
        rw [hb _ _ _ _ h1]
        obtain ⟨ctx1, v, oe⟩ := b
        cases oe with
        | some e => exact id
        | none => exact ih _ _ _

/-- One more unit of fuel does not change a result. -/
theorem Provider.Build_fuel_succ (fuel : Nat) :
    ∀ p ctx t r, Provider.Build fuel p ctx t = some r →
      Provider.Build (fuel + 1) p ctx t = some r := by
  induction fuel with
  | zero =>
    intro p ctx t r h
    cases p with
    | value T sv => simpa [Provider.Build] using h
    | struct tts sv => simpa [Provider.Build] using h
    | func deps out call => simp [Provider.Build] at h
  | succ n ih =>
    intro p ctx t r
    cases p with
    | value T sv => intro h; simpa [Provider.Build] using h
    | struct tts sv => intro h; simpa [Provider.Build] using h
    | func deps out call =>
      rw [Provider.Build, Provider.Build]
      cases ctx.cached t with
      | some v => exact id
      | none =>
        simp only
        cases ctx.resolvingTypes t with
        | true => exact id
        | false =>
          simp only [Bool.false_eq_true, if_false]
          cases ha : buildArgs (Provider.Build n) (ctx.mark t) deps [] with
          | none => intro h; cases h
          | some a =>
            rw [buildArgs_mono _ _ ih _ _ _ _ ha]
            exact id

/-- More fuel does not change a result. -/
theorem Provider.Build_fuel_le {fuel fuel2 : Nat} (hle : fuel ≤ fuel2) (p : Provider)
    (ctx : Context) (t : Ty) (r : Built) (h : Provider.Build fuel p ctx t = some r) :
    Provider.Build fuel2 p ctx t = some r := by
  induction hle with
  | refl => exact h
  | step _ ih => exact Provider.Build_fuel_succ _ _ _ _ _ ih

theorem Context.pending_le (ctx : Context) : ctx.pending ≤ ctx.providerSet.keys.length :=
  List.length_filter_le _ _

theorem Context.pending_mark (ctx : Context) (t : Ty) (hk : t ∈ ctx.providerSet.keys)
    (hr : ctx.resolvingTypes t = false) : (ctx.mark t).pending < ctx.pending := by
  unfold Context.pending
  rw [Context.mark_providerSet, Context.mark_resolvingTypes]
  generalize ctx.providerSet.keys = ks at hk
  induction ks with
  | nil => cases hk
  | cons k rest ih =>
    simp only [List.filter_cons]
    by_cases e : k = t
    · subst e
      simp only [Function.update_same, Bool.not_true, Bool.false_eq_true, if_false, hr,
        Bool.not_false, if_true, List.length_cons]
      have : (rest.filter fun x => !Function.update ctx.resolvingTypes k true x).length
          ≤ (rest.filter fun x => !ctx.resolvingTypes x).length := by
        apply List.Sublist.length_le
        apply List.monotone_filter_right
        intro x hx
        by_cases ex : x = k
        · subst ex; simpa using hr
        · simpa [Function.update_noteq ex] using hx
      omega
    · have hmem : t ∈ rest := by
        rcases List.mem_cons.1 hk with h | h
        · exact absurd h.symm e
        · exact h
      have := ih hmem
      simp only [Function.update_noteq e]
      cases ctx.resolvingTypes k with
      | true => simpa using this
      | false => simpa using this

/-- Termination of `Build`: with more fuel than there are registry entries
not in progress, a build of a registered type returns. -/
theorem Provider.Build_returns (fuel : Nat) :
    ∀ p ctx t, t ∈ ctx.providerSet.keys → ctx.pending < fuel →
      ∃ r, Provider.Build fuel p ctx t = some r := by
  induction fuel with
  | zero => intro p ctx t _ h; omega
  | succ n ih =>
    intro p ctx t hk hlt
    cases p with
    | value T sv => exact ⟨_, rfl⟩
    | struct tts sv => exact ⟨_, rfl⟩
    | func deps out call =>
      unfold Provider.Build
      cases hc : ctx.cached t with
      | some v => exact ⟨_, rfl⟩
      | none =>
        simp only
        cases hr : ctx.resolvingTypes t with
        | true => exact ⟨_, rfl⟩
        | false =>
          simp only [Bool.false_eq_true, if_false]
          have hpend := ctx.pending_mark t hk hr
          have loop : ∀ ds (c : Context) acc, c.providerSet = ctx.providerSet →
              c.resolvingTypes = (ctx.mark t).resolvingTypes →
              ∃ r, buildArgs (Provider.Build n) c ds acc = some r := by
            intro ds
            induction ds with
            | nil => intro c acc _ _; exact ⟨_, rfl⟩
            | cons d rest ihd =>
              intro c acc hps hrs
              unfold buildArgs
              cases hg : c.providerSet.GetFor d with
              | error e => exact ⟨_, rfl⟩
              | ok q =>
                simp only
                have hpc : c.pending = (ctx.mark t).pending := by
                  unfold Context.pending
                  rw [hps, hrs, Context.mark_providerSet]
                obtain ⟨b, hb⟩ := ih q c d (ProviderSet.GetFor_mem_keys _ _ _ hg)
                  (by rw [hpc]; omega)
                rw [hb]
                obtain ⟨c1, v, oe⟩ := b
                obtain ⟨new, hgr⟩ := Provider.Build_grows _ _ _ _ _ hb
                cases oe with
                | some e => exact ⟨_, rfl⟩
                | none =>
                  exact ihd c1 _ (hgr.2.1.trans hps) (hgr.2.2.1.trans hrs)
          obtain ⟨a, ha⟩ := loop deps (ctx.mark t) [] rfl rfl
          rw [ha]
          obtain ⟨ctx2, res⟩ := a
          cases res with
          | error e => exact ⟨_, rfl⟩
          | ok inArgs =>
            simp only
            split <;> exact ⟨_, rfl⟩

/-! ## The options and the context of a call -/

theorem ProviderSet.Overwrite_value (ps : ProviderSet) (T : Ty) (val : Val) :
    ps.Overwrite (newValueProvider T val) = some (ps.overwriteAt T (.value T val)) := rfl

theorem ContextOption.apply_overwrite (ctx : Context) (T : Ty) (val : Val) :
    (ContextOption.ProviderOverwrite T val).apply ctx =
      { ctx with providerSet := ctx.providerSet.overwriteAt T (.value T val) } := rfl

theorem ProviderSet.keys_overwriteAt (ps : ProviderSet) (T : Ty) (p : Provider) (k : Ty)
    (hk : k ∈ ps.keys) : k ∈ (ps.overwriteAt T p).keys := by
  unfold ProviderSet.keys at hk ⊢
  rw [List.mem_append] at hk ⊢
  rcases hk with hk | hk
  · exact Or.inl hk
  · right
    show k ∈ (mapStore ps.overwritten T p).map Prod.fst
    obtain ⟨e, he, rfl⟩ := List.mem_map.1 hk
    unfold mapStore
    rw [List.map_append, List.mem_append]
    by_cases h : e.1 = T
    · right; simp [h]
    · left
      exact List.mem_map.2 ⟨e, List.mem_filter.2 ⟨he, by simpa using h⟩, rfl⟩

theorem ContextOption.apply_frame (o : ContextOption) (ctx : Context) :
    (o.apply ctx).objectMap = ctx.objectMap ∧
    (o.apply ctx).resolvingTypes = ctx.resolvingTypes ∧
    (o.apply ctx).calls = ctx.calls ∧
    (o.apply ctx).providerSet.providerMap = ctx.providerSet.providerMap ∧
    (∀ k ∈ ctx.providerSet.keys, k ∈ (o.apply ctx).providerSet.keys) := by
  cases o with
  | NonSharedMode => exact ⟨rfl, rfl, rfl, rfl, fun _ h => h⟩
  | ProviderOverwrite T val =>
    rw [ContextOption.apply_overwrite]
    exact ⟨rfl, rfl, rfl, rfl, fun k hk => ProviderSet.keys_overwriteAt _ _ _ _ hk⟩

theorem applyOptions_frame (opts : List ContextOption) :
    ∀ ctx : Context, (applyOptions opts ctx).objectMap = ctx.objectMap ∧
    (applyOptions opts ctx).resolvingTypes = ctx.resolvingTypes ∧
    (applyOptions opts ctx).calls = ctx.calls ∧
    (applyOptions opts ctx).providerSet.providerMap = ctx.providerSet.providerMap ∧
    (∀ k ∈ ctx.providerSet.keys, k ∈ (applyOptions opts ctx).providerSet.keys) := by
  induction opts with
  | nil => intro ctx; exact ⟨rfl, rfl, rfl, rfl, fun _ h => h⟩
  | cons o rest ih =>
    intro ctx
    obtain ⟨h1, h2, h3, h4, h5⟩ := ih (o.apply ctx)
    obtain ⟨g1, g2, g3, g4, g5⟩ := o.apply_frame ctx
    exact ⟨h1.trans g1, h2.trans g2, h3.trans g3, h4.trans g4, fun k hk => h5 k (g5 k hk)⟩

@[simp] theorem Container.buildContext_objectMap (c : Container) (opts : List ContextOption) :
    (c.buildContext opts).objectMap = c.objectMap := (applyOptions_frame opts _).1

@[simp] theorem Container.buildContext_resolvingTypes (c : Container)
    (opts : List ContextOption) : (c.buildContext opts).resolvingTypes = fun _ => false :=
  (applyOptions_frame opts _).2.1

@[simp] theorem Container.buildContext_calls (c : Container) (opts : List ContextOption) :
    (c.buildContext opts).calls = [] := (applyOptions_frame opts _).2.2.1

/-- The two ways `container.Build` returns. -/
theorem Container.Build_eq_some (c : Container) (T : Ty) (opts : List ContextOption)
    (r : BuildResult) (h : c.Build T opts = some r) :
    (∃ e, c.providerSet.GetFor T = .error e ∧ r = ⟨c, .invalid, some e, []⟩) ∨
    (∃ p ctx1 v e, c.providerSet.GetFor T = .ok p ∧
      p.Build (c.buildContext opts).providerSet.fuel (c.buildContext opts) T
        = some (ctx1, v, e) ∧
      r = ⟨{ c with objectMap := ctx1.objectMap,
                    providerSet := c.providerSet.afterClone ctx1.providerSet },
            v, e, ctx1.calls⟩) := by
  unfold Container.Build at h
  cases hg : c.providerSet.GetFor T with
  | error e =>
    rw [hg] at h
    simp only [Option.some.injEq] at h
    exact Or.inl ⟨e, rfl, h.symm⟩
  | ok p =>
    rw [hg] at h
    simp only at h
    cases hb : p.Build (c.buildContext opts).providerSet.fuel (c.buildContext opts) T with
    | none => rw [hb] at h; cases h
    | some b =>
      obtain ⟨ctx1, v, e⟩ := b
      rw [hb] at h
      simp only [Option.some.injEq] at h
      exact Or.inr ⟨p, ctx1, v, e, rfl, hb, h.symm⟩

/-- Termination of `container.Build`: every call returns. -/
theorem Container.Build_terminates (c : Container) (T : Ty) (opts : List ContextOption) :
    ∃ r, c.Build T opts = some r := by
  unfold Container.Build
  cases hg : c.providerSet.GetFor T with
  | error e => exact ⟨_, rfl⟩
  | ok p =>
    simp only
    have hk : T ∈ (c.buildContext opts).providerSet.keys :=
      (applyOptions_frame opts _).2.2.2.2 T (ProviderSet.GetFor_mem_keys _ _ _ hg)
    obtain ⟨b, hb⟩ := Provider.Build_returns (c.buildContext opts).providerSet.fuel p
      (c.buildContext opts) T hk
      (Nat.lt_succ_of_le (c.buildContext opts).pending_le)
    rw [hb]
    exact ⟨_, rfl⟩

/-! ## Lookups in the registry of a call -/

theorem lookup_filter_ne {β : Type} (m : List (Ty × β)) (k t : Ty) :
    (m.filter (fun e => e.1 != k)).lookup t = if t = k then none else m.lookup t := by
  induction m with
  | nil => simp
  | cons e rest ih =>
    obtain ⟨k', v'⟩ := e
    by_cases hk : k' = k
    · subst hk
      simp only [List.filter_cons, bne_self_eq_false, Bool.false_eq_true, if_false, ih]
      by_cases ht : t = k'
      · simp [ht]
      · have : (t == k') = false := by simpa using ht
        simp [ht, List.lookup_cons, this]
    · have hb : (k' != k) = true := by simpa using hk
      simp only [List.filter_cons, hb, if_true, List.lookup_cons, ih]
      by_cases ht : t = k'
      · subst ht; simp [hk]
      · have : (t == k') = false := by simpa using ht
        simp [this]

theorem lookup_append {β : Type} (m n : List (Ty × β)) (t : Ty) :
    (m ++ n).lookup t = (m.lookup t).or (n.lookup t) := by
  induction m with
  | nil => simp
  | cons e rest ih =>
    obtain ⟨k', v'⟩ := e
    by_cases ht : t = k'
    · subst ht; simp [List.lookup_cons]
    · have : (t == k') = false := by simpa using ht
      simp [List.lookup_cons, this, ih]

theorem lookup_mapStore {β : Type} (m : List (Ty × β)) (k t : Ty) (v : β) :
    (mapStore m k v).lookup t = if t = k then some v else m.lookup t := by
  unfold mapStore
  rw [lookup_append, lookup_filter_ne]
  by_cases ht : t = k
  · subst ht; simp [List.lookup_cons]
  · have : (t == k) = false := by simpa using ht
    simp [ht, List.lookup_cons, this]

/-- The lookup `GetFor` without its length test (an empty layer has no
entry to find). -/
theorem ProviderSet.GetFor_eq (ps : ProviderSet) (t : Ty) :
    ps.GetFor t =
      match ps.overwritten.lookup t with
      | some prov => .ok prov
      | none =>
        match ps.providerMap.lookup t with
        | some prov => .ok prov
        | none => .error (.providerNotFound t) := by
  unfold ProviderSet.GetFor
  by_cases h : ps.overwritten.length > 0
  · simp only [h, if_true]
  · have : ps.overwritten = [] := by
      cases hl : ps.overwritten with
      | nil => rfl
      | cons a b => rw [hl] at h; simp at h
    simp [this]

theorem ProviderSet.overwritten_overwriteAt (ps : ProviderSet) (k : Ty) (p : Provider) :
    (ps.overwriteAt k p).overwritten = mapStore ps.overwritten k p := rfl

theorem ProviderSet.GetFor_overwriteAt (ps : ProviderSet) (k t : Ty) (p : Provider) :
    (ps.overwriteAt k p).GetFor t = if t = k then .ok p else ps.GetFor t := by
  rw [ProviderSet.GetFor_eq, ProviderSet.GetFor_eq, ProviderSet.overwritten_overwriteAt,
    lookup_mapStore]
  by_cases ht : t = k
  · simp [ht]
  · simp only [ht, if_false]
    rfl

theorem ProviderSet.shallowClone_eq (ps : ProviderSet) : ps.shallowClone = ps := rfl

/-- The registry of a call after its options: a type overwritten by an
option has the literal of the last such option, any other type has what the
registry had before. -/
theorem applyOptions_GetFor (opts : List ContextOption) :
    ∀ (ctx : Context) (t : Ty), (applyOptions opts ctx).providerSet.GetFor t =
      match lastOverwrite opts t with
      | some v => .ok (.value t v)
      | none => ctx.providerSet.GetFor t := by
  induction opts with
  | nil => intro ctx t; rfl
  | cons o rest ih =>
    intro ctx t
    show (applyOptions rest (o.apply ctx)).providerSet.GetFor t = _
    rw [ih]
    cases o with
    | NonSharedMode => rfl
    | ProviderOverwrite T val =>
      simp only [lastOverwrite]
      cases lastOverwrite rest t with
      | some v => rfl
      | none =>
        simp only [ContextOption.apply_overwrite, ProviderSet.GetFor_overwriteAt]
        by_cases ht : t = T
        · subst ht; simp
        · simp [ht]

theorem applyOptions_sharedMode (opts : List ContextOption) :
    ∀ ctx : Context, (applyOptions opts ctx).sharedMode =
      (ctx.sharedMode && !hasNonSharedMode opts) := by
  induction opts with
  | nil => intro ctx; simp [applyOptions, hasNonSharedMode]
  | cons o rest ih =>
    intro ctx
    show (applyOptions rest (o.apply ctx)).sharedMode = _
    rw [ih]
    cases o with
    | NonSharedMode => simp [ContextOption.apply, hasNonSharedMode]
    | ProviderOverwrite T val => simp [ContextOption.apply_overwrite, hasNonSharedMode]

/-- The registry of a `Build` call gives, for a type, the literal of the
last overwrite of that type among the options, and otherwise what the
container's registry gives. -/
theorem Container.buildContext_GetFor (c : Container) (opts : List ContextOption) (t : Ty) :
    (c.buildContext opts).providerSet.GetFor t =
      match lastOverwrite opts t with
      | some v => .ok (.value t v)
      | none => c.providerSet.GetFor t :=
  applyOptions_GetFor opts c.newContext t

theorem Container.buildContext_sharedMode (c : Container) (opts : List ContextOption) :
    (c.buildContext opts).sharedMode = (c.sharedMode && !hasNonSharedMode opts) :=
  applyOptions_sharedMode opts c.newContext

/-- A function provider found in the registry of a call is the one the
container's registry holds. -/
theorem Container.buildContext_GetFor_func (c : Container) (opts : List ContextOption)
    (t : Ty) (deps : List Ty) (out : Ty) (call : List Val → Val × Option Err)
    (h : (c.buildContext opts).providerSet.GetFor t = .ok (.func deps out call)) :
    c.providerSet.GetFor t = .ok (.func deps out call) := by
  rw [Container.buildContext_GetFor] at h
  cases hl : lastOverwrite opts t with
  | some v => rw [hl] at h; cases h
  | none => rw [hl] at h; exact h

/-! ## Reasoning about `resolve` by cases of its execution -/

/-- Case analysis of an execution of `container.resolve` and of its child
loop. -/
theorem resolve_cases
    (Q : Context → Ty → Context × Except Err DependencyGraph → Prop)
    (QA : Context → List Ty → List DependencyGraph →
      Context × Except Err (List DependencyGraph) → Prop)
    (hCirc : ∀ ctx t, ctx.resolvingTypes t = true →
      Q ctx t (ctx, .error (.circularDependency t)))
    (hMissing : ∀ ctx t e, ctx.resolvingTypes t = false →
      ctx.providerSet.GetFor t = .error e → Q ctx t (ctx.mark t, .error e))
    (hFail : ∀ ctx t p ctx2 e, ctx.resolvingTypes t = false →
      ctx.providerSet.GetFor t = .ok p →
      QA (ctx.mark t) p.DependentTypes [] (ctx2, .error e) → Q ctx t (ctx2, .error e))
    (hDone : ∀ ctx t p ctx2 deps, ctx.resolvingTypes t = false →
      ctx.providerSet.GetFor t = .ok p →
      QA (ctx.mark t) p.DependentTypes [] (ctx2, .ok deps) →
      Q ctx t (ctx2.unmark t, .ok (.mk t deps)))
    (hNil : ∀ ctx acc, QA ctx [] acc (ctx, .ok acc))
    (hChildErr : ∀ ctx d rest acc ctx1 e, Q ctx d (ctx1, .error e) →
      QA ctx (d :: rest) acc (ctx1, .error e))
    (hChildOk : ∀ ctx d rest acc ctx1 g r, Q ctx d (ctx1, .ok g) →
      QA ctx1 rest (acc ++ [g]) r → QA ctx (d :: rest) acc r)
    (fuel : Nat) :
    (∀ ctx t r, resolve fuel ctx t = some r → Q ctx t r) ∧
    (∀ ctx ds acc r, resolveDeps (resolve fuel) ctx ds acc = some r → QA ctx ds acc r) := by
  have loop : ∀ (res : Context → Ty → Option (Context × Except Err DependencyGraph)),
      (∀ ctx t r, res ctx t = some r → Q ctx t r) →
      ∀ ds ctx acc r, resolveDeps res ctx ds acc = some r → QA ctx ds acc r := by
    intro res hres ds
    induction ds with
    | nil =>
      intro ctx acc r h
      simp only [resolveDeps, Option.some.injEq] at h
      subst h
      exact hNil ctx acc
    | cons d rest ih =>
      intro ctx acc r h
      unfold resolveDeps at h
      cases hd : res ctx d with
      | none => rw [hd] at h; cases h
      | some b =>
        obtain ⟨ctx1, x⟩ := b
        rw [hd] at h
        cases x with
        | error e =>
          simp only [Option.some.injEq] at h
          subst h
          exact hChildErr ctx d rest acc ctx1 e (hres _ _ _ hd)
        | ok g =>
          simp only at h
          exact hChildOk ctx d rest acc ctx1 g r (hres _ _ _ hd) (ih _ _ _ h)
  have single : ∀ fuel ctx t r, resolve fuel ctx t = some r → Q ctx t r := by
    intro fuel
    induction fuel with
    | zero => intro ctx t r h; simp [resolve] at h
    | succ n ih =>
      intro ctx t r h
      unfold resolve at h
      cases hr : ctx.resolvingTypes t with
      | true =>
        rw [hr] at h
        simp only [if_true, Option.some.injEq] at h
        subst h
        exact hCirc ctx t hr
      | false =>
        rw [hr] at h
        simp only [Bool.false_eq_true, if_false, Context.mark_providerSet] at h
        cases hg : ctx.providerSet.GetFor t with
        | error e =>
          rw [hg] at h
          simp only [Option.some.injEq] at h
          subst h
          exact hMissing ctx t e hr hg
        | ok p =>
          rw [hg] at h
          simp only at h
          cases ha : resolveDeps (resolve n) (ctx.mark t) p.DependentTypes [] with
          | none => rw [ha] at h; cases h
          | some a =>
            obtain ⟨ctx2, x⟩ := a
            rw [ha] at h
            cases x with
            | error e =>
              simp only [Option.some.injEq] at h
              subst h
              exact hFail ctx t p ctx2 e hr hg (loop _ ih _ _ _ _ ha)
            | ok deps =>
              simp only [Option.some.injEq] at h
              subst h
              exact hDone ctx t p ctx2 deps hr hg (loop _ ih _ _ _ _ ha)
  exact ⟨single fuel, fun ctx ds acc r h => loop _ (single fuel) ds ctx acc r h⟩

theorem resolve_walked (fuel : Nat) :
    (∀ ctx t r, resolve fuel ctx t = some r → Walked ctx r.1 r.2.isOk) ∧
    (∀ ctx ds acc r, resolveDeps (resolve fuel) ctx ds acc = some r →
      Walked ctx r.1 r.2.isOk) := by
  refine resolve_cases (fun ctx _ r => Walked ctx r.1 r.2.isOk)
    (fun ctx _ _ r => Walked ctx r.1 r.2.isOk) ?_ ?_ ?_ ?_ ?_ ?_ ?_ fuel
  · intro ctx t _
    exact ⟨rfl, rfl, rfl, rfl, fun _ => rfl⟩
  · intro ctx t e _ _
    exact ⟨rfl, rfl, rfl, rfl, fun h => by simp [Except.isOk, Except.toBool] at h⟩
  · rintro ctx t p ctx2 e _ _ ⟨h1, h2, h3, h4, _⟩
    exact ⟨h1, h2, h3, h4, fun h => by simp [Except.isOk, Except.toBool] at h⟩
  · rintro ctx t p ctx2 deps hr _ ⟨h1, h2, h3, h4, h5⟩
    refine ⟨h1, h2, h3, h4, fun _ => ?_⟩
    have h5' := h5 rfl
    show Function.update ctx2.resolvingTypes t false = ctx.resolvingTypes
    rw [h5', Context.mark_resolvingTypes, Function.update_idem, ← hr, Function.update_eq_self]
  · intro ctx acc
    exact ⟨rfl, rfl, rfl, rfl, fun _ => rfl⟩
  · rintro ctx d rest acc ctx1 e ⟨h1, h2, h3, h4, _⟩
    exact ⟨h1, h2, h3, h4, fun h => by simp [Except.isOk, Except.toBool] at h⟩
  · rintro ctx d rest acc ctx1 g r ⟨h1, h2, h3, h4, h5⟩ ⟨g1, g2, g3, g4, g5⟩
    exact ⟨g1.trans h1, g2.trans h2, g3.trans h3, g4.trans h4,
      fun h => (g5 h).trans (h5 rfl)⟩

theorem resolveDeps_mono (r1 r2 : Context → Ty → Option (Context × Except Err DependencyGraph))
    (hb : ∀ ctx t r, r1 ctx t = some r → r2 ctx t = some r) :
    ∀ ds ctx acc r, resolveDeps r1 ctx ds acc = some r → resolveDeps r2 ctx ds acc = some r := by
  intro ds
  induction ds with
  | nil => intro ctx acc r h; simpa [resolveDeps] using h
  | cons d rest ih =>
    intro ctx acc r
    unfold resolveDeps
    cases h1 : r1 ctx d with
    | none => intro h; cases h
    | some b =>
      rw [hb _ _ _ h1]
      obtain ⟨ctx1, x⟩ := b
      cases x with
      | error e => exact id
      | ok g => exact ih _ _ _

theorem resolve_fuel_succ (fuel : Nat) :
    ∀ ctx t r, resolve fuel ctx t = some r → resolve (fuel + 1) ctx t = some r := by
  induction fuel with
  | zero => intro ctx t r h; simp [resolve] at h
  | succ n ih =>
    intro ctx t r
    rw [resolve, resolve]
    cases ctx.resolvingTypes t with
    | true => exact id
    | false =>
      simp only [Bool.false_eq_true, if_false]
      cases (ctx.mark t).providerSet.GetFor t with
      | error e => exact id
      | ok p =>
        simp only
        cases ha : resolveDeps (resolve n) (ctx.mark t) p.DependentTypes [] with
        | none => intro h; cases h
        | some a =>
          rw [resolveDeps_mono _ _ ih _ _ _ _ ha]
          exact id

/-- More fuel does not change the result of `resolve`. -/
theorem resolve_fuel_le {fuel fuel2 : Nat} (hle : fuel ≤ fuel2) (ctx : Context) (t : Ty)
    (r : Context × Except Err DependencyGraph) (h : resolve fuel ctx t = some r) :
    resolve fuel2 ctx t = some r := by
  induction hle with
  | refl => exact h
  | step _ ih => exact resolve_fuel_succ _ _ _ _ ih

/-- Termination of `resolve`: with more fuel than there are registry entries
not in progress, the walk returns. -/
theorem resolve_returns (fuel : Nat) :
    ∀ ctx t, ctx.pending < fuel → ∃ r, resolve fuel ctx t = some r := by
  induction fuel with
  | zero => intro ctx t h; omega
  | succ n ih =>
    intro ctx t hlt
    unfold resolve
    cases hr : ctx.resolvingTypes t with
    | true => exact ⟨_, rfl⟩
    | false =>
      simp only [Bool.false_eq_true, if_false, Context.mark_providerSet]
      cases hg : ctx.providerSet.GetFor t with
      | error e => exact ⟨_, rfl⟩
      | ok p =>
        simp only
        have hpend := ctx.pending_mark t (ProviderSet.GetFor_mem_keys _ _ _ hg) hr
        have loop : ∀ ds (c : Context) acc, c.providerSet = ctx.providerSet →
            c.resolvingTypes = (ctx.mark t).resolvingTypes →
            ∃ r, resolveDeps (resolve n) c ds acc = some r := by
          intro ds
          induction ds with
          | nil => intro c acc _ _; exact ⟨_, rfl⟩
          | cons d rest ihd =>
            intro c acc hps hrs
            unfold resolveDeps
            have hpc : c.pending = (ctx.mark t).pending := by
              unfold Context.pending
              rw [hps, hrs, Context.mark_providerSet]
            obtain ⟨b, hb⟩ := ih c d (by rw [hpc]; omega)
            rw [hb]
            obtain ⟨c1, x⟩ := b
            have hw := (resolve_walked n).1 _ _ _ hb
            cases x with
            | error e => exact ⟨_, rfl⟩
            | ok g => exact ihd c1 _ (hw.2.1.trans hps) ((hw.2.2.2.2 rfl).trans hrs)
        obtain ⟨a, ha⟩ := loop p.DependentTypes (ctx.mark t) [] rfl rfl
        rw [ha]
        obtain ⟨ctx2, x⟩ := a
        cases x with
        | error e => exact ⟨_, rfl⟩
        | ok deps => exact ⟨_, rfl⟩

/-- Termination of `container.Resolve`: every call returns. -/
theorem Container.Resolve_terminates (c : Container) (T : Ty) : ∃ r, c.Resolve T = some r := by
  obtain ⟨r, hr⟩ := resolve_returns c.resolveContext.providerSet.fuel c.resolveContext T
    (Nat.lt_succ_of_le c.resolveContext.pending_le)
  exact ⟨r.2, by show Option.map _ (resolve _ c.resolveContext T) = _; rw [hr]; rfl⟩

/-- The result of `container.Resolve` is the result of the walk with any
amount of fuel that gives one. -/
theorem Container.Resolve_of_fuel (c : Container) (T : Ty) (fuel : Nat) (ctx1 : Context)
    (x : Except Err DependencyGraph) (h : resolve fuel c.resolveContext T = some (ctx1, x)) :
    c.Resolve T = some x := by
  obtain ⟨r, hr⟩ := resolve_returns c.resolveContext.providerSet.fuel c.resolveContext T
    (Nat.lt_succ_of_le c.resolveContext.pending_le)
  have h1 := resolve_fuel_le (Nat.le_max_left fuel c.resolveContext.providerSet.fuel) _ _ _ h
  have h2 := resolve_fuel_le (Nat.le_max_right fuel c.resolveContext.providerSet.fuel) _ _ _ hr
  rw [h1] at h2
  cases h2
  show Option.map _ (resolve _ c.resolveContext T) = _
  rw [hr]
  rfl

/-! ## The arguments of every execution -/

theorem Later.self (a : Context) : Later a a := ⟨rfl, rfl, fun _ _ h => h, [], by simp⟩

theorem Later.chain {a b c : Context} (h1 : Later a b) (h2 : Later b c) : Later a c := by
  obtain ⟨s1, p1, o1, m1, c1⟩ := h1
  obtain ⟨s2, p2, o2, m2, c2⟩ := h2
  exact ⟨s2.trans s1, p2.trans p1, fun u x h => o2 u x (o1 u x h), m1 ++ m2,
    by rw [c2, c1, List.append_assoc]⟩

theorem Grows.later {a b : Context} {new : List CallRecord} (h : Grows a b new) : Later a b :=
  ⟨h.1, h.2.1, fun u x hu => h.mono u x hu, new, h.2.2.2.1⟩

theorem Later.unmark (a : Context) (t : Ty) : Later a (a.unmark t) :=
  ⟨rfl, rfl, fun _ _ h => h, [], by simp⟩

theorem Later.of_mark {a b : Context} {t : Ty} (h : Later (a.mark t) b) : Later a b := h

/-- The context a function provider leaves comes later than the one its
arguments left. -/
theorem Grows.later_finish {a b : Context} {new : List CallRecord} {t : Ty} (deps : List Ty)
    (inArgs : List Val) (result : Val × Option Err) (hc : a.cached t = none)
    (h : Grows (a.mark t) b new) : Later b ((b.finish t deps inArgs result).unmark t) := by
  refine ⟨rfl, rfl, ?_, [_], rfl⟩
  intro u x hu
  show (b.finish t deps inArgs result).objectMap u = some x
  rw [Context.finish_objectMap]
  split
  · rename_i hst
    simp only [Bool.and_eq_true, Option.isNone_iff_eq_none] at hst
    by_cases e : u = t
    · subst e
      exfalso
      have hs' : a.sharedMode = true := h.1.symm.trans hst.2
      have hat : a.objectMap u = none := by simpa [Context.cached, hs'] using hc
      rcases h.2.2.2.2.2.1 u with e1 | ⟨_, _, r, hmem, ht, _⟩
      · rw [e1] at hu
        have : a.objectMap u = some x := hu
        rw [hat] at this; cases this
      · exact h.target_ne r hmem ht
    · rw [Function.update_noteq e]; exact hu
  · exact hu

/-- The arguments of the executions of a build. Let `H` be a condition on
contexts kept by marking and by growth, and `P` a property of a type and a
value in a context, kept by later contexts, that every successful build of
a dependent type through its registered provider establishes under `H`.
Then in every execution logged by a build started under `H`, each parameter
position holds an argument satisfying `P` in the context the build
leaves. -/
theorem Provider.Build_args (H : Context → Prop) (P : Context → Ty → Val → Prop)
    (hHmark : ∀ a t, H a → H (a.mark t))
    (hHgrow : ∀ a b new, Grows a b new → H a → H b)
    (hPlater : ∀ a b d v, Later a b → P a d v → P b d v)
    (hBuild : ∀ n p ctx d ctx1 v, H ctx → ctx.providerSet.GetFor d = .ok p →
      Provider.Build n p ctx d = some (ctx1, v, none) → P ctx1 d v)
    (fuel : Nat) (p : Provider) (ctx : Context) (t : Ty) (r : Built)
    (h : Provider.Build fuel p ctx t = some r) (hH : H ctx) :
    ∃ new, Grows ctx r.1 new ∧ ∀ x ∈ new, ArgsSatisfy (P r.1) x := by
  refine Exists.imp (fun new hx => ⟨hx.1, hx.2 hH⟩) ((Provider.Build_cases_grows
    (fun _ ctx _ r new => H ctx → ∀ x ∈ new, ArgsSatisfy (P r.1) x)
    (fun ctx ds acc r new => H ctx → (∀ x ∈ new, ArgsSatisfy (P r.1) x) ∧
      ∀ args, r.2 = .ok args → ∃ vs, args = acc ++ vs ∧
        ∀ i d, ds.get? i = some d → ∃ v, vs.get? i = some v ∧ P r.1 d v)
    ?_ ?_ ?_ ?_ ?_ ?_ ?_ ?_ ?_ ?_ ?_ fuel).1 p ctx t r h)
  · intro T sv ctx t _ x hx; simp at hx
  · intro tts sv ctx t _ x hx; simp at hx
  · intro deps out call ctx t v _ _ x hx; simp at hx
  · intro deps out call ctx t _ _ _ x hx; simp at hx
  · intro deps out call ctx t ctx2 e new _ _ _ hqa hH x hx i d hd
    obtain ⟨v, hv, hP⟩ := (hqa (hHmark _ _ hH)).1 x hx i d hd
    exact ⟨v, hv, hPlater _ _ _ _ (Later.unmark ctx2 t) hP⟩
  · intro deps out call ctx t ctx2 inArgs new hc _ hgr hqa _ hH x hx i d hd
    obtain ⟨h1, h2⟩ := hqa (hHmark _ _ hH)
    have hl := hgr.later_finish deps inArgs (call inArgs) hc
    rcases List.mem_append.1 hx with hx | hx
    · obtain ⟨v, hv, hP⟩ := h1 x hx i d hd
      exact ⟨v, hv, hPlater _ _ _ _ hl hP⟩
    · simp only [List.mem_singleton] at hx
      subst hx
      obtain ⟨vs, hvs, hall⟩ := h2 inArgs rfl
      rw [List.nil_append] at hvs
      subst hvs
      obtain ⟨v, hv, hP⟩ := hall i d hd
      exact ⟨v, hv, hPlater _ _ _ _ hl hP⟩
  · intro deps out call ctx t ctx2 inArgs new _ _ _ hqa _ hH x hx i d hd
    obtain ⟨v, hv, hP⟩ := (hqa (hHmark _ _ hH)).1 x hx i d hd
    exact ⟨v, hv, hPlater _ _ _ _ (Later.unmark ctx2 t) hP⟩
  · intro ctx acc _
    refine ⟨fun x hx => by simp at hx, fun args ha => ⟨[], ?_, fun i d hd => by simp at hd⟩⟩
    cases ha
    simp
  · intro ctx d rest acc e _ _
    exact ⟨fun x hx => by simp at hx, fun args ha => by cases ha⟩
  · intro ctx d rest acc p ctx1 v e new _ _ _ hq hH
    exact ⟨hq hH, fun args ha => by cases ha⟩
  · intro ctx d rest acc p ctx1 v r n1 n2 hg hrun hg1 hq hg2 hqa hH
    obtain ⟨n, hn⟩ := hrun
    have hPv := hBuild n p ctx d ctx1 v hH hg hn
    obtain ⟨h1, h2⟩ := hqa (hHgrow _ _ _ hg1 hH)
    refine ⟨fun x hx => ?_, fun args ha => ?_⟩
    · rcases List.mem_append.1 hx with hx | hx
      · intro i d' hd
        obtain ⟨w, hw, hP⟩ := hq hH x hx i d' hd
        exact ⟨w, hw, hPlater _ _ _ _ hg2.later hP⟩
      · exact h1 x hx
    · obtain ⟨vs, hvs, hall⟩ := h2 args ha
      refine ⟨v :: vs, by rw [hvs]; simp, fun i d' hd => ?_⟩
      cases i with
      | zero =>
        simp only [List.get?_cons_zero, Option.some.injEq] at hd
        subst hd
        exact ⟨v, rfl, hPlater _ _ _ _ hg2.later hPv⟩
      | succ j =>
        simp only [List.get?_cons_succ] at hd ⊢
        exact hall j d' hd

/-! ## The errors of the executions of a build -/

theorem ErrorsLast.clean {b : Context} {new : List CallRecord} (h : ErrorsLast b new none) :
    ∀ y ∈ new, y.err = none := by
  intro y hy
  rcases h y hy with h1 | ⟨h2, _⟩
  · exact h1
  · exact h2.symm

theorem ErrorsLast.append {c : Context} {n1 n2 : List CallRecord} {e : Option Err}
    (h1 : ∀ y ∈ n1, y.err = none) (h2 : ErrorsLast c n2 e) : ErrorsLast c (n1 ++ n2) e := by
  intro y hy
  rcases List.mem_append.1 hy with hy | hy
  · exact Or.inl (h1 y hy)
  · rcases h2 y hy with h | ⟨he, hc, init, hn, hcl⟩
    · exact Or.inl h
    · refine Or.inr ⟨he, hc, n1 ++ init, by rw [hn, List.append_assoc], ?_⟩
      intro z hz
      rcases List.mem_append.1 hz with hz | hz
      · exact h1 z hz
      · exact hcl z hz

/-- Every build keeps the error discipline. -/
theorem Provider.Build_errorsLast (fuel : Nat) (p : Provider) (ctx : Context) (t : Ty)
    (r : Built) (h : Provider.Build fuel p ctx t = some r) :
    ∃ new, Grows ctx r.1 new ∧ ErrorsLast r.1 new r.2.2 := by
  refine (Provider.Build_cases_grows
    (fun _ _ _ r new => ErrorsLast r.1 new r.2.2)
    (fun _ _ _ r new => ErrorsLast r.1 new (loopErr r.2))
    ?_ ?_ ?_ ?_ ?_ ?_ ?_ ?_ ?_ ?_ ?_ fuel).1 p ctx t r h
  · intro T sv ctx t y hy; simp at hy
  · intro tts sv ctx t y hy; simp at hy
  · intro deps out call ctx t v _ y hy; simp at hy
  · intro deps out call ctx t _ _ y hy; simp at hy
  · intro deps out call ctx t ctx2 e new _ _ _ hqa y hy
    rcases hqa y hy with h | ⟨he, hc, hrest⟩
    · exact Or.inl h
    · exact Or.inr ⟨he, by simpa using hc, hrest⟩
  · intro deps out call ctx t ctx2 inArgs new hc hr hgr hqa _ y hy
    have hclean : ∀ z ∈ new, z.err = none := ErrorsLast.clean hqa
    rcases List.mem_append.1 hy with hy | hy
    · exact Or.inl (hclean y hy)
    · simp only [List.mem_singleton] at hy
      subst hy
      cases he : (call inArgs).2 with
      | none => exact Or.inl rfl
      | some e =>
        refine Or.inr ⟨rfl, ?_, new, rfl, hclean⟩
        show ((ctx2.finish t deps inArgs (call inArgs)).unmark t).cached t = none
        unfold Context.cached
        simp only [Context.unmark_sharedMode, Context.finish_sharedMode,
          Context.unmark_objectMap, Context.finish_objectMap, he, Option.isNone_some,
          Bool.false_and, Bool.false_eq_true, if_false]
        by_cases hs : ctx2.sharedMode = true
        · simp only [hs, if_true]
          have hs' : ctx.sharedMode = true := hgr.1.symm.trans hs
          have hat : ctx.objectMap t = none := by simpa [Context.cached, hs'] using hc
          rcases hgr.2.2.2.2.2.1 t with e1 | ⟨_, _, z, hmem, ht, _⟩
          · exact e1.trans hat
          · exact absurd ht (hgr.target_ne z hmem)
        · simp [hs]
  · intro deps out call ctx t ctx2 inArgs new _ _ _ hqa _ y hy
    exact Or.inl (ErrorsLast.clean hqa y hy)
  · intro ctx acc y hy; simp at hy
  · intro ctx d rest acc e _ y hy; simp at hy
  · intro ctx d rest acc p ctx1 v e new _ _ _ hq
    exact hq
  · intro ctx d rest acc p ctx1 v r n1 n2 _ _ _ hq _ hqa
    exact ErrorsLast.append (ErrorsLast.clean hq) hqa

/-! ## C1: a function provider calls its function on the built arguments -/

theorem BuiltInOrder.buildArgs_eq {build : Provider → Context → Ty → Option Built}
    {ctx ctx2 : Context} {ds : List Ty} {vs : List Val} (h : BuiltInOrder build ctx ds vs ctx2)
    (acc : List Val) : buildArgs build ctx ds acc = some (ctx2, .ok (acc ++ vs)) := by
  induction h generalizing acc with
  | nil ctx => simp [buildArgs]
  | cons hp hb _ ih =>
    unfold buildArgs
    rw [hp]
    simp only [hb]
    rw [ih]
    simp

theorem BuiltInOrder.length_eq {build : Provider → Context → Ty → Option Built}
    {ctx ctx2 : Context} {ds : List Ty} {vs : List Val} (h : BuiltInOrder build ctx ds vs ctx2) :
    vs.length = ds.length := by
  induction h with
  | nil ctx => rfl
  | cons _ _ _ ih => simp [ih]

/-- What `funcProvider.Build` returns on a cache miss for a type not in
progress once its arguments are built. -/
theorem Provider.Build_func_ok (fuel : Nat) (deps : List Ty) (out : Ty)
    (call : List Val → Val × Option Err) (ctx ctx2 : Context) (t : Ty) (inArgs : List Val)
    (hc : ctx.cached t = none) (hr : ctx.resolvingTypes t = false)
    (ha : buildArgs (Provider.Build fuel) (ctx.mark t) deps [] = some (ctx2, .ok inArgs))
    (hv : inArgs.all Val.IsValid = true) :
    Provider.Build (fuel + 1) (.func deps out call) ctx t =
      some ((ctx2.finish t deps inArgs (call inArgs)).unmark t,
        (call inArgs).1, (call inArgs).2) := by
  unfold Provider.Build
  rw [hc]
  simp only [hr, Bool.false_eq_true, if_false, ha, hv, if_true]

/-- What `funcProvider.Build` returns when one of the built arguments is the
zero `reflect.Value`: the call panics. -/
theorem Provider.Build_func_panic (fuel : Nat) (deps : List Ty) (out : Ty)
    (call : List Val → Val × Option Err) (ctx ctx2 : Context) (t : Ty) (inArgs : List Val)
    (hc : ctx.cached t = none) (hr : ctx.resolvingTypes t = false)
    (ha : buildArgs (Provider.Build fuel) (ctx.mark t) deps [] = some (ctx2, .ok inArgs))
    (hv : inArgs.all Val.IsValid = false) :
    Provider.Build (fuel + 1) (.func deps out call) ctx t =
      some (ctx2.unmark t, .invalid, some .panicked) := by
  unfold Provider.Build
  rw [hc]
  simp only [hr, Bool.false_eq_true, if_false, ha, hv]

/-- The result of `container.Build` is the result of the provider's `Build`
with any amount of fuel that gives one. -/
theorem Container.Build_of_fuel (c : Container) (T : Ty) (opts : List ContextOption)
    (p : Provider) (fuel : Nat) (ctx1 : Context) (v : Val) (e : Option Err)
    (hp : c.providerSet.GetFor T = .ok p)
    (hb : p.Build fuel (c.buildContext opts) T = some (ctx1, v, e)) :
    c.Build T opts =
      some ⟨{ c with objectMap := ctx1.objectMap,
                     providerSet := c.providerSet.afterClone ctx1.providerSet },
        v, e, ctx1.calls⟩ := by
  obtain ⟨r, hr⟩ := c.Build_terminates T opts
  rcases c.Build_eq_some T opts r hr with ⟨e', hg, _⟩ | ⟨p', ctx1', v', e', hg, hb', hr'⟩
  · rw [hp] at hg; cases hg
  · rw [hp] at hg
    cases hg
    have h1 := Provider.Build_fuel_le (Nat.le_max_left fuel
      (c.buildContext opts).providerSet.fuel) _ _ _ _ hb
    have h2 := Provider.Build_fuel_le (Nat.le_max_right fuel
      (c.buildContext opts).providerSet.fuel) _ _ _ _ hb'
    rw [h1] at h2
    cases h2
    rw [hr, hr']

/-- When the built arguments hold no zero `reflect.Value`: in a container
whose registry holds for `T` a factory `call` with parameter types `deps`, on
a cache miss, if each parameter type is built successfully in order through
the call's context (provider looked up in the per-call registry), giving the
values `args`, then `Build(T)` returns the first value `call` returns on
exactly `args` (as many values as there are parameters), together with its
error value, and `call` is executed exactly once for `T`: its execution ends
the log and no earlier one is for `T`. -/
theorem Container.Build_calls_factory (c : Container) (T : Ty)
    (opts : List ContextOption) (deps : List Ty) (out : Ty)
    (call : List Val → Val × Option Err) (fuel : Nat) (args : List Val) (ctx2 : Context)
    (hreg : c.providerSet.GetFor T = .ok (.func deps out call))
    (hmiss : (c.buildContext opts).cached T = none)
    (hargs : BuiltInOrder (Provider.Build fuel) ((c.buildContext opts).mark T) deps args ctx2)
    (hv : args.all Val.IsValid = true) :
    ∃ r, c.Build T opts = some r ∧ r.value = (call args).1 ∧ r.err = (call args).2 ∧
      args.length = deps.length ∧
      r.calls = ctx2.calls ++ [⟨T, deps, args, (call args).1, (call args).2⟩] ∧
      ∀ x ∈ ctx2.calls, x.target ≠ T := by
  have ha := hargs.buildArgs_eq []
  rw [List.nil_append] at ha
  have hres : (c.buildContext opts).resolvingTypes T = false := by simp
  have hb := Provider.Build_func_ok fuel deps out call _ ctx2 T args hmiss hres ha hv
  refine ⟨_, c.Build_of_fuel T opts _ _ _ _ _ hreg hb, rfl, rfl, hargs.length_eq, rfl, ?_⟩
  obtain ⟨new, hg⟩ := buildArgs_grows _ _ _ _ _ ha
  intro x hx
  have hcalls : ctx2.calls = ((c.buildContext opts).mark T).calls ++ new := hg.2.2.2.1
  rw [Context.mark_calls, Container.buildContext_calls, List.nil_append] at hcalls
  exact hg.target_ne x (hcalls ▸ hx)

/-- When one of the built arguments is the zero `reflect.Value`: in the
situation of `Container.Build_calls_factory`, `Build(T)` panics; the
factory of `T` is not executed. -/
theorem Container.Build_panics_on_zero (c : Container) (T : Ty)
    (opts : List ContextOption) (deps : List Ty) (out : Ty)
    (call : List Val → Val × Option Err) (fuel : Nat) (args : List Val) (ctx2 : Context)
    (hreg : c.providerSet.GetFor T = .ok (.func deps out call))
    (hmiss : (c.buildContext opts).cached T = none)
    (hargs : BuiltInOrder (Provider.Build fuel) ((c.buildContext opts).mark T) deps args ctx2)
    (hv : args.all Val.IsValid = false) :
    ∃ r, c.Build T opts = some r ∧ r.value = .invalid ∧ r.err = some .panicked ∧
      r.calls = ctx2.calls ∧ ∀ x ∈ r.calls, x.target ≠ T := by
  have ha := hargs.buildArgs_eq []
  rw [List.nil_append] at ha
  have hres : (c.buildContext opts).resolvingTypes T = false := by simp
  have hb := Provider.Build_func_panic fuel deps out call _ ctx2 T args hmiss hres ha hv
  refine ⟨_, c.Build_of_fuel T opts _ _ _ _ _ hreg hb, rfl, rfl, rfl, ?_⟩
  obtain ⟨new, hg⟩ := buildArgs_grows _ _ _ _ _ ha
  intro x hx
  have hcalls : ctx2.calls = ((c.buildContext opts).mark T).calls ++ new := hg.2.2.2.1
  rw [Context.mark_calls, Container.buildContext_calls, List.nil_append] at hcalls
  exact hg.target_ne x (hcalls ▸ hx)

/-- C1 fails on the code when a parameter type is supplied by the literal
of a nil interface value, which `reflect.ValueOf` turns into the zero
`reflect.Value`. In `pairContainer`, whose factory for type 1 takes type 2,
the call `Build(1)` given `ProviderOverwrite` of the nil value as type 2
builds the parameter type successfully (the literal provider returns the
zero value and no error), and then panics in `p.sourceVal.Call`: the
factory of type 1 is not executed and no value is returned. A factory that
is a nil function value panics in the same call. With a literal that is not
nil the same call executes the factory once on the literal and returns its
result, and on the example of the specification `Build(1)` returns the
object made of the object of type 2 (itself made of the literal of type 4)
and of the literal of type 3. -/
theorem C1_nil_argument_panics :
    (∃ ctx2, BuiltInOrder (Provider.Build 1)
      ((pairContainer.buildContext [.ProviderOverwrite 2 .invalid]).mark 1) [2] [.invalid]
      ctx2) ∧
    (∃ r, pairContainer.Build 1 [.ProviderOverwrite 2 .invalid] = some r ∧
      r.value = .invalid ∧ r.err = some .panicked ∧ r.calls = []) ∧
    (∃ r, (containerOf [(1, .func [] 1 nilFunc)]).Build 1 [] = some r ∧
      r.err = some .panicked ∧ r.container.Get 1 = (.invalid, some (.objectNotFound 1))) ∧
    (∃ r, pairContainer.Build 1 [.ProviderOverwrite 2 (.lit 7)] = some r ∧
      r.value = .obj 1 [.lit 7] ∧ r.err = none ∧
      r.calls = [⟨1, [2], [.lit 7], .obj 1 [.lit 7], none⟩]) ∧
    ∃ r, exampleContainer.Build 1 [] = some r ∧
      r.value = .obj 1 [.obj 2 [.lit 40], .lit 30] ∧ r.err = none ∧
      r.calls = [⟨2, [4], [.lit 40], .obj 2 [.lit 40], none⟩,
        ⟨1, [2, 3], [.obj 2 [.lit 40], .lit 30], .obj 1 [.obj 2 [.lit 40], .lit 30], none⟩] :=
  ⟨⟨_, .cons (p := .value 2 .invalid) rfl rfl (.nil _)⟩, ⟨_, rfl, rfl, rfl, rfl⟩,
    ⟨_, rfl, rfl, rfl⟩, ⟨_, rfl, rfl, rfl, rfl⟩, ⟨_, rfl, rfl, rfl, rfl⟩⟩

/-! ## C2: types that depend on themselves -/

theorem Context.finish_cached_ne (c : Context) (t s : Ty) (ds : List Ty) (xs : List Val)
    (res : Val × Option Err) (h : s ≠ t) : (c.finish t ds xs res).cached s = c.cached s := by
  unfold Context.cached
  rw [Context.finish_sharedMode, Context.finish_objectMap]
  split
  · split
    · rw [Function.update_noteq h]
    · rfl
  · rfl

/-- While no type of a set of mutually dependent types is cached, no build
of one of them through its registered provider succeeds, and none of them
gets cached. -/
theorem Provider.Build_dependsWithin (ps : ProviderSet) (S : List Ty)
    (hS : DependsWithin ps S) (fuel : Nat) (p : Provider) (ctx : Context) (t : Ty) (r : Built)
    (h : Provider.Build fuel p ctx t = some r) (hps : ctx.providerSet = ps)
    (hun : ∀ s ∈ S, ctx.cached s = none) (hp : ctx.providerSet.GetFor t = .ok p) :
    (r.1.providerSet = ps ∧ ∀ s ∈ S, r.1.cached s = none) ∧ (t ∈ S → r.2.2 ≠ none) := by
  refine (Provider.Build_cases
    (fun p ctx t r => ctx.providerSet = ps → (∀ s ∈ S, ctx.cached s = none) →
      ctx.providerSet.GetFor t = .ok p →
      (r.1.providerSet = ps ∧ ∀ s ∈ S, r.1.cached s = none) ∧ (t ∈ S → r.2.2 ≠ none))
    (fun ctx ds _ r => ctx.providerSet = ps → (∀ s ∈ S, ctx.cached s = none) →
      (r.1.providerSet = ps ∧ ∀ s ∈ S, r.1.cached s = none) ∧
      ((∃ d ∈ ds, d ∈ S) → ∀ args, r.2 ≠ .ok args))
    ?_ ?_ ?_ ?_ ?_ ?_ ?_ ?_ ?_ ?_ ?_ fuel).1 p ctx t r h hps hun hp
  · intro T sv ctx t hps hun hp
    refine ⟨⟨hps, hun⟩, fun ht => ?_⟩
    obtain ⟨deps, out, call, hg, _⟩ := hS t ht
    rw [hps, hg] at hp
    cases hp
  · intro tts sv ctx t hps hun hp
    refine ⟨⟨hps, hun⟩, fun ht => ?_⟩
    obtain ⟨deps, out, call, hg, _⟩ := hS t ht
    rw [hps, hg] at hp
    cases hp
  · intro deps out call ctx t v hc hps hun hp
    refine ⟨⟨hps, hun⟩, fun ht => ?_⟩
    rw [hun t ht] at hc
    cases hc
  · intro deps out call ctx t hc hr hps hun hp
    exact ⟨⟨hps, hun⟩, fun _ => by simp⟩
  · intro deps out call ctx t ctx2 e hc hr hqa hps hun hp
    obtain ⟨⟨h1, h2⟩, _⟩ := hqa hps hun
    exact ⟨⟨h1, h2⟩, fun _ => by simp⟩
  · intro deps out call ctx t ctx2 inArgs hc hr hqa _ hps hun hp
    obtain ⟨⟨h1, h2⟩, h3⟩ := hqa hps hun
    have hnot : t ∉ S := by
      intro ht
      obtain ⟨deps', out', call', hg, hd⟩ := hS t ht
      rw [hps, hg] at hp
      cases hp
      exact h3 hd inArgs rfl
    refine ⟨⟨h1, fun s hs => ?_⟩, fun ht => absurd ht hnot⟩
    have hne : s ≠ t := fun e => hnot (e ▸ hs)
    show ((ctx2.finish t deps inArgs (call inArgs)).unmark t).cached s = none
    rw [Context.unmark_cached, Context.finish_cached_ne _ _ _ _ _ _ hne]
    exact h2 s hs
  · intro deps out call ctx t ctx2 inArgs hc hr hqa _ hps hun hp
    obtain ⟨⟨h1, h2⟩, _⟩ := hqa hps hun
    exact ⟨⟨h1, h2⟩, fun _ => by simp⟩
  · intro ctx acc hps hun
    exact ⟨⟨hps, hun⟩, fun h => by simp at h⟩
  · intro ctx d rest acc e hg hps hun
    exact ⟨⟨hps, hun⟩, fun _ args h => by cases h⟩
  · intro ctx d rest acc p ctx1 v e hg _ hq hps hun
    obtain ⟨h1, _⟩ := hq hps hun hg
    exact ⟨h1, fun _ args h => by cases h⟩
  · intro ctx d rest acc p ctx1 v r hg _ hq hqa hps hun
    obtain ⟨⟨h1, h2⟩, h3⟩ := hq hps hun hg
    obtain ⟨h4, h5⟩ := hqa h1 h2
    refine ⟨h4, ?_⟩
    rintro ⟨x, hx, hxS⟩
    rcases List.mem_cons.1 hx with e | hx
    · subst e
      exact absurd rfl (h3 hxS)
    · exact h5 ⟨x, hx, hxS⟩

/-- No walk from a type of a set of mutually dependent types succeeds. -/
theorem resolve_dependsWithin (ps : ProviderSet) (S : List Ty) (hS : DependsWithin ps S)
    (fuel : Nat) (ctx : Context) (t : Ty) (r : Context × Except Err DependencyGraph)
    (h : resolve fuel ctx t = some r) (hps : ctx.providerSet = ps) (ht : t ∈ S) :
    ∀ g, r.2 ≠ .ok g := by
  refine ((resolve_cases
    (fun ctx t r => ctx.providerSet = ps → r.1.providerSet = ps ∧ (t ∈ S → ∀ g, r.2 ≠ .ok g))
    (fun ctx ds _ r => ctx.providerSet = ps →
      r.1.providerSet = ps ∧ ((∃ d ∈ ds, d ∈ S) → ∀ gs, r.2 ≠ .ok gs))
    ?_ ?_ ?_ ?_ ?_ ?_ ?_ fuel).1 ctx t r h hps).2 ht
  · intro ctx t _ hps
    exact ⟨hps, fun _ g h => by cases h⟩
  · intro ctx t e _ _ hps
    exact ⟨hps, fun _ g h => by cases h⟩
  · intro ctx t p ctx2 e _ _ hqa hps
    exact ⟨(hqa hps).1, fun _ g h => by cases h⟩
  · intro ctx t p ctx2 deps _ hg hqa hps
    obtain ⟨h1, h2⟩ := hqa hps
    refine ⟨h1, fun ht => ?_⟩
    obtain ⟨deps', out', call', hg', hd⟩ := hS t ht
    rw [hps, hg'] at hg
    cases hg
    exact absurd rfl (h2 hd deps)
  · intro ctx acc hps
    exact ⟨hps, fun h => by simp at h⟩
  · intro ctx d rest acc ctx1 e hq hps
    exact ⟨(hq hps).1, fun _ g h => by cases h⟩
  · intro ctx d rest acc ctx1 g r hq hqa hps
    obtain ⟨h1, h2⟩ := hq hps
    obtain ⟨h3, h4⟩ := hqa h1
    refine ⟨h3, ?_⟩
    rintro ⟨x, hx, hxS⟩
    rcases List.mem_cons.1 hx with e | hx
    · subst e
      exact absurd rfl (h2 hxS g)
    · exact h4 ⟨x, hx, hxS⟩

theorem Provider.Build_func_circular (fuel : Nat) (deps : List Ty) (out : Ty)
    (call : List Val → Val × Option Err) (ctx : Context) (t : Ty)
    (hc : ctx.cached t = none) (hr : ctx.resolvingTypes t = true) :
    Provider.Build (fuel + 1) (.func deps out call) ctx t =
      some (ctx, .invalid, some (.circularDependency t)) := by
  unfold Provider.Build
  rw [hc]
  simp only [hr, if_true]

theorem Provider.Build_func_argfail (fuel : Nat) (deps : List Ty) (out : Ty)
    (call : List Val → Val × Option Err) (ctx ctx2 : Context) (t : Ty) (e : Err)
    (hc : ctx.cached t = none) (hr : ctx.resolvingTypes t = false)
    (ha : buildArgs (Provider.Build fuel) (ctx.mark t) deps [] = some (ctx2, .error e)) :
    Provider.Build (fuel + 1) (.func deps out call) ctx t =
      some (ctx2.unmark t, .invalid, some e) := by
  unfold Provider.Build
  rw [hc]
  simp only [hr, Bool.false_eq_true, if_false, ha]

theorem buildArgs_head_fail (build : Provider → Context → Ty → Option Built) (ctx ctx1 : Context)
    (d : Ty) (rest : List Ty) (acc : List Val) (p : Provider) (v : Val) (e : Err)
    (hg : ctx.providerSet.GetFor d = .ok p) (hb : build p ctx d = some (ctx1, v, some e)) :
    buildArgs build ctx (d :: rest) acc = some (ctx1, .error e) := by
  unfold buildArgs
  rw [hg]
  simp only [hb]

theorem resolve_circular (fuel : Nat) (ctx : Context) (t : Ty)
    (hr : ctx.resolvingTypes t = true) :
    resolve (fuel + 1) ctx t = some (ctx, .error (.circularDependency t)) := by
  unfold resolve
  simp only [hr, if_true]

theorem resolve_childfail (fuel : Nat) (ctx ctx2 : Context) (t : Ty) (p : Provider) (e : Err)
    (hr : ctx.resolvingTypes t = false) (hg : ctx.providerSet.GetFor t = .ok p)
    (ha : resolveDeps (resolve fuel) (ctx.mark t) p.DependentTypes [] = some (ctx2, .error e)) :
    resolve (fuel + 1) ctx t = some (ctx2, .error e) := by
  unfold resolve
  simp only [hr, Bool.false_eq_true, if_false, Context.mark_providerSet, hg, ha]

theorem resolveDeps_head_fail
    (res : Context → Ty → Option (Context × Except Err DependencyGraph)) (ctx ctx1 : Context)
    (d : Ty) (rest : List Ty) (acc : List DependencyGraph) (e : Err)
    (hb : res ctx d = some (ctx1, .error e)) :
    resolveDeps res ctx (d :: rest) acc = some (ctx1, .error e) := by
  unfold resolveDeps
  simp only [hb]

/-- C2 as stated fails. In `mutualContainer` type 1 depends on itself
through type 2, yet `Build(1)` given an overwrite for type 2 succeeds. In
`selfAfterMissingContainer` type 1 depends on itself, yet `Build(1)` and
`Resolve(1)` fail with `ErrNotFound` for type 9. In
`selfAfterCycleContainer` type 1 depends on itself, yet the
circular-dependency error of `Build(1)` and `Resolve(1)` names type 2. -/
theorem C2_counterexample :
    (DependsWithin mutualContainer.providerSet [1, 2] ∧
      ∃ r, mutualContainer.Build 1 [.ProviderOverwrite 2 (.lit 7)] = some r ∧
        r.value = .obj 1 [.lit 7] ∧ r.err = none) ∧
    (DependsWithin selfAfterMissingContainer.providerSet [1] ∧
      (∃ r, selfAfterMissingContainer.Build 1 [] = some r ∧
        r.err = some (.providerNotFound 9)) ∧
      selfAfterMissingContainer.Resolve 1 = some (.error (.providerNotFound 9))) ∧
    (DependsWithin selfAfterCycleContainer.providerSet [1, 2] ∧
      (∃ r, selfAfterCycleContainer.Build 1 [] = some r ∧
        r.err = some (.circularDependency 2)) ∧
      selfAfterCycleContainer.Resolve 1 = some (.error (.circularDependency 2))) := by
  refine ⟨⟨?_, _, rfl, rfl, rfl⟩, ⟨?_, ⟨_, rfl, rfl⟩, rfl⟩, ⟨?_, ⟨_, rfl, rfl⟩, rfl⟩⟩
  · intro s hs
    simp only [List.mem_cons, List.mem_singleton, List.not_mem_nil, or_false] at hs
    rcases hs with rfl | rfl
    · exact ⟨_, _, _, rfl, 2, by simp, by simp⟩
    · exact ⟨_, _, _, rfl, 1, by simp, by simp⟩
  · intro s hs
    simp only [List.mem_singleton] at hs
    subst hs
    exact ⟨_, _, _, rfl, 1, by simp, by simp⟩
  · intro s hs
    simp only [List.mem_cons, List.mem_singleton, List.not_mem_nil, or_false] at hs
    rcases hs with rfl | rfl
    · exact ⟨_, _, _, rfl, 1, by simp, by simp⟩
    · exact ⟨_, _, _, rfl, 2, by simp, by simp⟩

/-! ## C3: a cached instance is reused -/

theorem Provider.Build_func_hit (fuel : Nat) (deps : List Ty) (out : Ty)
    (call : List Val → Val × Option Err) (ctx : Context) (t : Ty) (v : Val)
    (hc : ctx.cached t = some v) :
    Provider.Build (fuel + 1) (.func deps out call) ctx t = some (ctx, v, none) := by
  unfold Provider.Build
  rw [hc]

/-- The four ways `funcProvider.Build` returns; the third is the failure of
an argument or the panic of the call on a zero argument. -/
theorem Provider.Build_func_inv (fuel : Nat) (deps : List Ty) (out : Ty)
    (call : List Val → Val × Option Err) (ctx : Context) (t : Ty) (r : Built)
    (h : Provider.Build fuel (.func deps out call) ctx t = some r) :
    (∃ v, ctx.cached t = some v ∧ r = (ctx, v, none)) ∨
    (ctx.cached t = none ∧ ctx.resolvingTypes t = true ∧
      r = (ctx, .invalid, some (.circularDependency t))) ∨
    (ctx.cached t = none ∧ ctx.resolvingTypes t = false ∧
      ∃ ctx2 e new, Grows (ctx.mark t) ctx2 new ∧ r = (ctx2.unmark t, .invalid, some e)) ∨
    (ctx.cached t = none ∧ ctx.resolvingTypes t = false ∧
      ∃ ctx2 inArgs new, Grows (ctx.mark t) ctx2 new ∧
        r = ((ctx2.finish t deps inArgs (call inArgs)).unmark t,
          (call inArgs).1, (call inArgs).2)) := by
  cases fuel with
  | zero => simp [Provider.Build] at h
  | succ n =>
    unfold Provider.Build at h
    cases hc : ctx.cached t with
    | some v =>
      rw [hc] at h
      exact Or.inl ⟨v, rfl, by simpa using h.symm⟩
    | none =>
      rw [hc] at h
      simp only at h
      cases hr : ctx.resolvingTypes t with
      | true =>
        rw [hr] at h
        exact Or.inr (Or.inl ⟨rfl, rfl, by simpa using h.symm⟩)
      | false =>
        rw [hr] at h
        simp only [Bool.false_eq_true, if_false] at h
        cases ha : buildArgs (Provider.Build n) (ctx.mark t) deps [] with
        | none => rw [ha] at h; cases h
        | some a =>
          obtain ⟨ctx2, res⟩ := a
          obtain ⟨new, hg⟩ := buildArgs_grows _ _ _ _ _ ha
          rw [ha] at h
          cases res with
          | error e =>
            exact Or.inr (Or.inr (Or.inl ⟨rfl, rfl, ctx2, e, new, hg, by simpa using h.symm⟩))
          | ok inArgs =>
            simp only at h
            cases hv : inArgs.all Val.IsValid with
            | true =>
              rw [hv] at h
              exact Or.inr (Or.inr (Or.inr ⟨rfl, rfl, ctx2, inArgs, new, hg,
                by simpa using h.symm⟩))
            | false =>
              rw [hv] at h
              exact Or.inr (Or.inr (Or.inl ⟨rfl, rfl, ctx2, .panicked, new, hg,
                by simpa using h.symm⟩))

/-- C3 as stated fails: after `Build(2)` has cached the instance of type 2
made by its factory, the shared-mode call `Build(1)` given an overwrite for
type 2 requires type 2 and passes the literal of the overwrite, not the
cached instance, to the factory of type 1. -/
theorem C3_counterexample :
    ∃ r1 r2, pairContainer.Build 2 [] = some r1 ∧
      r1.container.Get 2 = (.obj 2 [], none) ∧
      (r1.container.buildContext [.ProviderOverwrite 2 (.lit 7)]).sharedMode = true ∧
      r1.container.Build 1 [.ProviderOverwrite 2 (.lit 7)] = some r2 ∧
      r2.err = none ∧ r2.value = .obj 1 [.lit 7] ∧
      r2.calls.map (fun x => (x.target, x.deps, x.inArgs)) = [(1, [2], [.lit 7])] ∧
      Val.lit 7 ≠ Val.obj 2 [] :=
  ⟨_, _, rfl, rfl, rfl, rfl, rfl, rfl, rfl, by simp⟩

/-- C3, amended. Let the cache hold the instance `x` for type `X`. Whatever
call `Build(T)` is made next, the entry is there afterwards (and `Get(X)`
returns `x`); a walk of `Resolve` leaves it in place as well. If the call
runs in shared mode and its registry still supplies `X` by a factory (no
overwrite replaces it), then the call returns `x` when `T` is `X`, no
execution of the call is one of the factory of `X`, and every execution
that has a parameter of type `X` receives `x` for it. -/
theorem C3_cached_instance_reused (c : Container) (X : Ty) (x : Val) (T : Ty)
    (opts : List ContextOption) (r : BuildResult) (hx : c.objectMap X = some x)
    (hb : c.Build T opts = some r) :
    r.container.objectMap X = some x ∧ r.container.Get X = (x, none) ∧
    (∀ T' fuel w, resolve fuel c.resolveContext T' = some w → w.1.objectMap X = some x) ∧
    ((c.buildContext opts).sharedMode = true →
      (∃ deps out call,
        (c.buildContext opts).providerSet.GetFor X = .ok (.func deps out call)) →
      (T = X → r.value = x ∧ r.err = none) ∧
      ∀ y ∈ r.calls, y.target ≠ X ∧ ArgsSatisfy (fun d v => d = X → v = x) y) := by
  have hresolve : ∀ T' fuel w, resolve fuel c.resolveContext T' = some w →
      w.1.objectMap X = some x := by
    intro T' fuel w hw
    rw [((resolve_walked fuel).1 _ _ _ hw).2.2.1]
    exact hx
  rcases c.Build_eq_some T opts r hb with ⟨e, _, rfl⟩ | ⟨p, ctx1, v, e, hg, hbuild, rfl⟩
  · refine ⟨hx, by simp [Container.Get, hx], hresolve, fun hs hX => ⟨fun hT => ?_, ?_⟩⟩
    · subst hT
      obtain ⟨deps, out, call, hgX⟩ := hX
      rw [c.buildContext_GetFor_func opts _ deps out call hgX] at *
      simp_all
    · intro y hy; simp at hy
  · have hctx : (c.buildContext opts).objectMap X = some x := by simpa using hx
    obtain ⟨new0, hg0⟩ := Provider.Build_grows _ _ _ _ _ hbuild
    have hkeep : ctx1.objectMap X = some x := hg0.mono X x hctx
    refine ⟨hkeep, by simp [Container.Get, hkeep], hresolve, fun hs hX => ?_⟩
    obtain ⟨deps, out, call, hgX⟩ := hX
    obtain ⟨new, hgr, hargs⟩ := Provider.Build_args
      (fun a => a.sharedMode = true ∧ a.objectMap X = some x ∧
        a.providerSet.GetFor X = .ok (.func deps out call))
      (fun _ d v => d = X → v = x)
      (fun a t h => h)
      (fun a b new hg h => ⟨hg.1.trans h.1, hg.mono X x h.2.1, by rw [hg.2.1]; exact h.2.2⟩)
      (fun a b d v _ h => h)
      (fun n p ctx d ctx1 v hH hgd hrun hd => by
        subst hd
        rw [hH.2.2] at hgd
        cases hgd
        have hc : ctx.cached d = some x := by simp [Context.cached, hH.1, hH.2.1]
        rcases Provider.Build_func_inv _ _ _ _ _ _ _ hrun with ⟨v', hv', hr'⟩ | h2 | h3 | h4
        · rw [hc] at hv'
          cases hv'
          cases hr'
          rfl
        · rw [hc] at h2; cases h2.1
        · rw [hc] at h3; cases h3.1
        · rw [hc] at h4; cases h4.1)
      _ p _ T _ hbuild ⟨hs, hctx, hgX⟩
    have hcalls : ctx1.calls = new := by
      have := hgr.2.2.2.1
      simpa using this
    have hcX : (c.buildContext opts).cached X = some x := by
      simp [Context.cached, hs, hctx]
    refine ⟨fun hT => ?_, fun y hy => ⟨?_, hargs y (hcalls ▸ hy)⟩⟩
    · subst hT
      rw [c.buildContext_GetFor_func opts _ deps out call hgX] at hg
      cases hg
      rcases Provider.Build_func_inv _ _ _ _ _ _ _ hbuild with ⟨v', hv', hr'⟩ | h2 | h3 | h4
      · rw [hcX] at hv'
        cases hv'
        cases hr'
        exact ⟨rfl, rfl⟩
      · rw [hcX] at h2; cases h2.1
      · rw [hcX] at h3; cases h3.1
      · rw [hcX] at h4; cases h4.1
    · intro e
      have := (hgr.2.2.2.2.1 y (hcalls ▸ hy)).2
      rw [e, hcX] at this
      cases this

/-- C3, amended, on `cachedPairContainer`: `Build(1)` passes the instance
cached for type 2 to the factory of type 1 and does not execute the factory
of type 2. -/
theorem C3_cached_instance_reused_witness :
    ∃ r, cachedPairContainer.Build 1 [] = some r ∧ r.value = .obj 1 [.obj 2 []] ∧
      r.container.objectMap 2 = some (.obj 2 []) ∧
      ∀ y ∈ r.calls, y.target ≠ 2 ∧ ArgsSatisfy (fun d v => d = 2 → v = .obj 2 []) y :=
  ⟨_, rfl, rfl,
    (C3_cached_instance_reused cachedPairContainer 2 (.obj 2 []) 1 [] _ rfl rfl).1,
    ((C3_cached_instance_reused cachedPairContainer 2 (.obj 2 []) 1 [] _ rfl rfl).2.2.2 rfl
      ⟨_, _, _, rfl⟩).2⟩

/-! ## C4: what a shared-mode build leaves in the cache -/

/-- In shared mode a successful `funcProvider.Build` leaves the value it
returns in the cache under the target type. -/
theorem Provider.Build_func_stores (fuel : Nat) (deps : List Ty) (out : Ty)
    (call : List Val → Val × Option Err) (ctx ctx1 : Context) (t : Ty) (v : Val)
    (hs : ctx.sharedMode = true)
    (h : Provider.Build fuel (.func deps out call) ctx t = some (ctx1, v, none)) :
    ctx1.objectMap t = some v := by
  rcases Provider.Build_func_inv _ _ _ _ _ _ _ h with ⟨v', hv', hr'⟩ | h2 | h3 | h4
  · cases hr'
    simpa [Context.cached, hs] using hv'
  · cases h2.2.2
  · obtain ⟨_, _, ctx2, e, new, _, hr'⟩ := h3
    cases hr'
  · obtain ⟨_, _, ctx2, inArgs, new, hg, hr'⟩ := h4
    simp only [Prod.mk.injEq] at hr'
    obtain ⟨rfl, rfl, he⟩ := hr'
    have hs2 : ctx2.sharedMode = true := hg.1.trans hs
    show (ctx2.finish t deps inArgs (call inArgs)).objectMap t = _
    rw [Context.finish_objectMap, ← he, hs2]
    simp

theorem Container.Get_of_some (c : Container) (t : Ty) (v : Val)
    (h : c.objectMap t = some v) : c.Get t = (v, none) := by
  simp [Container.Get, h]

/-- C4: after a successful shared-mode `Build(T)`, `Get(T)` returns the
value `Build` returned when `T` is supplied by a factory; every successful
execution of a factory left its result under its target type; and in every
execution, the argument passed for a parameter whose type is supplied by a
factory is what `Get` returns for that type. -/
theorem C4_get_returns_built_instances (c : Container) (T : Ty) (opts : List ContextOption)
    (r : BuildResult) (hs : (c.buildContext opts).sharedMode = true)
    (hb : c.Build T opts = some r) (hok : r.err = none) :
    ((∃ deps out call, c.providerSet.GetFor T = .ok (.func deps out call)) →
      r.container.Get T = (r.value, none)) ∧
    (∀ y ∈ r.calls, y.err = none → r.container.Get y.target = (y.out, none)) ∧
    ∀ y ∈ r.calls, ArgsSatisfy (fun d v =>
      (∃ deps out call,
        (c.buildContext opts).providerSet.GetFor d = .ok (.func deps out call)) →
      r.container.Get d = (v, none)) y := by
  rcases c.Build_eq_some T opts r hb with ⟨e, _, rfl⟩ | ⟨p, ctx1, v, e, hg, hbuild, rfl⟩
  · cases hok
  · simp only at hok
    subst hok
    obtain ⟨new, hgr, hargs⟩ := Provider.Build_args
      (fun a => a.sharedMode = true ∧ a.providerSet = (c.buildContext opts).providerSet)
      (fun b d v => (∃ deps out call,
        (c.buildContext opts).providerSet.GetFor d = .ok (.func deps out call)) →
        b.objectMap d = some v)
      (fun a t h => h)
      (fun a b new hg h => ⟨hg.1.trans h.1, hg.2.1.trans h.2⟩)
      (fun a b d v hl h hf => hl.2.2.1 d v (h hf))
      (fun n p ctx d ctx1 v hH hgd hrun hf => by
        obtain ⟨deps, out, call, hf⟩ := hf
        rw [hH.2, hf] at hgd
        cases hgd
        exact Provider.Build_func_stores _ _ _ _ _ _ _ _ hH.1 hrun)
      _ p _ T _ hbuild ⟨hs, rfl⟩
    have hcalls : ctx1.calls = new := by simpa using hgr.2.2.2.1
    refine ⟨?_, ?_, ?_⟩
    · rintro ⟨deps, out, call, hf⟩
      rw [hf] at hg
      cases hg
      exact Container.Get_of_some _ _ _ (Provider.Build_func_stores _ _ _ _ _ _ _ _ hs hbuild)
    · intro y hy he
      exact Container.Get_of_some _ _ _ (hgr.2.2.2.2.2.2 y (hcalls ▸ hy) he hs)
    · intro y hy i d hd
      obtain ⟨w, hw, hP⟩ := hargs y (hcalls ▸ hy) i d hd
      exact ⟨w, hw, fun hf => Container.Get_of_some _ _ _ (hP hf)⟩

/-- C4 on the example of the specification: after `Build(1)`, `Get(1)` is
the value built, `Get(2)` is the object passed to the factory of type 1. -/
theorem C4_get_returns_built_instances_witness :
    ∃ r, exampleContainer.Build 1 [] = some r ∧ r.container.Get 1 = (r.value, none) ∧
      r.container.Get 2 = (.obj 2 [.lit 40], none) ∧
      ∀ y ∈ r.calls, ArgsSatisfy (fun d v =>
        (∃ deps out call,
          (exampleContainer.buildContext []).providerSet.GetFor d
            = .ok (.func deps out call)) →
        r.container.Get d = (v, none)) y :=
  ⟨_, rfl,
    (C4_get_returns_built_instances exampleContainer 1 [] _ rfl rfl rfl).1 ⟨_, _, _, rfl⟩,
    rfl,
    (C4_get_returns_built_instances exampleContainer 1 [] _ rfl rfl rfl).2.2⟩

/-! ## C5: which types a shared-mode build caches -/

/-- Every execution logged by a build is one of a function provider: the
one the build was asked of, or the one registered for the target type. -/
theorem Provider.Build_targets (fuel : Nat) (p : Provider) (ctx : Context) (t : Ty)
    (r : Built) (h : Provider.Build fuel p ctx t = some r) :
    ∃ new, Grows ctx r.1 new ∧ ∀ y ∈ new,
      (y.target = t ∧ ∃ deps out call, p = .func deps out call) ∨
      ∃ deps out call, ctx.providerSet.GetFor y.target = .ok (.func deps out call) := by
  refine (Provider.Build_cases_grows
    (fun p ctx t _ new => ∀ y ∈ new,
      (y.target = t ∧ ∃ deps out call, p = .func deps out call) ∨
      ∃ deps out call, ctx.providerSet.GetFor y.target = .ok (.func deps out call))
    (fun ctx _ _ _ new => ∀ y ∈ new,
      ∃ deps out call, ctx.providerSet.GetFor y.target = .ok (.func deps out call))
    ?_ ?_ ?_ ?_ ?_ ?_ ?_ ?_ ?_ ?_ ?_ fuel).1 p ctx t r h
  · intro T sv ctx t y hy; simp at hy
  · intro tts sv ctx t y hy; simp at hy
  · intro deps out call ctx t v _ y hy; simp at hy
  · intro deps out call ctx t _ _ y hy; simp at hy
  · intro deps out call ctx t ctx2 e new _ _ _ hqa y hy
    exact Or.inr (hqa y hy)
  · intro deps out call ctx t ctx2 inArgs new _ _ _ hqa _ y hy
    rcases List.mem_append.1 hy with hy | hy
    · exact Or.inr (hqa y hy)
    · simp only [List.mem_singleton] at hy
      subst hy
      exact Or.inl ⟨rfl, deps, out, call, rfl⟩
  · intro deps out call ctx t ctx2 inArgs new _ _ _ hqa _ y hy
    exact Or.inr (hqa y hy)
  · intro ctx acc y hy; simp at hy
  · intro ctx d rest acc e _ y hy; simp at hy
  · intro ctx d rest acc p ctx1 v e new hg _ _ hq y hy
    rcases hq y hy with ⟨ht, deps, out, call, hp⟩ | h
    · exact ⟨deps, out, call, by rw [ht, hg, hp]⟩
    · exact h
  · intro ctx d rest acc p ctx1 v r n1 n2 hg _ hg1 hq _ hqa y hy
    rcases List.mem_append.1 hy with hy | hy
    · rcases hq y hy with ⟨ht, deps, out, call, hp⟩ | h
      · exact ⟨deps, out, call, by rw [ht, hg, hp]⟩
      · exact h
    · obtain ⟨deps, out, call, hf⟩ := hqa y hy
      exact ⟨deps, out, call, by rw [← hg1.2.1]; exact hf⟩

/-- C5 as stated fails: in the example of the specification the successful
shared-mode `Build(1)` reaches the types 3 and 4, supplied by record fields,
and passes their values on, but `Get(3)` and `Get(4)` fail with
`ErrNotFound` afterwards; and after the successful `Build(3)` of the
requested type itself, `Get(3)` fails too. -/
theorem C5_counterexample :
    (∃ r, exampleContainer.Build 1 [] = some r ∧ r.err = none ∧
      (exampleContainer.buildContext []).sharedMode = true ∧
      r.calls.map (fun x => (x.target, x.deps, x.inArgs)) =
        [(2, [4], [.lit 40]), (1, [2, 3], [.obj 2 [.lit 40], .lit 30])] ∧
      r.container.Get 3 = (.invalid, some (.objectNotFound 3)) ∧
      r.container.Get 4 = (.invalid, some (.objectNotFound 4))) ∧
    (∃ r, exampleContainer.Build 3 [] = some r ∧ r.err = none ∧ r.value = .lit 30 ∧
      r.container.Get 3 = (.invalid, some (.objectNotFound 3))) :=
  ⟨⟨_, rfl, rfl, rfl, rfl, rfl, rfl⟩, ⟨_, rfl, rfl, rfl, rfl⟩⟩

/-- C5, amended: after a successful shared-mode `Build(T)`, for every
factory executed during the call, for the requested type or for an
intermediate dependency type, `Get` of its target type succeeds and returns
the instance the factory returned; the executions are those of factories
only (the one registered for `T`, or one the call's registry holds for the
type), and for every type that no factory was executed for, such as a type
supplied by a record field or a literal, `Get` returns what it returned
before the call. -/
theorem C5_shared_build_caches_factory_types (c : Container) (T : Ty)
    (opts : List ContextOption) (r : BuildResult)
    (hs : (c.buildContext opts).sharedMode = true) (hb : c.Build T opts = some r)
    (hok : r.err = none) :
    (∀ y ∈ r.calls, r.container.Get y.target = (y.out, none)) ∧
    (∀ y ∈ r.calls,
      (y.target = T ∧ ∃ deps out call, c.providerSet.GetFor T = .ok (.func deps out call)) ∨
      ∃ deps out call,
        (c.buildContext opts).providerSet.GetFor y.target = .ok (.func deps out call)) ∧
    (∀ U, (∀ y ∈ r.calls, y.target ≠ U) → r.container.Get U = c.Get U) := by
  rcases c.Build_eq_some T opts r hb with ⟨e, _, rfl⟩ | ⟨p, ctx1, v, e, hg, hbuild, rfl⟩
  · cases hok
  · simp only at hok
    subst hok
    obtain ⟨new, hgr, herr⟩ := Provider.Build_errorsLast _ _ _ _ _ hbuild
    obtain ⟨new', hgr', htar⟩ := Provider.Build_targets _ _ _ _ _ hbuild
    have hcalls : ctx1.calls = new := by simpa using hgr.2.2.2.1
    have hcalls' : ctx1.calls = new' := by simpa using hgr'.2.2.2.1
    refine ⟨fun y hy => ?_, fun y hy => ?_, fun U hU => ?_⟩
    · have hy' : y ∈ new := hcalls ▸ hy
      exact Container.Get_of_some _ _ _
        (hgr.2.2.2.2.2.2 y hy' (ErrorsLast.clean herr y hy') hs)
    · rcases htar y (hcalls' ▸ hy) with ⟨ht, deps, out, call, hp⟩ | h
      · exact Or.inl ⟨ht, deps, out, call, by rw [hg, hp]⟩
      · exact Or.inr h
    · have hsame : ctx1.objectMap U = c.objectMap U := by
        rcases hgr.2.2.2.2.2.1 U with e1 | ⟨_, _, z, hz, ht, _⟩
        · simpa using e1
        · exact absurd ht (hU z (hcalls ▸ hz))
      simp [Container.Get, hsame]

/-- C5, amended, on the example of the specification: after `Build(1)` the
intermediate type 2 is cached, and `Get(3)` is what it was before. -/
theorem C5_shared_build_caches_factory_types_witness :
    ∃ r, exampleContainer.Build 1 [] = some r ∧
      (∀ y ∈ r.calls, r.container.Get y.target = (y.out, none)) ∧
      r.container.Get 2 = (.obj 2 [.lit 40], none) ∧
      r.container.Get 3 = exampleContainer.Get 3 :=
  ⟨_, rfl,
    (C5_shared_build_caches_factory_types exampleContainer 1 [] _ rfl rfl rfl).1, rfl,
    (C5_shared_build_caches_factory_types exampleContainer 1 [] _ rfl rfl rfl).2.2 3
      (by intro y hy; simp at hy; rcases hy with rfl | rfl <;> simp)⟩

/-! ## C6: non-shared mode -/

/-- In non-shared mode a successful `funcProvider.Build` returns the result
of an execution of the function that it has just logged. -/
theorem Provider.Build_func_fresh (fuel : Nat) (deps : List Ty) (out : Ty)
    (call : List Val → Val × Option Err) (ctx ctx1 : Context) (t : Ty) (v : Val)
    (hs : ctx.sharedMode = false)
    (h : Provider.Build fuel (.func deps out call) ctx t = some (ctx1, v, none)) :
    ∃ init inArgs, ctx1.calls = init ++ [⟨t, deps, inArgs, v, none⟩] ∧
      (call inArgs).1 = v := by
  have hcn : ctx.cached t = none := by simp [Context.cached, hs]
  rcases Provider.Build_func_inv _ _ _ _ _ _ _ h with ⟨v', hv', _⟩ | h2 | h3 | h4
  · rw [hcn] at hv'; cases hv'
  · cases h2.2.2
  · obtain ⟨_, _, ctx2, e, new, _, hr'⟩ := h3
    cases hr'
  · obtain ⟨_, _, ctx2, inArgs, new, hg, hr'⟩ := h4
    simp only [Prod.mk.injEq] at hr'
    obtain ⟨rfl, rfl, he⟩ := hr'
    exact ⟨ctx2.calls, inArgs, by simp [← he], rfl⟩

/-- C6: a `Build` call that runs in non-shared mode (the container's flag
is off, or `NonSharedMode()` is among the options) leaves the cache as it
was, so that `Get` returns for every type what it returned before, and
leaves the container's flag as it was; and whatever the cache holds, the
value it returns for a factory-supplied requested type is the result of the
execution it ends with, and the argument it passes for a parameter of a
factory-supplied type is the result of a successful execution of that
type's factory made during the call. -/
theorem C6_non_shared_build_leaves_cache (c : Container) (T : Ty) (opts : List ContextOption)
    (r : BuildResult) (hns : c.sharedMode = false ∨ hasNonSharedMode opts = true)
    (hb : c.Build T opts = some r) :
    r.container.objectMap = c.objectMap ∧ (∀ U, r.container.Get U = c.Get U) ∧
    r.container.sharedMode = c.sharedMode ∧
    ((∃ deps out call, c.providerSet.GetFor T = .ok (.func deps out call)) → r.err = none →
      ∃ init y, r.calls = init ++ [y] ∧ y.target = T ∧ y.out = r.value) ∧
    ∀ y ∈ r.calls, ArgsSatisfy (fun d v =>
      (∃ deps out call,
        (c.buildContext opts).providerSet.GetFor d = .ok (.func deps out call)) →
      ∃ z ∈ r.calls, z.target = d ∧ z.out = v ∧ z.err = none) y := by
  have hs : (c.buildContext opts).sharedMode = false := by
    rw [Container.buildContext_sharedMode]
    rcases hns with h | h <;> simp [h]
  rcases c.Build_eq_some T opts r hb with ⟨e, _, rfl⟩ | ⟨p, ctx1, v, e, hg, hbuild, rfl⟩
  · refine ⟨rfl, fun _ => rfl, rfl, ?_, fun y hy => by simp at hy⟩
    intro _ h
    cases h
  · obtain ⟨new, hgr, hargs⟩ := Provider.Build_args
      (fun a => a.sharedMode = false ∧ a.providerSet = (c.buildContext opts).providerSet)
      (fun b d v => (∃ deps out call,
        (c.buildContext opts).providerSet.GetFor d = .ok (.func deps out call)) →
        ∃ z ∈ b.calls, z.target = d ∧ z.out = v ∧ z.err = none)
      (fun a t h => h)
      (fun a b new hg h => ⟨hg.1.trans h.1, hg.2.1.trans h.2⟩)
      (fun a b d v hl h hf => by
        obtain ⟨z, hz, hrest⟩ := h hf
        obtain ⟨more, hm⟩ := hl.2.2.2
        exact ⟨z, by rw [hm]; exact List.mem_append_left _ hz, hrest⟩)
      (fun n p ctx d ctx1 v hH hgd hrun hf => by
        obtain ⟨deps, out, call, hf⟩ := hf
        rw [hH.2, hf] at hgd
        cases hgd
        obtain ⟨init, inArgs, hc, _⟩ := Provider.Build_func_fresh _ _ _ _ _ _ _ _ hH.1 hrun
        exact ⟨⟨d, deps, inArgs, v, none⟩, by rw [hc]; simp, rfl, rfl, rfl⟩)
      _ p _ T _ hbuild ⟨hs, rfl⟩
    have hcalls : ctx1.calls = new := by simpa using hgr.2.2.2.1
    have hobj : ctx1.objectMap = c.objectMap := by
      funext u
      rcases hgr.2.2.2.2.2.1 u with e1 | ⟨h1, _⟩
      · simpa using e1
      · rw [hs] at h1; cases h1
    refine ⟨hobj, fun U => by simp [Container.Get, hobj], rfl, ?_, ?_⟩
    · rintro ⟨deps, out, call, hf⟩ hok
      simp only at hok
      subst hok
      rw [hf] at hg
      cases hg
      obtain ⟨init, inArgs, hc, _⟩ := Provider.Build_func_fresh _ _ _ _ _ _ _ _ hs hbuild
      exact ⟨init, _, hc, rfl, rfl⟩
    · intro y hy
      exact hargs y (hcalls ▸ hy)

/-- C6 on `staleCacheContainer`, whose cache holds a value for type 2:
`Build(1)` with `NonSharedMode()` executes both factories, passes the
new instance of type 2, and leaves cache and flag as they were. -/
theorem C6_non_shared_build_leaves_cache_witness :
    ∃ r, staleCacheContainer.Build 1 [.NonSharedMode] = some r ∧
      r.value = .obj 1 [.obj 2 []] ∧
      r.calls.map (fun x => (x.target, x.inArgs)) = [(2, []), (1, [.obj 2 []])] ∧
      r.container.objectMap = staleCacheContainer.objectMap ∧
      r.container.Get 1 = (.invalid, some (.objectNotFound 1)) ∧
      r.container.sharedMode = true :=
  ⟨_, rfl, rfl, rfl,
    (C6_non_shared_build_leaves_cache staleCacheContainer 1 [.NonSharedMode] _
      (Or.inr rfl) rfl).1, rfl, rfl⟩

/-! ## C7: an error returned by a factory -/

/-- C7. (1) When the factory `call` of a function provider returns the
error `e` as its second value on the built arguments (the factory is
called: none of the arguments is the zero `reflect.Value`),
`funcProvider.Build` returns the factory's first value together with `e`
itself, and the cache it leaves is the one the arguments left: nothing is
stored. (2) In a call of `container.Build`, if an execution of a factory
returned the error `e`, then the call returns `e` itself, that execution is
the last of the call (no enclosing provider's factory is executed after it)
and none before it returned an error, the cache entry of its target type is
what it was before the call, and in shared mode `Get` of that type fails
with `ErrNotFound` afterwards. -/
theorem C7_factory_error_propagates :
    (∀ (fuel : Nat) (deps : List Ty) (out : Ty) (call : List Val → Val × Option Err)
      (ctx ctx2 : Context) (t : Ty) (args : List Val) (e : Err),
      ctx.cached t = none → ctx.resolvingTypes t = false →
      buildArgs (Provider.Build fuel) (ctx.mark t) deps [] = some (ctx2, .ok args) →
      args.all Val.IsValid = true → (call args).2 = some e →
      ∃ ctx3, Provider.Build (fuel + 1) (.func deps out call) ctx t
          = some (ctx3, (call args).1, some e) ∧ ctx3.objectMap = ctx2.objectMap) ∧
    (∀ (c : Container) (T : Ty) (opts : List ContextOption) (r : BuildResult)
      (y : CallRecord) (e : Err),
      c.Build T opts = some r → y ∈ r.calls → y.err = some e →
      r.err = some e ∧ (∃ init, r.calls = init ++ [y] ∧ ∀ z ∈ init, z.err = none) ∧
      r.container.objectMap y.target = c.objectMap y.target ∧
      ((c.buildContext opts).sharedMode = true →
        r.container.Get y.target = (.invalid, some (.objectNotFound y.target)))) := by
  refine ⟨?_, ?_⟩
  · intro fuel deps out call ctx ctx2 t args e hc hr ha hv he
    refine ⟨_, (Provider.Build_func_ok fuel deps out call ctx ctx2 t args hc hr ha hv).trans
      (by rw [he]), ?_⟩
    show (ctx2.finish t deps args (call args)).objectMap = ctx2.objectMap
    rw [Context.finish_objectMap, he]
    simp
  · intro c T opts r y e hb hy he
    rcases c.Build_eq_some T opts r hb with ⟨e', _, rfl⟩ | ⟨p, ctx1, v, e', hg, hbuild, rfl⟩
    · simp at hy
    · obtain ⟨new, hgr, herr⟩ := Provider.Build_errorsLast _ _ _ _ _ hbuild
      have hcalls : ctx1.calls = new := by simpa using hgr.2.2.2.1
      have hy' : y ∈ new := hcalls ▸ hy
      rcases herr y hy' with h | ⟨h1, h2, init, h3, h4⟩
      · rw [he] at h; cases h
      · have h1' : e' = y.err := h1
        have h2' : ctx1.cached y.target = none := h2
        have hsame : ctx1.objectMap y.target = c.objectMap y.target := by
          rcases hgr.2.2.2.2.2.1 y.target with e1 | ⟨hs, _, z, hz, ht, hze, hzv⟩
          · simpa using e1
          · exfalso
            have hs1 : ctx1.sharedMode = true := hgr.1.trans hs
            have hzv' : ctx1.objectMap y.target = some z.out := hzv
            simp [Context.cached, hs1, hzv'] at h2'
        refine ⟨by rw [h1', he], ⟨init, by rw [← h3]; exact hcalls, h4⟩, hsame, fun hs => ?_⟩
        have hs1 : ctx1.sharedMode = true := hgr.1.trans hs
        have hnone : ctx1.objectMap y.target = none := by
          simpa [Context.cached, hs1] using h2'
        simp [Container.Get, hnone]

/-- C7 on `failingDepContainer`: `Build(1)` returns the error of the factory
of type 2, the factory of type 1 is not executed, and nothing is cached for
type 2. -/
theorem C7_factory_error_propagates_witness :
    ∃ r, failingDepContainer.Build 1 [] = some r ∧ r.err = some (.user 1) ∧
      (∃ init, r.calls = init ++ [⟨2, [], [], .invalid, some (.user 1)⟩] ∧
        ∀ z ∈ init, z.err = none) ∧
      r.container.Get 2 = (.invalid, some (.objectNotFound 2)) :=
  ⟨_, rfl,
    (C7_factory_error_propagates.2 failingDepContainer 1 [] _
      ⟨2, [], [], .invalid, some (.user 1)⟩ (.user 1) rfl (by simp) rfl).1,
    (C7_factory_error_propagates.2 failingDepContainer 1 [] _
      ⟨2, [], [], .invalid, some (.user 1)⟩ (.user 1) rfl (by simp) rfl).2.1,
    (C7_factory_error_propagates.2 failingDepContainer 1 [] _
      ⟨2, [], [], .invalid, some (.user 1)⟩ (.user 1) rfl (by simp) rfl).2.2.2 rfl⟩

/-! ## C8: the cache after a failed build -/

/-- C8 as stated fails: in `partialFailContainer` the shared-mode call
`Build(1)` fails with `ErrNotFound` for type 9 after the factory of type 2
has completed, and the instance of type 2, absent from the cache before the
call, is in the cache after it. -/
theorem C8_counterexample :
    ∃ r, partialFailContainer.Build 1 [] = some r ∧
      (partialFailContainer.buildContext []).sharedMode = true ∧
      r.err = some (.providerNotFound 9) ∧
      partialFailContainer.Get 2 = (.invalid, some (.objectNotFound 2)) ∧
      r.container.Get 2 = (.obj 2 [], none) ∧
      r.container.objectMap ≠ partialFailContainer.objectMap :=
  ⟨_, rfl, rfl, rfl, rfl, rfl, fun h => by
    have := congrFun h 2
    simp [partialFailContainer, containerOf] at this
    cases this⟩

/-- C8, amended: whenever `Build(T)` returns an error, every entry the
cache held before the call is unchanged, nothing has been cached for `T`
itself, and every entry the call has added is the result of an execution of
a factory that completed without error (a dependency built before the
failure), which stays cached. -/
theorem C8_failed_build_cache (c : Container) (T : Ty) (opts : List ContextOption)
    (r : BuildResult) (e : Err) (hb : c.Build T opts = some r) (herr : r.err = some e) :
    (∀ U x, c.objectMap U = some x → r.container.objectMap U = some x) ∧
    (c.objectMap T = none → r.container.objectMap T = none) ∧
    (∀ U, r.container.objectMap U ≠ c.objectMap U →
      ∃ y ∈ r.calls, y.target = U ∧ y.err = none ∧ r.container.objectMap U = some y.out) := by
  rcases c.Build_eq_some T opts r hb with ⟨e', _, rfl⟩ | ⟨p, ctx1, v, e', hg, hbuild, rfl⟩
  · exact ⟨fun _ _ h => h, fun h => h, fun U h => absurd rfl h⟩
  · obtain ⟨new, hgr⟩ := Provider.Build_grows _ _ _ _ _ hbuild
    have hcalls : ctx1.calls = new := by simpa using hgr.2.2.2.1
    refine ⟨fun U x h => hgr.mono U x (by simpa using h), fun hT => ?_, fun U hU => ?_⟩
    · simp only at herr
      subst herr
      show ctx1.objectMap T = none
      have key : ∀ (a b : Context) (n : List CallRecord), Grows (a.mark T) b n →
          a.objectMap T = none → b.objectMap T = none := by
        intro a b n hgab ha
        rcases hgab.2.2.2.2.2.1 T with e1 | ⟨_, _, z, hz, ht, _⟩
        · exact e1.trans ha
        · exact absurd ht (hgab.target_ne z hz)
      have hT' : (c.buildContext opts).objectMap T = none := by simpa using hT
      cases p with
      | value T' sv => simp [Provider.Build] at hbuild
      | struct tts sv =>
        simp only [Provider.Build, Option.some.injEq, Prod.mk.injEq] at hbuild
        rw [← hbuild.1]
        exact hT'
      | func deps out call =>
        rcases Provider.Build_func_inv _ _ _ _ _ _ _ hbuild with
          ⟨v', _, hr'⟩ | ⟨_, _, hr'⟩ | ⟨_, _, ctx2, e2, n, hg2, hr'⟩ |
          ⟨_, _, ctx2, inArgs, n, hg2, hr'⟩
        · cases hr'
        · cases hr'
          exact hT'
        · cases hr'
          exact key _ ctx2 _ hg2 hT'
        · simp only [Prod.mk.injEq] at hr'
          obtain ⟨rfl, _, he⟩ := hr'
          show (ctx2.finish T deps inArgs (call inArgs)).objectMap T = none
          rw [Context.finish_objectMap, ← he]
          simpa using key _ ctx2 _ hg2 hT'
    · rcases hgr.2.2.2.2.2.1 U with e1 | ⟨_, _, z, hz, ht, hze, hzv⟩
      · exact absurd (by simpa using e1) hU
      · exact ⟨z, hcalls ▸ hz, ht, hze, hzv⟩

/-- C8, amended, on `partialFailContainer`: after the failed `Build(1)`
nothing is cached for type 1, and the one entry added, for type 2, is the
result of the factory of type 2. -/
theorem C8_failed_build_cache_witness :
    ∃ r, partialFailContainer.Build 1 [] = some r ∧ r.container.objectMap 1 = none ∧
      ∀ U, r.container.objectMap U ≠ partialFailContainer.objectMap U →
        ∃ y ∈ r.calls, y.target = U ∧ y.err = none ∧ r.container.objectMap U = some y.out :=
  ⟨_, rfl,
    (C8_failed_build_cache partialFailContainer 1 [] _ (.providerNotFound 9) rfl rfl).2.1 rfl,
    (C8_failed_build_cache partialFailContainer 1 [] _ (.providerNotFound 9) rfl rfl).2.2⟩

/-! ## C9: an overwrite given to a call -/

/-- C9 as stated fails: the call `Build(1)` of `pairContainer` is given
`ProviderOverwrite` of the literal 7 as type 2 and then `ProviderOverwrite`
of the literal 8 as type 2; the dependency of type 1 on type 2 is satisfied
with 8, not with 7. -/
theorem C9_counterexample :
    ∃ r, pairContainer.Build 1 [.ProviderOverwrite 2 (.lit 7), .ProviderOverwrite 2 (.lit 8)]
        = some r ∧
      r.err = none ∧ r.value = .obj 1 [.lit 8] ∧
      r.calls.map (fun x => (x.target, x.deps, x.inArgs)) = [(1, [2], [.lit 8])] ∧
      Val.lit 8 ≠ Val.lit 7 :=
  ⟨_, rfl, rfl, rfl, rfl, by simp⟩

/-- Every execution logged by a build was made on arguments none of which
is the zero `reflect.Value`. -/
theorem Provider.Build_valid_args (fuel : Nat) (p : Provider) (ctx : Context) (t : Ty)
    (r : Built) (h : Provider.Build fuel p ctx t = some r) :
    ∃ new, Grows ctx r.1 new ∧ ∀ y ∈ new, y.inArgs.all Val.IsValid = true := by
  refine (Provider.Build_cases_grows
    (fun _ _ _ _ new => ∀ y ∈ new, y.inArgs.all Val.IsValid = true)
    (fun _ _ _ _ new => ∀ y ∈ new, y.inArgs.all Val.IsValid = true)
    ?_ ?_ ?_ ?_ ?_ ?_ ?_ ?_ ?_ ?_ ?_ fuel).1 p ctx t r h
  · intro T sv ctx t y hy; simp at hy
  · intro tts sv ctx t y hy; simp at hy
  · intro deps out call ctx t v _ y hy; simp at hy
  · intro deps out call ctx t _ _ y hy; simp at hy
  · intro deps out call ctx t ctx2 e new _ _ _ hqa y hy
    exact hqa y hy
  · intro deps out call ctx t ctx2 inArgs new _ _ _ hqa hv y hy
    rcases List.mem_append.1 hy with hy | hy
    · exact hqa y hy
    · simp only [List.mem_singleton] at hy
      subst hy
      exact hv
  · intro deps out call ctx t ctx2 inArgs new _ _ _ hqa _ y hy
    exact hqa y hy
  · intro ctx acc y hy; simp at hy
  · intro ctx d rest acc e _ y hy; simp at hy
  · intro ctx d rest acc p ctx1 v e new _ _ _ hq y hy
    exact hq y hy
  · intro ctx d rest acc p ctx1 v r n1 n2 _ _ _ hq _ hqa y hy
    rcases List.mem_append.1 hy with hy | hy
    · exact hq y hy
    · exact hqa y hy

/-- C9, amended: in a `Build` call whose last overwrite for the type `V`
among its options is `ProviderOverwrite(v)`, every execution of a factory
that has a parameter of type `V` receives `v` for it, whatever the container
registers for `V`; and no factory is executed for `V` to satisfy a
dependency (an execution for `V` can only be the one of the requested type
itself). This is a statement about a `v` that is not the value of a nil
interface: when it is, no factory that has a parameter of type `V` is
executed at all (the call panics when it reaches one). -/
theorem C9_overwrite_satisfies_dependencies (c : Container) (T V : Ty) (v : Val)
    (opts : List ContextOption) (r : BuildResult) (hlast : lastOverwrite opts V = some v)
    (hb : c.Build T opts = some r) :
    (∀ y ∈ r.calls, ArgsSatisfy (fun d x => d = V → x = v) y) ∧
    (∀ y ∈ r.calls, y.target = V → T = V ∧ ∃ init, r.calls = init ++ [y]) ∧
    (v.IsValid = false → ∀ y ∈ r.calls, V ∉ y.deps) := by
  have hV : (c.buildContext opts).providerSet.GetFor V = .ok (.value V v) := by
    rw [Container.buildContext_GetFor, hlast]
  have key : (∀ y ∈ r.calls, ArgsSatisfy (fun d x => d = V → x = v) y) →
      v.IsValid = false → ∀ y ∈ r.calls, V ∉ y.deps := by
    intro hsat hv y hy hmem
    have hval : y.inArgs.all Val.IsValid = true := by
      rcases c.Build_eq_some T opts r hb with ⟨e, _, rfl⟩ | ⟨p, ctx1, w, e, hg, hbuild, rfl⟩
      · simp at hy
      · obtain ⟨new, hgr, hall⟩ := Provider.Build_valid_args _ _ _ _ _ hbuild
        have hcalls : ctx1.calls = new := by simpa using hgr.2.2.2.1
        exact hall y (hcalls ▸ hy)
    obtain ⟨i, hi⟩ := List.mem_iff_get?.1 hmem
    obtain ⟨x, hx, hxv⟩ := hsat y hy i V hi
    have hxm : x ∈ y.inArgs := List.mem_iff_get?.2 ⟨i, hx⟩
    have := List.all_eq_true.1 hval x hxm
    rw [hxv rfl, hv] at this
    cases this
  suffices h12 : (∀ y ∈ r.calls, ArgsSatisfy (fun d x => d = V → x = v) y) ∧
      (∀ y ∈ r.calls, y.target = V → T = V ∧ ∃ init, r.calls = init ++ [y]) from
    ⟨h12.1, h12.2, key h12.1⟩
  rcases c.Build_eq_some T opts r hb with ⟨e, _, rfl⟩ | ⟨p, ctx1, w, e, hg, hbuild, rfl⟩
  · exact ⟨fun y hy => by simp at hy, fun y hy => by simp at hy⟩
  · obtain ⟨new, hgr, hargs⟩ := Provider.Build_args
      (fun a => a.providerSet.GetFor V = .ok (.value V v))
      (fun _ d x => d = V → x = v)
      (fun a t h => h)
      (fun a b new hg h => by
        show b.providerSet.GetFor V = _
        rw [hg.2.1]; exact h)
      (fun a b d x _ h => h)
      (fun n p ctx d ctx1 x hH hgd hrun hd => by
        subst hd
        have hH' : ctx.providerSet.GetFor d = .ok (.value d v) := hH
        rw [hH'] at hgd
        cases hgd
        cases n <;> simp only [Provider.Build, Option.some.injEq, Prod.mk.injEq] at hrun <;>
          exact hrun.2.1.symm)
      _ p _ T _ hbuild hV
    have hcalls : ctx1.calls = new := by simpa using hgr.2.2.2.1
    refine ⟨fun y hy => hargs y (hcalls ▸ hy), fun y hy hyV => ?_⟩
    have hy' : y ∈ ctx1.calls := hy
    obtain ⟨new', hgr', htar⟩ := Provider.Build_targets _ _ _ _ _ hbuild
    have hcalls' : ctx1.calls = new' := by simpa using hgr'.2.2.2.1
    have hTV : y.target = T := by
      rcases htar y (hcalls' ▸ hy') with ⟨ht, _⟩ | ⟨deps, out, call, hf⟩
      · exact ht
      · rw [hyV, hV] at hf; cases hf
    refine ⟨hTV.symm.trans hyV, ?_⟩
    show ∃ init, ctx1.calls = init ++ [y]
    cases p with
    | value T' sv =>
      simp only [Provider.Build, Option.some.injEq, Prod.mk.injEq] at hbuild
      rw [← hbuild.1] at hy'
      simp at hy'
    | struct tts sv =>
      simp only [Provider.Build, Option.some.injEq, Prod.mk.injEq] at hbuild
      rw [← hbuild.1] at hy'
      simp at hy'
    | func deps out call =>
      rcases Provider.Build_func_inv _ _ _ _ _ _ _ hbuild with
        ⟨v', _, hr'⟩ | ⟨_, _, hr'⟩ | ⟨_, _, ctx2, e2, n, hg2, hr'⟩ |
        ⟨_, _, ctx2, inArgs, n, hg2, hr'⟩
      · cases hr'
        simp at hy'
      · cases hr'
        simp at hy'
      · cases hr'
        have hc2 : ctx2.calls = n := by simpa using hg2.2.2.2.1
        have hy2 : y ∈ n := by rw [← hc2]; exact hy'
        exact absurd hTV (hg2.target_ne y hy2)
      · simp only [Prod.mk.injEq] at hr'
        obtain ⟨rfl, _, _⟩ := hr'
        have hc2 : ctx2.calls = n := by simpa using hg2.2.2.2.1
        have hy2 : y ∈ ctx2.calls ++ [⟨T, deps, inArgs, (call inArgs).1, (call inArgs).2⟩] :=
          hy'
        rcases List.mem_append.1 hy2 with h | h
        · exact absurd hTV (hg2.target_ne y (hc2 ▸ h))
        · simp only [List.mem_singleton] at h
          exact ⟨ctx2.calls, by rw [h]; rfl⟩

/-- C9, amended, on the test `overwriting type []int`, here on
`pairContainer`: `Build(1)` given an overwrite for type 2 passes the literal
and executes no factory for type 2; given the overwrite of a nil value it
executes no factory at all. -/
theorem C9_overwrite_satisfies_dependencies_witness :
    (∃ r, pairContainer.Build 1 [.ProviderOverwrite 2 (.lit 7)] = some r ∧
      r.value = .obj 1 [.lit 7] ∧
      (∀ y ∈ r.calls, ArgsSatisfy (fun d x => d = 2 → x = .lit 7) y) ∧
      (∀ y ∈ r.calls, y.target = 2 → (1 : Ty) = 2 ∧ ∃ init, r.calls = init ++ [y])) ∧
    ∃ r, pairContainer.Build 1 [.ProviderOverwrite 2 .invalid] = some r ∧
      r.err = some .panicked ∧ ∀ y ∈ r.calls, 2 ∉ y.deps :=
  ⟨⟨_, rfl, rfl,
    (C9_overwrite_satisfies_dependencies pairContainer 1 2 (.lit 7)
      [.ProviderOverwrite 2 (.lit 7)] _ rfl rfl).1,
    (C9_overwrite_satisfies_dependencies pairContainer 1 2 (.lit 7)
      [.ProviderOverwrite 2 (.lit 7)] _ rfl rfl).2.1⟩,
    ⟨_, rfl, rfl,
      (C9_overwrite_satisfies_dependencies pairContainer 1 2 .invalid
        [.ProviderOverwrite 2 .invalid] _ rfl rfl).2.2 rfl⟩⟩

/-! ## C10: an overwrite of the requested type -/

/-- C10 fails on the code: `container.Build` looks the provider of the
requested type up in the container's registry before the options run. In
`pairContainer`, `Build(2)` given an overwrite of type 2 with the literal 7
executes the factory of type 2 and returns its object, not the literal; and
`Build(9)`, for a type without provider, given an overwrite of type 9 fails
with `ErrNotFound` although the registry of the call holds the literal. -/
theorem C10_root_overwrite_ignored :
    (∃ r, pairContainer.Build 2 [.ProviderOverwrite 2 (.lit 7)] = some r ∧
      r.value = .obj 2 [] ∧ r.err = none ∧
      r.calls.map (fun x => (x.target, x.inArgs)) = [(2, [])] ∧
      Val.obj 2 [] ≠ Val.lit 7) ∧
    (∃ r, pairContainer.Build 9 [.ProviderOverwrite 9 (.lit 7)] = some r ∧
      r.value = .invalid ∧ r.err = some (.providerNotFound 9) ∧
      (Err.providerNotFound 9).Is .ErrNotFound = true) ∧
    (∃ p, (pairContainer.buildContext [.ProviderOverwrite 9 (.lit 7)]).providerSet.GetFor 9
        = .ok p ∧ p.TargetTypes = [9] ∧ p.DependentTypes = []) :=
  ⟨⟨_, rfl, rfl, rfl, rfl, by simp⟩, ⟨_, rfl, rfl, rfl, rfl⟩, ⟨_, rfl, rfl, rfl⟩⟩


/-! ## C11: the registry of the container after a call with an overwrite -/

/-- A container whose registry has no overwrite layer keeps its registry
through every call. -/
theorem Container.Build_registry_of_nil (c : Container) (T : Ty) (opts : List ContextOption)
    (r : BuildResult) (hnil : c.providerSet.overwrittenProviderMap = none)
    (hb : c.Build T opts = some r) : r.container.providerSet = c.providerSet := by
  rcases c.Build_eq_some T opts r hb with ⟨e, _, rfl⟩ | ⟨p, ctx1, v, e, _, _, rfl⟩
  · rfl
  · show c.providerSet.afterClone ctx1.providerSet = c.providerSet
    unfold ProviderSet.afterClone
    rw [hnil]

/-- C11 fails on the code: `shallowClone` copies the reference of the
overwrite map, so when the container's registry already has an overwrite
layer (here one entry, for type 5) the overwrite of a call is stored in the
container's own layer. After `Build(1)` given an overwrite of type 2 with
the literal 7, the container's `GetFor(2)` returns the literal provider
instead of the factory, `GetAll` lists the literal 7, and a later call
without any overwrite passes 7 to the factory of type 1. -/
theorem C11_overwrite_leaks_into_container :
    ∃ r, overlaidPairContainer.Build 1 [.ProviderOverwrite 2 (.lit 7)] = some r ∧
      overlaidPairContainer.providerSet.GetFor 2 = .ok (.func [] 2 (mkObj 2)) ∧
      r.container.providerSet.GetFor 2 = .ok (.value 2 (.lit 7)) ∧
      overlaidPairContainer.providerSet.GetAll.map Provider.literal
        = [none, none, some (.lit 0)] ∧
      r.container.providerSet.GetAll.map Provider.literal
        = [none, some (.lit 0), some (.lit 7)] ∧
      ∃ r2, r.container.Build 1 [.NonSharedMode] = some r2 ∧ r2.value = .obj 1 [.lit 7] :=
  ⟨_, rfl, rfl, rfl, rfl, rfl, _, rfl, rfl⟩

/-! ## C12: an overwrite and the calls made after it -/

/-- C12 as stated fails: in shared mode the instances built with the
overwrite are cached. After `Build(1)` given an overwrite of type 2 with the
literal 7, the later call `Build(1)` without overwrite returns the instance
constructed from 7, whereas it returns the instance constructed from the
factory of type 2 when the earlier call is made without the overwrite. -/
theorem C12_counterexample :
    ∃ r1 r1' r2 r2', pairContainer.Build 1 [.ProviderOverwrite 2 (.lit 7)] = some r1 ∧
      pairContainer.Build 1 [] = some r1' ∧
      r1.container.Build 1 [] = some r2 ∧ r1'.container.Build 1 [] = some r2' ∧
      r2.value = .obj 1 [.lit 7] ∧ r2'.value = .obj 1 [.obj 2 []] ∧
      Val.obj 1 [.lit 7] ≠ Val.obj 1 [.obj 2 []] :=
  ⟨_, _, _, _, rfl, rfl, rfl, rfl, rfl, rfl, by simp⟩

/-- A call that runs in non-shared mode on a container whose registry has no
overwrite layer leaves the container as it was. -/
theorem Container.Build_nonshared_same (c : Container) (T : Ty) (opts : List ContextOption)
    (r : BuildResult) (hnil : c.providerSet.overwrittenProviderMap = none)
    (hns : c.sharedMode = false ∨ hasNonSharedMode opts = true)
    (hb : c.Build T opts = some r) : r.container = c := by
  have hreg := c.Build_registry_of_nil T opts r hnil hb
  have hs : (c.buildContext opts).sharedMode = false := by
    rw [Container.buildContext_sharedMode]
    rcases hns with h | h <;> simp [h]
  rcases c.Build_eq_some T opts r hb with ⟨e, _, rfl⟩ | ⟨p, ctx1, v, e, _, hbuild, rfl⟩
  · rfl
  · obtain ⟨new, hgr⟩ := Provider.Build_grows _ _ _ _ _ hbuild
    have hobj : ctx1.objectMap = c.objectMap := by
      funext u
      rcases hgr.2.2.2.2.2.1 u with e1 | ⟨h1, _⟩
      · simpa using e1
      · rw [hs] at h1; cases h1
    have hreg' : c.providerSet.afterClone ctx1.providerSet = c.providerSet := hreg
    cases c with
    | mk sm ps om =>
      simp only [Container.mk.injEq, true_and]
      exact ⟨hreg', hobj⟩

/-- C12, amended: on a container whose registry has no overwrite layer of
its own, a `Build` call given overwrites leaves the registry and the mode
flag of the container as they were, so no later lookup finds its literals;
and when the call ran in non-shared mode it leaves the whole container as it
was, so that every later call returns what it returns after the same call
made without the overwrites (the options `opts0`), or after no call at
all. -/
theorem C12_overwrite_invisible_later (c : Container) (T : Ty) (opts : List ContextOption)
    (r : BuildResult) (hnil : c.providerSet.overwrittenProviderMap = none)
    (hb : c.Build T opts = some r) :
    r.container.providerSet = c.providerSet ∧ r.container.sharedMode = c.sharedMode ∧
    (∀ U, r.container.providerSet.GetFor U = c.providerSet.GetFor U) ∧
    ((c.sharedMode = false ∨ hasNonSharedMode opts = true) →
      (∀ T' opts', r.container.Build T' opts' = c.Build T' opts') ∧
      ∀ opts0 r0, (c.sharedMode = false ∨ hasNonSharedMode opts0 = true) →
        c.Build T opts0 = some r0 →
        ∀ T' opts', r.container.Build T' opts' = r0.container.Build T' opts') := by
  have hreg := c.Build_registry_of_nil T opts r hnil hb
  refine ⟨hreg, ?_, fun U => by rw [hreg], fun hns => ?_⟩
  · rcases c.Build_eq_some T opts r hb with ⟨e, _, rfl⟩ | ⟨p, ctx1, v, e, _, _, rfl⟩ <;> rfl
  · have h1 := c.Build_nonshared_same T opts r hnil hns hb
    refine ⟨fun T' opts' => by rw [h1], fun opts0 r0 hns0 hb0 T' opts' => ?_⟩
    rw [h1, c.Build_nonshared_same T opts0 r0 hnil hns0 hb0]

/-- C12, amended, on `pairContainer`: after the non-shared `Build(1)` given
an overwrite of type 2, a later `Build(1)` is what it is after the same call
without the overwrite, and its value is not made of the literal. -/
theorem C12_overwrite_invisible_later_witness :
    ∃ r r0 r2, pairContainer.Build 1 [.NonSharedMode, .ProviderOverwrite 2 (.lit 7)] = some r ∧
      pairContainer.Build 1 [.NonSharedMode] = some r0 ∧
      r.container.Build 1 [] = r0.container.Build 1 [] ∧
      r.container.Build 1 [] = some r2 ∧ r2.value = .obj 1 [.obj 2 []] :=
  ⟨_, _, _, rfl, rfl,
    ((C12_overwrite_invisible_later pairContainer 1
      [.NonSharedMode, .ProviderOverwrite 2 (.lit 7)] _ rfl rfl).2.2.2 (Or.inr rfl)).2
      [.NonSharedMode] _ (Or.inr rfl) rfl 1 [],
    rfl, rfl⟩

/-! ## C13: `BuildWithCtx` -/

theorem lastOverwrite_append_overwrite (opts : List ContextOption) (V : Ty) (v : Val) :
    lastOverwrite (opts ++ [.ProviderOverwrite V v]) V = some v := by
  induction opts with
  | nil => simp [lastOverwrite]
  | cons o rest ih =>
    cases o with
    | NonSharedMode => simpa [lastOverwrite] using ih
    | ProviderOverwrite T val => simp [lastOverwrite, ih]

/-- The method `BuildWithCtx(ctx, T, opts...)` is `Build(T, opts...,
ProviderOverwrite(ctx))`, the overwrite of the context coming after all the
caller's options; so the registry of the call holds the literal `ctx` for
the context type whatever the caller's options are, and every execution of
a factory that has a parameter of the context type receives `ctx` for it. -/
theorem Container.BuildWithCtx_passes_ctx (c : Container) (ctxType : Ty) (ctx : Val) (T : Ty)
    (opts : List ContextOption) :
    c.BuildWithCtx ctxType ctx T opts = c.Build T (opts ++ [.ProviderOverwrite ctxType ctx]) ∧
    (c.buildContext (opts ++ [.ProviderOverwrite ctxType ctx])).providerSet.GetFor ctxType
      = .ok (.value ctxType ctx) ∧
    ∀ r, c.BuildWithCtx ctxType ctx T opts = some r →
      ∀ y ∈ r.calls, ArgsSatisfy (fun d x => d = ctxType → x = ctx) y := by
  have hV : (c.buildContext (opts ++ [.ProviderOverwrite ctxType ctx])).providerSet.GetFor
      ctxType = .ok (.value ctxType ctx) := by
    rw [Container.buildContext_GetFor, lastOverwrite_append_overwrite]
  refine ⟨rfl, hV, fun r hb => ?_⟩
  rcases c.Build_eq_some T _ r hb with ⟨e, _, rfl⟩ | ⟨p, ctx1, w, e, hg, hbuild, rfl⟩
  · intro y hy; simp at hy
  · obtain ⟨new, hgr, hargs⟩ := Provider.Build_args
      (fun a => a.providerSet.GetFor ctxType = .ok (.value ctxType ctx))
      (fun _ d x => d = ctxType → x = ctx)
      (fun a t h => h)
      (fun a b new hg h => by
        show b.providerSet.GetFor ctxType = _
        rw [hg.2.1]; exact h)
      (fun a b d x _ h => h)
      (fun n p a d a1 x hH hgd hrun hd => by
        subst hd
        have hH' : a.providerSet.GetFor d = .ok (.value d ctx) := hH
        rw [hH'] at hgd
        cases hgd
        cases n <;> simp only [Provider.Build, Option.some.injEq, Prod.mk.injEq] at hrun <;>
          exact hrun.2.1.symm)
      _ p _ T _ hbuild hV
    have hcalls : ctx1.calls = new := by simpa using hgr.2.2.2.1
    exact fun y hy => hargs y (hcalls ▸ hy)

/-- C13 fails on the code for a nil context. `BuildWithCtx(ctx, T, opts...)`
is `Build(T, opts..., ProviderOverwrite(ctx))` for every `ctx`, and on
`pairContainer`, with type 2 as the context type, a context that is not nil
is passed to the factory of type 1, which has a parameter of that type. But
a nil context is stored as the zero `reflect.Value`: the registry of the
call holds it as the literal of the context type, the factory of type 1 is
reached, and `p.sourceVal.Call` panics on the zero argument, so the factory
is not executed and does not receive the context. -/
theorem C13_nil_context_panics :
    (∀ (c : Container) (ctxType : Ty) (ctx : Val) (T : Ty) (opts : List ContextOption),
      c.BuildWithCtx ctxType ctx T opts
        = c.Build T (opts ++ [.ProviderOverwrite ctxType ctx])) ∧
    (∃ r, pairContainer.BuildWithCtx 2 (.lit 7) 1 [] = some r ∧ r.err = none ∧
      r.value = .obj 1 [.lit 7] ∧ r.calls = [⟨1, [2], [.lit 7], .obj 1 [.lit 7], none⟩]) ∧
    (pairContainer.buildContext ([] ++ [.ProviderOverwrite 2 .invalid])).providerSet.GetFor 2
      = .ok (.value 2 .invalid) ∧
    pairContainer.providerSet.GetFor 1 = .ok (.func [2] 1 (mkObj 1)) ∧
    ∃ r, pairContainer.BuildWithCtx 2 .invalid 1 [] = some r ∧ r.err = some .panicked ∧
      r.value = .invalid ∧ r.calls = [] :=
  ⟨fun _ _ _ _ _ => rfl, ⟨_, rfl, rfl, rfl, rfl⟩, rfl, rfl, ⟨_, rfl, rfl, rfl, rfl⟩⟩

/-! ## C20: the two layers of `GetFor` -/

theorem lookup_none_of_not_mem {β : Type} (l : List (Ty × β)) (k : Ty)
    (h : k ∉ l.map Prod.fst) : l.lookup k = none := by
  cases hl : l.lookup k with
  | none => rfl
  | some v => exact absurd (lookup_mem_keys l k v hl) h

/-- C20: `GetFor(T)` returns the provider of the overwrite layer for `T` if
there is one, otherwise the provider of the base layer if there is one,
otherwise the error wrapping `ErrNotFound`; a type with an entry in neither
layer always gets that error; and `Overwrite(p)` on a provider with a
target type succeeds, after which `GetFor` of the first target type of `p`
returns `p` and `GetFor` of every other type returns what it returned
before. -/
theorem C20_getfor_layers (ps : ProviderSet) (T : Ty) :
    (∀ p, ps.overwritten.lookup T = some p → ps.GetFor T = .ok p) ∧
    (ps.overwritten.lookup T = none →
      ∀ p, ps.providerMap.lookup T = some p → ps.GetFor T = .ok p) ∧
    (ps.overwritten.lookup T = none → ps.providerMap.lookup T = none →
      ps.GetFor T = .error (.providerNotFound T)) ∧
    (Err.providerNotFound T).Is .ErrNotFound = true ∧
    (T ∉ ps.keys → ps.GetFor T = .error (.providerNotFound T)) ∧
    (∀ p t rest, p.TargetTypes = t :: rest →
      ∃ ps', ps.Overwrite p = some ps' ∧ ps'.GetFor t = .ok p ∧
        ∀ U, U ≠ t → ps'.GetFor U = ps.GetFor U) := by
  refine ⟨fun p h => ?_, fun h p hp => ?_, fun h hp => ?_, rfl, fun hk => ?_,
    fun p t rest hp => ?_⟩
  · rw [ProviderSet.GetFor_eq, h]
  · rw [ProviderSet.GetFor_eq, h, hp]
  · rw [ProviderSet.GetFor_eq, h, hp]
  · unfold ProviderSet.keys at hk
    rw [List.mem_append, not_or] at hk
    rw [ProviderSet.GetFor_eq, lookup_none_of_not_mem _ _ hk.2,
      lookup_none_of_not_mem _ _ hk.1]
  · refine ⟨ps.overwriteAt t p, ?_, ?_, fun U hU => ?_⟩
    · unfold ProviderSet.Overwrite
      rw [hp]
    · rw [ProviderSet.GetFor_overwriteAt, if_pos rfl]
    · rw [ProviderSet.GetFor_overwriteAt, if_neg hU]

/-- C20 on the registry of the example: type 9 was never registered, and
after `Overwrite` with a literal provider for type 2 the lookup of type 2
returns it while the lookup of type 3 still returns the record. -/
theorem C20_getfor_layers_witness :
    exampleSet.GetFor 9 = .error (.providerNotFound 9) ∧
    ∃ ps', exampleSet.Overwrite (.value 2 (.lit 7)) = some ps' ∧
      ps'.GetFor 2 = .ok (.value 2 (.lit 7)) ∧ ps'.GetFor 3 = exampleSet.GetFor 3 :=
  ⟨(C20_getfor_layers exampleSet 9).2.2.2.2.1 (by decide),
    ((C20_getfor_layers exampleSet 2).2.2.2.2.2 (.value 2 (.lit 7)) 2 [] rfl).imp
      fun _ h => ⟨h.1, h.2.1, h.2.2 3 (by decide)⟩⟩

/-! ## C16: the functions accepted as providers -/

theorem checkInArgs_eq_none (ins seen : List Ty) :
    checkInArgs ins seen = none ↔ ins.Nodup ∧ ∀ t ∈ ins, t ∉ seen := by
  induction ins generalizing seen with
  | nil => simp [checkInArgs]
  | cons a rest ih =>
    unfold checkInArgs
    by_cases ha : a ∈ seen
    · simp only [ha, if_true, List.nodup_cons, List.mem_cons]
      constructor
      · intro h; cases h
      · intro h; exact absurd ha (h.2 a (Or.inl rfl))
    · simp only [ha, if_false, ih, List.nodup_cons, List.mem_cons]
      constructor
      · rintro ⟨hnd, hdis⟩
        refine ⟨⟨fun hmem => (hdis a hmem) (Or.inl rfl), hnd⟩, ?_⟩
        rintro t (rfl | ht)
        · exact ha
        · exact fun hs => hdis t ht (Or.inr hs)
      · rintro ⟨⟨hna, hnd⟩, hdis⟩
        refine ⟨hnd, fun t ht hs => ?_⟩
        rcases hs with rfl | hs
        · exact hna ht
        · exact hdis t (Or.inr ht) hs

theorem checkInArgs_err (ins seen : List Ty) (e : Err) (h : checkInArgs ins seen = some e) :
    e = .providerInvalid := by
  induction ins generalizing seen with
  | nil => simp [checkInArgs] at h
  | cons a rest ih =>
    unfold checkInArgs at h
    split at h
    · cases h; rfl
    · exact ih _ h

theorem funcProvider.parse_err (env : TypeEnv) (typ : Ty) (e : Err)
    (h : funcProvider.parse env typ = some e) : e = .providerInvalid := by
  unfold funcProvider.parse at h
  split at h
  · split at h
    · cases h; rfl
    · simp only at h
      split at h
      · cases h; rfl
      · split at h
        · cases h; rfl
        · exact checkInArgs_err _ _ _ h
  · cases h; rfl

/-- The conditions under which `funcProvider.parse` returns no error. -/
theorem funcProvider.parse_eq_none (env : TypeEnv) (typ : Ty) (variadic : Bool)
    (ins outs : List Ty) (hk : env.kindOf typ = .func variadic ins outs) :
    funcProvider.parse env typ = none ↔
      variadic = false ∧ (outs.length = 1 ∨ outs.length = 2) ∧
      (∀ second, outs.get? 1 = some second → env.implementsError second = true) ∧
      ins.Nodup := by
  unfold funcProvider.parse
  rw [hk]
  simp only
  cases variadic with
  | true => simp
  | false =>
    simp only [Bool.false_eq_true, if_false, true_and]
    by_cases h0 : outs.length = 0 ∨ outs.length > 2
    · rw [if_pos h0]
      constructor
      · intro h; cases h
      · rintro ⟨h1, _⟩; omega
    · rw [if_neg h0]
      have hlen : outs.length = 1 ∨ outs.length = 2 := by omega
      by_cases h2 : outs.length = 2 ∧ (outs.get? 1).any env.implementsError = false
      · rw [if_pos h2]
        constructor
        · intro h; cases h
        · rintro ⟨_, himp, _⟩
          obtain ⟨hl, hany⟩ := h2
          cases hg : outs.get? 1 with
          | none =>
            rw [List.get?_eq_none] at hg
            omega
          | some second =>
            rw [hg] at hany
            have := himp second hg
            simp [this] at hany
      · rw [if_neg h2, checkInArgs_eq_none]
        constructor
        · rintro ⟨hnd, _⟩
          refine ⟨hlen, fun second hs => ?_, hnd⟩
          by_contra hne
          apply h2
          have hl : outs.length = 2 := by
            have := List.get?_eq_some.mp hs
            obtain ⟨hlt, _⟩ := this
            omega
          refine ⟨hl, ?_⟩
          rw [hs]
          simpa using hne
        · rintro ⟨_, _, hnd⟩
          exact ⟨hnd, fun t _ hs => by simp at hs⟩

/-- C16: a function value (of a type with parameter types `ins` and result
types `outs`) is made a provider exactly when it is not variadic, has one or
two results, its second result, if any, implements `error`, and no two of
its parameters have the same type; the provider then has the parameter types
as dependent types and the first result type as target type. In every other
case the error is `ErrProviderInvalid`, and `NewProviderSet` and
`NewContainer` given the function return that error, and no registry or
container on which `Build` could be called. -/
theorem C16_function_accepted_as_provider (env : TypeEnv) (typ : Ty)
    (call : List Val → Val × Option Err) (variadic : Bool) (ins outs : List Ty)
    (hk : env.kindOf typ = .func variadic ins outs) :
    ((∃ p, newFuncProvider env typ call = .ok p) ↔
      variadic = false ∧ (outs.length = 1 ∨ outs.length = 2) ∧
      (∀ second, outs.get? 1 = some second → env.implementsError second = true) ∧
      ins.Nodup) ∧
    (∀ p, newFuncProvider env typ call = .ok p →
      ∃ out, outs.head? = some out ∧ p = .func ins out call ∧
        p.DependentTypes = ins ∧ p.TargetTypes = [out]) ∧
    ((∀ p, newFuncProvider env typ call ≠ .ok p) →
      newFuncProvider env typ call = .error .providerInvalid ∧
      Err.providerInvalid.Is .ErrProviderInvalid = true ∧
      ∀ rest, NewProviderSet env (.func typ call :: rest) = some (.error .providerInvalid) ∧
        ∀ opts, NewContainer env (.func typ call :: rest) opts
          = some (.error .providerInvalid)) := by
  have hshape : ∀ p, newFuncProvider env typ call = .ok p →
      funcProvider.parse env typ = none ∧ ∃ out, outs.head? = some out ∧
        p = .func ins out call := by
    intro p hp
    unfold newFuncProvider at hp
    cases hparse : funcProvider.parse env typ with
    | some e => rw [hparse] at hp; cases hp
    | none =>
      rw [hparse, hk] at hp
      refine ⟨rfl, ?_⟩
      cases outs with
      | nil => cases hp
      | cons out tl =>
        simp only [Except.ok.injEq] at hp
        exact ⟨out, rfl, hp.symm⟩
  have hfail : funcProvider.parse env typ ≠ none →
      newFuncProvider env typ call = .error .providerInvalid := by
    intro hne
    unfold newFuncProvider
    cases hparse : funcProvider.parse env typ with
    | none => exact absurd hparse hne
    | some e => rw [funcProvider.parse_err env typ e hparse]
  have hok : funcProvider.parse env typ = none → ∃ p, newFuncProvider env typ call = .ok p := by
    intro hparse
    have hcond := (funcProvider.parse_eq_none env typ variadic ins outs hk).mp hparse
    unfold newFuncProvider
    rw [hparse, hk]
    cases outs with
    | nil => simp at hcond
    | cons out tl => exact ⟨_, rfl⟩
  refine ⟨⟨fun ⟨p, hp⟩ => ?_, fun h => ?_⟩, fun p hp => ?_, fun hno => ?_⟩
  · exact (funcProvider.parse_eq_none env typ variadic ins outs hk).mp (hshape p hp).1
  · exact hok ((funcProvider.parse_eq_none env typ variadic ins outs hk).mpr h)
  · obtain ⟨_, out, ho, rfl⟩ := hshape p hp
    exact ⟨out, ho, rfl, rfl, rfl⟩
  · have hne : funcProvider.parse env typ ≠ none := by
      intro hparse
      obtain ⟨p, hp⟩ := hok hparse
      exact hno p hp
    have herr := hfail hne
    have hsrc : sourceProviders env (.func typ call) = some (.error .providerInvalid) := by
      show some ((newFuncProvider env typ call).map fun p => [p]) = _
      rw [herr]
      rfl
    have hps : ∀ rest, parseProviders env (.func typ call :: rest)
        = some (.error .providerInvalid) := by
      intro rest
      unfold parseProviders parseSources
      rw [hsrc]
    refine ⟨herr, rfl, fun rest => ⟨hps rest, fun opts => ?_⟩⟩
    unfold NewContainer
    rw [hps rest]

/-- C16 on the function types of the examples: a function of two distinct
parameter types returning a value and an error is accepted, one with two
parameters of type `int` is rejected with `ErrProviderInvalid`. -/
theorem C16_function_accepted_as_provider_witness :
    (∃ p, newFuncProvider testEnv 54 (mkObj 3) = .ok p) ∧
    newFuncProvider testEnv 52 (mkObj 3) = .error .providerInvalid :=
  ⟨(C16_function_accepted_as_provider testEnv 54 (mkObj 3) false [10, 11] [3, 60] rfl).1.mpr
      ⟨rfl, Or.inr rfl, by intro second h; cases h; rfl, by decide⟩,
    ((C16_function_accepted_as_provider testEnv 52 (mkObj 3) false [10, 10] [3] rfl).2.2
      (fun p hp => by cases hp)).1⟩

/-! ## C14: colliding target types -/

theorem mapStore_of_not_mem {β : Type} (m : List (Ty × β)) (k : Ty) (v : β)
    (h : k ∉ m.map Prod.fst) : mapStore m k v = m ++ [(k, v)] := by
  unfold mapStore
  congr 1
  rw [List.filter_eq_self]
  intro e he
  have : e.1 ≠ k := fun hk => h (hk ▸ List.mem_map_of_mem Prod.fst he)
  simpa using this

theorem lookup_eq_none_iff_not_mem {β : Type} (l : List (Ty × β)) (k : Ty) :
    l.lookup k = none ↔ k ∉ l.map Prod.fst := by
  constructor
  · intro h hk
    induction l with
    | nil => simp at hk
    | cons e rest ih =>
      obtain ⟨k', v'⟩ := e
      by_cases hkk : k = k'
      · subst hkk; simp [List.lookup_cons] at h
      · have hb : (k == k') = false := by simpa using hkk
        rw [List.lookup_cons, hb] at h
        simp only [List.map_cons, List.mem_cons] at hk
        rcases hk with hk | hk
        · exact hkk hk
        · exact ih h hk
  · exact lookup_none_of_not_mem l k

/-- The loop of `addProviderToMap`: it succeeds exactly when the target
types are distinct and none has an entry, and then adds one entry for each;
otherwise the error names a type that has an entry already. -/
theorem addTargetTypes_eq (p : Provider) (ts : List Ty) (m : List (Ty × Provider)) :
    (ts.Nodup ∧ (∀ t ∈ ts, t ∉ m.map Prod.fst) ∧
      addTargetTypes p ts m = .ok (m ++ ts.map fun t => (t, p))) ∨
    (¬ (ts.Nodup ∧ ∀ t ∈ ts, t ∉ m.map Prod.fst) ∧
      ∃ t, addTargetTypes p ts m = .error (.providerDuplicated t)) := by
  induction ts generalizing m with
  | nil => left; simp [addTargetTypes]
  | cons a rest ih =>
    unfold addTargetTypes
    cases hl : m.lookup a with
    | some q =>
      right
      refine ⟨fun h => ?_, a, rfl⟩
      exact h.2 a (List.mem_cons_self _ _) (lookup_mem_keys m a q hl)
    | none =>
      have ha : a ∉ m.map Prod.fst := (lookup_eq_none_iff_not_mem m a).mp hl
      simp only
      rw [mapStore_of_not_mem m a p ha]
      rcases ih (m ++ [(a, p)]) with ⟨hnd, hdis, hok⟩ | ⟨hno, t, herr⟩
      · left
        have har : a ∉ rest := fun h => hdis a h (by simp)
        refine ⟨List.nodup_cons.mpr ⟨har, hnd⟩, ?_, ?_⟩
        · intro t ht
          rcases List.mem_cons.mp ht with rfl | ht
          · exact ha
          · intro hm; exact hdis t ht (by simp [List.mem_map] at hm ⊢; exact Or.inl hm)
        · rw [hok]; simp
      · right
        refine ⟨fun h => hno ⟨(List.nodup_cons.mp h.1).2, fun t ht hm => ?_⟩, t, herr⟩
        simp only [List.map_append, List.map_cons, List.map_nil, List.mem_append,
          List.mem_singleton] at hm
        rcases hm with hm | rfl
        · exact h.2 t (List.mem_cons_of_mem _ ht) hm
        · exact (List.nodup_cons.mp h.1).1 ht

/-- The calls of `addProviderToMap` for a list of providers succeed exactly
when no target type is claimed twice or has an entry already. -/
theorem addProviders_eq (provs : List Provider) (m : List (Ty × Provider)) :
    ((provs.flatMap Provider.TargetTypes).Nodup ∧
      (∀ t ∈ provs.flatMap Provider.TargetTypes, t ∉ m.map Prod.fst) ∧
      addProviders provs m
        = .ok (m ++ provs.flatMap fun p => p.TargetTypes.map fun t => (t, p))) ∨
    (¬ ((provs.flatMap Provider.TargetTypes).Nodup ∧
        ∀ t ∈ provs.flatMap Provider.TargetTypes, t ∉ m.map Prod.fst) ∧
      ∃ t, addProviders provs m = .error (.providerDuplicated t)) := by
  induction provs generalizing m with
  | nil => left; simp [addProviders]
  | cons p rest ih =>
    unfold addProviders addProviderToMap
    simp only [List.flatMap_cons]
    rcases addTargetTypes_eq p p.TargetTypes m with ⟨hnd, hdis, hok⟩ | ⟨hno, t, herr⟩
    · rw [hok]
      simp only
      rcases ih (m ++ p.TargetTypes.map fun t => (t, p)) with
        ⟨hnd2, hdis2, hok2⟩ | ⟨hno2, t, herr2⟩
      · left
        have hkeys : ∀ t ∈ rest.flatMap Provider.TargetTypes,
            t ∉ m.map Prod.fst ∧ t ∉ p.TargetTypes := by
          intro t ht
          have := hdis2 t ht
          simp only [List.map_append, List.map_map, List.mem_append, not_or] at this
          refine ⟨this.1, fun hp => this.2 ?_⟩
          simp only [List.mem_map, Function.comp]
          exact ⟨t, hp, rfl⟩
        refine ⟨?_, ?_, ?_⟩
        · rw [List.nodup_append]
          exact ⟨hnd, hnd2, fun t h1 h2 => (hkeys t h2).2 h1⟩
        · intro t ht
          rcases List.mem_append.mp ht with ht | ht
          · exact hdis t ht
          · exact (hkeys t ht).1
        · rw [hok2]; simp
      · right
        refine ⟨fun h => hno2 ⟨(List.nodup_append.mp h.1).2.1, fun t ht hm => ?_⟩, t, herr2⟩
        simp only [List.map_append, List.map_map, List.mem_append] at hm
        rcases hm with hm | hm
        · exact h.2 t (List.mem_append_right _ ht) hm
        · simp only [List.mem_map, Function.comp] at hm
          obtain ⟨u, hu, rfl⟩ := hm
          exact (List.nodup_append.mp h.1).2.2 hu ht
    · rw [herr]
      right
      refine ⟨fun h => hno ⟨(List.nodup_append.mp h.1).1, fun t ht => ?_⟩, t, rfl⟩
      exact h.2 t (List.mem_append_left _ ht)

theorem not_nodup_flatMap_of_common {α β : Type} (f : α → List β) (l : List α) (i j : Nat)
    (a b : α) (t : β) (hij : i < j) (hi : l.get? i = some a) (hj : l.get? j = some b)
    (ha : t ∈ f a) (hb : t ∈ f b) : ¬ (l.flatMap f).Nodup := by
  intro hnd
  have hpw := (List.nodup_flatMap.mp hnd).2
  obtain ⟨hil, rfl⟩ := List.get?_eq_some.mp hi
  obtain ⟨hjl, rfl⟩ := List.get?_eq_some.mp hj
  have := List.pairwise_iff_getElem.mp hpw i j hil hjl hij
  exact (List.disjoint_left.mp this) ha hb

theorem parseSources_of_valid (env : TypeEnv) (args : List Source) (m : List (Ty × Provider))
    (hvalid : ∀ src ∈ args, ∃ provs, sourceProviders env src = some (.ok provs)) :
    parseSources env args m = some (addProviders (providersOf env args) m) := by
  have happend : ∀ (a b : List Provider) (m : List (Ty × Provider)),
      addProviders (a ++ b) m =
        match addProviders a m with
        | .error err => .error err
        | .ok m1 => addProviders b m1 := by
    intro a b
    induction a with
    | nil => intro m; rfl
    | cons p rest ih =>
      intro m
      simp only [List.cons_append, addProviders]
      cases addProviderToMap p m with
      | error e => rfl
      | ok m1 => exact ih m1
  induction args generalizing m with
  | nil => rfl
  | cons src rest ih =>
    obtain ⟨provs, hsrc⟩ := hvalid src (List.mem_cons_self _ _)
    have hrest := fun m1 => ih m1 fun s hs => hvalid s (List.mem_cons_of_mem _ hs)
    unfold parseSources
    unfold providersOf
    rw [List.flatMap_cons, hsrc, happend]
    simp only
    cases addProviders provs m with
    | error e => rfl
    | ok m1 => exact hrest m1

theorem parseSources_valid_of_ok (env : TypeEnv) (args : List Source)
    (m m' : List (Ty × Provider)) (h : parseSources env args m = some (.ok m')) :
    ∀ src ∈ args, ∃ provs, sourceProviders env src = some (.ok provs) := by
  induction args generalizing m with
  | nil => intro src hs; cases hs
  | cons a rest ih =>
    unfold parseSources at h
    cases hsrc : sourceProviders env a with
    | none => rw [hsrc] at h; cases h
    | some r =>
      cases r with
      | error e => rw [hsrc] at h; cases h
      | ok provs =>
        rw [hsrc] at h
        simp only at h
        cases hadd : addProviders provs m with
        | error e => rw [hadd] at h; cases h
        | ok m1 =>
          rw [hadd] at h
          intro src hs
          rcases List.mem_cons.mp hs with rfl | hs
          · exact ⟨provs, hsrc⟩
          · exact ih m1 h src hs

/-- C14: when every source is valid by itself and two of the providers they
stand for claim the same target type, `NewProviderSet` returns an error
wrapping `ErrProviderDuplicated`, and no registry. Whenever `NewProviderSet`
returns a registry, the target types claimed by the providers of the sources
are pairwise distinct and are the keys of the base map, so each type has one
entry, which holds a provider claiming the type, and there is no overwrite
layer. -/
theorem C14_colliding_target_types (env : TypeEnv) (args : List Source) :
    ((∀ src ∈ args, ∃ provs, sourceProviders env src = some (.ok provs)) →
      (∃ i j p q t, i < j ∧ (providersOf env args).get? i = some p ∧
        (providersOf env args).get? j = some q ∧ t ∈ p.TargetTypes ∧ t ∈ q.TargetTypes) →
      ∃ t, NewProviderSet env args = some (.error (.providerDuplicated t)) ∧
        (Err.providerDuplicated t).Is .ErrProviderDuplicated = true) ∧
    (∀ ps, NewProviderSet env args = some (.ok ps) →
      ((providersOf env args).flatMap Provider.TargetTypes).Nodup ∧
      ps.providerMap.map Prod.fst = (providersOf env args).flatMap Provider.TargetTypes ∧
      (ps.providerMap.map Prod.fst).Nodup ∧
      (∀ e ∈ ps.providerMap, e.2 ∈ providersOf env args ∧ e.1 ∈ e.2.TargetTypes) ∧
      ps.overwrittenProviderMap = none) := by
  constructor
  · rintro hvalid ⟨i, j, p, q, t, hij, hi, hj, hp, hq⟩
    have hnd := not_nodup_flatMap_of_common Provider.TargetTypes _ i j p q t hij hi hj hp hq
    rcases addProviders_eq (providersOf env args) [] with ⟨h, _⟩ | ⟨_, u, herr⟩
    · exact absurd h hnd
    · refine ⟨u, ?_, rfl⟩
      unfold NewProviderSet parseProviders
      rw [parseSources_of_valid env args [] hvalid, herr]
  · intro ps hps
    unfold NewProviderSet parseProviders at hps
    cases hsrc : parseSources env args [] with
    | none => rw [hsrc] at hps; cases hps
    | some r =>
      cases r with
      | error e => rw [hsrc] at hps; cases hps
      | ok m =>
        rw [hsrc] at hps
        simp only at hps
        split at hps
        · cases hps
        · simp only [Option.some.injEq, Except.ok.injEq] at hps
          subst hps
          have hvalid := parseSources_valid_of_ok env args [] m hsrc
          rw [parseSources_of_valid env args [] hvalid] at hsrc
          rcases addProviders_eq (providersOf env args) [] with ⟨hnd, _, hok⟩ | ⟨_, u, herr⟩
          · rw [hok] at hsrc
            simp only [Option.some.injEq, Except.ok.injEq, List.nil_append] at hsrc
            subst hsrc
            have hkeys : ((providersOf env args).flatMap fun p =>
                p.TargetTypes.map fun t => (t, p)).map Prod.fst
                  = (providersOf env args).flatMap Provider.TargetTypes := by
              generalize providersOf env args = l
              induction l with
              | nil => rfl
              | cons p rest ih =>
                simp only [List.flatMap_cons, List.map_append, ih, List.map_map]
                congr 1
                exact List.map_id _
            refine ⟨hnd, hkeys, hkeys ▸ hnd, fun e he => ?_, rfl⟩
            obtain ⟨p, hp, hmem⟩ := List.mem_flatMap.mp he
            obtain ⟨t, ht, rfl⟩ := List.mem_map.mp hmem
            exact ⟨hp, ht⟩
          · rw [herr] at hsrc
            cases hsrc

/-- C14 on the sources of the test `Duplicated provider`: a function for the
type 1 and a provider for the same type. -/
theorem C14_colliding_target_types_witness :
    ∃ t, NewProviderSet testEnv [.func 50 (mkObj 1), .provider (.func [] 1 (mkObj 1))]
        = some (.error (.providerDuplicated t)) ∧
      (Err.providerDuplicated t).Is .ErrProviderDuplicated = true :=
  (C14_colliding_target_types testEnv
      [.func 50 (mkObj 1), .provider (.func [] 1 (mkObj 1))]).1
    (by
      intro src hs
      simp only [List.mem_cons, List.mem_singleton, List.not_mem_nil, or_false] at hs
      rcases hs with rfl | rfl
      · exact ⟨_, rfl⟩
      · exact ⟨_, rfl⟩)
    ⟨0, 1, .func [] 1 (mkObj 1), .func [] 1 (mkObj 1), 1, by decide, rfl, rfl,
      by simp [Provider.TargetTypes], by simp [Provider.TargetTypes]⟩

/-! ## C15: a registry passed as a source -/

/-- C15 fails on the code: `GetAll` lists a provider once for each of its
target types, and `parseProviders` calls `addProviderToMap` on every listed
entry. The registry built of a function for type 1 and of the record
`struct7_OK_Nested` (seven field types) lists the record provider seven
times; passed as a source next to a function for the unrelated type 2, its
second listing finds the type 10 in the map already, and `NewProviderSet`
returns `ErrProviderDuplicated`. A registry of functions only is merged, and
so is the record provider when it is passed by itself. -/
theorem C15_registry_with_record_not_merged :
    ∃ ps, NewProviderSet testEnv [.func 50 (mkObj 1), .pointer (some (.struct 27 struct7Val))]
        = some (.ok ps) ∧
      ps.GetAll.map Provider.TargetTypes =
        [[1], [10, 28, 15, 11, 30, 12, 16], [10, 28, 15, 11, 30, 12, 16],
          [10, 28, 15, 11, 30, 12, 16], [10, 28, 15, 11, 30, 12, 16],
          [10, 28, 15, 11, 30, 12, 16], [10, 28, 15, 11, 30, 12, 16],
          [10, 28, 15, 11, 30, 12, 16]] ∧
      (∀ t ∈ [1, 10, 28, 15, 11, 30, 12, 16], t ≠ 2) ∧
      NewProviderSet testEnv [.func 51 (mkObj 2), .providerSet ps]
        = some (.error (.providerDuplicated 10)) ∧
      (∃ p ps2, ps.GetFor 10 = .ok p ∧
        NewProviderSet testEnv [.func 51 (mkObj 2), .provider p] = some (.ok ps2) ∧
        ps2.GetFor 10 = .ok p) ∧
      ∃ ps1 ps3, NewProviderSet testEnv [.func 50 (mkObj 1)] = some (.ok ps1) ∧
        NewProviderSet testEnv [.func 51 (mkObj 2), .providerSet ps1] = some (.ok ps3) ∧
        ps3.GetFor 1 = ps1.GetFor 1 :=
  ⟨_, rfl, rfl, by decide, rfl, ⟨_, _, rfl, rfl, rfl⟩, _, _, rfl, rfl, rfl⟩

/-! ## The traversal of a struct type -/

theorem Reach.ne_nil {env : TypeEnv} {typ : Ty} {path : List Nat} {sf : StructField}
    (h : Reach env typ path sf) : path ≠ [] := by
  cases h <;> simp

theorem Reach_iff (env : TypeEnv) (typ : Ty) (path : List Nat) (sf : StructField) :
    Reach env typ path sf ↔
      ∃ fields, env.structFields typ = some fields ∧ ReachFields env fields 0 path sf := by
  constructor
  · intro h
    cases h with
    | field _ fields i _ hf hg he =>
      exact ⟨fields, hf, i, sf, [], hg, he, by simp, Or.inl ⟨rfl, rfl⟩⟩
    | nested _ fields i f rest _ hf hg he hr =>
      exact ⟨fields, hf, i, f, rest, hg, he, by simp, Or.inr hr⟩
  · rintro ⟨fields, hf, k, f, rest, hg, he, rfl, hr⟩
    rw [Nat.zero_add]
    rcases hr with ⟨rfl, rfl⟩ | hr
    · exact Reach.field typ fields k sf hf hg he
    · exact Reach.nested typ fields k f rest sf hf hg he hr

theorem ReachFields_nil (env : TypeEnv) (i : Nat) (path : List Nat) (sf : StructField) :
    ¬ ReachFields env [] i path sf := by
  rintro ⟨k, f, rest, hg, _⟩
  simp at hg

theorem ReachFields_cons (env : TypeEnv) (f : StructField) (l : List StructField) (i : Nat)
    (path : List Nat) (sf : StructField) :
    ReachFields env (f :: l) i path sf ↔
      (f.exported = true ∧ ∃ rest, path = i :: rest ∧
        ((rest = [] ∧ sf = f) ∨ Reach env f.type rest sf)) ∨
      ReachFields env l (i + 1) path sf := by
  constructor
  · rintro ⟨k, g, rest, hg, he, rfl, hr⟩
    cases k with
    | zero =>
      simp only [List.get?_cons_zero, Option.some.injEq] at hg
      subst hg
      exact Or.inl ⟨he, rest, rfl, hr⟩
    | succ k =>
      simp only [List.get?_cons_succ] at hg
      exact Or.inr ⟨k, g, rest, hg, he, by rw [Nat.add_right_comm, Nat.add_assoc], hr⟩
  · rintro (⟨he, rest, rfl, hr⟩ | ⟨k, g, rest, hg, he, rfl, hr⟩)
    · exact ⟨0, f, rest, rfl, he, rfl, hr⟩
    · exact ⟨k + 1, g, rest, hg, he, by rw [Nat.add_right_comm, Nat.add_assoc], hr⟩

theorem ReachFields.head_ge {env : TypeEnv} {l : List StructField} {i : Nat}
    {path : List Nat} {sf : StructField} (h : ReachFields env l i path sf) :
    ∃ j rest, path = j :: rest ∧ i ≤ j := by
  obtain ⟨k, f, rest, _, _, rfl, _⟩ := h
  exact ⟨i + k, rest, rfl, Nat.le_add_right _ _⟩

theorem ParseSpec.congr {R R' : List Nat → StructField → Prop} {st : ParseState}
    {r : Except Err ParseState} (hR : ∀ path sf, R path sf ↔ R' path sf)
    (h : ParseSpec R st r) : ParseSpec R' st r := by
  have : R = R' := funext fun path => funext fun sf => propext (hR path sf)
  rw [← this]; exact h

theorem ParseState.keys_store (st : ParseState) (arrays : Arrays) (t : Ty) (idx : Slice)
    (h : st.targetTypes.lookup t = none) (k : Ty) :
    k ∈ ParseState.keys { arrays := arrays, targetTypes := mapStore st.targetTypes t idx } ↔
      k = t ∨ k ∈ st.keys := by
  have hn : t ∉ st.targetTypes.map Prod.fst := (lookup_eq_none_iff_not_mem _ _).mp h
  unfold ParseState.keys
  rw [mapStore_of_not_mem _ _ _ hn]
  simp only [List.map_append, List.map_cons, List.map_nil, List.mem_append, List.mem_singleton]
  exact or_comm

theorem ParseState.keys_store_nodup (st : ParseState) (arrays : Arrays) (t : Ty) (idx : Slice)
    (h : st.targetTypes.lookup t = none) (hnd : st.keys.Nodup) :
    (ParseState.keys { arrays := arrays, targetTypes := mapStore st.targetTypes t idx }).Nodup := by
  have hn : t ∉ st.targetTypes.map Prod.fst := (lookup_eq_none_iff_not_mem _ _).mp h
  unfold ParseState.keys at hnd ⊢
  rw [mapStore_of_not_mem _ _ _ hn]
  simp only [List.map_append, List.map_cons, List.map_nil]
  rw [List.nodup_append]
  refine ⟨hnd, List.nodup_singleton _, fun k hk hk' => ?_⟩
  rw [List.mem_singleton] at hk'
  exact hn (hk' ▸ hk)

/-- The three ways in which a field is reachable through the fields
`f :: rest` when `f` is exported. -/
theorem ReachFields.classify {env : TypeEnv} {f : StructField} {rest : List StructField}
    {i : Nat} {path : List Nat} {sf : StructField}
    (h : ReachFields env (f :: rest) i path sf) :
    (path = [i] ∧ sf = f) ∨ (∃ p, path = i :: p ∧ Reach env f.type p sf) ∨
      ReachFields env rest (i + 1) path sf := by
  rcases (ReachFields_cons env f rest i path sf).mp h with ⟨_, p, rfl, hr⟩ | h
  · rcases hr with ⟨rfl, rfl⟩ | hr
    · exact Or.inl ⟨rfl, rfl⟩
    · exact Or.inr (Or.inl ⟨p, rfl, hr⟩)
  · exact Or.inr (Or.inr h)

theorem ReachFields.head_ne {env : TypeEnv} {rest : List StructField} {i : Nat}
    {path p : List Nat} {sf : StructField} (h : ReachFields env rest (i + 1) path sf) :
    i :: p ≠ path := by
  obtain ⟨j, q, rfl, hj⟩ := h.head_ge
  intro heq
  simp only [List.cons.injEq] at heq
  omega

/-- The loop over the fields meets its specification when the recursive call
does. -/
theorem structProvider.parseFields_spec (env : TypeEnv)
    (recurse : ParseState → Ty → Slice → Option (Except Err ParseState)) (index : Slice)
    (hrec : ∀ st t idx r, recurse st t idx = some r → ParseSpec (Reach env t) st r)
    (l : List StructField) (i : Nat) (st : ParseState) (r : Except Err ParseState)
    (h : structProvider.parseFields env recurse index l i st = some r) :
    ParseSpec (ReachFields env l i) st r := by
  induction l generalizing i st with
  | nil =>
    simp only [structProvider.parseFields, Option.some.injEq] at h
    subst h
    refine ⟨fun k => ⟨Or.inl, ?_⟩, fun path sf hR => ?_, fun p q sf sf' hR => ?_, id⟩
    · rintro (hk | ⟨path, sf, hR, _⟩)
      · exact hk
      · exact absurd hR (ReachFields_nil env i path sf)
    · exact absurd hR (ReachFields_nil env i path sf)
    · exact absurd hR (ReachFields_nil env i p sf)
  | cons f rest ih =>
    unfold structProvider.parseFields at h
    by_cases he : f.exported = false
    · rw [if_pos he] at h
      refine ParseSpec.congr (fun path sf => ?_) (ih (i + 1) st h)
      rw [ReachFields_cons]
      constructor
      · exact Or.inr
      · rintro (⟨het, _⟩ | hr)
        · rw [he] at het; cases het
        · exact hr
    · rw [if_neg he] at h
      have het : f.exported = true := by simpa using he
      have hhere : ReachFields env (f :: rest) i [i] f :=
        (ReachFields_cons env f rest i [i] f).mpr (Or.inl ⟨het, [], rfl, Or.inl ⟨rfl, rfl⟩⟩)
      have hdeep : ∀ p sf, Reach env f.type p sf → ReachFields env (f :: rest) i (i :: p) sf :=
        fun p sf hr => (ReachFields_cons env f rest i (i :: p) sf).mpr
          (Or.inl ⟨het, p, rfl, Or.inr hr⟩)
      have hlater : ∀ p sf, ReachFields env rest (i + 1) p sf →
          ReachFields env (f :: rest) i p sf :=
        fun p sf hr => (ReachFields_cons env f rest i p sf).mpr (Or.inr hr)
      cases hl : st.targetTypes.lookup f.type with
      | some idx0 =>
        rw [hl] at h
        simp only [Option.some.injEq] at h
        subst h
        exact ⟨f.type, rfl, Or.inl ⟨lookup_mem_keys _ _ _ hl, [i], f, hhere, rfl⟩⟩
      | none =>
        rw [hl] at h
        simp only at h
        have hfn : f.type ∉ st.keys := (lookup_eq_none_iff_not_mem _ _).mp hl
        have hk1 := ParseState.keys_store st (sliceAppend env.growCap st.arrays index i).1
          f.type (sliceAppend env.growCap st.arrays index i).2 hl
        have hnd1 := ParseState.keys_store_nodup st
          (sliceAppend env.growCap st.arrays index i).1 f.type
          (sliceAppend env.growCap st.arrays index i).2 hl
        generalize ParseState.mk (sliceAppend env.growCap st.arrays index i).1
          (mapStore st.targetTypes f.type (sliceAppend env.growCap st.arrays index i).2)
            = st1 at h hk1 hnd1
        cases hr1 : recurse st1 f.type (sliceAppend env.growCap st.arrays index i).2 with
        | none => rw [hr1] at h; cases h
        | some r1 =>
          have hs1 := hrec _ _ _ _ hr1
          rw [hr1] at h
          cases r1 with
          | error e =>
            simp only [Option.some.injEq] at h
            subst h
            obtain ⟨t, rfl, hA | hB⟩ := hs1
            · obtain ⟨ht, path, sf, hreach, rfl⟩ := hA
              rcases (hk1 _).mp ht with heq | hst
              · refine ⟨_, rfl, Or.inr ⟨[i], i :: path, f, sf, ?_, hhere, hdeep _ _ hreach,
                  heq.symm, rfl⟩⟩
                intro hp
                simp only [List.cons.injEq, true_and] at hp
                exact hreach.ne_nil hp.symm
              · exact ⟨_, rfl, Or.inl ⟨hst, i :: path, sf, hdeep _ _ hreach, rfl⟩⟩
            · obtain ⟨p, q, sf, sf', hpq, hp, hq, h1, h2⟩ := hB
              refine ⟨t, rfl, Or.inr ⟨i :: p, i :: q, sf, sf', ?_, hdeep _ _ hp, hdeep _ _ hq,
                h1, h2⟩⟩
              intro heq
              simp only [List.cons.injEq, true_and] at heq
              exact hpq heq
          | ok st2 =>
            simp only at h
            obtain ⟨hk2, hfresh2, hinj2, hnd2⟩ := hs1
            have hs3 := ih (i + 1) st2 h
            cases r with
            | error e =>
              obtain ⟨t, rfl, hA | hB⟩ := hs3
              · obtain ⟨ht, path, sf, hrf, rfl⟩ := hA
                rcases (hk2 _).mp ht with h1 | ⟨p, sf0, hreach, h0⟩
                · rcases (hk1 _).mp h1 with heq | hst
                  · exact ⟨_, rfl, Or.inr ⟨[i], path, f, sf, hrf.head_ne, hhere,
                      hlater _ _ hrf, heq.symm, rfl⟩⟩
                  · exact ⟨_, rfl, Or.inl ⟨hst, path, sf, hlater _ _ hrf, rfl⟩⟩
                · exact ⟨_, rfl, Or.inr ⟨i :: p, path, sf0, sf, hrf.head_ne, hdeep _ _ hreach,
                    hlater _ _ hrf, h0, rfl⟩⟩
              · obtain ⟨p, q, sf, sf', hpq, hp, hq, h1, h2⟩ := hB
                exact ⟨t, rfl, Or.inr ⟨p, q, sf, sf', hpq, hlater _ _ hp, hlater _ _ hq,
                  h1, h2⟩⟩
            | ok st3 =>
              obtain ⟨hk3, hfresh3, hinj3, hnd3⟩ := hs3
              have hin1 : f.type ∈ st1.keys := (hk1 _).mpr (Or.inl rfl)
              have hin2 : ∀ p sf, Reach env f.type p sf → sf.type ∈ st2.keys :=
                fun p sf hr => (hk2 _).mpr (Or.inr ⟨p, sf, hr, rfl⟩)
              have hsub2 : ∀ k, k ∈ st1.keys → k ∈ st2.keys := fun k hk => (hk2 k).mpr (Or.inl hk)
              refine ⟨fun k => ?_, fun path sf hR => ?_, fun p q sf sf' hp hq heq => ?_,
                fun hnd => hnd3 (hnd2 (hnd1 hnd))⟩
              · rw [hk3, hk2, hk1]
                constructor
                · rintro (((rfl | hk) | ⟨p, sf, hr, rfl⟩) | ⟨p, sf, hr, rfl⟩)
                  · exact Or.inr ⟨[i], f, hhere, rfl⟩
                  · exact Or.inl hk
                  · exact Or.inr ⟨i :: p, sf, hdeep _ _ hr, rfl⟩
                  · exact Or.inr ⟨p, sf, hlater _ _ hr, rfl⟩
                · rintro (hk | ⟨path, sf, hR, rfl⟩)
                  · exact Or.inl (Or.inl (Or.inr hk))
                  · rcases hR.classify with ⟨_, rfl⟩ | ⟨p, _, hr⟩ | hr
                    · exact Or.inl (Or.inl (Or.inl rfl))
                    · exact Or.inl (Or.inr ⟨p, sf, hr, rfl⟩)
                    · exact Or.inr ⟨path, sf, hr, rfl⟩
              · rcases hR.classify with ⟨_, rfl⟩ | ⟨p, _, hr⟩ | hr
                · exact hfn
                · exact fun hk => hfresh2 p sf hr ((hk1 _).mpr (Or.inr hk))
                · exact fun hk => hfresh3 path sf hr (hsub2 _ ((hk1 _).mpr (Or.inr hk)))
              · rcases hp.classify with ⟨rfl, rfl⟩ | ⟨p1, rfl, hr⟩ | hr
                · rcases hq.classify with ⟨rfl, rfl⟩ | ⟨q1, rfl, hr'⟩ | hr'
                  · rfl
                  · exact absurd (heq ▸ hin1) (hfresh2 q1 sf' hr')
                  · exact absurd (heq ▸ hsub2 _ hin1) (hfresh3 q sf' hr')
                · rcases hq.classify with ⟨rfl, rfl⟩ | ⟨q1, rfl, hr'⟩ | hr'
                  · exact absurd (heq ▸ hin1) (hfresh2 p1 sf hr)
                  · rw [hinj2 p1 q1 sf sf' hr hr' heq]
                  · exact absurd (heq ▸ hin2 p1 sf hr) (hfresh3 q sf' hr')
                · rcases hq.classify with ⟨rfl, rfl⟩ | ⟨q1, rfl, hr'⟩ | hr'
                  · exact absurd (heq ▸ hsub2 _ hin1) (hfresh3 p sf hr)
                  · exact absurd (heq ▸ hin2 q1 sf' hr') (hfresh3 p sf hr)
                  · exact hinj3 p q sf sf' hr hr' heq

/-- The traversal meets its specification: on success the map has gained
exactly the types of the exported fields reachable from `typ`, all of them
new and pairwise distinct; an error is `ErrProviderDuplicated` for the type
of a reachable field met a second time. -/
theorem structProvider.parseStructRecursively_spec (env : TypeEnv) (fuel : Nat)
    (st : ParseState) (typ : Ty) (index : Slice) (r : Except Err ParseState)
    (h : structProvider.parseStructRecursively env fuel st typ index = some r) :
    ParseSpec (Reach env typ) st r := by
  induction fuel generalizing st typ index r with
  | zero => simp [structProvider.parseStructRecursively] at h
  | succ fuel ih =>
    unfold structProvider.parseStructRecursively at h
    cases hf : env.structFields typ with
    | none =>
      rw [hf] at h
      simp only [Option.some.injEq] at h
      subst h
      have hno : ∀ path sf, ¬ Reach env typ path sf := by
        intro path sf hr
        obtain ⟨fields, hfs, _⟩ := (Reach_iff env typ path sf).mp hr
        rw [hf] at hfs; cases hfs
      refine ⟨fun k => ⟨Or.inl, ?_⟩, fun path sf hR => absurd hR (hno _ _),
        fun p q sf sf' hR => absurd hR (hno _ _), id⟩
      rintro (hk | ⟨path, sf, hR, _⟩)
      · exact hk
      · exact absurd hR (hno _ _)
    | some fields =>
      rw [hf] at h
      simp only at h
      refine ParseSpec.congr (fun path sf => ?_)
        (structProvider.parseFields_spec env _ index (fun st t idx r => ih st t idx r)
          fields 0 st r h)
      rw [Reach_iff, hf]
      simp

theorem countP_lt_of_mem {α : Type} (l : List α) (p q : α → Bool) (x : α)
    (himp : ∀ y, p y = true → q y = true) (hx : x ∈ l) (hq : q x = true) (hp : p x = false) :
    l.countP p < l.countP q := by
  induction l with
  | nil => cases hx
  | cons a rest ih =>
    have hle : rest.countP p ≤ rest.countP q := List.countP_mono_left fun y _ => himp y
    rw [List.countP_cons, List.countP_cons]
    rcases List.mem_cons.mp hx with rfl | hx
    · simp only [hq, hp, if_true]
      simp only [Bool.false_eq_true, if_false]
      omega
    · have := ih hx
      by_cases hpa : p a = true
      · simp only [hpa, himp a hpa, if_true]; omega
      · have hpf : p a = false := by simpa using hpa
        rw [hpf]
        simp only [Bool.false_eq_true, if_false]
        omega

theorem TypeEnv.unseen_mono (env : TypeEnv) (st st' : ParseState)
    (h : ∀ k, k ∈ st.keys → k ∈ st'.keys) : env.unseen st' ≤ env.unseen st := by
  unfold TypeEnv.unseen
  refine List.countP_mono_left fun k _ hk => ?_
  simp only [decide_eq_true_eq] at hk ⊢
  exact fun hin => hk (h k hin)

theorem TypeEnv.unseen_lt (env : TypeEnv) (st st' : ParseState) (t : Ty)
    (h : ∀ k, k ∈ st.keys → k ∈ st'.keys) (ht : t ∈ env.kinds.map Prod.fst)
    (hnew : t ∉ st.keys) (hin : t ∈ st'.keys) : env.unseen st' < env.unseen st := by
  unfold TypeEnv.unseen
  refine countP_lt_of_mem _ _ _ t (fun k hk => ?_) ht (by simpa using hnew) (by simpa using hin)
  simp only [decide_eq_true_eq] at hk ⊢
  exact fun hin => hk (h k hin)

theorem TypeEnv.structFields_of_not_mem (env : TypeEnv) (t : Ty)
    (h : t ∉ env.kinds.map Prod.fst) : env.structFields t = none := by
  have hk : env.kindOf t = .other := by
    unfold TypeEnv.kindOf
    rw [lookup_none_of_not_mem _ _ h]
    rfl
  unfold TypeEnv.structFields
  simp only [hk]

/-- The loop over the fields returns when the recursive call does on every
state with fewer unseen types. -/
theorem structProvider.parseFields_returns (env : TypeEnv) (n : Nat) (index : Slice)
    (hrec : ∀ st t idx, (env.unseen st + 2 ≤ n ∨ (env.structFields t = none ∧ 1 ≤ n)) →
      ∃ r, structProvider.parseStructRecursively env n st t idx = some r)
    (l : List StructField) (i : Nat) (st : ParseState) (hfuel : env.unseen st + 1 ≤ n) :
    ∃ r, structProvider.parseFields env (structProvider.parseStructRecursively env n)
      index l i st = some r := by
  induction l generalizing i st with
  | nil => exact ⟨_, rfl⟩
  | cons f rest ih =>
    unfold structProvider.parseFields
    by_cases he : f.exported = false
    · rw [if_pos he]
      exact ih (i + 1) st hfuel
    · rw [if_neg he]
      cases hl : st.targetTypes.lookup f.type with
      | some idx0 => exact ⟨_, rfl⟩
      | none =>
        simp only
        have hfn : f.type ∉ st.keys := (lookup_eq_none_iff_not_mem _ _).mp hl
        have hk1 := ParseState.keys_store st (sliceAppend env.growCap st.arrays index i).1
          f.type (sliceAppend env.growCap st.arrays index i).2 hl
        generalize ParseState.mk (sliceAppend env.growCap st.arrays index i).1
          (mapStore st.targetTypes f.type (sliceAppend env.growCap st.arrays index i).2)
            = st1 at hk1 ⊢
        have hsub1 : ∀ k, k ∈ st.keys → k ∈ st1.keys := fun k hk => (hk1 k).mpr (Or.inr hk)
        have hcall : env.unseen st1 + 2 ≤ n ∨ (env.structFields f.type = none ∧ 1 ≤ n) := by
          by_cases hmem : f.type ∈ env.kinds.map Prod.fst
          · left
            have := env.unseen_lt st st1 f.type hsub1 hmem hfn ((hk1 _).mpr (Or.inl rfl))
            omega
          · right
            exact ⟨env.structFields_of_not_mem f.type hmem, by omega⟩
        obtain ⟨r1, hr1⟩ := hrec st1 f.type (sliceAppend env.growCap st.arrays index i).2 hcall
        rw [hr1]
        cases r1 with
        | error e => exact ⟨_, rfl⟩
        | ok st2 =>
          simp only
          have hs := structProvider.parseStructRecursively_spec env n st1 f.type _ _ hr1
          have hsub2 : ∀ k, k ∈ st1.keys → k ∈ st2.keys := fun k hk => (hs.1 k).mpr (Or.inl hk)
          have hle := env.unseen_mono st st2 fun k hk => hsub2 k (hsub1 k hk)
          exact ih (i + 1) st2 (by omega)

/-- The traversal returns: fuel two above the number of unseen type
declarations is enough (one unit is enough for a type without fields). -/
theorem structProvider.parseStructRecursively_returns (env : TypeEnv) (n : Nat)
    (st : ParseState) (typ : Ty) (index : Slice)
    (h : env.unseen st + 2 ≤ n ∨ (env.structFields typ = none ∧ 1 ≤ n)) :
    ∃ r, structProvider.parseStructRecursively env n st typ index = some r := by
  induction n generalizing st typ index with
  | zero => omega
  | succ n ih =>
    unfold structProvider.parseStructRecursively
    cases hf : env.structFields typ with
    | none => exact ⟨_, rfl⟩
    | some fields =>
      simp only
      have hfuel : env.unseen st + 1 ≤ n := by
        rcases h with h | ⟨h, _⟩
        · omega
        · rw [hf] at h; cases h
      exact structProvider.parseFields_returns env n index
        (fun st t idx hc => ih st t idx hc) fields 0 st hfuel

theorem TypeEnv.unseen_le (env : TypeEnv) (st : ParseState) :
    env.unseen st + 2 ≤ env.parseFuel := by
  unfold TypeEnv.unseen TypeEnv.parseFuel
  have := List.countP_le_length (fun k => decide (k ∉ st.keys)) (l := env.kinds.map Prod.fst)
  rw [List.length_map] at this
  omega

/-- The method `structProvider.parse` returns, with `ErrProviderInvalid`
when the type is not a struct type. -/
theorem structProvider.parse_returns (env : TypeEnv) (typ : Ty) :
    ∃ r, structProvider.parse env typ = some r := by
  unfold structProvider.parse
  split
  · exact structProvider.parseStructRecursively_returns env _ _ _ _ (Or.inl (env.unseen_le _))
  · exact ⟨_, rfl⟩

theorem Reach.through {env : TypeEnv} {typ : Ty} {path path' : List Nat} {sf sf' : StructField}
    (h : Reach env typ path sf) (h' : Reach env sf.type path' sf') :
    Reach env typ (path ++ path') sf' := by
  induction h with
  | field typ fields i sf hf hg he => exact Reach.nested typ fields i sf path' sf' hf hg he h'
  | nested typ fields i f rest sf hf hg he _ ih =>
    exact Reach.nested typ fields i f (rest ++ path') sf' hf hg he (ih h')

/-- The two outcomes of `newStructProvider`: a provider whose target types
are the keys of the map left by the traversal of the type, or the error of
the traversal; anything but a struct type is `ErrProviderInvalid`. -/
theorem newStructProvider_cases (env : TypeEnv) (typ : Ty) (v : Val) :
    (∃ st, newStructProvider env typ v
        = some (.ok (.struct (st.targetTypes.map fun e => (e.1, st.arrays.read e.2)) v)) ∧
      ParseSpec (Reach env typ) { arrays := [[]], targetTypes := [] } (.ok st)) ∨
    (∃ e, newStructProvider env typ v = some (.error e) ∧
      ParseSpec (Reach env typ) { arrays := [[]], targetTypes := [] } (.error e)) ∨
    (newStructProvider env typ v = some (.error .providerInvalid) ∧
      ∀ fields, env.kindOf typ ≠ .struct fields) := by
  unfold newStructProvider structProvider.parse
  cases hk : env.kindOf typ with
  | struct fields =>
    simp only
    obtain ⟨r, hr⟩ := structProvider.parseStructRecursively_returns env env.parseFuel
      { arrays := [[]], targetTypes := [] } typ { array := 0, len := 0, cap := 0 }
      (Or.inl (env.unseen_le _))
    have hs := structProvider.parseStructRecursively_spec env _ _ _ _ _ hr
    rw [hr]
    cases r with
    | ok st => exact Or.inl ⟨st, rfl, hs⟩
    | error e => exact Or.inr (Or.inl ⟨e, rfl, hs⟩)
  | other => exact Or.inr (Or.inr ⟨rfl, fun fields h => by cases h⟩)
  | func a b c => exact Or.inr (Or.inr ⟨rfl, fun fields h => by cases h⟩)
  | pointer a => exact Or.inr (Or.inr ⟨rfl, fun fields h => by cases h⟩)

/-- C17: making a provider of a pointer to a struct fails with
`ErrProviderDuplicated` exactly when two distinct exported fields reachable
from the struct type (through exported fields, a pointer type being replaced
by its element type) have the same type, and succeeds exactly when there are
no two such fields; this holds of every layout, so also of the layout in
which one of two colliding fields is not exported and hence not reachable.
The error names the type of two such fields, and `NewProviderSet` given the
pointer returns it. -/
theorem C17_record_with_colliding_fields (env : TypeEnv) (typ : Ty)
    (fields : List StructField) (v : Val) (hk : env.kindOf typ = .struct fields) :
    ((∃ t, newStructProvider env typ v = some (.error (.providerDuplicated t))) ↔
      ∃ p q sf sf', p ≠ q ∧ Reach env typ p sf ∧ Reach env typ q sf' ∧ sf.type = sf'.type) ∧
    ((∃ prov, newStructProvider env typ v = some (.ok prov)) ↔
      ¬ ∃ p q sf sf', p ≠ q ∧ Reach env typ p sf ∧ Reach env typ q sf' ∧ sf.type = sf'.type) ∧
    (∀ e, newStructProvider env typ v = some (.error e) →
      e.Is .ErrProviderDuplicated = true ∧
      (∃ p q sf sf', p ≠ q ∧ Reach env typ p sf ∧ Reach env typ q sf' ∧
        e = .providerDuplicated sf.type ∧ sf'.type = sf.type) ∧
      ∀ rest, NewProviderSet env (.pointer (some (.struct typ v)) :: rest) = some (.error e)) := by
  have hfail : ∀ e, newStructProvider env typ v = some (.error e) →
      ∃ p q sf sf', p ≠ q ∧ Reach env typ p sf ∧ Reach env typ q sf' ∧
        e = .providerDuplicated sf.type ∧ sf'.type = sf.type := by
    intro e he
    rcases newStructProvider_cases env typ v with ⟨st, hok, _⟩ | ⟨e', herr, hs⟩ | ⟨_, hno⟩
    · rw [hok] at he; cases he
    · rw [herr] at he
      simp only [Option.some.injEq, Except.error.injEq] at he
      subst he
      obtain ⟨t, rfl, ⟨ht, _⟩ | ⟨p, q, sf, sf', hpq, hp, hq, h1, h2⟩⟩ := hs
      · simp [ParseState.keys] at ht
      · exact ⟨p, q, sf, sf', hpq, hp, hq, by rw [h1], by rw [h1, h2]⟩
    · exact absurd hk (hno fields)
  have hsucc : ∀ prov, newStructProvider env typ v = some (.ok prov) →
      ¬ ∃ p q sf sf', p ≠ q ∧ Reach env typ p sf ∧ Reach env typ q sf' ∧
        sf.type = sf'.type := by
    rintro prov hp ⟨p, q, sf, sf', hpq, hrp, hrq, heq⟩
    rcases newStructProvider_cases env typ v with ⟨st, _, hs⟩ | ⟨e', herr, _⟩ | ⟨_, hno⟩
    · exact hpq (hs.2.2.1 p q sf sf' hrp hrq heq)
    · rw [herr] at hp; cases hp
    · exact absurd hk (hno fields)
  have hdich : (∃ prov, newStructProvider env typ v = some (.ok prov)) ∨
      ∃ e, newStructProvider env typ v = some (.error e) := by
    rcases newStructProvider_cases env typ v with ⟨st, hok, _⟩ | ⟨e', herr, _⟩ | ⟨_, hno⟩
    · exact Or.inl ⟨_, hok⟩
    · exact Or.inr ⟨_, herr⟩
    · exact absurd hk (hno fields)
  refine ⟨⟨?_, fun hc => ?_⟩, ⟨fun ⟨prov, hp⟩ => hsucc prov hp, fun hnc => ?_⟩,
    fun e he => ?_⟩
  · rintro ⟨t, ht⟩
    obtain ⟨p, q, sf, sf', hpq, hp, hq, _, h2⟩ := hfail _ ht
    exact ⟨p, q, sf, sf', hpq, hp, hq, h2.symm⟩
  · rcases hdich with ⟨prov, hp⟩ | ⟨e, he⟩
    · exact absurd hc (hsucc prov hp)
    · obtain ⟨_, _, sf, _, _, _, _, rfl, _⟩ := hfail e he
      exact ⟨sf.type, he⟩
  · rcases hdich with hp | ⟨e, he⟩
    · exact hp
    · obtain ⟨p, q, sf, sf', hpq, hp, hq, _, h2⟩ := hfail e he
      exact absurd ⟨p, q, sf, sf', hpq, hp, hq, h2.symm⟩ hnc
  · obtain ⟨p, q, sf, sf', hpq, hp, hq, rfl, h2⟩ := hfail e he
    refine ⟨rfl, ⟨p, q, sf, sf', hpq, hp, hq, rfl, h2⟩, fun rest => ?_⟩
    have hsrc : sourceProviders env (.pointer (some (.struct typ v)))
        = some (.error (.providerDuplicated sf.type)) := by
      show (newStructProvider env typ v).map (fun r => r.map fun p => [p]) = _
      rw [he]
      rfl
    unfold NewProviderSet parseProviders parseSources
    rw [hsrc]

/-- C17 on the records of the tests: `Struct2_Dup_Field_Type`, whose field
`AnotherSlice` has the type of the field `Slice` of the embedded
`Struct1_OK`, fails with `ErrProviderDuplicated` for `[]int`; in
`Struct4_OK_Dup_Field_Type_Unexported`, the same layout with the second
field unexported, no two reachable exported fields have the same type. -/
theorem C17_record_with_colliding_fields_witness :
    (∃ t, newStructProvider testEnv 21 (.struct []) = some (.error (.providerDuplicated t))) ∧
    newStructProvider testEnv 21 (.struct []) = some (.error (.providerDuplicated 12)) ∧
    (∃ prov, newStructProvider testEnv 24 (.struct []) = some (.ok prov)) ∧
    ¬ ∃ p q sf sf', p ≠ q ∧ Reach testEnv 24 p sf ∧ Reach testEnv 24 q sf' ∧
      sf.type = sf'.type :=
  ⟨(C17_record_with_colliding_fields testEnv 21 _ (.struct []) rfl).1.mpr
      ⟨[0, 2], [1], ⟨true, 12⟩, ⟨true, 12⟩, by decide,
        Reach.nested 21 _ 0 ⟨true, 20⟩ [2] ⟨true, 12⟩ rfl rfl rfl
          (Reach.field 20 _ 2 ⟨true, 12⟩ rfl rfl rfl),
        Reach.field 21 _ 1 ⟨true, 12⟩ rfl rfl rfl, rfl⟩,
    rfl, ⟨_, rfl⟩,
    (C17_record_with_colliding_fields testEnv 24 _ (.struct []) rfl).2.1.mp ⟨_, rfl⟩⟩

/-! ## C18: the target types of a struct provider -/

/-- C18: the target types of a struct provider are exactly the types of the
exported fields reachable from the record type through exported fields, a
pointer type being replaced by its element type at each step; each occurs
once. So a reachable field contributes its own type and the types of the
exported fields reachable from it, nothing is reachable through a field
that is not exported, and the provider has no dependent types. -/
theorem C18_record_target_types (env : TypeEnv) (typ : Ty) (v : Val) (prov : Provider)
    (h : newStructProvider env typ v = some (.ok prov)) :
    (∀ t, t ∈ prov.TargetTypes ↔ ∃ path sf, Reach env typ path sf ∧ sf.type = t) ∧
    prov.TargetTypes.Nodup ∧
    prov.DependentTypes = [] ∧
    (∀ path sf, Reach env typ path sf → sf.type ∈ prov.TargetTypes ∧
      ∀ path' sf', Reach env sf.type path' sf' → sf'.type ∈ prov.TargetTypes) ∧
    (∀ fields i f, env.structFields typ = some fields → fields.get? i = some f →
      f.exported = false → ∀ rest sf, ¬ Reach env typ (i :: rest) sf) := by
  rcases newStructProvider_cases env typ v with ⟨st, hok, hs⟩ | ⟨e, herr, _⟩ | ⟨herr, _⟩
  · rw [hok] at h
    simp only [Option.some.injEq, Except.ok.injEq] at h
    subst h
    have hkeys : (Provider.struct (st.targetTypes.map fun e => (e.1, st.arrays.read e.2))
        v).TargetTypes = st.keys := by
      simp only [Provider.TargetTypes, ParseState.keys, List.map_map]
      rfl
    have hmem : ∀ t, t ∈ st.keys ↔ ∃ path sf, Reach env typ path sf ∧ sf.type = t := by
      intro t
      rw [hs.1 t]
      simp [ParseState.keys]
    rw [hkeys]
    refine ⟨hmem, hs.2.2.2 (by simp [ParseState.keys]), rfl, fun path sf hr => ?_,
      fun fields i f hf hg he rest sf hr => ?_⟩
    · exact ⟨(hmem _).mpr ⟨path, sf, hr, rfl⟩,
        fun path' sf' hr' => (hmem _).mpr ⟨path ++ path', sf', hr.through hr', rfl⟩⟩
    · cases hr with
      | field _ fields' _ _ hf' hg' he' =>
        rw [hf] at hf'; cases hf'
        rw [hg] at hg'; cases hg'
        rw [he] at he'; cases he'
      | nested _ fields' _ f' _ _ hf' hg' he' _ =>
        rw [hf] at hf'; cases hf'
        rw [hg] at hg'; cases hg'
        rw [he] at he'; cases he'
  · rw [herr] at h; cases h
  · rw [herr] at h; cases h

/-- C18 on the record `struct7_OK_Nested` of the tests, which has five
fields that are not structs spread over the record itself, the nested struct
`Nested1` and the struct behind the pointer `*Nested2`: seven target
types. -/
theorem C18_record_target_types_witness :
    ∃ prov, newStructProvider testEnv 27 struct7Val = some (.ok prov) ∧
      prov.TargetTypes = [10, 28, 15, 11, 30, 12, 16] ∧ prov.TargetTypes.length = 7 ∧
      prov.TargetTypes.Nodup ∧ prov.DependentTypes = [] :=
  ⟨_, rfl, rfl, rfl, (C18_record_target_types testEnv 27 struct7Val _ rfl).2.1,
    (C18_record_target_types testEnv 27 struct7Val _ rfl).2.2.1⟩

/-! ## C19: the value a struct provider returns -/

/-- C19 fails on the code for fields four levels deep: `append(index, i)` on
the path of length three, whose backing array has capacity four under the
gc run-time system, writes into that array, so that the `Index` slices of
the two fields of the innermost struct share their last element. In the
record of type 41 the `int` field is reachable at the path `[0, 0, 0, 0]`,
where the value 1 is stored, but the path recorded for its type is
`[0, 0, 0, 1]`, and `Build` for the type `int` returns the value 2 of the
`string` field. Fields up to three levels deep are returned as stored, as
in the record `struct7_OK_Nested`. -/
theorem C19_deep_field_path_overwritten :
    ∃ prov, newStructProvider testEnv 41 deepVal = some (.ok prov) ∧
      Reach testEnv 41 [0, 0, 0, 0] ⟨true, 10⟩ ∧
      deepVal.FieldByIndexErr [0, 0, 0, 0] = (.lit 1, none) ∧
      prov = .struct [(42, [0]), (43, [0, 0]), (44, [0, 0, 0]), (10, [0, 0, 0, 1]),
        (11, [0, 0, 0, 1])] deepVal ∧
      (∀ fuel ctx, prov.Build fuel ctx 10 = some (ctx, .lit 2, none)) ∧
      (∀ fuel ctx, prov.Build fuel ctx 11 = some (ctx, .lit 2, none)) ∧
      ∃ prov7, newStructProvider testEnv 27 struct7Val = some (.ok prov7) ∧
        Reach testEnv 27 [1, 2, 0] ⟨true, 12⟩ ∧
        struct7Val.FieldByIndexErr [1, 2, 0] = (.lit 1, none) ∧
        ∀ fuel ctx, prov7.Build fuel ctx 12 = some (ctx, .lit 1, none) :=
  ⟨_, rfl,
    Reach.nested 41 _ 0 ⟨true, 42⟩ _ _ rfl rfl rfl
      (Reach.nested 42 _ 0 ⟨true, 43⟩ _ _ rfl rfl rfl
        (Reach.nested 43 _ 0 ⟨true, 44⟩ _ _ rfl rfl rfl
          (Reach.field 44 _ 0 ⟨true, 10⟩ rfl rfl rfl))),
    rfl, rfl, fun fuel ctx => by cases fuel <;> rfl, fun fuel ctx => by cases fuel <;> rfl,
    _, rfl,
    Reach.nested 27 _ 1 ⟨true, 28⟩ _ _ rfl rfl rfl
      (Reach.nested 28 _ 2 ⟨true, 30⟩ _ _ rfl rfl rfl
        (Reach.field 30 _ 0 ⟨true, 12⟩ rfl rfl rfl)),
    rfl, fun fuel ctx => by cases fuel <;> rfl⟩

/-! ## C26: the literal provider -/

/-- C26: the provider made of a value `v` supplied as type `T` has the one
target type `T` and no dependent types; its `Build` returns `v` without
error for every context and every requested type, and returns the context
as it was: cache, in-progress set, registry and log. -/
theorem C26_literal_provider (T : Ty) (v : Val) :
    (newValueProvider T v).TargetTypes = [T] ∧
    (newValueProvider T v).DependentTypes = [] ∧
    ∀ fuel ctx t, (newValueProvider T v).Build fuel ctx t = some (ctx, v, none) := by
  refine ⟨rfl, rfl, fun fuel ctx t => ?_⟩
  cases fuel <;> rfl

/-! ## C27: `Get` -/

/-- C27: `Get(T)` returns the instance the cache holds for `T`, and the
error wrapping `ErrNotFound` when there is none, as on every container that
`NewContainer` has just returned. The result is determined by the cache
entry of `T` alone: two containers with the same entry, whatever their
registries, return the same, so no provider takes part; the method returns
a value and an error and leaves the container as it is. -/
theorem C27_get_is_cache_lookup (c : Container) (T : Ty) :
    (∀ v, c.objectMap T = some v → c.Get T = (v, none)) ∧
    (c.objectMap T = none →
      c.Get T = (.invalid, some (.objectNotFound T)) ∧
      (Err.objectNotFound T).Is .ErrNotFound = true) ∧
    (∀ c' : Container, c'.objectMap T = c.objectMap T → c'.Get T = c.Get T) ∧
    (∀ env providers opts c0, NewContainer env providers opts = some (.ok c0) →
      c0.Get T = (.invalid, some (.objectNotFound T))) := by
  refine ⟨fun v h => ?_, fun h => ⟨?_, rfl⟩, fun c' h => ?_, fun env providers opts c0 h => ?_⟩
  · unfold Container.Get; rw [h]
  · unfold Container.Get; rw [h]
  · unfold Container.Get; rw [h]
  · have hom : c0.objectMap = fun _ => none := by
      unfold NewContainer at h
      cases hp : parseProviders env providers with
      | none => rw [hp] at h; cases h
      | some r =>
        cases r with
        | error e => rw [hp] at h; cases h
        | ok ps =>
          rw [hp] at h
          simp only [Option.some.injEq, Except.ok.injEq] at h
          subst h
          generalize hc : ({ sharedMode := true, providerSet := ps, objectMap := fun _ => none }
            : Container) = c1
          have h1 : c1.objectMap = fun _ => none := by rw [← hc]
          clear hc
          induction opts generalizing c1 with
          | nil => exact h1
          | cons o rest ih =>
            cases o with
            | SetSharedMode flag => exact ih _ h1
    unfold Container.Get
    rw [hom]

/-- C27 on the container with an instance of type 2 cached: `Get` returns it
for type 2 and fails for type 1; and on the container `NewContainer` makes
of one function, where it fails. -/
theorem C27_get_is_cache_lookup_witness :
    cachedPairContainer.Get 2 = (.obj 2 [], none) ∧
    cachedPairContainer.Get 1 = (.invalid, some (.objectNotFound 1)) ∧
    ∃ c0, NewContainer testEnv [.func 50 (mkObj 1)] [] = some (.ok c0) ∧
      c0.Get 1 = (.invalid, some (.objectNotFound 1)) :=
  ⟨(C27_get_is_cache_lookup cachedPairContainer 2).1 _ rfl,
    ((C27_get_is_cache_lookup cachedPairContainer 1).2.1 rfl).1,
    _, rfl,
    (C27_get_is_cache_lookup pairContainer 1).2.2.2 testEnv [.func 50 (mkObj 1)] [] _ rfl⟩

/-! ## C30: the cache hit -/

/-- C30: in shared mode, when the cache holds an instance for the target
type, `funcProvider.Build` returns that instance and no error, and returns
the context as it was (cache, in-progress set, log of executions), whatever
the dependent types are, whether or not they have providers, and whether or
not the target type is marked in progress. -/
theorem C30_cache_hit_returns_at_once (fuel : Nat) (deps : List Ty) (out : Ty)
    (call : List Val → Val × Option Err) (ctx : Context) (T : Ty) (v : Val)
    (hs : ctx.sharedMode = true) (hv : ctx.objectMap T = some v) :
    Provider.Build (fuel + 1) (.func deps out call) ctx T = some (ctx, v, none) :=
  Provider.Build_func_hit fuel deps out call ctx T v (by simp [Context.cached, hs, hv])

/-- C30 on a context in which the type 1 is cached and marked in progress,
for a factory whose parameter type 9 has no provider and whose call would
return an error. -/
theorem C30_cache_hit_returns_at_once_witness :
    (((cachedPairContainer.newContext).mark 2).resolvingTypes 2 = true ∧
      ((cachedPairContainer.newContext).mark 2).providerSet.GetFor 9
        = .error (.providerNotFound 9)) ∧
    Provider.Build 1 (.func [9] 2 (fun _ => (.invalid, some (.user 1))))
        ((cachedPairContainer.newContext).mark 2) 2
      = some ((cachedPairContainer.newContext).mark 2, .obj 2 [], none) :=
  ⟨⟨by simp [Context.mark], rfl⟩,
    C30_cache_hit_returns_at_once 0 [9] 2 _ ((cachedPairContainer.newContext).mark 2) 2
      (.obj 2 []) rfl rfl⟩

/-! ## C28: the in-progress set across `funcProvider.Build` -/

/-- C28: whatever `funcProvider.Build` returns (the cached instance, the
result of the factory with or without error, the error of a dependency, the
panic of the call, the circular-dependency error), the in-progress set of
the context it leaves is the one it found. On a cache hit the context is
returned as it is, and so it is when the cycle check fails. When the call
passes the cache test and the cycle check, the result is the one obtained
by building the dependent types in the context in which the target type is
marked: that run returns, the target type is still marked when it has
ended, and the context returned is the one the run left (with the result
of the factory stored and logged when it was called) with the mark removed;
the value and the error returned are those of the failed dependency, of
the panic, or of the factory called on the arguments of that run. -/
theorem C28_build_restores_in_progress (fuel : Nat) (deps : List Ty) (out : Ty)
    (call : List Val → Val × Option Err) (ctx : Context) (T : Ty) (r : Built)
    (h : Provider.Build (fuel + 1) (.func deps out call) ctx T = some r) :
    r.1.resolvingTypes = ctx.resolvingTypes ∧
    (∀ v, ctx.cached T = some v → r = (ctx, v, none)) ∧
    (ctx.cached T = none → ctx.resolvingTypes T = true →
      r = (ctx, .invalid, some (.circularDependency T))) ∧
    (ctx.cached T = none → ctx.resolvingTypes T = false →
      ∃ ctx2 res, buildArgs (Provider.Build fuel) (ctx.mark T) deps [] = some (ctx2, res) ∧
        (ctx.mark T).resolvingTypes = Function.update ctx.resolvingTypes T true ∧
        ctx2.resolvingTypes = (ctx.mark T).resolvingTypes ∧ ctx2.resolvingTypes T = true ∧
        (∃ ctx3 : Context, r.1 = ctx3.unmark T ∧ ctx3.resolvingTypes = ctx2.resolvingTypes ∧
          r.1.resolvingTypes = Function.update ctx2.resolvingTypes T false) ∧
        r.1.resolvingTypes T = false ∧
        (∀ e, res = .error e → r = (ctx2.unmark T, .invalid, some e)) ∧
        (∀ inArgs, res = .ok inArgs → inArgs.all Val.IsValid = true →
          r = ((ctx2.finish T deps inArgs (call inArgs)).unmark T,
            (call inArgs).1, (call inArgs).2)) ∧
        ∀ inArgs, res = .ok inArgs → inArgs.all Val.IsValid = false →
          r = (ctx2.unmark T, .invalid, some .panicked)) := by
  obtain ⟨new, hg⟩ := Provider.Build_grows _ _ _ _ _ h
  refine ⟨hg.2.2.1, fun v hc => ?_, fun hc hr => ?_, fun hc hr => ?_⟩
  · rw [Provider.Build_func_hit fuel deps out call ctx T v hc] at h
    exact (Option.some.inj h).symm
  · rw [Provider.Build_func_circular fuel deps out call ctx T hc hr] at h
    exact (Option.some.inj h).symm
  have hmark : (ctx.mark T).resolvingTypes T = true := by simp [Context.mark]
  cases ha : buildArgs (Provider.Build fuel) (ctx.mark T) deps [] with
  | none =>
    unfold Provider.Build at h
    rw [hc] at h
    simp only [hr, Bool.false_eq_true, if_false, ha] at h
    cases h
  | some x =>
    obtain ⟨ctx2, res⟩ := x
    obtain ⟨new2, hg2⟩ := buildArgs_grows _ _ _ _ _ ha
    have h2 : ctx2.resolvingTypes = (ctx.mark T).resolvingTypes := hg2.2.2.1
    have h3 : ctx2.resolvingTypes T = true := by rw [h2]; exact hmark
    have hlast : r.1.resolvingTypes T = false := by rw [hg.2.2.1]; exact hr
    refine ⟨ctx2, res, rfl, rfl, h2, h3, ?_, hlast, ?_, ?_, ?_⟩
    · cases res with
      | error e =>
        rw [Provider.Build_func_argfail fuel deps out call ctx ctx2 T e hc hr ha] at h
        cases h
        exact ⟨ctx2, rfl, rfl, rfl⟩
      | ok inArgs =>
        cases hv : inArgs.all Val.IsValid with
        | true =>
          rw [Provider.Build_func_ok fuel deps out call ctx ctx2 T inArgs hc hr ha hv] at h
          cases h
          exact ⟨ctx2.finish T deps inArgs (call inArgs), rfl, rfl, rfl⟩
        | false =>
          rw [Provider.Build_func_panic fuel deps out call ctx ctx2 T inArgs hc hr ha hv] at h
          cases h
          exact ⟨ctx2, rfl, rfl, rfl⟩
    · intro e he
      subst he
      rw [Provider.Build_func_argfail fuel deps out call ctx ctx2 T e hc hr ha] at h
      exact (Option.some.inj h).symm
    · intro inArgs he hv
      subst he
      rw [Provider.Build_func_ok fuel deps out call ctx ctx2 T inArgs hc hr ha hv] at h
      exact (Option.some.inj h).symm
    · intro inArgs he hv
      subst he
      rw [Provider.Build_func_panic fuel deps out call ctx ctx2 T inArgs hc hr ha hv] at h
      exact (Option.some.inj h).symm

/-- C28 on the two-factory container, where the build of type 1 succeeds,
on the container whose factory for type 2 returns an error, where it fails,
and on the container whose two factories take each other's type, where the
build of type 2 under the mark of type 1 ends with the circular-dependency
error of type 1, which the build of type 1 returns with the mark removed. -/
theorem C28_build_restores_in_progress_witness :
    (∃ r, Provider.Build 2 (.func [2] 1 (mkObj 1)) pairContainer.newContext 1 = some r ∧
      r.2.2 = none ∧ r.1.resolvingTypes = pairContainer.newContext.resolvingTypes) ∧
    (∃ r, Provider.Build 2 (.func [2] 1 (mkObj 1)) failingDepContainer.newContext 1 = some r ∧
      r.2.2 = some (.user 1) ∧
      r.1.resolvingTypes = failingDepContainer.newContext.resolvingTypes) ∧
    ∃ r ctx2, Provider.Build 3 (.func [2] 1 (mkObj 1)) mutualContainer.newContext 1 = some r ∧
      buildArgs (Provider.Build 2) (mutualContainer.newContext.mark 1) [2] []
        = some (ctx2, .error (.circularDependency 1)) ∧
      ctx2.resolvingTypes 1 = true ∧
      r = (ctx2.unmark 1, .invalid, some (.circularDependency 1)) ∧
      r.1.resolvingTypes 1 = false :=
  ⟨⟨_, rfl, rfl,
      (C28_build_restores_in_progress 1 [2] 1 (mkObj 1) pairContainer.newContext 1 _ rfl).1⟩,
    ⟨_, rfl, rfl,
      (C28_build_restores_in_progress 1 [2] 1 (mkObj 1) failingDepContainer.newContext 1 _
        rfl).1⟩,
    by
      have hb : Provider.Build 3 (.func [2] 1 (mkObj 1)) mutualContainer.newContext 1
          = some ((((mutualContainer.newContext.mark 1).mark 2).unmark 2).unmark 1, .invalid,
              some (.circularDependency 1)) := rfl
      have h0 : buildArgs (Provider.Build 2) (mutualContainer.newContext.mark 1) [2] []
          = some (((mutualContainer.newContext.mark 1).mark 2).unmark 2,
              .error (.circularDependency 1)) := rfl
      obtain ⟨ctx2, res, ha, _, _, h3, _, hlast, herr, _, _⟩ :=
        (C28_build_restores_in_progress 2 [2] 1 (mkObj 1) mutualContainer.newContext 1 _
          hb).2.2.2 rfl rfl
      rw [h0] at ha
      cases ha
      exact ⟨_, _, hb, h0, h3, herr _ rfl, hlast⟩⟩

/-! ## C29: the in-progress set across `container.resolve` -/

/-- C29 fails on the code: `container.resolve` removes the mark of its type
only at its end, and returns before that on every error. On the container
in which type 1 takes the types 2 and 9 and type 9 has no provider,
`resolve` for type 1 returns the error for type 9 and leaves the types 1 and
9 marked in progress (type 2, which was resolved, is not); `Build` on the
same container, whose removal is deferred, leaves no type marked, and so
does a `resolve` that succeeds. -/
theorem C29_resolve_leaves_marks_on_failure :
    ∃ ctx1, resolve 3 partialFailContainer.resolveContext 1
        = some (ctx1, .error (.providerNotFound 9)) ∧
      partialFailContainer.resolveContext.resolvingTypes 1 = false ∧
      partialFailContainer.resolveContext.resolvingTypes 9 = false ∧
      ctx1.resolvingTypes 1 = true ∧ ctx1.resolvingTypes 9 = true ∧
      ctx1.resolvingTypes 2 = false ∧
      (∃ b, Provider.Build 3 (.func [2, 9] 1 (mkObj 1)) partialFailContainer.newContext 1
          = some (b, .invalid, some (.providerNotFound 9)) ∧
        b.resolvingTypes 1 = false ∧ b.resolvingTypes 9 = false) ∧
      ∃ ctx2 g, resolve 3 pairContainer.resolveContext 1 = some (ctx2, .ok g) ∧
        ctx2.resolvingTypes 1 = false ∧ ctx2.resolvingTypes 2 = false :=
  ⟨_, rfl, rfl, rfl, rfl, rfl, rfl, ⟨_, rfl, rfl, rfl⟩, _, _, rfl, rfl, rfl⟩

/-! ## C21: the first failing dependency -/

theorem buildArgs_append (build : Provider → Context → Ty → Option Built) (pre rest : List Ty) :
    ∀ ctx acc, buildArgs build ctx (pre ++ rest) acc =
      match buildArgs build ctx pre acc with
      | some (ctx1, .ok args) => buildArgs build ctx1 rest args
      | other => other := by
  induction pre with
  | nil => intro ctx acc; rfl
  | cons d ds ih =>
    intro ctx acc
    simp only [List.cons_append, buildArgs]
    cases ctx.providerSet.GetFor d with
    | error e => rfl
    | ok argProv =>
      simp only
      cases build argProv ctx d with
      | none => rfl
      | some x =>
        obtain ⟨ctx1, v, e⟩ := x
        cases e with
        | some e => rfl
        | none => exact ih ctx1 (acc ++ [v])

theorem ProviderSet.GetFor_error (ps : ProviderSet) (t : Ty) (e : Err)
    (h : ps.GetFor t = .error e) : e = .providerNotFound t := by
  unfold ProviderSet.GetFor at h
  split at h
  · cases h
  · split at h
    · cases h
    · cases h; rfl

/-- C21: let the dependent types of a factory be `pre`, then `d`, then
`post`, and let the call pass the cache test and the cycle check. If the
types of `pre` are built one after the other without error, leaving the
context `ctx1`, and then either the lookup of `d` fails or the build of `d`
returns the error `e` (leaving `ctx2`), then `funcProvider.Build` returns
exactly that error and an invalid value, whatever `post` is; the context
it leaves is the one the failing step left, with the mark of the target type
removed, so no type of `post` was looked up or built; the log has gained no
execution for the target type, so the factory was not called; and the
cache entry of the target type is what it was. A failed lookup is the
error wrapping `ErrNotFound` that names `d`; being returned unchanged by
every enclosing `Build`, it is the error of the whole call at any depth. -/
theorem C21_first_failure_stops_build (fuel : Nat) (pre post : List Ty) (d : Ty) (out : Ty)
    (call : List Val → Val × Option Err) (ctx : Context) (T : Ty)
    (hc : ctx.cached T = none) (hr : ctx.resolvingTypes T = false)
    (ctx1 : Context) (args : List Val)
    (hpre : buildArgs (Provider.Build fuel) (ctx.mark T) pre [] = some (ctx1, .ok args))
    (ctx2 : Context) (e : Err)
    (hfail : (ctx1.providerSet.GetFor d = .error e ∧ ctx2 = ctx1) ∨
      ∃ p v, ctx1.providerSet.GetFor d = .ok p ∧ p.Build fuel ctx1 d = some (ctx2, v, some e)) :
    Provider.Build (fuel + 1) (.func (pre ++ d :: post) out call) ctx T
      = some (ctx2.unmark T, .invalid, some e) ∧
    (ctx1.providerSet.GetFor d = .error e →
      e = .providerNotFound d ∧ e.Is .ErrNotFound = true) ∧
    (∃ new, (ctx2.unmark T).calls = ctx.calls ++ new ∧ ∀ y ∈ new, y.target ≠ T) ∧
    (ctx2.unmark T).objectMap T = ctx.objectMap T := by
  have hloop : buildArgs (Provider.Build fuel) (ctx.mark T) (pre ++ d :: post) []
      = some (ctx2, .error e) := by
    rw [buildArgs_append, hpre]
    simp only
    rcases hfail with ⟨hg, rfl⟩ | ⟨p, v, hg, hb⟩
    · simp only [buildArgs, hg]
    · exact buildArgs_head_fail _ _ _ _ _ _ _ _ _ hg hb
  obtain ⟨new, hg⟩ := buildArgs_grows _ _ _ _ _ hloop
  have hnew : ∀ y ∈ new, y.target ≠ T := by
    intro y hy heq
    have := (hg.2.2.2.2.1 y hy).1
    rw [heq] at this
    simp [Context.mark] at this
  refine ⟨Provider.Build_func_argfail fuel _ out call ctx ctx2 T e hc hr hloop, fun hl => ?_,
    ⟨new, ?_, hnew⟩, ?_⟩
  · have := ProviderSet.GetFor_error _ _ _ hl
    subst this
    exact ⟨rfl, rfl⟩
  · simpa using hg.2.2.2.1
  · rcases hg.2.2.2.2.2.1 T with h1 | ⟨_, _, y, hy, ht, _⟩
    · simpa using h1
    · exact absurd ht (hnew y hy)

/-- C21 on the container in which type 1 takes type 2, then type 9, which
has no provider, then type 3: the factory of type 2 is the only one executed
and the error names type 9. One level up, a factory taking type 1 returns
the same error. -/
theorem C21_first_failure_stops_build_witness :
    ∃ b, Provider.Build 2 (.func ([2] ++ 9 :: [3]) 1 (mkObj 1)) stopContainer.newContext 1
        = some (b, .invalid, some (.providerNotFound 9)) ∧
      b.calls.map CallRecord.target = [2] ∧ b.objectMap 1 = none ∧
      ∃ b2, Provider.Build 3 (.func [1] 5 (mkObj 5)) stopContainer.newContext 5
          = some (b2, .invalid, some (.providerNotFound 9)) ∧
        b2.calls.map CallRecord.target = [2] :=
  ⟨_, (C21_first_failure_stops_build 1 [2] [3] 9 1 (mkObj 1) stopContainer.newContext 1
      rfl rfl _ _ rfl _ (.providerNotFound 9) (Or.inl ⟨rfl, rfl⟩)).1,
    rfl, rfl, _, rfl, rfl⟩

/-! ## C22: the graph `Resolve` returns -/

theorem forall₂_get? {α β : Type} {R : α → β → Prop} {l1 : List α} {l2 : List β}
    (h : List.Forall₂ R l1 l2) :
    ∀ i a, l1.get? i = some a → ∃ b, l2.get? i = some b ∧ R a b := by
  induction h with
  | nil => intro i a hi; simp at hi
  | cons hab _ ih =>
    intro i a hi
    cases i with
    | zero =>
      simp only [List.get?_cons_zero, Option.some.injEq] at hi
      subst hi
      exact ⟨_, rfl, hab⟩
    | succ i => exact ih i a (by simpa using hi)

/-- The child loop of `container.resolve`, when it succeeds, has added to
the children one graph for each type of the list, in order. -/
theorem resolveDeps_graphs (fuel : Nat) (ps : ProviderSet)
    (ih : ∀ ctx t ctx1 g, ctx.providerSet = ps → resolve fuel ctx t = some (ctx1, .ok g) →
      GraphOf ps fuel t g) :
    ∀ ds ctx acc ctx1 gs, ctx.providerSet = ps →
      resolveDeps (resolve fuel) ctx ds acc = some (ctx1, .ok gs) →
      ∃ new, gs = acc ++ new ∧ List.Forall₂ (GraphOf ps fuel) ds new := by
  intro ds
  induction ds with
  | nil =>
    intro ctx acc ctx1 gs _ h
    simp only [resolveDeps, Option.some.injEq, Prod.mk.injEq, Except.ok.injEq] at h
    exact ⟨[], by simp [h.2], List.Forall₂.nil⟩
  | cons d rest ihl =>
    intro ctx acc ctx1 gs hps h
    unfold resolveDeps at h
    cases hr : resolve fuel ctx d with
    | none => rw [hr] at h; cases h
    | some x =>
      obtain ⟨ctx2, r⟩ := x
      rw [hr] at h
      cases r with
      | error e => cases h
      | ok g =>
        simp only at h
        have hw := (resolve_walked fuel).1 ctx d _ hr
        obtain ⟨new, hgs, hall⟩ := ihl ctx2 (acc ++ [g]) ctx1 gs (hw.2.1.trans hps) h
        exact ⟨g :: new, by simp [hgs], List.Forall₂.cons (ih ctx d ctx2 g hps hr) hall⟩

/-- The graph `container.resolve` returns is the dependency graph of the
type in the registry of the context. -/
theorem resolve_graph (fuel : Nat) (ps : ProviderSet) :
    ∀ ctx t ctx1 g, ctx.providerSet = ps → resolve fuel ctx t = some (ctx1, .ok g) →
      GraphOf ps fuel t g := by
  induction fuel with
  | zero => intro ctx t ctx1 g _ h; simp [resolve] at h
  | succ fuel ih =>
    intro ctx t ctx1 g hps h
    unfold resolve at h
    split at h
    · cases h
    · cases hg : (ctx.mark t).providerSet.GetFor t with
      | error e => rw [hg] at h; cases h
      | ok provider =>
        rw [hg] at h
        simp only at h
        cases hd : resolveDeps (resolve fuel) (ctx.mark t) provider.DependentTypes [] with
        | none => rw [hd] at h; cases h
        | some x =>
          obtain ⟨ctx2, r⟩ := x
          rw [hd] at h
          cases r with
          | error e => cases h
          | ok deps =>
            simp only [Option.some.injEq, Prod.mk.injEq, Except.ok.injEq] at h
            obtain ⟨new, hnew, hall⟩ := resolveDeps_graphs fuel ps ih _ (ctx.mark t) [] ctx2
              deps hps hd
            rw [← h.2]
            refine ⟨rfl, provider, ?_, ?_⟩
            · rw [← hps]; exact hg
            · simp only [List.nil_append] at hnew
              rw [hnew]; exact hall

/-- C22: when `Resolve(T)` succeeds, the node it returns has `T` as target
type and, the provider of `T` having the dependent types `d₁ … dₙ`, exactly
`n` children, the `i`-th of which has the target type `dᵢ` and is the
dependency graph of `dᵢ`, built in the same way; a type whose provider is
not a function (a struct or a literal provider) has no children. A type
required under several nodes has a node under each of them. -/
theorem C22_resolve_returns_dependency_graph (c : Container) (T : Ty) (g : DependencyGraph)
    (h : c.Resolve T = some (.ok g)) :
    g.TargetType = T ∧
    ∃ p, c.providerSet.GetFor T = .ok p ∧
      g.Dependencies.length = p.DependentTypes.length ∧
      (∀ i d, p.DependentTypes.get? i = some d →
        ∃ child, g.Dependencies.get? i = some child ∧ child.TargetType = d ∧
          ∃ n, GraphOf c.providerSet n d child) ∧
      ((∀ deps out call, p ≠ .func deps out call) → g.Dependencies = []) ∧
      ∃ n, GraphOf c.providerSet n T g := by
  unfold Container.Resolve at h
  cases hr : resolve c.resolveContext.providerSet.fuel c.resolveContext T with
  | none => rw [hr] at h; cases h
  | some x =>
    obtain ⟨ctx1, r⟩ := x
    rw [hr] at h
    simp only [Option.map_some', Option.some.injEq] at h
    subst h
    have hG := resolve_graph _ c.providerSet c.resolveContext T ctx1 g rfl hr
    generalize c.resolveContext.providerSet.fuel = n at hG
    cases n with
    | zero => exact absurd hG (by simp [GraphOf])
    | succ n =>
      obtain ⟨ht, p, hp, hall⟩ := hG
      refine ⟨ht, p, hp, hall.length_eq.symm, fun i d hd => ?_, fun hnf => ?_, n + 1,
        ht, p, hp, hall⟩
      · obtain ⟨child, hc, hgc⟩ := forall₂_get? hall i d hd
        refine ⟨child, hc, ?_, n, hgc⟩
        cases n with
        | zero => exact absurd hgc (by simp [GraphOf])
        | succ n => exact hgc.1
      · have hdeps : p.DependentTypes = [] := by
          cases p with
          | func deps out call => exact absurd rfl (hnf deps out call)
          | struct tt sv => rfl
          | value tt sv => rfl
        rw [hdeps] at hall
        exact List.forall₂_nil_left_iff.mp hall

/-- C22 on the container in which type 1 takes the types 2 and 3, which
both take type 4: the node of type 4 occurs under the node of type 2 and
under the node of type 3. -/
theorem C22_resolve_returns_dependency_graph_witness :
    diamondContainer.Resolve 1
      = some (.ok (.mk 1 [.mk 2 [.mk 4 []], .mk 3 [.mk 4 []]])) ∧
    (DependencyGraph.mk 1 [.mk 2 [.mk 4 []], .mk 3 [.mk 4 []]]).TargetType = 1 ∧
    ∃ n, GraphOf diamondContainer.providerSet n 1 (.mk 1 [.mk 2 [.mk 4 []], .mk 3 [.mk 4 []]]) :=
  ⟨rfl, (C22_resolve_returns_dependency_graph diamondContainer 1 _ rfl).1,
    (C22_resolve_returns_dependency_graph diamondContainer 1 _ rfl).2.elim
      fun _ hp => hp.2.2.2.2⟩

/-! ## C23: `Resolve` builds nothing -/

/-- The walk reads only the registry and the in-progress set: run on the
context reduced to these two, it returns the same result and leaves the
reduced context. -/
theorem resolve_walkPart (fuel : Nat) :
    ∀ ctx t, resolve fuel ctx.walkPart t
      = (resolve fuel ctx t).map fun x => (x.1.walkPart, x.2) := by
  induction fuel with
  | zero => intro ctx t; rfl
  | succ fuel ih =>
    have hloop : ∀ ds ctx acc, resolveDeps (resolve fuel) ctx.walkPart ds acc
        = (resolveDeps (resolve fuel) ctx ds acc).map fun x => (x.1.walkPart, x.2) := by
      intro ds
      induction ds with
      | nil => intro ctx acc; rfl
      | cons d rest ihl =>
        intro ctx acc
        simp only [resolveDeps]
        rw [ih ctx d]
        cases resolve fuel ctx d with
        | none => rfl
        | some x =>
          obtain ⟨ctx1, r⟩ := x
          cases r with
          | error e => rfl
          | ok g => exact ihl ctx1 (acc ++ [g])
    intro ctx t
    simp only [resolve]
    have hrt : ctx.walkPart.resolvingTypes t = ctx.resolvingTypes t := rfl
    rw [hrt]
    cases ctx.resolvingTypes t with
    | true => rfl
    | false =>
      simp only [Bool.false_eq_true, if_false]
      have hps : (ctx.walkPart.mark t).providerSet.GetFor t
          = (ctx.mark t).providerSet.GetFor t := rfl
      rw [hps]
      cases (ctx.mark t).providerSet.GetFor t with
      | error e => rfl
      | ok provider =>
        simp only
        have hm : ctx.walkPart.mark t = (ctx.mark t).walkPart := rfl
        rw [hm, hloop]
        cases resolveDeps (resolve fuel) (ctx.mark t) provider.DependentTypes [] with
        | none => rfl
        | some x =>
          obtain ⟨ctx2, r⟩ := x
          cases r with
          | error e => rfl
          | ok deps => rfl

/-- When the tree of a type has a provider for every type and no type
occurs below itself, the walk succeeds from every context whose in-progress
types are above the tree, and leaves the in-progress set as it was. -/
theorem resolve_of_acyclicTree (n : Nat) :
    ∀ ctx anc T, AcyclicTree ctx.providerSet n anc T →
      (∀ t, ctx.resolvingTypes t = true → t ∈ anc) →
      ∃ ctx1 g, resolve n ctx T = some (ctx1, .ok g) ∧
        ctx1.resolvingTypes = ctx.resolvingTypes ∧ ctx1.providerSet = ctx.providerSet := by
  induction n with
  | zero => intro ctx anc T h; exact absurd h (by simp [AcyclicTree])
  | succ n ih =>
    intro ctx anc T h hanc
    obtain ⟨hT, p, hp, hdeps⟩ := h
    have hr : ctx.resolvingTypes T = false := by
      cases hrt : ctx.resolvingTypes T with
      | false => rfl
      | true => exact absurd (hanc T hrt) hT
    have hloop : ∀ ds cur acc, (∀ d ∈ ds, AcyclicTree ctx.providerSet n (T :: anc) d) →
        cur.providerSet = ctx.providerSet →
        cur.resolvingTypes = (ctx.mark T).resolvingTypes →
        ∃ cur1 gs, resolveDeps (resolve n) cur ds acc = some (cur1, .ok gs) ∧
          cur1.resolvingTypes = (ctx.mark T).resolvingTypes ∧
          cur1.providerSet = ctx.providerSet := by
      intro ds
      induction ds with
      | nil => intro cur acc _ hps hrt; exact ⟨cur, acc, rfl, hrt, hps⟩
      | cons d rest ihl =>
        intro cur acc hall hps hrt
        have hmarks : ∀ t, cur.resolvingTypes t = true → t ∈ T :: anc := by
          intro t ht
          rw [hrt] at ht
          by_cases htT : t = T
          · exact htT ▸ List.mem_cons_self _ _
          · refine List.mem_cons_of_mem _ (hanc t ?_)
            simpa [Context.mark, Function.update, htT] using ht
        obtain ⟨cur1, g, hres, hrt1, hps1⟩ := ih cur (T :: anc) d
          (hps ▸ hall d (List.mem_cons_self _ _)) hmarks
        obtain ⟨cur2, gs, hres2, hrt2, hps2⟩ := ihl cur1 (acc ++ [g])
          (fun d' hd' => hall d' (List.mem_cons_of_mem _ hd')) (hps1.trans hps)
          (hrt1.trans hrt)
        refine ⟨cur2, gs, ?_, hrt2, hps2⟩
        simp only [resolveDeps, hres]
        exact hres2
    obtain ⟨ctx2, gs, hres, hrt2, hps2⟩ := hloop p.DependentTypes (ctx.mark T) [] hdeps rfl rfl
    refine ⟨ctx2.unmark T, .mk T gs, ?_, ?_, hps2⟩
    · simp only [resolve, hr, Bool.false_eq_true, if_false]
      have hg : (ctx.mark T).providerSet.GetFor T = .ok p := hp
      rw [hg]
      simp only
      rw [hres]
    · funext t
      simp only [Context.unmark, hrt2, Context.mark, Function.update]
      by_cases htT : t = T
      · subst htT; simp [hr]
      · simp [htT]

/-- C23: the walk of `Resolve(T)` leaves the cache, the registry and the
mode of the container's context as they were and executes no factory (the
log stays empty); its result is the same on every container with the same
registry, whatever the cache holds and whatever the mode is; and it
succeeds whenever the tree of `T` has a provider for every type and no type
occurs below itself, whatever the factories would return when called. -/
theorem C23_resolve_builds_nothing (c : Container) (T : Ty) :
    (∀ fuel ctx1 r, resolve fuel c.resolveContext T = some (ctx1, r) →
      ctx1.objectMap = c.objectMap ∧ ctx1.providerSet = c.providerSet ∧
      ctx1.sharedMode = c.sharedMode ∧ ctx1.calls = []) ∧
    (∀ c' : Container, c'.providerSet = c.providerSet → c'.Resolve T = c.Resolve T) ∧
    ((∃ n, AcyclicTree c.providerSet n [] T) → ∃ g, c.Resolve T = some (.ok g)) := by
  refine ⟨fun fuel ctx1 r h => ?_, fun c' hps => ?_, fun ⟨n, hn⟩ => ?_⟩
  · have hw := (resolve_walked fuel).1 _ _ _ h
    exact ⟨hw.2.2.1, hw.2.1, hw.1, hw.2.2.2.1⟩
  · have hview : ∀ (d : Container), d.Resolve T
        = (resolve d.providerSet.fuel d.resolveContext.walkPart T).map Prod.snd := by
      intro d
      show (resolve d.providerSet.fuel d.resolveContext T).map Prod.snd = _
      rw [resolve_walkPart, Option.map_map]
      rfl
    have hctx : c'.resolveContext.walkPart = c.resolveContext.walkPart := by
      simp only [Container.resolveContext, Context.walkPart, hps]
    rw [hview c', hview c, hctx, hps]
  · obtain ⟨ctx1, g, hres, _, _⟩ := resolve_of_acyclicTree n c.resolveContext [] T hn
      (fun t ht => by simp [Container.resolveContext] at ht)
    exact ⟨g, c.Resolve_of_fuel T n ctx1 (.ok g) hres⟩

/-- C23 on the container whose factory for type 2 returns an error: `Build`
of type 1 fails with that error, `Resolve` of type 1 succeeds, and also does
on the same container with a cache entry. -/
theorem C23_resolve_builds_nothing_witness :
    (∃ r, failingDepContainer.Build 1 [] = some r ∧ r.err = some (.user 1)) ∧
    (∃ g, failingDepContainer.Resolve 1 = some (.ok g)) ∧
    failingDepContainer.Resolve 1 = some (.ok (.mk 1 [.mk 2 []])) ∧
    Container.Resolve { failingDepContainer with objectMap := fun _ => some (.lit 0) } 1
      = failingDepContainer.Resolve 1 :=
  ⟨⟨_, rfl, rfl⟩,
    (C23_resolve_builds_nothing failingDepContainer 1).2.2
      ⟨2, by
        refine ⟨by simp, .func [2] 1 (mkObj 1), rfl, fun d hd => ?_⟩
        have hd2 : d = 2 := by simpa [Provider.DependentTypes] using hd
        subst hd2
        exact ⟨by simp, .func [] 2 _, rfl, fun d hd => by
          simp [Provider.DependentTypes] at hd⟩⟩,
    rfl,
    (C23_resolve_builds_nothing failingDepContainer 1).2.1 _ rfl⟩

/-! ## C25: the sources that are not providers -/

theorem parseSources_append (env : TypeEnv) (pre rest : List Source) :
    ∀ m, parseSources env (pre ++ rest) m =
      match parseSources env pre m with
      | some (.ok m1) => parseSources env rest m1
      | other => other := by
  induction pre with
  | nil => intro m; rfl
  | cons src tl ih =>
    intro m
    simp only [List.cons_append, parseSources]
    cases sourceProviders env src with
    | none => rfl
    | some r =>
      cases r with
      | error e => rfl
      | ok provs =>
        simp only
        cases addProviders provs m with
        | error e => rfl
        | ok m1 => exact ih m1

/-- C25: `NewProviderSet` without sources returns `ErrProviderInvalid`. The
untyped nil, a nil pointer, a struct passed by value, a value of another
kind (a map, say) and a pointer to anything but a function or a struct each
have the error `ErrProviderInvalid`. The sources are taken in order: when
the sources before one have been entered in the map without error and that
one has an error, `NewProviderSet` and `NewContainer` return it, whatever
the sources after it are. -/
theorem C25_invalid_sources (env : TypeEnv) :
    NewProviderSet env [] = some (.error .providerInvalid) ∧
    Err.providerInvalid.Is .ErrProviderInvalid = true ∧
    (∀ bad : Source,
      (bad = .nil ∨ bad = .pointer none ∨ (∃ typ v, bad = .struct typ v) ∨ bad = .other ∨
        ∃ s, bad = .pointer (some s) ∧ (∀ typ call, s ≠ .func typ call) ∧
          ∀ typ v, s ≠ .struct typ v) →
      sourceProviders env bad = some (.error .providerInvalid)) ∧
    (∀ pre src post m e, parseSources env pre [] = some (.ok m) →
      sourceProviders env src = some (.error e) →
      NewProviderSet env (pre ++ src :: post) = some (.error e) ∧
      ∀ opts, NewContainer env (pre ++ src :: post) opts = some (.error e)) := by
  refine ⟨rfl, rfl, fun bad hbad => ?_, fun pre src post m e hpre hsrc => ?_⟩
  · rcases hbad with rfl | rfl | ⟨typ, v, rfl⟩ | rfl | ⟨s, rfl, hf, hs⟩
    · rfl
    · rfl
    · rfl
    · rfl
    · cases s with
      | func typ call => exact absurd rfl (hf typ call)
      | struct typ v => exact absurd rfl (hs typ v)
      | nil => rfl
      | providerSet ps => rfl
      | provider p => rfl
      | pointer elem => rfl
      | other => rfl
  · have hps : parseProviders env (pre ++ src :: post) = some (.error e) := by
      unfold parseProviders
      rw [parseSources_append, hpre]
      simp only [parseSources, hsrc]
    refine ⟨hps, fun opts => ?_⟩
    unfold NewContainer
    rw [hps]

/-- C25 on the sources of the tests: a function followed by nil, and a
function followed by a map. -/
theorem C25_invalid_sources_witness :
    NewProviderSet testEnv [.func 50 (mkObj 1), .nil] = some (.error .providerInvalid) ∧
    NewProviderSet testEnv [.func 50 (mkObj 1), .other, .func 51 (mkObj 2)]
      = some (.error .providerInvalid) :=
  ⟨((C25_invalid_sources testEnv).2.2.2 [.func 50 (mkObj 1)] .nil [] _ _ rfl rfl).1,
    ((C25_invalid_sources testEnv).2.2.2 [.func 50 (mkObj 1)] .other [.func 51 (mkObj 2)]
      _ _ rfl rfl).1⟩

/-! ## C24: the entries of `GetAll` -/

theorem lookup_of_mem_nodup {β : Type} (l : List (Ty × β)) (h : (l.map Prod.fst).Nodup)
    (e : Ty × β) (he : e ∈ l) : l.lookup e.1 = some e.2 := by
  induction l with
  | nil => cases he
  | cons a rest ih =>
    obtain ⟨k, v⟩ := a
    simp only [List.map_cons, List.nodup_cons] at h
    rcases List.mem_cons.mp he with rfl | he
    · simp [List.lookup_cons]
    · have hne : e.1 ≠ k := fun heq => h.1 (heq ▸ List.mem_map_of_mem Prod.fst he)
      have hb : (e.1 == k) = false := by simpa using hne
      rw [List.lookup_cons, hb]
      exact ih h.2 he

theorem mapStore_keys {β : Type} (m : List (Ty × β)) (t : Ty) (v : β) (k : Ty) :
    k ∈ (mapStore m t v).map Prod.fst ↔ k = t ∨ k ∈ m.map Prod.fst := by
  unfold mapStore
  simp only [List.map_append, List.map_cons, List.map_nil, List.mem_append, List.mem_map,
    List.mem_filter, List.mem_singleton, bne_iff_ne, ne_eq]
  constructor
  · rintro (⟨e, ⟨he, _⟩, rfl⟩ | h)
    · exact Or.inr ⟨e, he, rfl⟩
    · exact Or.inl h
  · rintro (h | ⟨e, he, rfl⟩)
    · exact Or.inr h
    · by_cases hk : e.1 = t
      · exact Or.inr hk
      · exact Or.inl ⟨e, ⟨he, hk⟩, rfl⟩

theorem mapStore_nodup {β : Type} (m : List (Ty × β)) (t : Ty) (v : β)
    (h : (m.map Prod.fst).Nodup) : ((mapStore m t v).map Prod.fst).Nodup := by
  unfold mapStore
  simp only [List.map_append, List.map_cons, List.map_nil]
  rw [List.nodup_append]
  refine ⟨h.sublist ((List.filter_sublist _).map _), List.nodup_singleton _, fun k hk hk' => ?_⟩
  rw [List.mem_singleton] at hk'
  subst hk'
  simp only [List.mem_map, List.mem_filter, bne_iff_ne, ne_eq] at hk
  obtain ⟨e, ⟨_, hne⟩, heq⟩ := hk
  exact hne heq

/-- The types `GetAll` has an entry for, in the order of the entries. -/
theorem ProviderSet.GetAll_keys (ps : ProviderSet)
    (hb : (ps.providerMap.map Prod.fst).Nodup) (ho : (ps.overwritten.map Prod.fst).Nodup) :
    ∃ ks : List Ty, ks.Nodup ∧ (∀ t, t ∈ ks ↔ t ∈ ps.keys) ∧
      ps.GetAll.map (Except.ok : Provider → Except Err Provider) = ks.map ps.GetFor ∧
      ps.GetAll.length = ks.length := by
  have hshadow : ∀ e : Ty × Provider,
      (!(decide (ps.overwritten.length > 0) && (ps.overwritten.lookup e.1).isSome)) = true ↔
        ps.overwritten.lookup e.1 = none := by
    intro e
    cases hl : ps.overwritten.lookup e.1 with
    | none => simp
    | some q =>
      have hpos : ps.overwritten.length > 0 := by
        cases hov : ps.overwritten with
        | nil => rw [hov] at hl; simp at hl
        | cons a b => simp
      simp [hpos]
  refine ⟨(ps.providerMap.filter fun e =>
      !(decide (ps.overwritten.length > 0) && (ps.overwritten.lookup e.1).isSome)).map Prod.fst
        ++ ps.overwritten.map Prod.fst, ?_, fun t => ?_, ?_, ?_⟩
  · rw [List.nodup_append]
    refine ⟨hb.sublist ((List.filter_sublist _).map _), ho, fun k hk hk' => ?_⟩
    obtain ⟨e, he, rfl⟩ := List.mem_map.mp hk
    have hnone := (hshadow e).mp (List.mem_filter.mp he).2
    exact (lookup_eq_none_iff_not_mem _ _).mp hnone hk'
  · unfold ProviderSet.keys
    simp only [List.mem_append]
    constructor
    · rintro (hk | hk)
      · obtain ⟨e, he, rfl⟩ := List.mem_map.mp hk
        exact Or.inl (List.mem_map_of_mem _ (List.mem_filter.mp he).1)
      · exact Or.inr hk
    · rintro (hk | hk)
      · obtain ⟨e, he, rfl⟩ := List.mem_map.mp hk
        cases hl : ps.overwritten.lookup e.1 with
        | none =>
          exact Or.inl (List.mem_map_of_mem _ (List.mem_filter.mpr ⟨he, (hshadow e).mpr hl⟩))
        | some q => exact Or.inr (lookup_mem_keys _ _ _ hl)
      · exact Or.inr hk
  · unfold ProviderSet.GetAll
    simp only [List.map_append, List.map_map]
    congr 1
    · refine List.map_congr_left fun e he => ?_
      have hmem := List.mem_filter.mp he
      simp only [Function.comp, ProviderSet.GetFor_eq, (hshadow e).mp hmem.2,
        lookup_of_mem_nodup _ hb e hmem.1]
    · refine List.map_congr_left fun e he => ?_
      simp only [Function.comp, ProviderSet.GetFor_eq, lookup_of_mem_nodup _ ho e he]
  · unfold ProviderSet.GetAll
    simp only [List.length_append, List.length_map]

theorem length_of_nodup_insert {ks ks' : List Ty} (t : Ty) (h : ks.Nodup) (h' : ks'.Nodup)
    (hmem : ∀ k, k ∈ ks' ↔ k = t ∨ k ∈ ks) :
    (t ∈ ks → ks'.length = ks.length) ∧ (t ∉ ks → ks'.length = ks.length + 1) := by
  constructor
  · intro ht
    refine List.Perm.length_eq ((List.perm_ext_iff_of_nodup h' h).mpr fun k => ?_)
    rw [hmem]
    constructor
    · rintro (rfl | hk)
      · exact ht
      · exact hk
    · exact Or.inr
  · intro ht
    have hp : ks'.Perm (t :: ks) :=
      (List.perm_ext_iff_of_nodup h' (List.nodup_cons.mpr ⟨ht, h⟩)).mpr fun k => by
        rw [hmem, List.mem_cons]
    rw [hp.length_eq, List.length_cons]

/-- C24: for a registry whose two layers are maps (no type has two entries
in one layer), `GetAll` has exactly one entry for each type with an entry in
the base or the overwrite layer, and the entry for a type is the provider
`GetFor` returns for it; so its length is the number of these types.
`Overwrite(p)` leaves the length as it is when the first target type of `p`
had an entry, and makes it one more when it had none. -/
theorem C24_getall_one_entry_per_type (ps : ProviderSet)
    (hb : (ps.providerMap.map Prod.fst).Nodup) (ho : (ps.overwritten.map Prod.fst).Nodup) :
    (∃ ks : List Ty, ks.Nodup ∧ (∀ t, t ∈ ks ↔ t ∈ ps.keys) ∧
      ps.GetAll.map (Except.ok : Provider → Except Err Provider) = ks.map ps.GetFor ∧
      ps.GetAll.length = ks.length) ∧
    ∀ p t rest, p.TargetTypes = t :: rest →
      ∃ ps', ps.Overwrite p = some ps' ∧
        (t ∈ ps.keys → ps'.GetAll.length = ps.GetAll.length) ∧
        (t ∉ ps.keys → ps'.GetAll.length = ps.GetAll.length + 1) := by
  obtain ⟨ks, hnd, hmem, hmap, hlen⟩ := ps.GetAll_keys hb ho
  refine ⟨⟨ks, hnd, hmem, hmap, hlen⟩, fun p t rest hp => ⟨ps.overwriteAt t p, ?_, ?_⟩⟩
  · unfold ProviderSet.Overwrite
    rw [hp]
  · have ho' : ((ps.overwriteAt t p).overwritten.map Prod.fst).Nodup := by
      rw [ProviderSet.overwritten_overwriteAt]
      exact mapStore_nodup _ _ _ ho
    obtain ⟨ks', hnd', hmem', _, hlen'⟩ := (ps.overwriteAt t p).GetAll_keys hb ho'
    have hkeys : ∀ k, k ∈ ks' ↔ k = t ∨ k ∈ ks := by
      intro k
      rw [hmem', hmem]
      unfold ProviderSet.keys
      rw [ProviderSet.overwritten_overwriteAt]
      simp only [List.mem_append, mapStore_keys]
      have hbase : (ps.overwriteAt t p).providerMap = ps.providerMap := rfl
      rw [hbase]
      constructor
      · rintro (h | h | h)
        · exact Or.inr (Or.inl h)
        · exact Or.inl h
        · exact Or.inr (Or.inr h)
      · rintro (h | h | h)
        · exact Or.inr (Or.inl h)
        · exact Or.inl h
        · exact Or.inr (Or.inr h)
    have hcount := length_of_nodup_insert t hnd hnd' hkeys
    rw [hlen', hlen]
    exact ⟨fun ht => hcount.1 ((hmem t).mpr ht), fun ht => hcount.2 fun h => ht ((hmem t).mp h)⟩

/-- C24 on the registry of two factories, as in the test `Overwrite a
value`: two entries; still two after the type 2 is overwritten, three after
the new type 5 is. -/
theorem C24_getall_one_entry_per_type_witness :
    pairContainer.providerSet.GetAll.length = 2 ∧
    (∃ ps', pairContainer.providerSet.Overwrite (.value 2 (.lit 7)) = some ps' ∧
      ps'.GetAll.length = pairContainer.providerSet.GetAll.length) ∧
    ∃ ps', pairContainer.providerSet.Overwrite (.value 5 (.lit 7)) = some ps' ∧
      ps'.GetAll.length = pairContainer.providerSet.GetAll.length + 1 :=
  ⟨rfl,
    ((C24_getall_one_entry_per_type pairContainer.providerSet (by decide) (by decide)).2
      (.value 2 (.lit 7)) 2 [] rfl).imp fun _ h => ⟨h.1, h.2.1 (by decide)⟩,
    ((C24_getall_one_entry_per_type pairContainer.providerSet (by decide) (by decide)).2
      (.value 5 (.lit 7)) 5 [] rfl).imp fun _ h => ⟨h.1, h.2.2 (by decide)⟩⟩

/-! ## C34: the struct traversal terminates -/

/-- C34: for every type environment and every type, `structProvider.parse`
and `newStructProvider` return, and so does `parseStructRecursively` from
every state, with nesting bounded by the number of type declarations. In
the loop over the fields, an exported field whose type has an entry
already ends the traversal with `ErrProviderDuplicated` for that type; and
the recursive call for an exported field is made on the state in which the
type of the field, which had no entry, has just been entered, so that the
number of types not yet seen has not grown. -/
theorem C34_struct_flattening_terminates (env : TypeEnv) (typ : Ty) :
    (∃ r, structProvider.parse env typ = some r) ∧
    (∀ v, ∃ r, newStructProvider env typ v = some r) ∧
    (∀ st index, ∃ r,
      structProvider.parseStructRecursively env env.parseFuel st typ index = some r) ∧
    (∀ recurse index f rest i st idx0, f.exported = true →
      st.targetTypes.lookup f.type = some idx0 →
      structProvider.parseFields env recurse index (f :: rest) i st
        = some (.error (.providerDuplicated f.type))) ∧
    (∀ recurse index f rest i st, f.exported = true → st.targetTypes.lookup f.type = none →
      ∃ st1 idx, f.type ∉ st.keys ∧ (∀ k, k ∈ st1.keys ↔ k = f.type ∨ k ∈ st.keys) ∧
        env.unseen st1 ≤ env.unseen st ∧
        structProvider.parseFields env recurse index (f :: rest) i st =
          match recurse st1 f.type idx with
          | none => none
          | some (.error err) => some (.error err)
          | some (.ok st2) => structProvider.parseFields env recurse index rest (i + 1) st2) := by
  refine ⟨structProvider.parse_returns env typ, fun v => ?_, fun st index => ?_,
    fun recurse index f rest i st idx0 he hl => ?_, fun recurse index f rest i st he hl => ?_⟩
  · rcases newStructProvider_cases env typ v with ⟨st, h, _⟩ | ⟨e, h, _⟩ | ⟨h, _⟩
    · exact ⟨_, h⟩
    · exact ⟨_, h⟩
    · exact ⟨_, h⟩
  · exact structProvider.parseStructRecursively_returns env _ st typ index
      (Or.inl (env.unseen_le st))
  · unfold structProvider.parseFields
    simp only [he, Bool.true_eq_false, if_false, hl]
  · have hk1 := ParseState.keys_store st (sliceAppend env.growCap st.arrays index i).1
      f.type (sliceAppend env.growCap st.arrays index i).2 hl
    refine ⟨_, (sliceAppend env.growCap st.arrays index i).2,
      (lookup_eq_none_iff_not_mem _ _).mp hl, hk1,
      env.unseen_mono st _ fun k hk => (hk1 k).mpr (Or.inr hk), ?_⟩
    conv_lhs => unfold structProvider.parseFields
    simp only [he, Bool.true_eq_false, if_false, hl]

/-- C34 on the self-referential record `Node` with its field of type
`*Node`: the traversal enters `*Node`, comes back to the fields of `Node`,
meets `*Node` again and ends with `ErrProviderDuplicated`. -/
theorem C34_struct_flattening_terminates_witness :
    (∃ r, structProvider.parse nodeEnv 70 = some r) ∧
    structProvider.parse nodeEnv 70 = some (.error (.providerDuplicated 71)) :=
  ⟨(C34_struct_flattening_terminates nodeEnv 70).1, rfl⟩

/-! ## C36: `structProvider.Build` and panics -/

/-- C36 fails on the code for a record nested seven levels deep. Under the
gc run-time system the index path of length five has a backing array of
capacity eight, which the paths of length six and seven built from it by
`append` write into. In the record of type 81, the struct 86 has the fields
of type 87 (a struct holding an `int` and a `string`) and of type 17 (a
`bool`): the path recorded for the `int`, which is stored at
`[0, 0, 0, 0, 0, 0, 0]`, ends in `[…, 1, 1]`, so `Build` for the type `int`
asks the `bool` for its field 1 and panics. On the record
`struct7_OK_Nested` (three levels) the claim holds: with the pointer
`Nested2` nil, `Build` for the type `[]int` behind it returns an error;
with the pointer set it returns the field; and for a type that is not a
target type it returns the error wrapping `ErrNotFound`. -/
theorem C36_deep_record_build_panics :
    (∃ prov, newStructProvider deepEnv 81 deepVal7 = some (.ok prov) ∧
      Reach deepEnv 81 [0, 0, 0, 0, 0, 0, 0] ⟨true, 10⟩ ∧
      deepVal7.FieldByIndexErr [0, 0, 0, 0, 0, 0, 0] = (.lit 1, none) ∧
      (∃ index, prov = .struct index deepVal7 ∧
        index.lookup 10 = some [0, 0, 0, 0, 0, 1, 1]) ∧
      ∀ fuel ctx, prov.Build fuel ctx 10 = some (ctx, .invalid, some .panicked)) ∧
    (∃ prov, newStructProvider testEnv 27 struct7NilVal = some (.ok prov) ∧
      (∀ fuel ctx, prov.Build fuel ctx 12 = some (ctx, .invalid, some .nilIndirection)) ∧
      (∀ fuel ctx, prov.Build fuel ctx 30 = some (ctx, .ptr none, none)) ∧
      ∀ fuel ctx, prov.Build fuel ctx 99 = some (ctx, .invalid, some (.fieldNotFound 99))) ∧
    ∃ prov, newStructProvider testEnv 27 struct7Val = some (.ok prov) ∧
      ∀ fuel ctx, prov.Build fuel ctx 12 = some (ctx, .lit 1, none) :=
  ⟨⟨_, rfl,
      Reach.nested 81 _ 0 ⟨true, 82⟩ _ _ rfl rfl rfl
        (Reach.nested 82 _ 0 ⟨true, 83⟩ _ _ rfl rfl rfl
          (Reach.nested 83 _ 0 ⟨true, 84⟩ _ _ rfl rfl rfl
            (Reach.nested 84 _ 0 ⟨true, 85⟩ _ _ rfl rfl rfl
              (Reach.nested 85 _ 0 ⟨true, 86⟩ _ _ rfl rfl rfl
                (Reach.nested 86 _ 0 ⟨true, 87⟩ _ _ rfl rfl rfl
                  (Reach.field 87 _ 0 ⟨true, 10⟩ rfl rfl rfl)))))),
      rfl, ⟨_, rfl, rfl⟩, fun fuel ctx => by cases fuel <;> rfl⟩,
    ⟨_, rfl, fun fuel ctx => by cases fuel <;> rfl, fun fuel ctx => by cases fuel <;> rfl,
      fun fuel ctx => by cases fuel <;> rfl⟩,
    _, rfl, fun fuel ctx => by cases fuel <;> rfl⟩

/-! ## C33: `Build` and `Resolve` terminate -/

theorem Context.pendingIn_mark (K : List Ty) (ctx : Context) (t : Ty) (hk : t ∈ K)
    (hr : ctx.resolvingTypes t = false) : (ctx.mark t).pendingIn K < ctx.pendingIn K := by
  unfold Context.pendingIn
  rw [Context.mark_resolvingTypes]
  induction K with
  | nil => cases hk
  | cons k rest ih =>
    simp only [List.filter_cons]
    by_cases e : k = t
    · subst e
      simp only [Function.update_same, Bool.not_true, Bool.false_eq_true, if_false, hr,
        Bool.not_false, if_true, List.length_cons]
      have : (rest.filter fun x => !Function.update ctx.resolvingTypes k true x).length
          ≤ (rest.filter fun x => !ctx.resolvingTypes x).length := by
        apply List.Sublist.length_le
        apply List.monotone_filter_right
        intro x hx
        by_cases ex : x = k
        · subst ex; simpa using hr
        · simpa [Function.update_noteq ex] using hx
      omega
    · have hmem : t ∈ rest := by
        rcases List.mem_cons.1 hk with h | h
        · exact absurd h.symm e
        · exact h
      have := ih hmem
      simp only [Function.update_noteq e]
      cases ctx.resolvingTypes k with
      | true => simpa using this
      | false => simpa using this

/-- The method `Build` returns when the fuel exceeds the number of types of
`K` not in progress, `K` being any list that holds the types of the
registry. -/
theorem Provider.Build_returns_in (K : List Ty) (fuel : Nat) :
    ∀ p ctx t, (∀ k ∈ ctx.providerSet.keys, k ∈ K) → t ∈ K → ctx.pendingIn K < fuel →
      ∃ r, Provider.Build fuel p ctx t = some r := by
  induction fuel with
  | zero => intro p ctx t _ _ h; omega
  | succ n ih =>
    intro p ctx t hK hk hlt
    cases p with
    | value T sv => exact ⟨_, rfl⟩
    | struct tts sv => exact ⟨_, rfl⟩
    | func deps out call =>
      unfold Provider.Build
      cases hc : ctx.cached t with
      | some v => exact ⟨_, rfl⟩
      | none =>
        simp only
        cases hr : ctx.resolvingTypes t with
        | true => exact ⟨_, rfl⟩
        | false =>
          simp only [Bool.false_eq_true, if_false]
          have hpend := ctx.pendingIn_mark K t hk hr
          have loop : ∀ ds (c : Context) acc, c.providerSet = ctx.providerSet →
              c.resolvingTypes = (ctx.mark t).resolvingTypes →
              ∃ r, buildArgs (Provider.Build n) c ds acc = some r := by
            intro ds
            induction ds with
            | nil => intro c acc _ _; exact ⟨_, rfl⟩
            | cons d rest ihd =>
              intro c acc hps hrs
              unfold buildArgs
              cases hg : c.providerSet.GetFor d with
              | error e => exact ⟨_, rfl⟩
              | ok q =>
                simp only
                have hpc : c.pendingIn K = (ctx.mark t).pendingIn K := by
                  unfold Context.pendingIn
                  rw [hrs]
                obtain ⟨b, hb⟩ := ih q c d (hps ▸ hK)
                  (hK d (hps ▸ ProviderSet.GetFor_mem_keys _ _ _ hg)) (by rw [hpc]; omega)
                rw [hb]
                obtain ⟨c1, v, oe⟩ := b
                obtain ⟨new, hgr⟩ := Provider.Build_grows _ _ _ _ _ hb
                cases oe with
                | some e => exact ⟨_, rfl⟩
                | none =>
                  exact ihd c1 _ (hgr.2.1.trans hps) (hgr.2.2.1.trans hrs)
          obtain ⟨a, ha⟩ := loop deps (ctx.mark t) [] rfl rfl
          rw [ha]
          obtain ⟨ctx2, res⟩ := a
          cases res with
          | error e => exact ⟨_, rfl⟩
          | ok inArgs =>
            simp only
            split <;> exact ⟨_, rfl⟩

/-- The walk returns when the fuel exceeds the number of types of `K` not
in progress, `K` being any list that holds the types of the registry. -/
theorem resolve_returns_in (K : List Ty) (fuel : Nat) :
    ∀ ctx t, (∀ k ∈ ctx.providerSet.keys, k ∈ K) → ctx.pendingIn K < fuel →
      ∃ r, resolve fuel ctx t = some r := by
  induction fuel with
  | zero => intro ctx t _ h; omega
  | succ n ih =>
    intro ctx t hK hlt
    unfold resolve
    cases hr : ctx.resolvingTypes t with
    | true => exact ⟨_, rfl⟩
    | false =>
      simp only [Bool.false_eq_true, if_false, Context.mark_providerSet]
      cases hg : ctx.providerSet.GetFor t with
      | error e => exact ⟨_, rfl⟩
      | ok p =>
        simp only
        have hpend := ctx.pendingIn_mark K t (hK t (ProviderSet.GetFor_mem_keys _ _ _ hg)) hr
        have loop : ∀ ds (c : Context) acc, c.providerSet = ctx.providerSet →
            c.resolvingTypes = (ctx.mark t).resolvingTypes →
            ∃ r, resolveDeps (resolve n) c ds acc = some r := by
          intro ds
          induction ds with
          | nil => intro c acc _ _; exact ⟨_, rfl⟩
          | cons d rest ihd =>
            intro c acc hps hrs
            unfold resolveDeps
            have hpc : c.pendingIn K = (ctx.mark t).pendingIn K := by
              unfold Context.pendingIn
              rw [hrs]
            obtain ⟨b, hb⟩ := ih c d (hps ▸ hK) (by rw [hpc]; omega)
            rw [hb]
            obtain ⟨c1, x⟩ := b
            have hw := (resolve_walked n).1 _ _ _ hb
            cases x with
            | error e => exact ⟨_, rfl⟩
            | ok g => exact ihd c1 _ (hw.2.1.trans hps) ((hw.2.2.2.2 rfl).trans hrs)
        obtain ⟨a, ha⟩ := loop p.DependentTypes (ctx.mark t) [] rfl rfl
        rw [ha]
        obtain ⟨ctx2, x⟩ := a
        cases x with
        | error e => exact ⟨_, rfl⟩
        | ok deps => exact ⟨_, rfl⟩

/-- C33: on every container `Build` and `Resolve` return. The nesting of
`Build` calls and of `resolve` calls never exceeds the number of distinct
types with an entry in the registry of the call plus one: that much fuel is
enough for a result. A nested call for a type that is in progress returns
at once (the cached instance or the circular-dependency error), without
marking it a second time and without nesting further. -/
theorem C33_build_and_resolve_terminate (c : Container) (T : Ty) (opts : List ContextOption) :
    (∃ r, c.Build T opts = some r) ∧
    (∃ x, c.Resolve T = some x) ∧
    (∀ p, c.providerSet.GetFor T = .ok p →
      ∃ b, p.Build ((c.buildContext opts).providerSet.keys.dedup.length + 1)
        (c.buildContext opts) T = some b) ∧
    (∃ w, resolve (c.providerSet.keys.dedup.length + 1) c.resolveContext T = some w) ∧
    (∀ deps out call ctx t, ctx.resolvingTypes t = true →
      ∃ b, Provider.Build 1 (.func deps out call) ctx t = some (ctx, b)) ∧
    (∀ ctx t, ctx.resolvingTypes t = true →
      resolve 1 ctx t = some (ctx, .error (.circularDependency t))) := by
  have hlen : ∀ (K : List Ty) (ctx : Context), ctx.pendingIn K < K.length + 1 :=
    fun K ctx => Nat.lt_succ_of_le (List.length_filter_le _ _)
  refine ⟨c.Build_terminates T opts, c.Resolve_terminates T, fun p hp => ?_, ?_,
    fun deps out call ctx t hr => ?_, fun ctx t hr => ?_⟩
  · have hk : T ∈ (c.buildContext opts).providerSet.keys :=
      (applyOptions_frame opts _).2.2.2.2 T (ProviderSet.GetFor_mem_keys _ _ _ hp)
    exact Provider.Build_returns_in _ _ p (c.buildContext opts) T
      (fun k hk => List.mem_dedup.mpr hk) (List.mem_dedup.mpr hk) (hlen _ _)
  · exact resolve_returns_in c.providerSet.keys.dedup _ c.resolveContext T
      (fun k hk => List.mem_dedup.mpr hk) (hlen _ _)
  · unfold Provider.Build
    cases ctx.cached t with
    | some v => exact ⟨_, rfl⟩
    | none => simp only [hr, if_true]; exact ⟨_, rfl⟩
  · exact resolve_circular 0 ctx t hr

/-- C33 on the container of two factories taking each other's type: both
methods return, with the circular-dependency error. -/
theorem C33_build_and_resolve_terminate_witness :
    (∃ r, mutualContainer.Build 1 [] = some r) ∧
    (∃ r, mutualContainer.Build 1 [] = some r ∧ r.err = some (.circularDependency 1)) ∧
    mutualContainer.Resolve 1 = some (.error (.circularDependency 1)) :=
  ⟨(C33_build_and_resolve_terminate mutualContainer 1 []).1, ⟨_, rfl, rfl⟩, rfl⟩

/-! ## C35: `Resolve` is compositional -/

theorem AcyclicTree.anti (ps : ProviderSet) (n : Nat) :
    ∀ anc anc' T, AcyclicTree ps n anc T → (∀ t ∈ anc', t ∈ anc) → AcyclicTree ps n anc' T := by
  induction n with
  | zero => intro anc anc' T h; exact absurd h (by simp [AcyclicTree])
  | succ n ih =>
    intro anc anc' T h hsub
    obtain ⟨hT, p, hp, hdeps⟩ := h
    refine ⟨fun hin => hT (hsub T hin), p, hp, fun d hd => ?_⟩
    refine ih (T :: anc) (T :: anc') d (hdeps d hd) fun t ht => ?_
    rcases List.mem_cons.mp ht with rfl | ht
    · exact List.mem_cons_self _ _
    · exact List.mem_cons_of_mem _ (hsub t ht)

/-- A walk that succeeds has found a provider for every type of the tree and
no type below itself or below a type in progress. -/
theorem resolve_acyclicTree (fuel : Nat) :
    ∀ ctx anc T ctx1 g, (∀ t ∈ anc, ctx.resolvingTypes t = true) →
      resolve fuel ctx T = some (ctx1, .ok g) → AcyclicTree ctx.providerSet fuel anc T := by
  induction fuel with
  | zero => intro ctx anc T ctx1 g _ h; simp [resolve] at h
  | succ fuel ih =>
    intro ctx anc T ctx1 g hanc h
    unfold resolve at h
    cases hr : ctx.resolvingTypes T with
    | true => rw [hr] at h; simp at h
    | false =>
      rw [hr] at h
      simp only [Bool.false_eq_true, if_false] at h
      cases hg : (ctx.mark T).providerSet.GetFor T with
      | error e => rw [hg] at h; cases h
      | ok p =>
        rw [hg] at h
        simp only at h
        have hloop : ∀ ds cur acc cur1 gs, cur.providerSet = ctx.providerSet →
            cur.resolvingTypes = (ctx.mark T).resolvingTypes →
            resolveDeps (resolve fuel) cur ds acc = some (cur1, .ok gs) →
            ∀ d ∈ ds, AcyclicTree ctx.providerSet fuel (T :: anc) d := by
          intro ds
          induction ds with
          | nil => intro cur acc cur1 gs _ _ _ d hd; cases hd
          | cons d0 rest ihl =>
            intro cur acc cur1 gs hps hrt hres d hd
            unfold resolveDeps at hres
            cases hr0 : resolve fuel cur d0 with
            | none => rw [hr0] at hres; cases hres
            | some x =>
              obtain ⟨cur2, r⟩ := x
              rw [hr0] at hres
              cases r with
              | error e => cases hres
              | ok g0 =>
                simp only at hres
                have hw := (resolve_walked fuel).1 cur d0 _ hr0
                rcases List.mem_cons.mp hd with rfl | hd
                · have := ih cur (T :: anc) d cur2 g0 (fun t ht => by
                    rw [hrt]
                    rcases List.mem_cons.mp ht with rfl | ht
                    · simp [Context.mark]
                    · by_cases htT : t = T
                      · subst htT; simp [Context.mark]
                      · simpa [Context.mark, Function.update, htT] using hanc t ht) hr0
                  rw [hps] at this
                  exact this
                · exact ihl cur2 _ cur1 gs (hw.2.1.trans hps) ((hw.2.2.2.2 rfl).trans hrt)
                    hres d hd
        cases hd : resolveDeps (resolve fuel) (ctx.mark T) p.DependentTypes [] with
        | none => rw [hd] at h; cases h
        | some x =>
          obtain ⟨ctx2, r⟩ := x
          rw [hd] at h
          cases r with
          | error e => cases h
          | ok deps =>
            refine ⟨fun hin => ?_, p, hg, hloop _ (ctx.mark T) _ _ _ rfl rfl hd⟩
            have := hanc T hin
            rw [hr] at this
            cases this

theorem GraphOf.unique (ps : ProviderSet) (n : Nat) :
    ∀ m T g g', GraphOf ps n T g → GraphOf ps m T g' → g = g' := by
  induction n with
  | zero => intro m T g g' h; exact absurd h (by simp [GraphOf])
  | succ n ih =>
    intro m T g g' h h'
    cases m with
    | zero => exact absurd h' (by simp [GraphOf])
    | succ m =>
      obtain ⟨ht, p, hp, hall⟩ := h
      obtain ⟨ht', p', hp', hall'⟩ := h'
      rw [hp] at hp'
      cases hp'
      have hlist : ∀ (ds : List Ty) (cs cs' : List DependencyGraph),
          List.Forall₂ (GraphOf ps n) ds cs → List.Forall₂ (GraphOf ps m) ds cs' → cs = cs' := by
        intro ds cs cs' h1
        induction h1 generalizing cs' with
        | nil => intro h2; cases h2; rfl
        | cons hab _ ihl =>
          intro h2
          cases h2 with
          | cons hab' htl' => rw [ih m _ _ _ hab hab', ihl _ htl']
      have hcs := hlist _ _ _ hall hall'
      cases g with
      | mk t cs =>
        cases g' with
        | mk t' cs' =>
          simp only [DependencyGraph.TargetType] at ht ht'
          simp only [DependencyGraph.Dependencies] at hcs
          rw [ht, ht', hcs]

/-- The result of `Resolve` is the same on two containers with the same
registry. -/
theorem Container.Resolve_congr (c c' : Container) (hps : c'.providerSet = c.providerSet)
    (T : Ty) : c'.Resolve T = c.Resolve T := by
  have hview : ∀ (d : Container), d.Resolve T
      = (resolve d.providerSet.fuel d.resolveContext.walkPart T).map Prod.snd := by
    intro d
    show (resolve d.providerSet.fuel d.resolveContext T).map Prod.snd = _
    rw [resolve_walkPart, Option.map_map]
    rfl
  have hctx : c'.resolveContext.walkPart = c.resolveContext.walkPart := by
    simp only [Container.resolveContext, Context.walkPart, hps]
  rw [hview c', hview c, hctx, hps]

/-- C35: when `Resolve(T)` succeeds, `Resolve(D)` succeeds for each
dependent type `D` of the provider of `T` and returns the child that the
graph of `T` has at the position of `D`. The result of `Resolve`, success or
error, is determined by the registry and the type: every call on a
container with the same registry returns the same result, whatever calls
were made before and whether they failed (a call of `Resolve` works on a
context of its own and leaves the container as it is). -/
theorem C35_resolve_compositional (c : Container) (T : Ty) :
    (∀ g, c.Resolve T = some (.ok g) →
      ∃ p, c.providerSet.GetFor T = .ok p ∧
        ∀ i D, p.DependentTypes.get? i = some D →
          ∃ child, g.Dependencies.get? i = some child ∧ c.Resolve D = some (.ok child)) ∧
    (∀ c' : Container, c'.providerSet = c.providerSet → ∀ U, c'.Resolve U = c.Resolve U) := by
  refine ⟨fun g h => ?_, fun c' hps U => c.Resolve_congr c' hps U⟩
  unfold Container.Resolve at h
  cases hr : resolve c.resolveContext.providerSet.fuel c.resolveContext T with
  | none => rw [hr] at h; cases h
  | some x =>
    obtain ⟨ctx1, r⟩ := x
    rw [hr] at h
    simp only [Option.map_some', Option.some.injEq] at h
    subst h
    have hA := resolve_acyclicTree _ c.resolveContext [] T ctx1 g (fun t ht => by cases ht) hr
    have hG := resolve_graph _ c.providerSet c.resolveContext T ctx1 g rfl hr
    generalize c.resolveContext.providerSet.fuel = F at hA hG
    cases F with
    | zero => exact absurd hG (by simp [GraphOf])
    | succ n =>
      obtain ⟨_, p, hp, hdeps⟩ := hA
      obtain ⟨_, p', hp', hall⟩ := hG
      have hpp : p' = p := by
        have h1 : c.providerSet.GetFor T = .ok p := hp
        rw [h1] at hp'
        cases hp'; rfl
      subst hpp
      refine ⟨p', hp, fun i D hD => ?_⟩
      obtain ⟨child, hc, hgc⟩ := forall₂_get? hall i D hD
      have hmem : D ∈ p'.DependentTypes := List.get?_mem hD
      have hD0 := AcyclicTree.anti _ n [T] [] D (hdeps D hmem) (fun t ht => by cases ht)
      obtain ⟨ctx2, g', hres, _, _⟩ := resolve_of_acyclicTree n c.resolveContext [] D hD0
        (fun t ht => by simp [Container.resolveContext] at ht)
      have hg' := resolve_graph n c.providerSet c.resolveContext D ctx2 g' rfl hres
      have heq := GraphOf.unique c.providerSet n n D g' child hg' hgc
      subst heq
      exact ⟨g', hc, c.Resolve_of_fuel D n ctx2 (.ok g') hres⟩

/-- C35 on the container in which type 1 takes the types 2 and 3, which both
take type 4: the graphs of the types 2 and 3 are the children of the graph
of type 1. -/
theorem C35_resolve_compositional_witness :
    diamondContainer.Resolve 1 = some (.ok (.mk 1 [.mk 2 [.mk 4 []], .mk 3 [.mk 4 []]])) ∧
    diamondContainer.Resolve 2 = some (.ok (.mk 2 [.mk 4 []])) ∧
    ∃ p, diamondContainer.providerSet.GetFor 1 = .ok p ∧
      ∀ i D, p.DependentTypes.get? i = some D →
        ∃ child, (DependencyGraph.mk 1 [.mk 2 [.mk 4 []], .mk 3 [.mk 4 []]]).Dependencies.get? i
            = some child ∧
          diamondContainer.Resolve D = some (.ok child) :=
  ⟨rfl, rfl, (C35_resolve_compositional diamondContainer 1).1 _ rfl⟩

/-! ## C31: no false positive of the cycle detection -/

theorem Context.objectMap_of_cached (ctx : Context) (t : Ty) (v : Val)
    (h : ctx.cached t = some v) : ctx.objectMap t = some v := by
  unfold Context.cached at h
  split at h
  · exact h
  · cases h

/-- When no provider of the registry hands out a zero value and the cache
holds none, a build leaves a cache that holds none and returns a valid
value when it returns no error, and the arguments an argument loop has
collected are valid. -/
theorem Provider.Build_keeps_valid (ps : ProviderSet)
    (hvalid : ∀ t p, ps.GetFor t = .ok p → p.SuppliesValid t) (fuel : Nat) :
    (∀ p ctx t r, Provider.Build fuel p ctx t = some r →
      (∀ u, ctx.providerSet.GetFor u = ps.GetFor u) → ps.GetFor t = .ok p →
      CacheValid ctx.objectMap →
      CacheValid r.1.objectMap ∧ (r.2.2 = none → r.2.1.IsValid = true)) ∧
    (∀ ctx ds acc r, buildArgs (Provider.Build fuel) ctx ds acc = some r →
      (∀ u, ctx.providerSet.GetFor u = ps.GetFor u) → CacheValid ctx.objectMap →
      CacheValid r.1.objectMap ∧
        ∀ args, r.2 = .ok args → acc.all Val.IsValid = true → args.all Val.IsValid = true) := by
  have h := Provider.Build_cases_grows
    (fun p ctx t r _ => (∀ u, ctx.providerSet.GetFor u = ps.GetFor u) → ps.GetFor t = .ok p →
      CacheValid ctx.objectMap →
      CacheValid r.1.objectMap ∧ (r.2.2 = none → r.2.1.IsValid = true))
    (fun ctx _ acc r _ => (∀ u, ctx.providerSet.GetFor u = ps.GetFor u) →
      CacheValid ctx.objectMap →
      CacheValid r.1.objectMap ∧
        ∀ args, r.2 = .ok args → acc.all Val.IsValid = true → args.all Val.IsValid = true)
    ?_ ?_ ?_ ?_ ?_ ?_ ?_ ?_ ?_ ?_ ?_ fuel
  · exact ⟨fun p ctx t r hb hps hp hcv => by
      obtain ⟨_, _, hq⟩ := h.1 p ctx t r hb
      exact hq hps hp hcv,
      fun ctx ds acc r hb hps hcv => by
      obtain ⟨_, _, hq⟩ := h.2 ctx ds acc r hb
      exact hq hps hcv⟩
  · intro T sv ctx t _ hp hcv
    exact ⟨hcv, fun _ => hvalid t _ hp⟩
  · intro tts sv ctx t _ hp hcv
    exact ⟨hcv, fun hnone => hvalid t _ hp hnone⟩
  · intro deps out call ctx t v hc _ _ hcv
    exact ⟨hcv, fun _ => hcv t v (ctx.objectMap_of_cached t v hc)⟩
  · intro deps out call ctx t _ _ _ _ hcv
    exact ⟨hcv, fun h => by cases h⟩
  · intro deps out call ctx t ctx2 e new _ _ _ hqa hps _ hcv
    exact ⟨(hqa hps hcv).1, fun h => by cases h⟩
  · intro deps out call ctx t ctx2 inArgs new _ _ _ hqa _ hps hp hcv
    have hcv2 := (hqa hps hcv).1
    have hout : (call inArgs).2 = none → (call inArgs).1.IsValid = true :=
      hvalid t _ hp inArgs
    refine ⟨fun u w hu => ?_, hout⟩
    have hu' : (ctx2.finish t deps inArgs (call inArgs)).objectMap u = some w := hu
    rw [Context.finish_objectMap] at hu'
    split at hu'
    · rename_i hst
      simp only [Bool.and_eq_true, Option.isNone_iff_eq_none] at hst
      by_cases e : u = t
      · subst e
        rw [Function.update_same] at hu'
        cases hu'
        exact hout hst.1
      · rw [Function.update_noteq e] at hu'
        exact hcv2 u w hu'
    · exact hcv2 u w hu'
  · intro deps out call ctx t ctx2 inArgs new _ _ _ hqa _ hps _ hcv
    exact ⟨(hqa hps hcv).1, fun h => by cases h⟩
  · intro ctx acc _ hcv
    exact ⟨hcv, fun args ha hacc => by cases ha; exact hacc⟩
  · intro ctx d rest acc e _ _ hcv
    exact ⟨hcv, fun args ha => by cases ha⟩
  · intro ctx d rest acc p ctx1 v e new hg _ _ hq hps hcv
    exact ⟨(hq hps (by rw [← hps d]; exact hg) hcv).1, fun args ha => by cases ha⟩
  · intro ctx d rest acc p ctx1 v r n1 n2 hg _ hg1 hq _ hqa hps hcv
    obtain ⟨hcv1, hv⟩ := hq hps (by rw [← hps d]; exact hg) hcv
    obtain ⟨hcv2, hargs⟩ := hqa (fun u => by
      rw [show ctx1.providerSet = ctx.providerSet from hg1.2.1]; exact hps u) hcv1
    refine ⟨hcv2, fun args ha hacc => hargs args ha ?_⟩
    rw [List.all_append, hacc]
    simp [hv rfl]

theorem lastOverwrite_of_no_overwrite (opts : List ContextOption)
    (h : ∀ o ∈ opts, o = ContextOption.NonSharedMode) (t : Ty) : lastOverwrite opts t = none := by
  induction opts with
  | nil => rfl
  | cons o rest ih =>
    have ho := h o (List.mem_cons_self _ _)
    subst ho
    exact ih fun o ho => h o (List.mem_cons_of_mem _ ho)

/-- When the tree of a type has a provider for every type and no type below
itself, no factory and no struct provider of the registry returns an
error, and neither a provider nor the cache holds a zero value, the build of
the type succeeds from every context whose in-progress types are above the
tree, whatever its mode is. -/
theorem Provider.Build_succeeds_of_acyclicTree (ps : ProviderSet)
    (hcall : ∀ t deps out call, ps.GetFor t = .ok (.func deps out call) →
      ∀ args, (call args).2 = none)
    (hfield : ∀ t tt sv, ps.GetFor t = .ok (.struct tt sv) →
      (structProviderBuild tt sv t).2 = none)
    (hvalid : ∀ t p, ps.GetFor t = .ok p → p.SuppliesValid t) (n : Nat) :
    ∀ p ctx anc T, AcyclicTree ps n anc T → (∀ t, ctx.providerSet.GetFor t = ps.GetFor t) →
      (∀ t, ctx.resolvingTypes t = true → t ∈ anc) → ps.GetFor T = .ok p →
      CacheValid ctx.objectMap →
      ∃ ctx1 v, Provider.Build n p ctx T = some (ctx1, v, none) := by
  induction n with
  | zero => intro p ctx anc T h; exact absurd h (by simp [AcyclicTree])
  | succ n ih =>
    intro p ctx anc T h hps hanc hp hcv
    obtain ⟨hT, p', hp', hdeps⟩ := h
    rw [hp] at hp'
    cases hp'
    cases p with
    | value tt sv => exact ⟨ctx, sv, rfl⟩
    | struct tt sv =>
      refine ⟨ctx, (structProviderBuild tt sv T).1, ?_⟩
      show some (ctx, structProviderBuild tt sv T) = _
      rw [← hfield T tt sv hp]
    | func deps out call =>
      cases hc : ctx.cached T with
      | some v => exact ⟨ctx, v, Provider.Build_func_hit n deps out call ctx T v hc⟩
      | none =>
        have hr : ctx.resolvingTypes T = false := by
          cases hrt : ctx.resolvingTypes T with
          | false => rfl
          | true => exact absurd (hanc T hrt) hT
        have hloop : ∀ ds cur acc, (∀ d ∈ ds, AcyclicTree ps n (T :: anc) d) →
            (∀ t, cur.providerSet.GetFor t = ps.GetFor t) →
            cur.resolvingTypes = (ctx.mark T).resolvingTypes →
            CacheValid cur.objectMap →
            ∃ cur1 args, buildArgs (Provider.Build n) cur ds acc = some (cur1, .ok args) := by
          intro ds
          induction ds with
          | nil => intro cur acc _ _ _ _; exact ⟨cur, acc, rfl⟩
          | cons d rest ihl =>
            intro cur acc hall hcps hrt hcvc
            have hd := hall d (List.mem_cons_self _ _)
            have hq : ∃ q, ps.GetFor d = .ok q := by
              cases n with
              | zero => exact absurd hd (by simp [AcyclicTree])
              | succ m => exact ⟨hd.2.choose, hd.2.choose_spec.1⟩
            obtain ⟨q, hq⟩ := hq
            have hmarks : ∀ t, cur.resolvingTypes t = true → t ∈ T :: anc := by
              intro t ht
              rw [hrt] at ht
              by_cases htT : t = T
              · exact htT ▸ List.mem_cons_self _ _
              · refine List.mem_cons_of_mem _ (hanc t ?_)
                simpa [Context.mark, Function.update, htT] using ht
            obtain ⟨cur1, v, hb⟩ := ih q cur (T :: anc) d hd hcps hmarks hq hcvc
            obtain ⟨new, hg⟩ := Provider.Build_grows _ _ _ _ _ hb
            obtain ⟨cur2, args, hrest⟩ := ihl cur1 (acc ++ [v])
              (fun d' hd' => hall d' (List.mem_cons_of_mem _ hd'))
              (fun t => by rw [show cur1.providerSet = cur.providerSet from hg.2.1]; exact hcps t)
              (hg.2.2.1.trans hrt)
              ((Provider.Build_keeps_valid ps hvalid n).1 q cur d _ hb hcps hq hcvc).1
            refine ⟨cur2, args, ?_⟩
            simp only [buildArgs, hcps d, hq, hb]
            exact hrest
        obtain ⟨ctx2, args, hargs⟩ := hloop deps (ctx.mark T) [] hdeps hps rfl hcv
        have hv : args.all Val.IsValid = true :=
          ((Provider.Build_keeps_valid ps hvalid n).2 (ctx.mark T) deps [] _ hargs hps hcv).2
            args rfl rfl
        refine ⟨(ctx2.finish T deps args (call args)).unmark T, (call args).1, ?_⟩
        rw [Provider.Build_func_ok n deps out call ctx ctx2 T args hc hr hargs hv,
          hcall T deps out call hp args]

theorem ProviderSet.afterClone_self (ps : ProviderSet) : ps.afterClone ps = ps := by
  unfold ProviderSet.afterClone
  cases ps with
  | mk base ov => cases ov <;> rfl

theorem applyOptions_of_no_overwrite (opts : List ContextOption)
    (h : ∀ o ∈ opts, o = ContextOption.NonSharedMode) :
    ∀ ctx : Context, (applyOptions opts ctx).providerSet = ctx.providerSet := by
  induction opts with
  | nil => intro ctx; rfl
  | cons o rest ih =>
    intro ctx
    have ho := h o (List.mem_cons_self _ _)
    subst ho
    exact ih (fun o ho => h o (List.mem_cons_of_mem _ ho)) _

/-- A call without overwrites leaves the registry of the container as it
was. -/
theorem Container.Build_keeps_registry (c : Container) (X : Ty) (opts : List ContextOption)
    (r : BuildResult) (hno : ∀ o ∈ opts, o = ContextOption.NonSharedMode)
    (h : c.Build X opts = some r) : r.container.providerSet = c.providerSet := by
  rcases c.Build_eq_some X opts r h with ⟨e, _, rfl⟩ | ⟨p, ctx1, v, e, _, hb, rfl⟩
  · rfl
  · obtain ⟨new, hg⟩ := Provider.Build_grows _ _ _ _ _ hb
    have h1 : ctx1.providerSet = c.providerSet :=
      hg.2.1.trans (applyOptions_of_no_overwrite opts hno c.newContext)
    show c.providerSet.afterClone ctx1.providerSet = c.providerSet
    rw [h1, ProviderSet.afterClone_self]

/-- A call without overwrites leaves no zero value in the cache when the
registry hands out none and the cache held none. -/
theorem Container.Build_leaves_valid_cache (c : Container) (X : Ty) (opts : List ContextOption)
    (r : BuildResult) (hno : ∀ o ∈ opts, o = ContextOption.NonSharedMode)
    (hvalid : ∀ t p, c.providerSet.GetFor t = .ok p → p.SuppliesValid t)
    (hcache : CacheValid c.objectMap) (h : c.Build X opts = some r) :
    CacheValid r.container.objectMap := by
  rcases c.Build_eq_some X opts r h with ⟨e, _, rfl⟩ | ⟨p, ctx1, v, e, hp, hb, rfl⟩
  · exact hcache
  · exact ((Provider.Build_keeps_valid c.providerSet hvalid _).1 p _ X _ hb
      (fun t => by rw [Container.buildContext_GetFor, lastOverwrite_of_no_overwrite opts hno])
      hp (by rw [Container.buildContext_objectMap]; exact hcache)).1

/-- On a container, a call without overwrites for a type whose tree has a
provider for every type and no type below itself succeeds when no factory
and no struct provider returns an error and neither a provider nor the
cache holds a zero value. -/
theorem Container.Build_of_acyclicTree (c : Container) (T : Ty) (n : Nat)
    (htree : AcyclicTree c.providerSet n [] T)
    (hcall : ∀ t deps out call, c.providerSet.GetFor t = .ok (.func deps out call) →
      ∀ args, (call args).2 = none)
    (hfield : ∀ t tt sv, c.providerSet.GetFor t = .ok (.struct tt sv) →
      (structProviderBuild tt sv t).2 = none)
    (hvalid : ∀ t p, c.providerSet.GetFor t = .ok p → p.SuppliesValid t)
    (hcache : CacheValid c.objectMap)
    (opts : List ContextOption) (hno : ∀ o ∈ opts, o = ContextOption.NonSharedMode) :
    ∃ r, c.Build T opts = some r ∧ r.err = none := by
  have hp : ∃ p, c.providerSet.GetFor T = .ok p := by
    cases n with
    | zero => exact absurd htree (by simp [AcyclicTree])
    | succ m => exact ⟨htree.2.choose, htree.2.choose_spec.1⟩
  obtain ⟨p, hp⟩ := hp
  obtain ⟨ctx1, v, hb⟩ := Provider.Build_succeeds_of_acyclicTree c.providerSet hcall hfield
    hvalid n p (c.buildContext opts) [] T htree
    (fun t => by rw [Container.buildContext_GetFor, lastOverwrite_of_no_overwrite opts hno])
    (fun t ht => by simp at ht) hp (by rw [Container.buildContext_objectMap]; exact hcache)
  exact ⟨_, c.Build_of_fuel T opts p n ctx1 v none hp hb, rfl⟩

/-- C31 as stated fails: a struct provider returns an error when the path of
the requested field runs through a nil pointer. The container made of the
record `struct7_OK_Nested` with its pointer `Nested2` nil holds no factory
at all; the type `[]int` of a field behind the pointer has a provider and
no dependent types, and `Resolve` succeeds for it; yet `Build` fails for it,
in shared and in non-shared mode. -/
theorem C31_counterexample :
    NewContainer testEnv [.pointer (some (.struct 27 struct7NilVal))] []
      = some (.ok nilRecordContainer) ∧
    (nilRecordContainer.providerSet.providerMap.all fun e => !e.2.isFunc) = true ∧
    nilRecordContainer.providerSet.overwrittenProviderMap = none ∧
    AcyclicTree nilRecordContainer.providerSet 1 [] 12 ∧
    nilRecordContainer.Resolve 12 = some (.ok (.mk 12 [])) ∧
    (∃ r, nilRecordContainer.Build 12 [] = some r ∧ r.err = some .nilIndirection) ∧
    ∃ r, nilRecordContainer.Build 12 [.NonSharedMode] = some r ∧
      r.err = some .nilIndirection :=
  ⟨rfl, rfl, rfl,
    resolve_acyclicTree 1 nilRecordContainer.resolveContext [] 12
      (nilRecordContainer.resolveContext.mark 12 |>.unmark 12) (.mk 12 [])
      (fun t ht => by cases ht) rfl,
    rfl, ⟨_, rfl, rfl⟩, ⟨_, rfl, rfl⟩⟩

/-- C31, amended: let the tree of `T` (its dependent types, theirs, and so
on, to some depth `n`) have a provider for every type and no type below
itself, let no factory of the registry return an error, let no struct
provider of the registry return an error for a type it is registered for,
and let no provider hand out the zero `reflect.Value` (no literal of the
registry is a nil interface value; the results of functions, the fields of
records and the cached instances are never zero values in Go). Then
`Resolve(T)` succeeds and `Build(T)` succeeds, with or without
`NonSharedMode`, whatever instances the cache of the container holds; and
they do so again on the container left by any earlier call without
overwrites, whatever that call returned. -/
theorem C31_acyclic_tree_builds (c : Container) (T : Ty) (n : Nat)
    (htree : AcyclicTree c.providerSet n [] T)
    (hcall : ∀ t deps out call, c.providerSet.GetFor t = .ok (.func deps out call) →
      ∀ args, (call args).2 = none)
    (hfield : ∀ t tt sv, c.providerSet.GetFor t = .ok (.struct tt sv) →
      (structProviderBuild tt sv t).2 = none)
    (hvalid : ∀ t p, c.providerSet.GetFor t = .ok p → p.SuppliesValid t)
    (hcache : CacheValid c.objectMap) :
    (∃ g, c.Resolve T = some (.ok g)) ∧
    (∀ opts, (∀ o ∈ opts, o = ContextOption.NonSharedMode) →
      ∃ r, c.Build T opts = some r ∧ r.err = none) ∧
    ∀ X opts0 r0, (∀ o ∈ opts0, o = ContextOption.NonSharedMode) →
      c.Build X opts0 = some r0 →
      (∃ g, r0.container.Resolve T = some (.ok g)) ∧
      ∀ opts, (∀ o ∈ opts, o = ContextOption.NonSharedMode) →
        ∃ r, r0.container.Build T opts = some r ∧ r.err = none := by
  have hres : ∀ d : Container, d.providerSet = c.providerSet →
      ∃ g, d.Resolve T = some (.ok g) := by
    intro d hd
    obtain ⟨ctx1, g, hr, _, _⟩ := resolve_of_acyclicTree n d.resolveContext [] T
      (by show AcyclicTree d.providerSet n [] T; rw [hd]; exact htree)
      (fun t ht => by simp [Container.resolveContext] at ht)
    exact ⟨g, d.Resolve_of_fuel T n ctx1 (.ok g) hr⟩
  refine ⟨hres c rfl,
    fun opts hno => c.Build_of_acyclicTree T n htree hcall hfield hvalid hcache opts hno,
    fun X opts0 r0 hno0 h0 => ?_⟩
  have hreg := c.Build_keeps_registry X opts0 r0 hno0 h0
  refine ⟨hres _ hreg, fun opts hno => ?_⟩
  exact r0.container.Build_of_acyclicTree T n (by rw [hreg]; exact htree)
    (by rw [hreg]; exact hcall) (by rw [hreg]; exact hfield) (by rw [hreg]; exact hvalid)
    (c.Build_leaves_valid_cache X opts0 r0 hno0 hvalid hcache h0) opts hno

theorem lookup_mem {β : Type} (l : List (Ty × β)) (k : Ty) (v : β)
    (h : l.lookup k = some v) : (k, v) ∈ l := by
  induction l with
  | nil => simp at h
  | cons e rest ih =>
    obtain ⟨k', v'⟩ := e
    by_cases hk : k = k'
    · subst hk
      simp only [List.lookup_cons, beq_self_eq_true, Option.some.injEq] at h
      subst h
      exact List.mem_cons_self _ _
    · have hb : (k == k') = false := by simpa using hk
      rw [List.lookup_cons, hb] at h
      exact List.mem_cons_of_mem _ (ih h)

theorem ProviderSet.GetFor_mem_base (ps : ProviderSet) (hnil : ps.overwrittenProviderMap = none)
    (t : Ty) (p : Provider) (h : ps.GetFor t = .ok p) : (t, p) ∈ ps.providerMap := by
  rw [ProviderSet.GetFor_eq] at h
  have hov : ps.overwritten = [] := by unfold ProviderSet.overwritten; rw [hnil]; rfl
  rw [hov] at h
  simp only [List.lookup_nil] at h
  cases hl : ps.providerMap.lookup t with
  | none => rw [hl] at h; cases h
  | some q =>
    rw [hl] at h
    cases h
    exact lookup_mem _ _ _ hl

/-- C31, amended, on the container with a diamond and, next to it, two
factories taking each other's type: after `Build` of type 5 has failed with
the circular-dependency error, `Build` of type 1 succeeds on the container
left, in shared and in non-shared mode, and so does `Resolve`. -/
theorem C31_acyclic_tree_builds_witness :
    ∃ r0, cycleAsideContainer.Build 5 [] = some r0 ∧
      r0.err = some (.circularDependency 5) ∧
      (∃ g, r0.container.Resolve 1 = some (.ok g)) ∧
      (∃ r, r0.container.Build 1 [] = some r ∧ r.err = none) ∧
      ∃ r, r0.container.Build 1 [.NonSharedMode] = some r ∧ r.err = none := by
  have h := C31_acyclic_tree_builds cycleAsideContainer 1 3
    (resolve_acyclicTree 3 cycleAsideContainer.resolveContext [] 1 _ _
      (fun t ht => by cases ht) rfl)
    (by
      intro t deps out call hg args
      have hm := ProviderSet.GetFor_mem_base _ rfl t _ hg
      simp only [cycleAsideContainer, containerOf, List.mem_cons, Prod.mk.injEq,
        Provider.func.injEq, List.mem_singleton, List.not_mem_nil, or_false] at hm
      rcases hm with ⟨_, _, _, rfl⟩ | ⟨_, _, _, rfl⟩ | ⟨_, _, _, rfl⟩ | ⟨_, _, _, rfl⟩ |
        ⟨_, _, _, rfl⟩ | ⟨_, _, _, rfl⟩ <;> rfl)
    (by
      intro t tt sv hg
      have hm := ProviderSet.GetFor_mem_base _ rfl t _ hg
      simp [cycleAsideContainer, containerOf] at hm)
    (by
      intro t p hg
      have hm := ProviderSet.GetFor_mem_base _ rfl t _ hg
      simp only [cycleAsideContainer, containerOf, List.mem_cons, Prod.mk.injEq,
        List.mem_singleton, List.not_mem_nil, or_false] at hm
      rcases hm with ⟨_, rfl⟩ | ⟨_, rfl⟩ | ⟨_, rfl⟩ | ⟨_, rfl⟩ | ⟨_, rfl⟩ | ⟨_, rfl⟩ <;>
        exact fun _ _ => rfl)
    (fun u w hu => by cases hu)
  obtain ⟨hres, hbuild⟩ := h.2.2 5 [] _ (fun o ho => by cases ho) rfl
  exact ⟨_, rfl, rfl, hres, hbuild [] (fun o ho => by cases ho),
    hbuild [.NonSharedMode] (fun o ho => by
      rw [List.mem_singleton] at ho; exact ho)⟩

/-! ## C32: `Build` and `Resolve` agree -/

theorem AcyclicTree.not_mem_of_reach (ps : ProviderSet) (T x : Ty)
    (hreach : Relation.ReflTransGen (DependsOn ps) T x) :
    ∀ n anc, AcyclicTree ps n anc T → x ∉ anc := by
  induction hreach using Relation.ReflTransGen.head_induction_on with
  | refl =>
    intro n anc h
    cases n with
    | zero => exact absurd h (by simp [AcyclicTree])
    | succ n => exact h.1
  | head hstep _ ih =>
    intro n anc h
    cases n with
    | zero => exact absurd h (by simp [AcyclicTree])
    | succ n =>
      obtain ⟨_, p, hp, hdeps⟩ := h
      obtain ⟨q, hq, hd⟩ := hstep
      rw [hp] at hq
      cases hq
      exact fun hx => ih n _ (hdeps _ hd) (List.mem_cons_of_mem _ hx)

theorem AcyclicTree.irrefl (ps : ProviderSet) (n : Nat) (T : Ty) (h : AcyclicTree ps n [] T) :
    ¬ Relation.TransGen (DependsOn ps) T T := by
  intro hcyc
  obtain ⟨d, hstep, hrest⟩ := Relation.TransGen.head'_iff.mp hcyc
  cases n with
  | zero => exact absurd h (by simp [AcyclicTree])
  | succ n =>
    obtain ⟨_, p, hp, hdeps⟩ := h
    obtain ⟨q, hq, hd⟩ := hstep
    rw [hp] at hq
    cases hq
    exact AcyclicTree.not_mem_of_reach ps d T hrest n [T] (hdeps d hd) (List.mem_singleton.mpr rfl)

theorem AcyclicTree.extend (ps : ProviderSet) (a2 : List Ty) (n : Nat) :
    ∀ a1 T, AcyclicTree ps n a1 T →
      (∀ x, Relation.ReflTransGen (DependsOn ps) T x → x ∉ a2) →
      AcyclicTree ps n (a1 ++ a2) T := by
  induction n with
  | zero => intro a1 T h; exact absurd h (by simp [AcyclicTree])
  | succ n ih =>
    intro a1 T h hfree
    obtain ⟨hT, p, hp, hdeps⟩ := h
    refine ⟨?_, p, hp, fun d hd => ?_⟩
    · rw [List.mem_append, not_or]
      exact ⟨hT, hfree T Relation.ReflTransGen.refl⟩
    · exact ih (T :: a1) d (hdeps d hd) fun x hx =>
        hfree x (Relation.ReflTransGen.head ⟨p, hp, hd⟩ hx)

theorem AcyclicTree.deeper (ps : ProviderSet) (n : Nat) :
    ∀ m anc T, AcyclicTree ps n anc T → n ≤ m → AcyclicTree ps m anc T := by
  induction n with
  | zero => intro m anc T h; exact absurd h (by simp [AcyclicTree])
  | succ n ih =>
    intro m anc T h hle
    cases m with
    | zero => omega
    | succ m =>
      obtain ⟨hT, p, hp, hdeps⟩ := h
      exact ⟨hT, p, hp, fun d hd => ih m _ d (hdeps d hd) (by omega)⟩

/-- A type above which the children all have a tree has a tree itself. -/
theorem AcyclicTree.node (ps : ProviderSet) (anc : List Ty) (T : Ty) (p : Provider)
    (hT : T ∉ anc) (hp : ps.GetFor T = .ok p)
    (hdeps : ∀ d ∈ p.DependentTypes, ∃ n, AcyclicTree ps n (T :: anc) d) :
    ∃ n, AcyclicTree ps n anc T := by
  have hbound : ∀ ds : List Ty, (∀ d ∈ ds, ∃ n, AcyclicTree ps n (T :: anc) d) →
      ∃ N, ∀ d ∈ ds, AcyclicTree ps N (T :: anc) d := by
    intro ds
    induction ds with
    | nil => intro _; exact ⟨0, fun d hd => by cases hd⟩
    | cons d rest ih =>
      intro h
      obtain ⟨n, hn⟩ := h d (List.mem_cons_self _ _)
      obtain ⟨N, hN⟩ := ih fun d' hd' => h d' (List.mem_cons_of_mem _ hd')
      refine ⟨max n N, fun d' hd' => ?_⟩
      rcases List.mem_cons.mp hd' with rfl | hd'
      · exact AcyclicTree.deeper ps n _ _ _ hn (le_max_left _ _)
      · exact AcyclicTree.deeper ps N _ _ _ (hN d' hd') (le_max_right _ _)
  obtain ⟨N, hN⟩ := hbound _ hdeps
  exact ⟨N + 1, hT, p, hp, hN⟩

theorem AcyclicTree.of_cached (ps : ProviderSet) (n : Nat) (anc : List Ty) (T : Ty)
    (h : AcyclicTree ps n [] T) (hchain : ∀ a ∈ anc, Relation.TransGen (DependsOn ps) a T) :
    AcyclicTree ps n anc T := by
  have := AcyclicTree.extend ps anc n [] T h fun x hx hin =>
    AcyclicTree.irrefl ps n T h (Relation.TransGen.trans_right hx (hchain x hin))
  simpa using this

theorem resolve_eq_of_acyclicTree (n fuel2 : Nat) (w : Context) (anc : List Ty) (d : Ty)
    (x : Context × Except Err DependencyGraph) (h : AcyclicTree w.providerSet n anc d)
    (hm : ∀ t, w.resolvingTypes t = true → t ∈ anc) (hx : resolve fuel2 w d = some x) :
    (∃ g, x.2 = .ok g) ∧ x.1.resolvingTypes = w.resolvingTypes ∧
      x.1.providerSet = w.providerSet := by
  obtain ⟨w1, g, hr, hrt, hps⟩ := resolve_of_acyclicTree n w anc d h hm
  have h1 := resolve_fuel_le (le_max_left n fuel2) w d _ hr
  have h2 := resolve_fuel_le (le_max_right n fuel2) w d x hx
  rw [h1] at h2
  cases h2
  exact ⟨⟨g, rfl⟩, hrt, hps⟩

theorem resolve_of_missing (fuel2 : Nat) (w : Context) (anc : List Ty) (d : Ty) (e : Err)
    (x : Context × Except Err DependencyGraph)
    (hg : w.providerSet.GetFor d = .error e)
    (hm : ∀ t, w.resolvingTypes t = true ↔ t ∈ anc)
    (hprov : ∀ a ∈ anc, ∃ p, w.providerSet.GetFor a = .ok p)
    (hx : resolve fuel2 w d = some x) : x.2 = .error e := by
  cases fuel2 with
  | zero => simp [resolve] at hx
  | succ k =>
    unfold resolve at hx
    cases hr : w.resolvingTypes d with
    | true =>
      obtain ⟨p, hp⟩ := hprov d ((hm d).mp hr)
      rw [hg] at hp
      cases hp
    | false =>
      rw [hr] at hx
      simp only [Bool.false_eq_true, if_false, Context.mark_providerSet, hg,
        Option.some.injEq] at hx
      rw [← hx]

theorem resolve_of_marked (fuel2 : Nat) (w : Context) (t : Ty)
    (x : Context × Except Err DependencyGraph) (hr : w.resolvingTypes t = true)
    (hx : resolve fuel2 w t = some x) : x.2 = .error (.circularDependency t) := by
  cases fuel2 with
  | zero => simp [resolve] at hx
  | succ k =>
    rw [resolve_circular k w t hr] at hx
    cases hx
    rfl

theorem TransGen_dependsOn_provider (ps : ProviderSet) (a T : Ty)
    (h : Relation.TransGen (DependsOn ps) a T) :
    ∃ p, ps.GetFor a = .ok p ∧ p.DependentTypes ≠ [] := by
  obtain ⟨d, ⟨p, hp, hd⟩, _⟩ := Relation.TransGen.head'_iff.mp h
  exact ⟨p, hp, fun hnil => by rw [hnil] at hd; cases hd⟩

/-- The argument loop against the child loop of the walk: when the loop
builds every type of the list, each has a tree and the context left is in
the state `SimInv`; when it stops with an error, every child loop of the
walk over the same list that returns, returns that error. -/
theorem buildArgs_sim (ps : ProviderSet) (fuel : Nat) (anc : List Ty)
    (ih : ∀ p b d r, SimInv ps anc b → (∀ a ∈ anc, Relation.TransGen (DependsOn ps) a d) →
      ps.GetFor d = .ok p → Provider.Build fuel p b d = some r → BuildSim ps anc d r)
    (hprov : ∀ a ∈ anc, ∃ p, ps.GetFor a = .ok p) :
    ∀ ds cur acc res, SimInv ps anc cur →
      (∀ d ∈ ds, ∀ a ∈ anc, Relation.TransGen (DependsOn ps) a d) →
      buildArgs (Provider.Build fuel) cur ds acc = some res →
      (∀ args, res.2 = .ok args →
        SimInv ps anc res.1 ∧ ∀ d ∈ ds, ∃ n, AcyclicTree ps n anc d) ∧
      ∀ e, res.2 = .error e → ∀ w fuel2 accw x, w.providerSet = ps →
        (∀ t, w.resolvingTypes t = true ↔ t ∈ anc) →
        resolveDeps (resolve fuel2) w ds accw = some x → x.2 = .error e := by
  intro ds
  induction ds with
  | nil =>
    intro cur acc res hsim _ h
    simp only [buildArgs, Option.some.injEq] at h
    subst h
    exact ⟨fun args _ => ⟨hsim, fun d hd => by cases hd⟩, fun e he => by cases he⟩
  | cons d rest ihl =>
    intro cur acc res hsim hchain h
    unfold buildArgs at h
    rw [hsim.1] at h
    have hchain_d := hchain d (List.mem_cons_self _ _)
    have hchain_rest : ∀ d' ∈ rest, ∀ a ∈ anc, Relation.TransGen (DependsOn ps) a d' :=
      fun d' hd' => hchain d' (List.mem_cons_of_mem _ hd')
    cases hg : ps.GetFor d with
    | error e0 =>
      rw [hg] at h
      simp only [Option.some.injEq] at h
      subst h
      refine ⟨fun args he => (by cases he), fun e he w fuel2 accw x hwps hwm hx => ?_⟩
      simp only [Except.error.injEq] at he
      subst he
      unfold resolveDeps at hx
      cases hr : resolve fuel2 w d with
      | none => rw [hr] at hx; cases hx
      | some xd =>
        have hxd := resolve_of_missing fuel2 w anc d e0 xd (hwps ▸ hg) hwm
          (fun a ha => hwps ▸ hprov a ha) hr
        rw [hr] at hx
        obtain ⟨w1, rd⟩ := xd
        simp only at hxd
        subst hxd
        simp only [Option.some.injEq] at hx
        rw [← hx]
    | ok q =>
      rw [hg] at h
      simp only at h
      cases hb : Provider.Build fuel q cur d with
      | none => rw [hb] at h; cases h
      | some bres =>
        obtain ⟨cur1, v, oe⟩ := bres
        obtain ⟨hok, herr⟩ := ih q cur d _ hsim hchain_d hg hb
        rw [hb] at h
        cases oe with
        | some e1 =>
          simp only [Option.some.injEq] at h
          subst h
          refine ⟨fun args he => (by cases he), fun e he w fuel2 accw x hwps hwm hx => ?_⟩
          simp only [Except.error.injEq] at he
          subst he
          unfold resolveDeps at hx
          cases hr : resolve fuel2 w d with
          | none => rw [hr] at hx; cases hx
          | some xd =>
            have hxd := herr e1 rfl w fuel2 xd hwps hwm hr
            rw [hr] at hx
            obtain ⟨w1, rd⟩ := xd
            simp only at hxd
            subst hxd
            simp only [Option.some.injEq] at hx
            rw [← hx]
        | none =>
          simp only at h
          obtain ⟨hsim1, n, htree⟩ := hok rfl
          obtain ⟨hok2, herr2⟩ := ihl cur1 (acc ++ [v]) res hsim1 hchain_rest h
          refine ⟨fun args he => ?_, fun e he w fuel2 accw x hwps hwm hx => ?_⟩
          · obtain ⟨hs, hall⟩ := hok2 args he
            refine ⟨hs, fun d' hd' => ?_⟩
            rcases List.mem_cons.mp hd' with rfl | hd'
            · exact ⟨n, htree⟩
            · exact hall d' hd'
          · unfold resolveDeps at hx
            cases hr : resolve fuel2 w d with
            | none => rw [hr] at hx; cases hx
            | some xd =>
              obtain ⟨⟨g, hgd⟩, hrt, hps1⟩ := resolve_eq_of_acyclicTree n fuel2 w anc d xd
                (hwps ▸ htree) (fun t ht => (hwm t).mp ht) hr
              rw [hr] at hx
              obtain ⟨w1, rd⟩ := xd
              simp only at hgd hrt hps1
              subst hgd
              simp only at hx
              exact herr2 e he w1 fuel2 _ x (hps1.trans hwps) (fun t => by rw [hrt]; exact hwm t)
                hx

theorem BuildSim.leaf (ps : ProviderSet) (anc : List Ty) (T : Ty) (p : Provider)
    (b : Context) (v : Val) (hsim : SimInv ps anc b)
    (hchain : ∀ a ∈ anc, Relation.TransGen (DependsOn ps) a T) (hp : ps.GetFor T = .ok p)
    (hdeps : p.DependentTypes = []) : BuildSim ps anc T (b, v, none) := by
  refine ⟨fun _ => ⟨hsim, 1, fun hin => ?_, p, hp, fun d hd => ?_⟩, fun e he => by cases he⟩
  · obtain ⟨q, hq, hne⟩ := TransGen_dependsOn_provider ps T T (hchain T hin)
    rw [hp] at hq
    cases hq
    exact hne hdeps
  · rw [hdeps] at hd
    cases hd

/-- The build of a type against its walk, on a registry in which no factory
and no struct provider returns an error and no provider hands out a zero
value: a build without error has walked a tree with a provider for every
type and no type below itself, and a build with an error returns the error
that the walk returns. -/
theorem Provider.Build_sim (ps : ProviderSet)
    (hcall : ∀ t deps out call, ps.GetFor t = .ok (.func deps out call) →
      ∀ args, (call args).2 = none)
    (hfield : ∀ t tt sv, ps.GetFor t = .ok (.struct tt sv) →
      (structProviderBuild tt sv t).2 = none)
    (hvalid : ∀ t p, ps.GetFor t = .ok p → p.SuppliesValid t) (fuel : Nat) :
    ∀ anc p b T r, SimInv ps anc b → (∀ a ∈ anc, Relation.TransGen (DependsOn ps) a T) →
      ps.GetFor T = .ok p → Provider.Build fuel p b T = some r → BuildSim ps anc T r := by
  have hleaf : ∀ fuel anc p b T r, SimInv ps anc b →
      (∀ a ∈ anc, Relation.TransGen (DependsOn ps) a T) → ps.GetFor T = .ok p →
      p.isFunc = false → Provider.Build fuel p b T = some r → BuildSim ps anc T r := by
    intro fuel anc p b T r hsim hchain hp hnf h
    cases p with
    | func deps out call => cases hnf
    | value tt sv =>
      have hr : r = (b, sv, none) := by cases fuel <;> simpa [Provider.Build] using h.symm
      rw [hr]
      exact BuildSim.leaf ps anc T _ b sv hsim hchain hp rfl
    | struct tt sv =>
      have hr : r = (b, structProviderBuild tt sv T) := by
        cases fuel <;> simpa [Provider.Build] using h.symm
      have hnone := hfield T tt sv hp
      have hr2 : r = (b, (structProviderBuild tt sv T).1, none) := by rw [hr, ← hnone]
      rw [hr2]
      exact BuildSim.leaf ps anc T _ b _ hsim hchain hp rfl
  induction fuel with
  | zero =>
    intro anc p b T r hsim hchain hp h
    cases hf : p.isFunc with
    | false => exact hleaf 0 anc p b T r hsim hchain hp hf h
    | true =>
      cases p with
      | func deps out call => simp [Provider.Build] at h
      | value tt sv => cases hf
      | struct tt sv => cases hf
  | succ fuel ih =>
    intro anc p b T r hsim hchain hp h
    cases hf : p.isFunc with
    | false => exact hleaf _ anc p b T r hsim hchain hp hf h
    | true =>
      cases p with
      | value tt sv => cases hf
      | struct tt sv => cases hf
      | func deps out call =>
        unfold Provider.Build at h
        cases hc : b.cached T with
        | some v =>
          rw [hc] at h
          simp only [Option.some.injEq] at h
          subst h
          obtain ⟨n, hn⟩ := hsim.2.2.1 T v hc
          exact ⟨fun _ => ⟨hsim, n, AcyclicTree.of_cached ps n anc T hn hchain⟩,
            fun e he => by cases he⟩
        | none =>
          rw [hc] at h
          simp only at h
          cases hr : b.resolvingTypes T with
          | true =>
            rw [hr] at h
            simp only [if_true, Option.some.injEq] at h
            subst h
            refine ⟨fun he => (by cases he), fun e he w fuel2 x hwps hwm hx => ?_⟩
            simp only [Option.some.injEq] at he
            subst he
            exact resolve_of_marked fuel2 w T x ((hwm T).mpr ((hsim.2.1 T).mp hr)) hx
          | false =>
            rw [hr] at h
            simp only [Bool.false_eq_true, if_false] at h
            have hT : T ∉ anc := fun hin => by
              have := (hsim.2.1 T).mpr hin
              rw [hr] at this
              cases this
            have hmarkiff : ∀ (c : Context), (∀ t, c.resolvingTypes t = true ↔ t ∈ anc) →
                ∀ t, (c.mark T).resolvingTypes t = true ↔ t ∈ T :: anc := by
              intro c hcm t
              rw [Context.mark_resolvingTypes, List.mem_cons]
              by_cases htT : t = T
              · subst htT; simp
              · rw [Function.update_noteq htT, hcm t]
                simp [htT]
            have hsimM : SimInv ps (T :: anc) (b.mark T) :=
              ⟨hsim.1, hmarkiff b hsim.2.1, fun u v hu => hsim.2.2.1 u v hu, hsim.2.2.2⟩
            have hchainC : ∀ d ∈ deps, ∀ a ∈ T :: anc,
                Relation.TransGen (DependsOn ps) a d := by
              intro d hd a ha
              rcases List.mem_cons.mp ha with rfl | ha
              · exact Relation.TransGen.single ⟨_, hp, hd⟩
              · exact Relation.TransGen.tail (hchain a ha) ⟨_, hp, hd⟩
            have hprov : ∀ a ∈ T :: anc, ∃ q, ps.GetFor a = .ok q := by
              intro a ha
              rcases List.mem_cons.mp ha with rfl | ha
              · exact ⟨_, hp⟩
              · obtain ⟨q, hq, _⟩ := TransGen_dependsOn_provider ps a T (hchain a ha)
                exact ⟨q, hq⟩
            cases ha : buildArgs (Provider.Build fuel) (b.mark T) deps [] with
            | none => rw [ha] at h; cases h
            | some lres =>
              obtain ⟨ctx2, res⟩ := lres
              obtain ⟨lok, lerr⟩ := buildArgs_sim ps fuel (T :: anc) (ih (T :: anc)) hprov
                deps (b.mark T) [] (ctx2, res) hsimM hchainC ha
              rw [ha] at h
              cases res with
              | error e0 =>
                simp only [Option.some.injEq] at h
                subst h
                refine ⟨fun he => (by cases he), fun e he w fuel2 x hwps hwm hx => ?_⟩
                simp only [Option.some.injEq] at he
                subst he
                cases fuel2 with
                | zero => simp [resolve] at hx
                | succ k =>
                  unfold resolve at hx
                  have hwT : w.resolvingTypes T = false := by
                    cases hwt : w.resolvingTypes T with
                    | false => rfl
                    | true => exact absurd ((hwm T).mp hwt) hT
                  rw [hwT] at hx
                  simp only [Bool.false_eq_true, if_false, Context.mark_providerSet, hwps, hp]
                    at hx
                  cases hd : resolveDeps (resolve k) (w.mark T)
                      (Provider.func deps out call).DependentTypes [] with
                  | none => rw [hd] at hx; cases hx
                  | some y =>
                    have hy := lerr e0 rfl (w.mark T) k [] y hwps (hmarkiff w hwm) hd
                    rw [hd] at hx
                    obtain ⟨w2, ry⟩ := y
                    simp only at hy
                    subst hy
                    simp only [Option.some.injEq] at hx
                    rw [← hx]
              | ok args =>
                have hkv := (Provider.Build_keeps_valid ps hvalid fuel).2 (b.mark T) deps [] _ ha
                  (fun u => by rw [show (b.mark T).providerSet = ps from hsim.1]) hsim.2.2.2
                have hv : args.all Val.IsValid = true := hkv.2 args rfl rfl
                simp only [hv, if_true, Option.some.injEq] at h
                subst h
                have hnone := hcall T deps out call hp args
                have hcvr : CacheValid
                    ((ctx2.finish T deps args (call args)).unmark T).objectMap := by
                  intro u w hu
                  have hu' : (ctx2.finish T deps args (call args)).objectMap u = some w := hu
                  rw [Context.finish_objectMap] at hu'
                  split at hu'
                  · by_cases e : u = T
                    · subst e
                      rw [Function.update_same] at hu'
                      cases hu'
                      exact hvalid u _ hp args hnone
                    · rw [Function.update_noteq e] at hu'
                      exact hkv.1 u w hu'
                  · exact hkv.1 u w hu'
                refine ⟨fun _ => ?_, fun e he => ?_⟩
                · obtain ⟨hs2, hall⟩ := lok args rfl
                  obtain ⟨n, htree⟩ := AcyclicTree.node ps anc T _ hT hp hall
                  refine ⟨⟨hs2.1, fun t => ?_, fun u v hu => ?_, hcvr⟩, n, htree⟩
                  · rw [Context.unmark_resolvingTypes, Context.finish_resolvingTypes]
                    by_cases htT : t = T
                    · subst htT; simp [hT]
                    · rw [Function.update_noteq htT, hs2.2.1 t]
                      simp [htT]
                  · by_cases huT : u = T
                    · subst huT
                      exact ⟨n, AcyclicTree.anti ps n anc [] u htree fun t ht => by cases ht⟩
                    · rw [Context.unmark_cached, Context.finish_cached_ne _ _ _ _ _ _ huT] at hu
                      exact hs2.2.2.1 u v hu
                · simp only at he
                  rw [hnone] at he
                  cases he

/-- The walk fails only with the not-found error or with the
circular-dependency error. -/
theorem resolve_error_kind (fuel : Nat) (ctx : Context) (t : Ty)
    (r : Context × Except Err DependencyGraph) (h : resolve fuel ctx t = some r) :
    ∀ e, r.2 = .error e → (∃ u, e = .providerNotFound u) ∨ ∃ u, e = .circularDependency u := by
  refine (resolve_cases
    (fun _ _ r => ∀ e, r.2 = .error e →
      (∃ u, e = .providerNotFound u) ∨ ∃ u, e = .circularDependency u)
    (fun _ _ _ r => ∀ e, r.2 = .error e →
      (∃ u, e = .providerNotFound u) ∨ ∃ u, e = .circularDependency u)
    ?_ ?_ ?_ ?_ ?_ ?_ ?_ fuel).1 ctx t r h
  · intro ctx t _ e he
    cases he
    exact Or.inr ⟨t, rfl⟩
  · intro ctx t e0 _ hg e he
    cases he
    exact Or.inl ⟨t, ProviderSet.GetFor_error _ _ _ hg⟩
  · intro ctx t p ctx2 e0 _ _ hqa e he
    cases he
    exact hqa e0 rfl
  · intro ctx t p ctx2 deps _ _ _ e he
    cases he
  · intro ctx acc e he
    cases he
  · intro ctx d rest acc ctx1 e0 hq e he
    cases he
    exact hq e0 rfl
  · intro ctx d rest acc ctx1 g r _ hqa e he
    exact hqa e he

/-- C32 as stated fails: on the container made of the record
`struct7_OK_Nested` with its pointer `Nested2` nil, which has an empty
cache and holds no factory at all, `Resolve` succeeds for the type `[]string`
of a field behind the pointer, and `Build` fails for it, in shared and in
non-shared mode, with an error that is neither the not-found error nor the
circular-dependency error. -/
theorem C32_counterexample :
    (∀ t, nilRecordContainer.objectMap t = none) ∧
    (nilRecordContainer.providerSet.providerMap.all fun e => !e.2.isFunc) = true ∧
    nilRecordContainer.providerSet.overwrittenProviderMap = none ∧
    nilRecordContainer.Resolve 16 = some (.ok (.mk 16 [])) ∧
    (∃ r, nilRecordContainer.Build 16 [] = some r ∧ r.err = some .nilIndirection) ∧
    ∃ r, nilRecordContainer.Build 16 [.NonSharedMode] = some r ∧
      r.err = some .nilIndirection :=
  ⟨fun _ => rfl, rfl, rfl, rfl, ⟨_, rfl, rfl⟩, ⟨_, rfl, rfl⟩⟩

/-- C32, amended: on a container with an empty cache, in a call whose
options are only `NonSharedMode` (none or several), when no factory of the
registry returns an error, no struct provider of the registry returns an
error for a type it is registered for, and no provider hands out the zero
`reflect.Value` (no literal of the registry is a nil interface value; the
results of functions and the fields of records are never zero values in
Go), `Build(T)` and `Resolve(T)` both return, `Build(T)` succeeds exactly
when `Resolve(T)` does, and when they fail they fail with the same error,
which is the not-found error or the circular-dependency error (so the same
kind, naming the same type). -/
theorem C32_build_and_resolve_agree (c : Container) (T : Ty) (opts : List ContextOption)
    (hempty : ∀ t, c.objectMap t = none)
    (hno : ∀ o ∈ opts, o = ContextOption.NonSharedMode)
    (hcall : ∀ t deps out call, c.providerSet.GetFor t = .ok (.func deps out call) →
      ∀ args, (call args).2 = none)
    (hfield : ∀ t tt sv, c.providerSet.GetFor t = .ok (.struct tt sv) →
      (structProviderBuild tt sv t).2 = none)
    (hvalid : ∀ t p, c.providerSet.GetFor t = .ok p → p.SuppliesValid t) :
    ∃ r x, c.Build T opts = some r ∧ c.Resolve T = some x ∧
      (r.err = none ↔ ∃ g, x = .ok g) ∧
      (∀ e, r.err = some e ↔ x = .error e) ∧
      ∀ e, r.err = some e →
        (∃ u, e = .providerNotFound u) ∨ ∃ u, e = .circularDependency u := by
  obtain ⟨r, hr⟩ := c.Build_terminates T opts
  obtain ⟨y, hy⟩ := resolve_returns c.resolveContext.providerSet.fuel c.resolveContext T
    (Nat.lt_succ_of_le c.resolveContext.pending_le)
  have hx : c.Resolve T = some y.2 := c.Resolve_of_fuel T _ y.1 y.2 hy
  have hkind := resolve_error_kind _ _ _ _ hy
  have hm0 : ∀ t, c.resolveContext.resolvingTypes t = true ↔ t ∈ ([] : List Ty) := by
    intro t
    simp [Container.resolveContext]
  have key : (r.err = none → ∃ g, y.2 = .ok g) ∧ ∀ e, r.err = some e → y.2 = .error e := by
    rcases c.Build_eq_some T opts r hr with ⟨e0, hg, rfl⟩ | ⟨p, ctx1, v, e0, hp, hb, rfl⟩
    · refine ⟨fun he => (by cases he), fun e he => ?_⟩
      simp only [Option.some.injEq] at he
      subst he
      exact resolve_of_missing _ c.resolveContext [] T e0 y hg hm0
        (fun a ha => by cases ha) hy
    · have hsim : SimInv c.providerSet [] (c.buildContext opts) := by
        refine ⟨applyOptions_of_no_overwrite opts hno c.newContext, fun t => ?_,
          fun u v hu => ?_, fun u w hu => ?_⟩
        · simp
        · unfold Context.cached at hu
          rw [Container.buildContext_objectMap, hempty u] at hu
          simp at hu
        · rw [Container.buildContext_objectMap, hempty u] at hu
          cases hu
      have hbs := Provider.Build_sim c.providerSet hcall hfield hvalid _ [] p
        (c.buildContext opts) T
        (ctx1, v, e0) hsim (fun a ha => by cases ha) hp hb
      refine ⟨fun he => ?_, fun e he => ?_⟩
      · obtain ⟨_, n, htree⟩ := hbs.1 he
        obtain ⟨w1, g, hres, _, _⟩ := resolve_of_acyclicTree n c.resolveContext [] T htree
          (fun t ht => by simp [Container.resolveContext] at ht)
        have hx2 := c.Resolve_of_fuel T n w1 (.ok g) hres
        rw [hx] at hx2
        simp only [Option.some.injEq] at hx2
        exact ⟨g, hx2⟩
      · exact hbs.2 e he c.resolveContext _ y rfl hm0 hy
  refine ⟨r, y.2, hr, hx, ⟨key.1, fun ⟨g, hg⟩ => ?_⟩, fun e => ⟨key.2 e, fun he => ?_⟩,
    fun e he => hkind e (key.2 e he)⟩
  · cases hre : r.err with
    | none => rfl
    | some e =>
      have := key.2 e hre
      rw [hg] at this
      cases this
  · cases hre : r.err with
    | none =>
      obtain ⟨g, hg⟩ := key.1 hre
      rw [hg] at he
      cases he
    | some e2 =>
      have := key.2 e2 hre
      rw [he] at this
      cases this
      rfl

/-- C32, amended, on the registry of the test `Circular dependency`: `Build`
and `Resolve` of type 1 both fail with the circular-dependency error naming
type 1, in shared and in non-shared mode. -/
theorem C32_build_and_resolve_agree_witness :
    (∃ r, testCycleContainer.Build 1 [.NonSharedMode] = some r ∧
      r.err = some (.circularDependency 1)) ∧
    testCycleContainer.Resolve 1 = some (.error (.circularDependency 1)) ∧
    ∃ r x, testCycleContainer.Build 1 [.NonSharedMode] = some r ∧
      testCycleContainer.Resolve 1 = some x ∧
      (r.err = none ↔ ∃ g, x = .ok g) ∧
      (∀ e, r.err = some e ↔ x = .error e) ∧
      ∀ e, r.err = some e →
        (∃ u, e = .providerNotFound u) ∨ ∃ u, e = .circularDependency u :=
  ⟨⟨_, rfl, rfl⟩, rfl,
    C32_build_and_resolve_agree testCycleContainer 1 [.NonSharedMode] (fun _ => rfl)
      (fun o ho => by rw [List.mem_singleton] at ho; exact ho)
      (by
        intro t deps out call hg args
        have hm := ProviderSet.GetFor_mem_base _ rfl t _ hg
        simp only [testCycleContainer, containerOf, List.mem_cons, Prod.mk.injEq,
          Provider.func.injEq, List.mem_singleton, List.not_mem_nil, or_false] at hm
        rcases hm with ⟨_, _, _, rfl⟩ | ⟨_, _, _, rfl⟩ | ⟨_, _, _, rfl⟩ | ⟨_, _, _, rfl⟩ |
          ⟨_, _, _, rfl⟩ <;> rfl)
      (by
        intro t tt sv hg
        have hm := ProviderSet.GetFor_mem_base _ rfl t _ hg
        simp [testCycleContainer, containerOf] at hm)
      (by
        intro t p hg
        have hm := ProviderSet.GetFor_mem_base _ rfl t _ hg
        simp only [testCycleContainer, containerOf, List.mem_cons, Prod.mk.injEq,
          List.mem_singleton, List.not_mem_nil, or_false] at hm
        rcases hm with ⟨_, rfl⟩ | ⟨_, rfl⟩ | ⟨_, rfl⟩ | ⟨_, rfl⟩ | ⟨_, rfl⟩ <;>
          exact fun _ _ => rfl)⟩

/-! ## C2: the error of a type that depends on itself -/

theorem buildArgs_dependsWithin (ps : ProviderSet) (S : List Ty) (hS : DependsWithin ps S)
    (fuel : Nat) :
    ∀ ds ctx acc r, buildArgs (Provider.Build fuel) ctx ds acc = some r →
      ctx.providerSet = ps → (∀ s ∈ S, ctx.cached s = none) →
      r.1.providerSet = ps ∧ ∀ s ∈ S, r.1.cached s = none := by
  intro ds
  induction ds with
  | nil =>
    intro ctx acc r h hps hun
    simp only [buildArgs, Option.some.injEq] at h
    subst h
    exact ⟨hps, hun⟩
  | cons d rest ih =>
    intro ctx acc r h hps hun
    unfold buildArgs at h
    cases hg : ctx.providerSet.GetFor d with
    | error e =>
      rw [hg] at h
      simp only [Option.some.injEq] at h
      subst h
      exact ⟨hps, hun⟩
    | ok p =>
      rw [hg] at h
      simp only at h
      cases hb : Provider.Build fuel p ctx d with
      | none => rw [hb] at h; simp at h
      | some b =>
        obtain ⟨ctx1, v, oe⟩ := b
        rw [hb] at h
        have h1 := (Provider.Build_dependsWithin ps S hS fuel p ctx d _ hb hps hun hg).1
        cases oe with
        | some e =>
          simp only [Option.some.injEq] at h
          subst h
          exact h1
        | none =>
          simp only at h
          exact ih ctx1 _ r h h1.1 h1.2

/-- The types on a cycle of builds are supplied by factories, each with a
parameter that is the next type of the cycle. -/
theorem BuildCycle.dependsOn (fuel : Nat) (T : Ty) (ps : ProviderSet) :
    ∀ mid a ctx, BuildCycle fuel T mid a ctx → ctx.providerSet = ps →
      ∀ x ∈ a :: mid, ∃ deps out call, ps.GetFor x = .ok (.func deps out call) ∧
        ∃ d ∈ deps, d = T ∨ d ∈ mid := by
  intro mid
  induction mid with
  | nil =>
    intro a ctx h hps x hx
    simp only [BuildCycle] at h
    obtain ⟨pre, rest, out, call, vs, ctx2, hg, _⟩ := h
    simp only [List.mem_singleton] at hx
    subst hx
    exact ⟨_, out, call, by rw [← hps]; exact hg, T, by simp, Or.inl rfl⟩
  | cons b mid ih =>
    intro a ctx h hps x hx
    simp only [BuildCycle] at h
    obtain ⟨pre, rest, out, call, vs, ctx2, hg, hpre, hnext⟩ := h
    rcases List.mem_cons.1 hx with rfl | hx
    · exact ⟨_, out, call, by rw [← hps]; exact hg, b, by simp,
        Or.inr (List.mem_cons_self _ _)⟩
    · obtain ⟨new, hgr⟩ := buildArgs_grows _ _ _ _ _ hpre
      have hps2 : ctx2.providerSet = ps := hgr.2.1.trans hps
      obtain ⟨deps, out', call', hg', d, hd, hdm⟩ := ih b ctx2 hnext hps2 x hx
      exact ⟨deps, out', call', hg', d, hd, hdm.imp id (List.mem_cons_of_mem _)⟩

/-- A build that runs round a cycle leading to a type `T` in progress (or
to the type being built itself), none of the types on the way being in
progress or served from the cache, ends with the circular-dependency error
of `T`. -/
theorem Provider.Build_cycle (T : Ty) (ps : ProviderSet) (S : List Ty)
    (hS : DependsWithin ps S)
    (hT : ∃ deps out call, ps.GetFor T = .ok (.func deps out call)) (hTS : T ∈ S)
    (fuel : Nat) :
    ∀ mid a ctx n, BuildCycle fuel T mid a ctx → ctx.providerSet = ps →
      (∀ x ∈ a :: mid, x ∈ S) → (∀ s ∈ S, ctx.cached s = none) →
      (a :: mid).Nodup → T ∉ mid → (ctx.mark a).resolvingTypes T = true →
      (∀ x ∈ a :: mid, ctx.resolvingTypes x = false) → fuel + mid.length + 2 ≤ n →
      ∃ deps out call ctx', ctx.providerSet.GetFor a = .ok (.func deps out call) ∧
        Provider.Build n (.func deps out call) ctx a
          = some (ctx', .invalid, some (.circularDependency T)) := by
  intro mid
  induction mid with
  | nil =>
    intro a ctx n h hps hSub hun hnd hTnm hmT hra hn
    simp only [BuildCycle] at h
    obtain ⟨pre, rest, out, call, vs, ctx2, hg, hpre⟩ := h
    obtain ⟨m, rfl⟩ : ∃ m, n = m + 2 := ⟨n - 2, by simp at hn; omega⟩
    have hpre2 : buildArgs (Provider.Build (m + 1)) (ctx.mark a) pre []
        = some (ctx2, .ok vs) :=
      buildArgs_mono _ _ (fun p c t r hr =>
        Provider.Build_fuel_le (by simp at hn; omega) p c t r hr) _ _ _ _ hpre
    obtain ⟨new, hgr⟩ := buildArgs_grows _ _ _ _ _ hpre2
    obtain ⟨hps2, hun2⟩ := buildArgs_dependsWithin ps S hS (m + 1) pre (ctx.mark a) [] _ hpre2
      hps (fun s hs => by simpa using hun s hs)
    obtain ⟨depsT, outT, callT, hgT⟩ := hT
    have hmark2 : ctx2.resolvingTypes T = true := by
      have := hgr.2.2.1
      simp only at this
      rw [this]; exact hmT
    have h1 : Provider.Build (m + 1) (.func depsT outT callT) ctx2 T
        = some (ctx2, .invalid, some (.circularDependency T)) :=
      Provider.Build_func_circular _ _ _ _ _ _ (hun2 T hTS) hmark2
    have h2 : buildArgs (Provider.Build (m + 1)) (ctx.mark a) (pre ++ T :: rest) []
        = some (ctx2, .error (.circularDependency T)) := by
      rw [buildArgs_append, hpre2]
      exact buildArgs_head_fail _ ctx2 _ T rest vs _ _ _ (by rw [hps2]; exact hgT) h1
    exact ⟨_, out, call, _, hg, Provider.Build_func_argfail _ _ _ _ _ _ _ _
      (hun a (hSub a (by simp))) (hra a (by simp)) h2⟩
  | cons b mid ih =>
    intro a ctx n h hps hSub hun hnd hTnm hmT hra hn
    simp only [BuildCycle] at h
    obtain ⟨pre, rest, out, call, vs, ctx2, hg, hpre, hnext⟩ := h
    obtain ⟨m, rfl⟩ : ∃ m, n = m + 1 := ⟨n - 1, by simp at hn; omega⟩
    have hpre2 : buildArgs (Provider.Build m) (ctx.mark a) pre [] = some (ctx2, .ok vs) :=
      buildArgs_mono _ _ (fun p c t r hr =>
        Provider.Build_fuel_le (by simp at hn; omega) p c t r hr) _ _ _ _ hpre
    obtain ⟨new, hgr⟩ := buildArgs_grows _ _ _ _ _ hpre2
    obtain ⟨hps2, hun2⟩ := buildArgs_dependsWithin ps S hS m pre (ctx.mark a) [] _ hpre2
      hps (fun s hs => by simpa using hun s hs)
    have hmarks : ctx2.resolvingTypes = (ctx.mark a).resolvingTypes := hgr.2.2.1
    have hab : ∀ x ∈ b :: mid, x ≠ a := fun x hx e => (List.nodup_cons.1 hnd).1 (e ▸ hx)
    have hbT : b ≠ T := fun e => hTnm (e ▸ List.mem_cons_self _ _)
    obtain ⟨depsb, outb, callb, ctx', hgb, hbuild⟩ := ih b ctx2 m hnext hps2
      (fun x hx => hSub x (List.mem_cons_of_mem _ hx)) hun2 (List.nodup_cons.1 hnd).2
      (fun hm => hTnm (List.mem_cons_of_mem _ hm))
      (by
        rw [Context.mark_resolvingTypes, Function.update_noteq (Ne.symm hbT), hmarks]
        exact hmT)
      (fun x hx => by
        rw [hmarks, Context.mark_resolvingTypes, Function.update_noteq (hab x hx)]
        exact hra x (List.mem_cons_of_mem _ hx))
      (by simp at hn ⊢; omega)
    have h2 : buildArgs (Provider.Build m) (ctx.mark a) (pre ++ b :: rest) []
        = some (ctx', .error (.circularDependency T)) := by
      rw [buildArgs_append, hpre2]
      exact buildArgs_head_fail _ ctx2 _ b rest vs _ _ _ hgb hbuild
    exact ⟨_, out, call, _, hg, Provider.Build_func_argfail _ _ _ _ _ _ _ _
      (hun a (hSub a (by simp))) (hra a (by simp)) h2⟩

theorem resolveDeps_append
    (res : Context → Ty → Option (Context × Except Err DependencyGraph))
    (pre rest : List Ty) :
    ∀ ctx acc, resolveDeps res ctx (pre ++ rest) acc =
      match resolveDeps res ctx pre acc with
      | some (ctx1, .ok gs) => resolveDeps res ctx1 rest gs
      | other => other := by
  induction pre with
  | nil => intro ctx acc; rfl
  | cons d ds ih =>
    intro ctx acc
    simp only [List.cons_append, resolveDeps]
    cases res ctx d with
    | none => rfl
    | some x =>
      obtain ⟨ctx1, e⟩ := x
      cases e with
      | error e => rfl
      | ok g => exact ih ctx1 (acc ++ [g])

/-- A walk that runs round a cycle leading to a type `T` in progress (or to
the type being walked itself), none of the types on the way being in
progress, ends with the circular-dependency error of `T`. -/
theorem resolve_cycle (T : Ty) (fuel : Nat) :
    ∀ mid a ctx n, WalkCycle fuel T mid a ctx → (a :: mid).Nodup → T ∉ mid →
      (ctx.mark a).resolvingTypes T = true →
      (∀ x ∈ a :: mid, ctx.resolvingTypes x = false) → fuel + mid.length + 2 ≤ n →
      ∃ ctx', resolve n ctx a = some (ctx', .error (.circularDependency T)) := by
  intro mid
  induction mid with
  | nil =>
    intro a ctx n h hnd hTnm hmT hra hn
    simp only [WalkCycle] at h
    obtain ⟨p, pre, rest, gs, ctx2, hg, hdeps, hpre⟩ := h
    obtain ⟨m, rfl⟩ : ∃ m, n = m + 2 := ⟨n - 2, by simp at hn; omega⟩
    have hpre2 : resolveDeps (resolve (m + 1)) (ctx.mark a) pre [] = some (ctx2, .ok gs) :=
      resolveDeps_mono _ _ (fun c t r hr =>
        resolve_fuel_le (by simp at hn; omega) c t r hr) _ _ _ _ hpre
    have hw := (resolve_walked (m + 1)).2 _ _ _ _ hpre2
    have hmark2 : ctx2.resolvingTypes T = true := by
      rw [hw.2.2.2.2 rfl]; exact hmT
    have h1 := resolve_circular m ctx2 T hmark2
    have h2 : resolveDeps (resolve (m + 1)) (ctx.mark a) p.DependentTypes []
        = some (ctx2, .error (.circularDependency T)) := by
      rw [hdeps, resolveDeps_append, hpre2]
      exact resolveDeps_head_fail _ ctx2 _ T rest gs _ h1
    exact ⟨_, resolve_childfail _ _ _ _ _ _ (hra a (by simp)) hg h2⟩
  | cons b mid ih =>
    intro a ctx n h hnd hTnm hmT hra hn
    simp only [WalkCycle] at h
    obtain ⟨p, pre, rest, gs, ctx2, hg, hdeps, hpre, hnext⟩ := h
    obtain ⟨m, rfl⟩ : ∃ m, n = m + 1 := ⟨n - 1, by simp at hn; omega⟩
    have hpre2 : resolveDeps (resolve m) (ctx.mark a) pre [] = some (ctx2, .ok gs) :=
      resolveDeps_mono _ _ (fun c t r hr =>
        resolve_fuel_le (by simp at hn; omega) c t r hr) _ _ _ _ hpre
    have hw := (resolve_walked m).2 _ _ _ _ hpre2
    have hmarks : ctx2.resolvingTypes = (ctx.mark a).resolvingTypes := hw.2.2.2.2 rfl
    have hab : ∀ x ∈ b :: mid, x ≠ a := fun x hx e => (List.nodup_cons.1 hnd).1 (e ▸ hx)
    have hbT : b ≠ T := fun e => hTnm (e ▸ List.mem_cons_self _ _)
    obtain ⟨ctx', h1⟩ := ih b ctx2 m hnext (List.nodup_cons.1 hnd).2
      (fun hm => hTnm (List.mem_cons_of_mem _ hm))
      (by
        rw [Context.mark_resolvingTypes, Function.update_noteq (Ne.symm hbT), hmarks]
        exact hmT)
      (fun x hx => by
        rw [hmarks, Context.mark_resolvingTypes, Function.update_noteq (hab x hx)]
        exact hra x (List.mem_cons_of_mem _ hx))
      (by simp at hn ⊢; omega)
    have h2 : resolveDeps (resolve m) (ctx.mark a) p.DependentTypes []
        = some (ctx', .error (.circularDependency T)) := by
      rw [hdeps, resolveDeps_append, hpre2]
      exact resolveDeps_head_fail _ ctx2 _ b rest gs _ h1
    exact ⟨_, resolve_childfail _ _ _ _ _ _ (hra a (by simp)) hg h2⟩

/-- C2, amended. Let `T` depend on itself through factories. (1) If in the
registry of the call `T` belongs to a set of types each supplied by a
factory with a parameter type in the set, and none of them is served from
the cache, `Build(T)` returns an error. (2) If in the container's registry
`T` belongs to such a set, `Resolve(T)` returns an error. (3) If moreover, on
the way round a cycle from `T` back to `T` through distinct types, the
parameters that each factory takes before the one on the cycle are built
without error (so that the cycle closes before anything fails), the error
of `Build(T)` is the circular-dependency error naming `T`, and (4) when the
dependent types before the one on the cycle are walked without error, so is
the error of `Resolve(T)`. -/
theorem C2_self_dependent_type_fails (c : Container) (T : Ty) (opts : List ContextOption) :
    (∀ S : List Ty, T ∈ S → DependsWithin (c.buildContext opts).providerSet S →
      (∀ s ∈ S, (c.buildContext opts).cached s = none) →
      ∃ r, c.Build T opts = some r ∧ r.err ≠ none) ∧
    (∀ S : List Ty, T ∈ S → DependsWithin c.providerSet S →
      ∃ e, c.Resolve T = some (.error e)) ∧
    (∀ (fuel : Nat) (mid : List Ty), BuildCycle fuel T mid T (c.buildContext opts) →
      (T :: mid).Nodup → (∀ x ∈ T :: mid, (c.buildContext opts).cached x = none) →
      ∃ r, c.Build T opts = some r ∧ r.err = some (.circularDependency T) ∧
        (Err.circularDependency T).Is .ErrCircularDependency = true) ∧
    (∀ (fuel : Nat) (mid : List Ty), WalkCycle fuel T mid T c.resolveContext →
      (T :: mid).Nodup → c.Resolve T = some (.error (.circularDependency T))) := by
  refine ⟨?_, ?_, ?_, ?_⟩
  · intro S hT hS hun
    obtain ⟨r, hr⟩ := c.Build_terminates T opts
    refine ⟨r, hr, ?_⟩
    rcases c.Build_eq_some T opts r hr with ⟨e, _, rfl⟩ | ⟨p, ctx1, v, e, hg, hb, rfl⟩
    · simp
    · obtain ⟨deps, out, call, hgT, _⟩ := hS T hT
      have hp : (c.buildContext opts).providerSet.GetFor T = .ok p := by
        rw [hgT, ← hg, c.buildContext_GetFor_func opts T deps out call hgT]
      exact (Provider.Build_dependsWithin _ S hS _ p _ T _ hb rfl hun hp).2 hT
  · intro S hT hS
    obtain ⟨x, hx⟩ := c.Resolve_terminates T
    cases hres : resolve c.resolveContext.providerSet.fuel c.resolveContext T with
    | none => simp [Container.Resolve, hres] at hx
    | some r =>
      have hxr : x = r.2 := by simpa [Container.Resolve, hres] using hx.symm
      have hno := resolve_dependsWithin c.providerSet S hS _ _ T r hres rfl hT
      cases hr2 : r.2 with
      | error e => exact ⟨e, by rw [hx, hxr, hr2]⟩
      | ok g => exact absurd hr2 (hno g)
  · intro fuel mid hcyc hnd hun
    have hdep := BuildCycle.dependsOn fuel T (c.buildContext opts).providerSet mid T
      (c.buildContext opts) hcyc rfl
    have hS : DependsWithin (c.buildContext opts).providerSet (T :: mid) := by
      intro s hs
      obtain ⟨deps, out, call, hg, d, hd, hdm⟩ := hdep s hs
      refine ⟨deps, out, call, hg, d, hd, ?_⟩
      rcases hdm with rfl | hdm
      · exact List.mem_cons_self _ _
      · exact List.mem_cons_of_mem _ hdm
    obtain ⟨depsT, outT, callT, hgT, _⟩ := hdep T (List.mem_cons_self _ _)
    obtain ⟨deps, out, call, ctx', hg, hb⟩ := Provider.Build_cycle T
      (c.buildContext opts).providerSet (T :: mid) hS ⟨_, _, _, hgT⟩ (List.mem_cons_self _ _)
      fuel mid T (c.buildContext opts) (fuel + mid.length + 2) hcyc rfl (fun x hx => hx) hun hnd
      (List.nodup_cons.1 hnd).1
      (by rw [Context.mark_resolvingTypes, Function.update_same])
      (fun x _ => by simp) (le_refl _)
    exact ⟨_, c.Build_of_fuel T opts _ _ _ _ _
      (c.buildContext_GetFor_func opts T _ out call hg) hb, rfl, rfl⟩
  · intro fuel mid hcyc hnd
    obtain ⟨ctx', hb⟩ := resolve_cycle T fuel mid T c.resolveContext (fuel + mid.length + 2)
      hcyc hnd (List.nodup_cons.1 hnd).1
      (by rw [Context.mark_resolvingTypes, Function.update_same])
      (fun x _ => rfl) (le_refl _)
    exact c.Resolve_of_fuel T _ _ _ hb

/-- C2, amended, on the registry of the test `Circular dependency`
(1 -> 2 -> 4 -> 1), and on the container whose factory for type 1 takes
type 2, which is built, and then its own type: `Build(1)` and `Resolve(1)`
fail with the circular-dependency error of type 1. -/
theorem C2_self_dependent_type_fails_witness :
    ((∃ r, testCycleContainer.Build 1 [] = some r ∧ r.err = some (.circularDependency 1) ∧
      (Err.circularDependency 1).Is .ErrCircularDependency = true) ∧
    testCycleContainer.Resolve 1 = some (.error (.circularDependency 1))) ∧
    (∃ r, selfAfterBuiltContainer.Build 1 [] = some r ∧
      r.err = some (.circularDependency 1) ∧
      (Err.circularDependency 1).Is .ErrCircularDependency = true) ∧
    selfAfterBuiltContainer.Resolve 1 = some (.error (.circularDependency 1)) :=
  ⟨⟨(C2_self_dependent_type_fails testCycleContainer 1 []).2.2.1 0 [2, 4]
      ⟨[], [3], 1, mkObj 1, [], _, rfl, rfl, [], [5], 2, mkObj 2, [], _, rfl, rfl,
        [], [], 4, mkObj 4, [], _, rfl, rfl⟩ (by decide) (fun _ _ => rfl),
    (C2_self_dependent_type_fails testCycleContainer 1 []).2.2.2 0 [2, 4]
      ⟨_, [], [3], [], _, rfl, rfl, rfl, _, [], [5], [], _, rfl, rfl, rfl,
        _, [], [], [], _, rfl, rfl, rfl⟩ (by decide)⟩,
    (C2_self_dependent_type_fails selfAfterBuiltContainer 1 []).2.2.1 1 []
      ⟨[2], [], 1, mkObj 1, [.obj 2 []], _, rfl, rfl⟩ (by decide) (fun _ _ => rfl),
    (C2_self_dependent_type_fails selfAfterBuiltContainer 1 []).2.2.2 1 []
      ⟨_, [2], [], [.mk 2 []], _, rfl, rfl, rfl⟩ (by decide)⟩

end Autowire
